import Mathlib

/-!
# Undertaker: the block defect classifier

A shallow embedding of `undertaker/BlockDefectAnalyzer.cpp` together with the parts of
`StringJoiner.h`, `ConfigurationModel.cpp` and `SatChecker.cpp` it runs on, of the two
configuration models (`RsfConfigurationModel.cpp`, `CnfConfigurationModel.cpp`), of the
reader of model files (`RsfReader.cpp`), of the assignment map and the printing of
assignments of `SatChecker.cpp`, and of `flipper_lseek` of the flipper driver
(`tailor/flipper/kernel/drivers/misc/flipper/flipper.c`).

Conventions of the embedding.

* `std::string` is `String`; `std::set<std::string>` is an ascending duplicate-free
  `List String` (`StrSet`); `std::map<std::string, std::string>` is an association list
  ordered by key.
* Objects compared by pointer in the source (`ConfigurationModel *`, `ConditionalBlock *`)
  carry an `addr` that stands for their address.
* `SatChecker::operator()` is documented to throw `CNFBuilderError`; a computation that can
  throw returns an `Option`, and `none` is the thrown exception.
* A `std::stringstream` that is read is the list of the characters not yet read, `none`
  once the stream is not `good()`; a call of `front()` or `back()` on an empty string makes
  the computation return `none`.
* What is written to a `std::ostream` is the list of the lines written.
* The loop of `extendWithInterestingItems` is embedded with fuel, which is proved to
  suffice (`extendLoop_fuel`, `extend_rounds`). Values of `loff_t` are integers, wrapped
  around to 64 bit where the source computes a sum.
* Collaborators whose code is not part of the analysed sources (the SAT solver behind
  `SatChecker`, `undertaker::itemsOfString`, the `ModelContainer` registry, the regular
  expression engine, the Puma block builder) are parameters: fields of `Env`, of
  `ConfigurationModel` and of `ConditionalBlock`.
-/

namespace Undertaker

/-! ## StringJoiner.h -/

/-- The `StringJoiner` of `StringJoiner.h`: a `std::deque<std::string>`. -/
abbrev StringJoiner := List String

/-- `StringJoiner::push_back`: the empty string is ignored. -/
def StringJoiner.push_back (sj : StringJoiner) (x : String) : StringJoiner :=
  if x = "" then sj else sj ++ [x]

/-- `StringJoiner::join`: the elements with the separator between each two of them. -/
def StringJoiner.join (sj : StringJoiner) (j : String) : String :=
  match sj with
  | [] => ""
  | x :: rest => rest.foldl (fun ss s => ss ++ j ++ s) x

/-! ## Sets and maps of strings -/

/-- A `std::set<std::string>`: its elements in ascending order, each once. -/
abbrev StrSet := List String

/-- The order of `std::string`: lexicographic on the characters. -/
def strLt (a b : String) : Bool := decide (a.data < b.data)

/-- `std::set::insert`. -/
def StrSet.insert (x : String) : StrSet → StrSet
  | [] => [x]
  | y :: ys =>
    if x = y then y :: ys
    else if strLt x y then x :: y :: ys
    else y :: StrSet.insert x ys

/-- The set built from a sequence of elements. -/
def StrSet.ofList (l : List String) : StrSet :=
  l.foldl (fun s x => StrSet.insert x s) []

/-- `std::map<std::string, std::string>::emplace`: an existing key keeps its value. -/
def mapEmplace (k v : String) : List (String × String) → List (String × String)
  | [] => [(k, v)]
  | (k', v') :: rest =>
    if k = k' then (k', v') :: rest
    else if strLt k k' then (k, v) :: (k', v') :: rest
    else (k', v') :: mapEmplace k v rest

/-- `undertaker::starts_with`. -/
def starts_with (s pre : String) : Bool := pre.data.isPrefixOf s.data

/-! ## ConfigurationModel.h / ConfigurationModel.cpp -/

/-- A `ConfigurationModel` seen through its virtual interface. The regular expression
`_inConfigurationSpace_regexp` is the predicate it decides. -/
structure ConfigurationModel where
  /-- The address of the object: models are compared by pointer. -/
  addr : Nat
  _name : String
  /-- `"rsf"` or `"cnf"`. -/
  getModelVersionIdentifier : String
  containsSymbol : String → Bool
  /-- The stored list, `none` for the null pointer. -/
  getMetaValue : String → Option (List String)
  /-- `boost::regex_match(symbol, _inConfigurationSpace_regexp)`. -/
  inConfigurationSpace : String → Bool
  /-- The pure virtual `doIntersectPreprocess(start_items, sj, exclude_set)`: the
  `start_items` and the contents of `sj` it leaves. -/
  doIntersectPreprocess : StrSet → Option StrSet → StrSet × StringJoiner

/-- `ConfigurationModel::getWhitelist`. -/
def ConfigurationModel.getWhitelist (m : ConfigurationModel) : Option (List String) :=
  m.getMetaValue "ALWAYS_ON"

/-- `ConfigurationModel::getBlacklist`. -/
def ConfigurationModel.getBlacklist (m : ConfigurationModel) : Option (List String) :=
  m.getMetaValue "ALWAYS_OFF"

/-- `ConfigurationModel::isComplete`: the meta value is only present when the
configuration space is incomplete. -/
def ConfigurationModel.isComplete (m : ConfigurationModel) : Bool :=
  (m.getMetaValue "CONFIGURATION_SPACE_INCOMPLETE").isNone

/-- `ConfigurationModel::getMissingItemsConstraints`. -/
def getMissingItemsConstraints (missing : StrSet) : String :=
  let sj : StringJoiner := missing.foldl StringJoiner.push_back []
  if sj.length > 0 then "( ! ( " ++ sj.join " || " ++ " ) )" else ""

/-- One round of the loop of `ConfigurationModel::doIntersect` over `start_items`. -/
def doIntersectStep (m : ConfigurationModel) (c : Option (String → Bool))
    (acc : StringJoiner × StrSet) (str : String) : StringJoiner × StrSet :=
  let (sj, missing) := acc
  if m.containsSymbol str then
    let sj := match m.getWhitelist with
      | some always_on => if always_on.contains str then sj.push_back str else sj
      | none => sj
    let sj := match m.getBlacklist with
      | some always_off => if always_off.contains str then sj.push_back ("!" ++ str) else sj
      | none => sj
    (sj, missing)
  else if !m.inConfigurationSpace str then (sj, missing)
  else if (match c with | some c => !c str | none => false) then (sj, missing)
  else if !starts_with str "__FREE__" && !starts_with str "CONFIG_CVALUE_" then
    (sj, StrSet.insert str missing)
  else (sj, missing)

/-- `ConfigurationModel::doIntersect(exp, c, missing, intersected, exclude_set)`. The result
is the returned `start_items`, the missing set and `intersected`. `itemsOfString` is
`undertaker::itemsOfString`. -/
def ConfigurationModel.doIntersect (itemsOfString : String → List String)
    (m : ConfigurationModel) (exp : String) (c : Option (String → Bool)) (missing : StrSet)
    (exclude_set : Option StrSet) : StrSet × StrSet × String :=
  let start_items := StrSet.ofList (itemsOfString exp)
  let (start_items, sj) := m.doIntersectPreprocess start_items exclude_set
  let (sj, missing) := start_items.foldl (doIntersectStep m c) (sj, missing)
  (start_items, missing, sj.join "\n&& ")

/-! ## ConditionalBlock.h -/

/-- `BlockDefect::DEFECTTYPE`. -/
inductive DEFECTTYPE where
  | None | Implementation | Configuration | Referential | NoKconfig | BuildSystem
  deriving DecidableEq, Repr

/-- The part of a `CppFile` the classifier reads. `top_block` is the address of the
artificial top block (`none` for a null pointer); `define_map` lists the keys of the map. -/
structure CppFile where
  filename : String
  specific_arch : String
  top_block : Option Nat
  define_map : List String

/-- `CppFile::getDefineChecker`: the item, cut at its first `.`, is no key of the define
map. -/
def CppFile.getDefineChecker (f : CppFile) (item : String) : Bool :=
  !f.define_map.contains (String.mk (item.data.takeWhile (fun ch => ch != '.')))

/-- What a `ConditionalBlock` answers by itself. `getName`, the location accessors and
`isElseBlock` are pure virtual, `getCodeConstraints` and `getBuildSystemCondition` are
defined outside the analysed sources: the strings they return are recorded here. -/
structure BlockData where
  /-- The address of the object. -/
  addr : Nat
  getName : String
  lineStart : Nat
  colStart : Nat
  lineEnd : Nat
  colEnd : Nat
  isElseBlock : Bool
  /-- The rewritten expression `_exp`. -/
  _exp : String
  /-- The public member `defectType`; the source leaves it uninitialised. -/
  defectType : DEFECTTYPE
  cpp_file : CppFile
  getCodeConstraints : String
  getBuildSystemCondition : String

mutual
/-- A `ConditionalBlock` with its read-only links `_parent` and `_prev`. -/
inductive ConditionalBlock where
  | mk (data : BlockData) (_parent : BlockPtr) (_prev : BlockPtr)
/-- A `const ConditionalBlock *`. -/
inductive BlockPtr where
  | nullptr
  | ptr (b : ConditionalBlock)
end

/-- The block's own data. -/
def ConditionalBlock.data : ConditionalBlock → BlockData
  | .mk d _ _ => d

/-- `ConditionalBlock::getParent`. -/
def ConditionalBlock.getParent : ConditionalBlock → BlockPtr
  | .mk _ p _ => p

/-- `ConditionalBlock::getPrev`. -/
def ConditionalBlock.getPrev : ConditionalBlock → BlockPtr
  | .mk _ _ p => p

/-- `ConditionalBlock::getName`. -/
def ConditionalBlock.getName (b : ConditionalBlock) : String := b.data.getName

/-- `ConditionalBlock::getFile`. -/
def ConditionalBlock.getFile (b : ConditionalBlock) : CppFile := b.data.cpp_file

/-- `ConditionalBlock::filename`. -/
def ConditionalBlock.filename (b : ConditionalBlock) : String := b.getFile.filename

/-- `ConditionalBlock::ifdefExpression`. -/
def ConditionalBlock.ifdefExpression (b : ConditionalBlock) : String := b.data._exp

/-- `ConditionalBlock::isElseBlock`. -/
def ConditionalBlock.isElseBlock (b : ConditionalBlock) : Bool := b.data.isElseBlock

/-- The member `defectType` of the block. -/
def ConditionalBlock.defectType (b : ConditionalBlock) : DEFECTTYPE := b.data.defectType

/-- The assignment `block->defectType = t`. -/
def ConditionalBlock.setDefectType : ConditionalBlock → DEFECTTYPE → ConditionalBlock
  | .mk d p q, t => .mk { d with defectType := t } p q

/-- `ConditionalBlock::getCodeConstraints()`. -/
def ConditionalBlock.getCodeConstraints (b : ConditionalBlock) : String :=
  b.data.getCodeConstraints

/-- `ConditionalBlock::getBuildSystemCondition`. -/
def ConditionalBlock.getBuildSystemCondition (b : ConditionalBlock) : String :=
  b.data.getBuildSystemCondition

mutual
/-- The loop `while (prev)` of `BlockDefect::isNoKconfigDefect`, entered at a block:
`false` as soon as a block of the chain has a saved kind other than `NoKconfig`. -/
def ConditionalBlock.priorAllNoKconfig : ConditionalBlock → Bool
  | .mk d _ prev => if d.defectType ≠ DEFECTTYPE.NoKconfig then false else prev.priorAllNoKconfig
/-- The loop `while (prev)` of `BlockDefect::isNoKconfigDefect`, entered at a pointer. -/
def BlockPtr.priorAllNoKconfig : BlockPtr → Bool
  | .nullptr => true
  | .ptr b => b.priorAllNoKconfig
end

/-! ## SatChecker.h / SatChecker.cpp -/

/-- What a `SatChecker` has been fed: a formula given to `operator()` or a CNF model given
to `loadCnfModel` (named by its address). -/
inductive SatInput where
  | formula (s : String)
  | cnfModel (addr : Nat)
  deriving DecidableEq, Repr

/-- The collaborators of the classifier that are not part of the analysed sources. -/
structure Env where
  /-- `undertaker::itemsOfString`. -/
  itemsOfString : String → List String
  /-- The solver behind `SatChecker`: `CNFBuilder` followed by
  `PicosatCNF::checkSatisfiable` on everything the checker has been fed so far. `none` is a
  thrown `CNFBuilderError`. -/
  checkSatisfiable : List SatInput → Option Bool
  /-- `ModelContainer::lookupArch`. -/
  lookupArch : ConfigurationModel → String
  /-- The registry `ModelContainer::getInstance()`, in iteration order. -/
  models : List (String × ConfigurationModel)

/-- A `SatChecker`: the solver instance `_cnf` is what has been added to it. -/
structure SatChecker where
  _cnf : List SatInput

/-- `SatChecker::SatChecker()` without a model. -/
def SatChecker.new : SatChecker := ⟨[]⟩

/-- `SatChecker::loadCnfModel`. -/
def SatChecker.loadCnfModel (sc : SatChecker) (m : ConfigurationModel) : SatChecker :=
  ⟨sc._cnf ++ [SatInput.cnfModel m.addr]⟩

/-- The checker after `SatChecker::operator()` on a formula: `CNFBuilder` has added the
formula to the solver instance. -/
def SatChecker.add (sc : SatChecker) (formula : String) : SatChecker :=
  ⟨sc._cnf ++ [SatInput.formula formula]⟩

/-- The value of `SatChecker::operator()` on a formula: the formula is added to the solver
instance, which is then checked as a whole. `none` is a thrown `CNFBuilderError`. -/
def SatChecker.call (env : Env) (sc : SatChecker) (formula : String) : Option Bool :=
  env.checkSatisfiable (sc.add formula)._cnf

/-! ## BlockDefectAnalyzer.h / BlockDefectAnalyzer.cpp -/

/-- A `BlockDefect` object. `dead` is its dynamic class: `true` for a `DeadBlockDefect`,
`false` for an `UndeadBlockDefect`; `_musFormula` is the member of `DeadBlockDefect`. -/
structure BlockDefect where
  dead : Bool
  _defectType : DEFECTTYPE
  _isGlobal : Bool
  _formula : String
  _suffix : String
  _cb : ConditionalBlock
  defectMap : List (String × String)
  _musFormula : String

/-- The constructor `DeadBlockDefect::DeadBlockDefect(cb)`. -/
def DeadBlockDefect.new (cb : ConditionalBlock) : BlockDefect :=
  { dead := true, _defectType := DEFECTTYPE.None, _isGlobal := false, _formula := "",
    _suffix := "dead", _cb := cb, defectMap := [], _musFormula := "" }

/-- The constructor `UndeadBlockDefect::UndeadBlockDefect(cb)`. -/
def UndeadBlockDefect.new (cb : ConditionalBlock) : BlockDefect :=
  { dead := false, _defectType := DEFECTTYPE.None, _isGlobal := false, _formula := "",
    _suffix := "undead", _cb := cb, defectMap := [], _musFormula := "" }

/-- `BlockDefect::defectType`. -/
def BlockDefect.defectType (d : BlockDefect) : DEFECTTYPE := d._defectType

/-- `BlockDefect::setDefectType`. -/
def BlockDefect.setDefectType (d : BlockDefect) (t : DEFECTTYPE) : BlockDefect :=
  { d with _defectType := t }

/-- `BlockDefect::isGlobal`. -/
def BlockDefect.isGlobal (d : BlockDefect) : Bool := d._isGlobal

/-- `BlockDefect::markAsGlobal`. -/
def BlockDefect.markAsGlobal (d : BlockDefect) : BlockDefect :=
  { d with _isGlobal := true }

/-- `BlockDefect::defectTypeToString`. -/
def BlockDefect.defectTypeToString (d : BlockDefect) : String :=
  match d._defectType with
  | .None => ""
  | .Implementation => "code"
  | .Configuration => "kconfig"
  | .Referential => "missing"
  | .NoKconfig => "no_kconfig"
  | .BuildSystem => "kbuild"

/-- `BlockDefect::needsCrosscheck`. -/
def BlockDefect.needsCrosscheck (d : BlockDefect) : Bool :=
  match d._defectType with
  | .None => false
  | .Implementation => false
  | .NoKconfig => false
  | _ => !d._isGlobal

/-- `BlockDefect::getDefectReportFilename`. -/
def BlockDefect.getDefectReportFilename (d : BlockDefect) : String :=
  let fname_joiner : StringJoiner := []
  let fname_joiner := fname_joiner.push_back d._cb.getFile.filename
  let fname_joiner := fname_joiner.push_back d._cb.getName
  let fname_joiner := fname_joiner.push_back d.defectTypeToString
  let fname_joiner :=
    if d._isGlobal || d._defectType = DEFECTTYPE.NoKconfig then
      fname_joiner.push_back "globally"
    else
      fname_joiner.push_back "locally"
  let fname_joiner := fname_joiner.push_back d._suffix
  fname_joiner.join "."

/-- `BlockDefect::isNoKconfigDefect`. -/
def BlockDefect.isNoKconfigDefect (itemsOfString : String → List String) (d : BlockDefect)
    (model : Option ConfigurationModel) : Bool :=
  match model with
  | none => true
  | some model =>
    let expr : Option String :=
      if d._cb.isElseBlock then
        -- Check prior blocks; `none` is the `return false` inside the loop
        if d._cb.getPrev.priorAllNoKconfig then some "" else none
      else if d._cb.getFile.top_block = some d._cb.data.addr then
        some d._formula
      else
        some d._cb.ifdefExpression
    match expr with
    | none => false
    | some expr => !(StrSet.ofList (itemsOfString expr)).any model.inConfigurationSpace

/-- What `BlockDefect::writeReportToFile` writes: `none` when it returns without writing,
else the file name and the text sent to the stream (the stream is taken to open). -/
def BlockDefect.writeReportToFile (d : BlockDefect) (skip_no_kconfig : Bool) :
    Option (String × String) :=
  if (skip_no_kconfig && d._defectType = DEFECTTYPE.NoKconfig)
      || d._defectType = DEFECTTYPE.None then none
  else
    let filename := d.getDefectReportFilename
    let header := "#" ++ d._cb.getName ++ ":" ++ d._cb.filename ++ ":"
      ++ toString d._cb.data.lineStart ++ ":" ++ toString d._cb.data.colStart ++ ":"
      ++ d._cb.filename ++ ":" ++ toString d._cb.data.lineEnd ++ ":"
      ++ toString d._cb.data.colEnd ++ ":" ++ "\n"
    let arches :=
      if d.defectMap.length > 0 then
        d.defectMap.foldl (fun retstr entry => retstr ++ entry.1 ++ " -> " ++ entry.2 ++ "\n")
          "\nArch -> Defect Type:\n"
      else ""
    some (filename, header ++ d._formula ++ "\n" ++ arches)

/-- `DeadBlockDefect::isDefect(model, is_main_model)`: the returned value and the object
afterwards; `none` when a SAT check throws. -/
def DeadBlockDefect.isDefect (env : Env) (self : BlockDefect) (model : Option ConfigurationModel)
    (is_main_model : Bool) : Option (Bool × BlockDefect) :=
  let formula : StringJoiner := []
  let code_formula := self._cb.getCodeConstraints
  let formula := formula.push_back self._cb.getName
  let formula := formula.push_back code_formula
  let _formula := formula.join "\n&&\n"
  let self := { self with _formula := _formula }
  -- check for code defect
  let sc := SatChecker.new
  match sc.call env _formula with
  | none => none
  | some false =>
    some (true, { self with _defectType := DEFECTTYPE.Implementation, _isGlobal := true,
                            _musFormula := _formula })
  | some true =>
  let sc := sc.add _formula
  -- we do not have a model, no further analyses possible
  match model with
  | none => some (false, self)
  | some model =>
  -- check for kconfig defect
  let missingSet : StrSet := []
  let intersect1 :=
    model.doIntersect env.itemsOfString code_formula (some self._cb.getFile.getDefineChecker)
      missingSet none
  let kconfigItems := intersect1.1
  let missingSet := intersect1.2.1
  let kconfig_formula := intersect1.2.2
  let formula := formula.push_back kconfig_formula
  -- increment sc with kconfig_formula and load model if necessary
  let sc := if model.getModelVersionIdentifier = "cnf" then sc.loadCnfModel model else sc
  match sc.call env kconfig_formula with
  | none => none
  | some false =>
    let _formula := formula.join "\n&&\n"
    some (true, { self with
      _formula := _formula,
      _musFormula := if is_main_model then _formula else self._musFormula,
      _defectType :=
        if self._defectType ≠ DEFECTTYPE.BuildSystem then DEFECTTYPE.Configuration
        else self._defectType,
      defectMap := mapEmplace (env.lookupArch model) "kconfig" self.defectMap })
  | some true =>
  let sc := sc.add kconfig_formula
  -- check for kbuild defect
  let precondition := self._cb.getBuildSystemCondition
  let intersect2 :=
    model.doIntersect env.itemsOfString precondition none missingSet (some kconfigItems)
  let missingSet := intersect2.2.1
  let precondition_formula := intersect2.2.2
  let precondition_formula :=
    if precondition_formula.length > 0 then precondition_formula ++ "\n&& "
    else precondition_formula
  let precondition_formula := precondition_formula ++ precondition
  let formula := formula.push_back precondition_formula
  match sc.call env precondition_formula with
  | none => none
  | some false =>
    let _formula := formula.join "\n&&\n"
    some (true, { self with
      _formula := _formula,
      _musFormula := if is_main_model then _formula else self._musFormula,
      _defectType := DEFECTTYPE.BuildSystem,
      defectMap := mapEmplace (env.lookupArch model) "kbuild" self.defectMap })
  | some true =>
  let sc := sc.add precondition_formula
  -- An incomplete model (not all symbols mentioned) cannot generate referential errors
  if !model.isComplete then some (false, self)
  else
  -- check for missing defect
  let missing := getMissingItemsConstraints missingSet
  match sc.call env missing with
  | none => none
  | some false =>
    let formula := formula.push_back missing
    let _formula := formula.join "\n&&\n"
    some (true, { self with
      _formula := _formula,
      _musFormula := if is_main_model then _formula else self._musFormula,
      _defectType :=
        if self._defectType ≠ DEFECTTYPE.Configuration
            ∧ self._defectType ≠ DEFECTTYPE.BuildSystem then DEFECTTYPE.Referential
        else self._defectType,
      defectMap := mapEmplace (env.lookupArch model) "missing" self.defectMap })
  | some true => some (false, self)

/-- `UndeadBlockDefect::isDefect(model, bool)`: the returned value and the object
afterwards; `none` when a SAT check throws. -/
def UndeadBlockDefect.isDefect (env : Env) (self : BlockDefect)
    (model : Option ConfigurationModel) (_is_main_model : Bool) : Option (Bool × BlockDefect) :=
  let formula : StringJoiner := []
  -- no parent -> it is B00 -> impossible to be undead
  match self._cb.getParent with
  | .nullptr => some (false, self)
  | .ptr parent =>
  let code_formula := self._cb.getCodeConstraints
  let formula := formula.push_back ("( " ++ parent.getName ++ " && ! " ++ self._cb.getName ++ " )")
  let formula := formula.push_back code_formula
  let _formula := formula.join "\n&&\n"
  let self := { self with _formula := _formula }
  -- check for code defect
  let sc := SatChecker.new
  match sc.call env _formula with
  | none => none
  | some false =>
    some (true, { self with _defectType := DEFECTTYPE.Implementation, _isGlobal := true })
  | some true =>
  let sc := sc.add _formula
  -- we do not have a model, no further analyses possible
  match model with
  | none => some (false, self)
  | some model =>
  -- check for kconfig defect
  let missingSet : StrSet := []
  let intersect1 :=
    model.doIntersect env.itemsOfString code_formula (some self._cb.getFile.getDefineChecker)
      missingSet none
  let kconfigItems := intersect1.1
  let missingSet := intersect1.2.1
  let kconfig_formula := intersect1.2.2
  let formula := formula.push_back kconfig_formula
  -- increment sc with kconfig_formula and load model if necessary
  let sc := if model.getModelVersionIdentifier = "cnf" then sc.loadCnfModel model else sc
  match sc.call env kconfig_formula with
  | none => none
  | some false =>
    let _formula := formula.join "\n&&\n"
    some (true, { self with
      _formula := _formula,
      _defectType :=
        if self._defectType ≠ DEFECTTYPE.BuildSystem then DEFECTTYPE.Configuration
        else self._defectType,
      defectMap := mapEmplace (env.lookupArch model) "kconfig" self.defectMap })
  | some true =>
  let sc := sc.add kconfig_formula
  -- check for kbuild defect
  let precondition := self._cb.getBuildSystemCondition
  let intersect2 :=
    model.doIntersect env.itemsOfString precondition none missingSet (some kconfigItems)
  let missingSet := intersect2.2.1
  let precondition_formula := intersect2.2.2
  let precondition_formula :=
    if precondition_formula.length > 0 then precondition_formula ++ "\n&& "
    else precondition_formula
  let precondition_formula := precondition_formula ++ precondition
  let formula := formula.push_back precondition_formula
  match sc.call env precondition_formula with
  | none => none
  | some false =>
    let _formula := formula.join "\n&&\n"
    some (true, { self with
      _formula := _formula,
      _defectType := DEFECTTYPE.BuildSystem,
      defectMap := mapEmplace (env.lookupArch model) "kbuild" self.defectMap })
  | some true =>
  let sc := sc.add precondition_formula
  -- An incomplete model (not all symbols mentioned) cannot generate referential errors
  if !model.isComplete then some (false, self)
  else
  -- check for missing defect
  let missing := getMissingItemsConstraints missingSet
  match sc.call env missing with
  | none => none
  | some false =>
    let formula := formula.push_back missing
    let _formula := formula.join "\n&&\n"
    some (true, { self with
      _formula := _formula,
      _defectType :=
        if self._defectType ≠ DEFECTTYPE.Configuration
            ∧ self._defectType ≠ DEFECTTYPE.BuildSystem then DEFECTTYPE.Referential
        else self._defectType,
      defectMap := mapEmplace (env.lookupArch model) "missing" self.defectMap })
  | some true => some (false, self)

/-- The virtual call `defect->isDefect(model, is_main_model)`. -/
def BlockDefect.isDefect (env : Env) (d : BlockDefect) (model : Option ConfigurationModel)
    (is_main_model : Bool) : Option (Bool × BlockDefect) :=
  if d.dead then DeadBlockDefect.isDefect env d model is_main_model
  else UndeadBlockDefect.isDefect env d model is_main_model

/-- The loop of `analyzeBlock_helper` over the registry, followed by its last two lines:
the defect is returned as it is when a model other than the main model does not show it,
and marked as global when the loop runs to its end. `none` when a SAT check throws. -/
def crosscheck (env : Env) (main_model : ConfigurationModel) :
    List (String × ConfigurationModel) → BlockDefect → Option BlockDefect
  | [], defect => some defect.markAsGlobal
  | entry :: rest, defect =>
    let model := entry.2
    -- do not check the main model twice
    if model.addr = main_model.addr then crosscheck env main_model rest defect
    else
      match defect.isDefect env (some model) false with
      | none => none
      | some (false, defect) => some defect
      | some (true, defect) => crosscheck env main_model rest defect

/-- The part of `analyzeBlock_helper` that follows the two checks (from its `assert` on),
run on the defect that was found. The assertion holds, see `fresh_isDefect_true`. -/
def analyzeBlock_found (env : Env) (block : ConditionalBlock)
    (main_model : Option ConfigurationModel) (defect : BlockDefect) :
    Option (Option BlockDefect) × ConditionalBlock :=
  -- Check NoKconfig defect after (un)dead analysis
  let defect :=
    if defect.isNoKconfigDefect env.itemsOfString main_model then
      defect.setDefectType DEFECTTYPE.NoKconfig
    else defect
  -- Save defectType in block
  let block := block.setDefectType defect.defectType
  let defect := { defect with _cb := block }
  -- defects in arch specific files do not require a crosscheck and are global defects
  if block.getFile.specific_arch ≠ "" then
    (some (some defect.markAsGlobal), block)
  else
    -- Implementation (i.e., Code) or NoKconfig defects do not require a crosscheck
    match main_model with
    | none => (some (some defect), block)
    | some main =>
      if !defect.needsCrosscheck then (some (some defect), block)
      else
        match crosscheck env main env.models defect with
        | none => (none, block)
        | some defect => (some (some defect), block)

/-- `analyzeBlock_helper(block, main_model)`: what it returns (`some none` for `nullptr`,
`none` when a SAT check throws) and the block afterwards. -/
def analyzeBlock_helper (env : Env) (block : ConditionalBlock)
    (main_model : Option ConfigurationModel) :
    Option (Option BlockDefect) × ConditionalBlock :=
  let defect := DeadBlockDefect.new block
  -- If this is neither an Implementation, Configuration nor Referential *dead*,
  -- then destroy the analysis and retry with an Undead Analysis
  match defect.isDefect env main_model true with
  | none => (none, block)
  | some (true, defect) => analyzeBlock_found env block main_model defect
  | some (false, _) =>
    let defect := UndeadBlockDefect.new block
    -- No defect found, block seems OK
    match defect.isDefect env main_model true with
    | none => (none, block)
    | some (false, _) => (some none, block)
    | some (true, defect) => analyzeBlock_found env block main_model defect

/-- `BlockDefectAnalyzer::analyzeBlock(block, main_model)`: a thrown `CNFBuilderError` is
caught and `nullptr` returned. The result is the returned pointer (`none` for `nullptr`)
and the block afterwards. -/
def analyzeBlock (env : Env) (block : ConditionalBlock)
    (main_model : Option ConfigurationModel) : Option BlockDefect × ConditionalBlock :=
  match analyzeBlock_helper env block main_model with
  | (some r, block) => (r, block)
  | (none, block) => (none, block)

/-! ## RsfReader.h / RsfConfigurationModel.cpp -/

/-- The contents of an `RsfReader`: the `std::map` it is and its `meta_information`. -/
structure RsfReader where
  entries : List (String × String)
  meta_information : List (String × List String)

/-- `RsfReader::getValue`. -/
def RsfReader.getValue (r : RsfReader) (key : String) : Option String :=
  r.entries.lookup key

/-- `RsfReader::getMetaValue`. -/
def RsfReader.getMetaValue (r : RsfReader) (key : String) : Option (List String) :=
  r.meta_information.lookup key

/-- The update of `meta_information[key]` made by `RsfReader::addMetaValue`. -/
def addMetaValueTo (key value : String) :
    List (String × List String) → List (String × List String)
  | [] => [(key, [value])]
  | (k, values) :: rest =>
    if k = key then (k, if values.contains value then values else values ++ [value]) :: rest
    else (k, values) :: addMetaValueTo key value rest

/-- `RsfReader::addMetaValue`. -/
def RsfReader.addMetaValue (r : RsfReader) (key value : String) : RsfReader :=
  { r with meta_information := addMetaValueTo key value r.meta_information }

/-- The members of an `RsfConfigurationModel`. `regexp` is the compiled
`_inConfigurationSpace_regexp`. -/
structure RsfConfigurationModel where
  addr : Nat
  _name : String
  _model : RsfReader
  _rsf : List (String × String)
  regexp : String → Bool

/-- The tail of the constructor `RsfConfigurationModel::RsfConfigurationModel`, from the
readers it has loaded: the configuration space regex is set and an empty model is marked
incomplete. `regex` is `boost::regex` followed by `boost::regex_match`. -/
def RsfConfigurationModel.new (regex : String → String → Bool) (addr : Nat) (name : String)
    (model : RsfReader) (rsf : List (String × String)) : RsfConfigurationModel :=
  let regexp :=
    match model.getMetaValue "CONFIGURATION_SPACE_REGEX" with
    | some (front :: _) => regex front
    | _ => regex "^CONFIG_[^ ]+$"
  let model :=
    if model.entries.length = 0 then model.addMetaValue "CONFIGURATION_SPACE_INCOMPLETE" "1"
    else model
  { addr := addr, _name := name, _model := model, _rsf := rsf, regexp := regexp }

/-- The inner loop of `extendWithInterestingItems` over the items of one formula: an item
not yet in the working set is pushed on the stack and inserted into the set. -/
def extendPush (acc : List String × StrSet) (str : String) : List String × StrSet :=
  if acc.2.contains str then acc else (str :: acc.1, StrSet.insert str acc.2)

/-- The loop `while (!workingStack.empty())` of `extendWithInterestingItems`; the head of
the list is the top of the stack. Each round takes one unit of `fuel`. -/
def extendLoop (itemsOfString : String → List String) (r : RsfReader) :
    Nat → List String → StrSet → StrSet
  | 0, _, workingSet => workingSet
  | _ + 1, [], workingSet => workingSet
  | fuel + 1, top :: workingStack, workingSet =>
    match r.getValue top with
    | some item =>
      if item ≠ "" then
        let acc := (StrSet.ofList (itemsOfString item)).foldl extendPush
          (workingStack, workingSet)
        extendLoop itemsOfString r fuel acc.1 acc.2
      else extendLoop itemsOfString r fuel workingStack workingSet
    | none => extendLoop itemsOfString r fuel workingStack workingSet

/-- `RsfConfigurationModel::extendWithInterestingItems`. The stack is filled from the
working set in ascending order, its last element on top. The fuel bounds the rounds of the
loop: every element is on the stack at most once, and a pushed element is an item of a
stored formula. -/
def RsfConfigurationModel.extendWithInterestingItems (itemsOfString : String → List String)
    (m : RsfConfigurationModel) (workingSet : StrSet) : StrSet :=
  let fuel := workingSet.length
    + (m._model.entries.map (fun e => (itemsOfString e.2).length)).sum
  extendLoop itemsOfString m._model fuel workingSet.reverse workingSet

/-- `RsfConfigurationModel::doIntersectPreprocess`: the `item_set` and the contents of `sj`
it leaves, `sj` being empty at the call. -/
def RsfConfigurationModel.doIntersectPreprocess (itemsOfString : String → List String)
    (m : RsfConfigurationModel) (item_set : StrSet) (exclude_set : Option StrSet) :
    StrSet × StringJoiner :=
  let always_on := m._model.getMetaValue "ALWAYS_ON"
  let always_off := m._model.getMetaValue "ALWAYS_OFF"
  -- ALWAYS_ON items and their transitive dependencies always need to appear in the slice
  let item_set :=
    match always_on with
    | some l => l.foldl (fun s str => StrSet.insert str s) item_set
    | none => item_set
  let item_set := m.extendWithInterestingItems itemsOfString item_set
  let item_set :=
    match exclude_set with
    | some ex => item_set.filter (fun str => !ex.contains str)
    | none => item_set
  -- for all symbols in item_set, retrieve the formula from the model and push it into sj
  let sj : StringJoiner := item_set.foldl (fun sj str =>
    match m._model.getValue str with
    | some item => if item ≠ "" then sj.push_back ("(" ++ str ++ " -> (" ++ item ++ "))") else sj
    | none => sj) []
  let item_set :=
    match always_off with
    | some l =>
      m.extendWithInterestingItems itemsOfString
        (l.foldl (fun s str => StrSet.insert str s) item_set)
    | none => item_set
  (item_set, sj)

/-- `RsfConfigurationModel::containsSymbol`. -/
def RsfConfigurationModel.containsSymbol (m : RsfConfigurationModel) (symbol : String) : Bool :=
  (m._model.entries.lookup symbol).isSome

/-- An `RsfConfigurationModel` as a `ConfigurationModel`. -/
def RsfConfigurationModel.toConfigurationModel (itemsOfString : String → List String)
    (m : RsfConfigurationModel) : ConfigurationModel :=
  { addr := m.addr, _name := m._name, getModelVersionIdentifier := "rsf",
    containsSymbol := m.containsSymbol,
    getMetaValue := m._model.getMetaValue,
    inConfigurationSpace := m.regexp,
    doIntersectPreprocess := m.doIntersectPreprocess itemsOfString }

/-- The loop `item_set.insert(str)` of `doIntersectPreprocess` over a meta list, skipped
for the null pointer. -/
def insertItems (l : Option (List String)) (item_set : StrSet) : StrSet :=
  match l with
  | some l => l.foldl (fun s str => StrSet.insert str s) item_set
  | none => item_set

/-- The loop `item_set.erase(str)` of `doIntersectPreprocess` over the exclude set, skipped
for the null pointer. -/
def eraseItems (exclude_set : Option StrSet) (item_set : StrSet) : StrSet :=
  match exclude_set with
  | some ex => item_set.filter (fun str => !ex.contains str)
  | none => item_set

/-- The `item_set` that `RsfConfigurationModel::doIntersectPreprocess` leaves, stage by
stage: the `ALWAYS_ON` items are inserted, the set is extended, the exclude set is erased,
and the `ALWAYS_OFF` items are inserted and the set extended once more. -/
def RsfConfigurationModel.preprocessedItems (itemsOfString : String → List String)
    (m : RsfConfigurationModel) (item_set : StrSet) (exclude_set : Option StrSet) : StrSet :=
  let kept := eraseItems exclude_set
    (m.extendWithInterestingItems itemsOfString
      (insertItems (m._model.getMetaValue "ALWAYS_ON") item_set))
  match m._model.getMetaValue "ALWAYS_OFF" with
  | some l => m.extendWithInterestingItems itemsOfString (insertItems (some l) kept)
  | none => kept

/-- The character class `[0-9A-Za-z_]` of `item_regexp`. -/
def isItemChar (c : Char) : Bool := c.isDigit || c.isAlpha || c == '_'

/-- The match of `item_regexp` after the first character of its group: the non-greedy
group `([0-9A-Za-z_]+?)` holds `taken`, and it takes one more character only when what
is left is neither `_MODULE` nor the end of the name. The result is the group. -/
def matchItemRest (taken : List Char) : List Char → Option (List Char)
  | [] => some taken
  | c :: rest =>
    if c :: rest = "_MODULE".data then some taken
    else if isItemChar c then matchItemRest (taken ++ [c]) rest
    else none

/-- The call `boost::regex_match(feature_name, what, item_regexp)` of `getType` for
`^CONFIG_([0-9A-Za-z_]+?)(_MODULE)?$`: `what[1]` when the name matches. -/
def matchItem (feature_name : String) : Option String :=
  if "CONFIG_".data.isPrefixOf feature_name.data then
    match feature_name.data.drop 7 with
    | c :: rest => if isItemChar c then (matchItemRest [c] rest).map String.mk else none
    | [] => none
  else none

/-- The call `std::transform(type.begin(), type.end(), type.begin(), ::toupper)`. -/
def toupper (type : String) : String := String.mk (type.data.map Char.toUpper)

/-- `RsfConfigurationModel::getType`. -/
def RsfConfigurationModel.getType (m : RsfConfigurationModel) (feature_name : String) :
    String :=
  match matchItem feature_name with
  | some item =>
    match m._rsf.lookup item with
    | some value => toupper value
    | none => "MISSING"
  | none => "#ERROR"

/-! ## CnfConfigurationModel.cpp -/

/-- What a `CnfConfigurationModel` asks its `kconfig::PicosatCNF` `_cnf`, which is not
part of the analysed sources. -/
structure CnfConfigurationModel where
  /-- `_cnf->getSymbolType(item)`. -/
  getSymbolType : String → Nat
  /-- `_cnf->getAssociatedSymbol(symbol) != nullptr`. -/
  hasAssociatedSymbol : String → Bool
  /-- `_cnf->getMetaValue(key)`. -/
  getMetaValue : String → Option (List String)

/-- The table `types` of `CnfConfigurationModel::getType`. -/
def CnfConfigurationModel.types : List String :=
  ["MISSING", "BOOLEAN", "TRISTATE", "INTEGER", "HEX", "STRING", "other"]

/-- `CnfConfigurationModel::getType`; `none` when the symbol type is no index of the
table. -/
def CnfConfigurationModel.getType (m : CnfConfigurationModel) (feature_name : String) :
    Option String :=
  match matchItem feature_name with
  | some item => CnfConfigurationModel.types.get? (m.getSymbolType item)
  | none => some "#ERROR"

/-- `CnfConfigurationModel::containsSymbol`. -/
def CnfConfigurationModel.containsSymbol (m : CnfConfigurationModel) (symbol : String) :
    Bool :=
  starts_with symbol "FILE_" || m.hasAssociatedSymbol symbol

/-- The defect after the `NoKconfig` check of `analyzeBlock_helper` and the saving of its
kind in the block. -/
def reclassified (env : Env) (block : ConditionalBlock) (main : Option ConfigurationModel)
    (d0 : BlockDefect) : BlockDefect :=
  { _cb := block.setDefectType
      (if d0.isNoKconfigDefect env.itemsOfString main then DEFECTTYPE.NoKconfig
        else d0._defectType),
    dead := d0.dead,
    _defectType :=
      if d0.isNoKconfigDefect env.itemsOfString main then DEFECTTYPE.NoKconfig
      else d0._defectType,
    _isGlobal := d0._isGlobal, _formula := d0._formula, _suffix := d0._suffix,
    defectMap := d0.defectMap, _musFormula := d0._musFormula }

/-! ## StringJoiner.h, the other inserting members -/

/-- `StringJoiner::emplace_back`: the empty string is ignored. -/
def StringJoiner.emplace_back (sj : StringJoiner) (x : String) : StringJoiner :=
  if x = "" then sj else sj ++ [x]

/-- `StringJoiner::push_front`: the empty string is ignored. -/
def StringJoiner.push_front (sj : StringJoiner) (x : String) : StringJoiner :=
  if x = "" then sj else x :: sj

/-- `StringJoiner::emplace_front`: the empty string is ignored. -/
def StringJoiner.emplace_front (sj : StringJoiner) (x : String) : StringJoiner :=
  if x = "" then sj else x :: sj

/-- A call of one of the four inserting members of `StringJoiner`. -/
inductive JoinerCall where
  | push_back (x : String)
  | emplace_back (x : String)
  | push_front (x : String)
  | emplace_front (x : String)
  deriving DecidableEq, Repr

/-- The container after a call. -/
def JoinerCall.run (sj : StringJoiner) : JoinerCall → StringJoiner
  | .push_back x => StringJoiner.push_back sj x
  | .emplace_back x => StringJoiner.emplace_back sj x
  | .push_front x => StringJoiner.push_front sj x
  | .emplace_front x => StringJoiner.emplace_front sj x

/-- The argument of a call. -/
def JoinerCall.arg : JoinerCall → String
  | .push_back x => x
  | .emplace_back x => x
  | .push_front x => x
  | .emplace_front x => x

/-- Whether a call inserts at the front. -/
def JoinerCall.atFront : JoinerCall → Bool
  | .push_back _ => false
  | .emplace_back _ => false
  | .push_front _ => true
  | .emplace_front _ => true

/-- The elements with the separator between each consecutive pair, as the specification
words `join`; the empty string when there are no elements. -/
def joinSpec (sep : String) : List String → String
  | [] => ""
  | [x] => x
  | x :: y :: rest => x ++ sep ++ joinSpec sep (y :: rest)

/-! ## Maps keyed by strings -/

/-- The entry of a key in a `std::map` keyed by strings, put at its place in key order. -/
def mapInsert {V : Type} (k : String) (v : V) : List (String × V) → List (String × V)
  | [] => [(k, v)]
  | (k', v') :: rest =>
    if strLt k k' then (k, v) :: (k', v') :: rest
    else (k', v') :: mapInsert k v rest

/-- The value of an existing key of a `std::map` replaced. -/
def mapReplace {V : Type} (k : String) (v : V) : List (String × V) → List (String × V)
  | [] => []
  | (k', v') :: rest =>
    if k' = k then (k', v) :: rest
    else (k', v') :: mapReplace k v rest

/-- The assignment `map[k] = v` on a `std::map` keyed by strings. -/
def mapAssign {V : Type} (k : String) (v : V) (m : List (String × V)) : List (String × V) :=
  if (m.lookup k).isSome then mapReplace k v m else mapInsert k v m

/-- The call `map.emplace(k, v)` on a `std::map` keyed by strings: an existing key keeps
its value. -/
def mapEmplaceNew {V : Type} (k : String) (v : V) (m : List (String × V)) :
    List (String × V) :=
  if (m.lookup k).isSome then m else mapInsert k v m

/-! ## SatChecker.h / SatChecker.cpp: the assignment map -/

/-- `SatChecker::AssignmentMap`, a `std::map<std::string, bool>`: its entries in key
order. -/
abbrev AssignmentMap := List (String × Bool)

/-- `AssignmentMap::operator==`. -/
def AssignmentMap.eq (self other : AssignmentMap) : Bool :=
  self.all (fun entry =>
    match other.lookup entry.1 with
    | none => false
    | some second => second == entry.2)

/-- What `SatChecker::getAssignment` asks of the solver instance `_cnf`, which is not part
of the analysed sources: the symbol table `getSymbolMap()` and `deref`. -/
structure PicosatView where
  getSymbolMap : List (String × Nat)
  deref : Nat → Bool

/-- `SatChecker::getAssignment`: the member `assignmentTable` after the call, which is also
what is returned. -/
def SatChecker.getAssignment (_cnf : PicosatView) (assignmentTable : AssignmentMap) :
    AssignmentMap :=
  _cnf.getSymbolMap.foldl
    (fun table entry => mapEmplaceNew entry.1 (_cnf.deref entry.2) table) assignmentTable

/-- `SatChecker::state`. -/
inductive state where
  | no | yes | module
  deriving DecidableEq, Repr

/-- `undertaker::ends_with`. -/
def ends_with (s suffix : String) : Bool := suffix.data.isSuffixOf s.data

/-- The match of `module_regexp`, `^CONFIG_(.*)_MODULE$`: `what[1]` when the name
matches. -/
def matchModule (name : String) : Option String :=
  if "CONFIG_".data.isPrefixOf name.data && "_MODULE".data.isSuffixOf (name.data.drop 7) then
    some (String.mk ((name.data.drop 7).take ((name.data.drop 7).length - 7)))
  else none

/-- The match of `choice_regexp`, `^CONFIG_CHOICE_.*$`. -/
def matchChoice (name : String) : Bool := "CONFIG_CHOICE_".data.isPrefixOf name.data

/-- The match of `item_regexp` of `formatKconfig`, `^CONFIG_(.*[^.])$`: `what[1]` when the
name matches. -/
def matchKconfigItem (name : String) : Option String :=
  if "CONFIG_".data.isPrefixOf name.data then
    match (name.data.drop 7).getLast? with
    | some c => if c ≠ '.' then some (String.mk (name.data.drop 7)) else none
    | none => none
  else none

/-- The match of `block_regexp`, `^B\d+$`. -/
def matchBlock (name : String) : Bool :=
  match name.data with
  | 'B' :: d :: ds => (d :: ds).all Char.isDigit
  | _ => false

/-- The state `valid ? state::yes : state::no`. -/
def stateOf (valid : Bool) : state := if valid then state.yes else state.no

/-- One round of the first loop of `AssignmentMap::formatKconfig`: the maps `selection`
and `other_variables` after the entry. `mainModel` is `getType` of
`ModelContainer::lookupMainModel()`, `none` for the null pointer. -/
def formatKconfigStep (mainModel : Option (String → String)) (missingSet : StrSet)
    (acc : List (String × state) × List (String × state)) (entry : String × Bool) :
    List (String × state) × List (String × state) :=
  let selection := acc.1
  let other_variables := acc.2
  let name := entry.1
  let valid := entry.2
  match (if valid then matchModule name else none) with
  | some tmpName =>
    let basename := "CONFIG_" ++ tmpName
    if missingSet.contains basename || missingSet.contains name then
      (selection, mapAssign basename (stateOf valid) other_variables)
    else (mapAssign basename state.module selection, other_variables)
  | none =>
    if matchChoice name then
      -- choices are anonymous in kconfig and only used for cardinality constraints, ignore
      (selection, mapAssign name (stateOf valid) other_variables)
    else
      match matchKconfigItem name with
      | some item_name =>
        -- skip item if the item is missing
        if missingSet.contains name then
          (selection, mapAssign name (stateOf valid) other_variables)
        else
          let skip :=
            match mainModel with
            | some getType =>
              let item_type := getType ("CONFIG_" ++ item_name)
              -- skip item if it is a value-like item
              (matchModule name).isNone
                && (item_type == "INTEGER" || item_type == "HEX" || item_type == "STRING")
            | none => false
          if skip then acc
          -- assign value if not already set (e.g., by the module variant)
          else if (selection.lookup name).isNone then
            (mapAssign name (stateOf valid) selection, other_variables)
          else acc
      | none =>
        -- ignore block variables
        if matchBlock name then acc
        else (selection, mapAssign name (stateOf valid) other_variables)

/-- The line the second loop of `formatKconfig` writes for an entry of `selection`. -/
def selectionLine (entry : String × state) : String :=
  entry.1 ++ "=" ++
    (match entry.2 with
      | .no => "n"
      | .module => "m"
      | .yes => "y")

/-- The line the third loop of `formatKconfig` writes for an entry of `other_variables`,
`none` when the entry is passed over. An entry never has the state `module` (the
`assert(false)` of the source); the line would end after `=`. -/
def otherLine (selection : List (String × state)) (entry : String × state) : Option String :=
  let item := entry.1
  if ends_with item "_MODULE" then none
  else if starts_with item "CONFIG_CHOICE_" || starts_with item "__FREE__"
      || item = "CONFIG_n" || item = "CONFIG_y" then none
  else if (selection.lookup item).isSome then none
  else
    some ("# " ++ item ++ "=" ++
      (match entry.2 with
        | .no => "n"
        | .yes => "y"
        | .module => ""))

/-- `AssignmentMap::formatKconfig`: the lines written to `out` and the returned
`selection.size()`. -/
def AssignmentMap.formatKconfig (mainModel : Option (String → String)) (self : AssignmentMap)
    (missingSet : StrSet) : List String × Nat :=
  let maps := self.foldl (formatKconfigStep mainModel missingSet) ([], [])
  (maps.1.map selectionLine ++ maps.2.filterMap (otherLine maps.1), maps.1.length)

/-! ## SatChecker.cpp: `checkMUS` -/

/-- A `UniqueStringJoiner`: the container it is, `uniqueFlag` and `_unique_set`. -/
structure UniqueStringJoiner where
  elems : StringJoiner
  uniqueFlag : Bool
  _unique_set : StrSet

/-- A fresh `UniqueStringJoiner`: empty, with `uniqueFlag = true`. -/
def UniqueStringJoiner.new : UniqueStringJoiner :=
  { elems := [], uniqueFlag := true, _unique_set := [] }

/-- `UniqueStringJoiner::emplace_back`: a string that is in `_unique_set` already is
dropped while `uniqueFlag` is set. -/
def UniqueStringJoiner.emplace_back (sj : UniqueStringJoiner) (x : String) :
    UniqueStringJoiner :=
  if sj.uniqueFlag then
    if sj._unique_set.contains x then sj
    else
      { sj with
        _unique_set := StrSet.insert x sj._unique_set,
        elems := StringJoiner.emplace_back sj.elems x }
  else { sj with elems := StringJoiner.emplace_back sj.elems x }

/-- The loop `while (ss >> tmp)` of `checkMUS` over the integers that are left in the
output of the minimizer: the clause that was collected and the integers left after it.
`getSymbolName` is `_cnf->getSymbolName`; `abs` is the absolute value. -/
def musClause (getSymbolName : Nat → String) : List Int → StringJoiner →
    StringJoiner × List Int
  | [], clause => (clause, [])
  | tmp :: ss, clause =>
    if tmp = 0 then (clause, ss)
    else
      let sym := getSymbolName tmp.natAbs
      if sym = "" then musClause getSymbolName ss clause
      else if tmp < 0 then musClause getSymbolName ss (clause.emplace_back ("!" ++ sym))
      else musClause getSymbolName ss (clause.emplace_back sym)

/-- The loop `for (i = 0; i < musData.lines; i++)` of `checkMUS`. -/
def musLines (getSymbolName : Nat → String) : Nat → List Int → UniqueStringJoiner →
    UniqueStringJoiner
  | 0, _, sj => sj
  | n + 1, ss, sj =>
    let line := musClause getSymbolName ss []
    -- collect only clauses with valid symbols
    let sj :=
      if line.1.length > 0 then sj.emplace_back ("(" ++ StringJoiner.join line.1 " v " ++ ")")
      else sj
    musLines getSymbolName n line.2 sj

/-- `SatChecker::checkMUS` from the output of the minimizer on, its first line removed:
the header words `p` and `cnfstr`, the numbers `vars` and `lines`, and the integers that
follow. The result is `musData.minimized_formula`, `none` for `return false`. -/
def SatChecker.checkMUS (getSymbolName : Nat → String) (p cnfstr : String)
    (_vars lines : Int) (ss : List Int) : Option String :=
  if p ≠ "p" || cnfstr ≠ "cnf" then none
  else
    some (StringJoiner.join
      (musLines getSymbolName lines.toNat ss UniqueStringJoiner.new).elems " ^ ")

/-- The literals of a clause that have a symbol name, as `checkMUS` prints them. -/
def namedLiterals (getSymbolName : Nat → String) (clause : List Int) : List String :=
  clause.filterMap (fun tmp =>
    if getSymbolName tmp.natAbs = "" then none
    else if tmp < 0 then some ("!" ++ getSymbolName tmp.natAbs)
    else some (getSymbolName tmp.natAbs))

/-- The first `n` clauses of a sequence of integers in which `0` ends a clause. -/
def clausesOf : Nat → List Int → List (List Int)
  | 0, _ => []
  | n + 1, ss =>
    ss.takeWhile (fun tmp => tmp ≠ 0) :: clausesOf n ((ss.dropWhile (fun tmp => tmp ≠ 0)).drop 1)

/-- The pieces of a disjunction between the separators ` v `; `cur` is the piece being
read, reversed. -/
def splitDisjunction : List Char → List Char → List String
  | [], cur => [String.mk cur.reverse]
  | ' ' :: 'v' :: ' ' :: rest, cur => String.mk cur.reverse :: splitDisjunction rest []
  | c :: rest, cur => splitDisjunction rest (c :: cur)

/-- A literal read back through a symbol table. -/
def readBackLiteral (table : List (String × Nat)) (lit : String) : Option Int :=
  match lit.data with
  | '!' :: name => (table.lookup (String.mk name)).map (fun v => -(v : Int))
  | _ => (table.lookup lit).map (fun v => (v : Int))

/-- A parenthesised disjunction read back through a symbol table: the clause it
denotes. -/
def readBack (table : List (String × Nat)) (disjunction : String) : Option (List Int) :=
  match disjunction.data with
  | '(' :: rest =>
    if rest.getLast? = some ')' then
      (splitDisjunction rest.dropLast []).mapM (readBackLiteral table)
    else none
  | _ => none

/-! ## RsfReader.cpp: the constructor -/

/-- The whitespace of a `std::stringstream`: `isspace` in the "C" locale. -/
def isspace (c : Char) : Bool :=
  c = ' ' || c = '\t' || c = '\n' || c = '\x0b' || c = '\x0c' || c = '\r'

/-- A `std::stringstream` that is read: the characters not yet read, `none` once the
stream is not `good()` (end of input or failure), after which nothing is read any more. -/
abbrev IStream := Option (List Char)

/-- The extraction `ss >> str`: the word that was read, `none` when the extraction fails
and leaves `str` as it is, and the stream afterwards. -/
def IStream.extract : IStream → Option (List Char) × IStream
  | none => (none, none)
  | some buf =>
    match buf.dropWhile isspace with
    | [] => (none, none)
    | c :: rest =>
      match (c :: rest).dropWhile (fun ch => !isspace ch) with
      | [] => (some ((c :: rest).takeWhile (fun ch => !isspace ch)), none)
      | d :: left =>
        (some ((c :: rest).takeWhile (fun ch => !isspace ch)), some (d :: left))

/-- The manipulator `ss >> std::ws`. -/
def IStream.ws : IStream → IStream
  | none => none
  | some buf =>
    match buf.dropWhile isspace with
    | [] => none
    | c :: rest => some (c :: rest)

/-- The call `std::getline(ss, str, delim)` on an empty `str`: the string and the stream
afterwards. -/
def IStream.getline (delim : Char) : IStream → List Char × IStream
  | none => ([], none)
  | some buf =>
    match buf.dropWhile (fun ch => ch ≠ delim) with
    | [] => (buf.takeWhile (fun ch => ch ≠ delim), none)
    | _ :: left => (buf.takeWhile (fun ch => ch ≠ delim), some left)

/-- The helper `trim` of `RsfReader.cpp`: a leading and a trailing `"` are removed. `none`
when `front()` or `back()` is called on the empty string. -/
def trim (s : List Char) : Option (List Char) :=
  match s with
  | [] => none
  | c :: cs =>
    match (if c = '"' then cs else c :: cs) with
    | [] => none
    | d :: ds => if (d :: ds).getLast? = some '"' then some (d :: ds).dropLast else some (d :: ds)

/-- The loop `while (ss >> item)` of the constructor over the values of a meta line. Each
round takes one unit of `fuel`. -/
def readMetaItems : Nat → IStream → List String → Option (List String)
  | 0, _, meta_items => some meta_items
  | fuel + 1, ss, meta_items =>
    match ss.extract with
    | (none, _) => some meta_items
    | (some item, ss) =>
      -- special case for meta items containing white spaces
      let read :=
        if item.getLast? ≠ some '"' then ((ss.getline '"').1, (ss.getline '"').2)
        else ([], ss)
      match trim (item ++ read.1) with
      | none => none
      | some item => readMetaItems fuel read.2 (meta_items ++ [String.mk item])

/-- One round of the loop `while (std::getline(f, line))` of the constructor
`RsfReader::RsfReader`: the reader after the line, `none` when `trim` is applied to a
string it must not be applied to. -/
def RsfReader.readLine (metaflag : String) (r : RsfReader) (line : List Char) :
    Option RsfReader :=
  if line = [] then some r  -- skip empty lines
  else
    let first := IStream.extract (some line)
    let key : String :=
      match first.1 with
      | some k => String.mk k
      | none => ""
    if metaflag ≠ "" && key = metaflag then
      -- the line contains meta information
      let second := IStream.extract first.2
      let key : String :=
        match second.1 with
        | some k => String.mk k
        | none => key
      match readMetaItems (line.length + 1) second.2 [] with
      | none => none
      | some meta_items =>
        some { r with meta_information := mapEmplaceNew key meta_items r.meta_information }
    else
      match trim (IStream.getline '\n' (IStream.ws first.2)).1 with
      | none => none
      | some formula => some { r with entries := mapEmplaceNew key (String.mk formula) r.entries }

/-- The lines `std::getline(f, line)` yields; `cur` is the line being read, reversed. -/
def splitLines : List Char → List Char → List (List Char)
  | [], cur => [cur.reverse]
  | c :: rest, cur =>
    if c = '\n' then cur.reverse :: splitLines rest [] else splitLines rest (c :: cur)

/-- The loop of the constructor over the lines. -/
def RsfReader.readLines (metaflag : String) : List (List Char) → RsfReader → Option RsfReader
  | [], r => some r
  | line :: rest, r =>
    match r.readLine metaflag line with
    | none => none
    | some r => RsfReader.readLines metaflag rest r

/-- The constructor `RsfReader::RsfReader(filename, metaflag)` on the content of the file,
which is taken to open. -/
def RsfReader.read (content : String) (metaflag : String) : Option RsfReader :=
  RsfReader.readLines metaflag (splitLines content.data []) ⟨[], []⟩

/-- A string with a leading and a trailing `"` removed, as the specification words the
binding of a line. -/
def unquote (s : List Char) : List Char :=
  let s1 := if s.head? = some '"' then s.tail else s
  if s1.getLast? = some '"' then s1.dropLast else s1

/-- The values of a meta line as the keyed-line format writes them: each between `"` and
after a blank. -/
def quotedValues : List (List Char) → List Char
  | [] => []
  | v :: rest => ' ' :: '"' :: (v ++ '"' :: quotedValues rest)

/-- What follows a word in a stream: nothing, or a whitespace character and more. -/
def AfterWord (T : List Char) : Prop := T = [] ∨ ∃ c T', T = c :: T' ∧ isspace c = true

/-- The stream after a word was extracted up to what follows it: not good when the end of
the input was reached. -/
def streamAfter (T : List Char) : IStream := if T = [] then none else some T

/-! ## StringJoiner.h: `UniqueStringJoiner::push_back` -/

/-- `UniqueStringJoiner::push_back`: while `uniqueFlag` is set the string is inserted into
`_unique_set` first, and the call returns when it was in the set already; then
`StringJoiner::push_back` is called. -/
def UniqueStringJoiner.push_back (sj : UniqueStringJoiner) (x : String) :
    UniqueStringJoiner :=
  if sj.uniqueFlag then
    if sj._unique_set.contains x then sj
    else
      { sj with
        _unique_set := StrSet.insert x sj._unique_set,
        elems := StringJoiner.push_back sj.elems x }
  else { sj with elems := StringJoiner.push_back sj.elems x }

/-- `UniqueStringJoiner::disableUniqueness`. -/
def UniqueStringJoiner.disableUniqueness (sj : UniqueStringJoiner) : UniqueStringJoiner :=
  { sj with uniqueFlag := false }

/-- A sequence with every repetition of an earlier element removed, as the specification
words the unique variant: the first occurrence is kept, later ones are dropped. -/
def keepFirst : List String → List String
  | [] => []
  | x :: rest => x :: (keepFirst rest).filter (fun y => y ≠ x)

/-! ## The closure under the implication map, as the specification words it -/

/-- A set of names that is closed under the implication map of a model file: whenever a
name is in the set and has a non-empty formula stored, every symbol of that formula is in
the set. -/
def ClosedUnder (itemsOfString : String → List String) (r : RsfReader) (S : List String) :
    Prop :=
  ∀ x ∈ S, ∀ item, r.getValue x = some item → item ≠ "" → ∀ s ∈ itemsOfString item, s ∈ S

/-- The least superset of `W` that is closed under the implication map is `R`: `R` holds
`W`, is closed, and lies in every closed set that holds `W`. -/
def LeastClosed (itemsOfString : String → List String) (r : RsfReader) (W R : List String) :
    Prop :=
  (∀ x ∈ W, x ∈ R) ∧ ClosedUnder itemsOfString r R
    ∧ ∀ S : List String, (∀ x ∈ W, x ∈ S) → ClosedUnder itemsOfString r S → ∀ x ∈ R, x ∈ S

/-- The items of all the formulas stored in a model file: the names the loop of
`extendWithInterestingItems` can push. -/
def formulaItems (itemsOfString : String → List String) (r : RsfReader) : List String :=
  (r.entries.map (fun e => itemsOfString e.2)).flatten

/-- The number of rounds the loop of `extendWithInterestingItems` has left at most: the
height of the stack and the number of items of stored formulas, counted as often as they
occur, that are not in the working set. -/
def roundsLeft (itemsOfString : String → List String) (r : RsfReader)
    (workingStack : List String) (workingSet : StrSet) : Nat :=
  workingStack.length
    + ((formulaItems itemsOfString r).filter (fun u => !workingSet.contains u)).length
/-- The clause `(name -> (formula))` that `doIntersectPreprocess` pushes for a name with a
non-empty formula stored; `none` for a name without. -/
def clauseOf (r : RsfReader) (str : String) : Option String :=
  match r.getValue str with
  | some item => if item ≠ "" then some ("(" ++ str ++ " -> (" ++ item ++ "))") else none
  | none => none

/-! ## SatChecker.cpp: `pprintAssignments` -/

/-- The call `map.erase(k)` on a `std::map` keyed by strings. -/
def mapErase {V : Type} (k : String) (m : List (String × V)) : List (String × V) :=
  m.filter (fun entry => entry.1 ≠ k)

/-- The test `model && !model->inConfigurationSpace(name)` of `pprintAssignments`. -/
def outsideSpace (model : Option ConfigurationModel) (name : String) : Bool :=
  match model with
  | some m => !m.inConfigurationSpace name
  | none => false

/-- The body of the first loop of `pprintAssignments` for one entry of the assignment
`conf`; `front` is `solutions.front()`, and `conf == solutions.front()` is
`AssignmentMap::operator==`. -/
def commonStep (model : Option ConfigurationModel) (front conf : AssignmentMap)
    (common_subset : List (String × Bool)) (entry : String × Bool) : List (String × Bool) :=
  if outsideSpace model entry.1 then common_subset
  else if conf.eq front then
    -- Copy first assignment to common subset map
    mapAssign entry.1 entry.2 common_subset
  else if (match common_subset.lookup entry.1 with
      | some v => v != entry.2
      | none => false) then
    -- In this assignment the symbol has a different value, remove it
    mapErase entry.1 common_subset
  else common_subset

/-- The first loop of `pprintAssignments`: `common_subset` after all assignments. -/
def commonFirst (model : Option ConfigurationModel) (solutions : List AssignmentMap) :
    List (String × Bool) :=
  match solutions with
  | [] => []
  | front :: _ =>
    solutions.foldl (fun common_subset conf =>
      conf.foldl (commonStep model front conf) common_subset) []

/-- The second loop of `pprintAssignments`, which erases from `common_subset` the entry its
range-based `for` stands on when an assignment does not have the name. The erased entry
is the one the loop reads `name` from and advances from afterwards, so the behaviour is
undefined as soon as one entry is erased: `none`. Otherwise the map is left as it is. -/
def commonSecond (solutions : List AssignmentMap) (common_subset : List (String × Bool)) :
    Option (List (String × Bool)) :=
  if common_subset.all (fun entry =>
      solutions.all (fun conf => (conf.lookup entry.1).isSome)) then some common_subset
  else none

/-- The line `name=1` or `name=0` written for an entry. -/
def valueLine (entry : String × Bool) : String :=
  entry.1 ++ "=" ++ (if entry.2 then "1" else "0")

/-- The last loop of `pprintAssignments`: for each assignment the line `I: Config i` and
the entries in the configuration space whose name is not in `common_subset`. -/
def differenceLines (model : Option ConfigurationModel) (common_subset : List (String × Bool)) :
    Nat → List AssignmentMap → List String
  | _, [] => []
  | i, conf :: rest =>
    ("I: Config " ++ toString i)
      :: ((conf.filter (fun entry =>
            !outsideSpace model entry.1 && (common_subset.lookup entry.1).isNone)).map
          valueLine
        ++ differenceLines model common_subset (i + 1) rest)

/-- `SatChecker::pprintAssignments`: the lines written to `out`, `none` when the second
loop erases the entry it stands on. -/
def SatChecker.pprintAssignments (solutions : List AssignmentMap)
    (model : Option ConfigurationModel) (missingSet : StrSet) : Option (List String) :=
  match commonSecond solutions (commonFirst model solutions) with
  | none => none
  | some common_subset =>
    some (["I: Found " ++ toString solutions.length ++ " assignments",
        "I: Entries in missingSet: " ++ toString missingSet.length,
        "I: In all assignments the following symbols are equally set"]
      ++ common_subset.map valueLine
      ++ ["I: All differences in the assignments"]
      ++ differenceLines model common_subset 0 solutions)

/-- The lines `pprintAssignments` writes between the two headings `I: In all assignments
the following symbols are equally set` and `I: All differences in the assignments`. -/
def equallySetLines (solutions : List AssignmentMap) (model : Option ConfigurationModel) :
    Option (List String) :=
  (commonSecond solutions (commonFirst model solutions)).map (fun c => c.map valueLine)

/-- The symbols the heading `I: In all assignments the following symbols are equally set`
speaks of, with their value: those inside the configuration space, when a model is given,
that every assignment of the list binds to the same value. -/
def EquallySet (solutions : List AssignmentMap) (model : Option ConfigurationModel)
    (entry : String × Bool) : Prop :=
  outsideSpace model entry.1 = false ∧ ∀ conf ∈ solutions, conf.lookup entry.1 = some entry.2

/-! ## flipper.c: `flipper_lseek` -/

/-- `SEEK_SET` of `linux/fs.h`. -/
def SEEK_SET : Int := 0

/-- `SEEK_CUR` of `linux/fs.h`. -/
def SEEK_CUR : Int := 1

/-- `SEEK_END` of `linux/fs.h`. -/
def SEEK_END : Int := 2

/-- `EINVAL` of `asm-generic/errno-base.h`. -/
def EINVAL : Int := 22

/-- `sizeof(flipper_bitfield_cached)`: one byte for every eight entries, rounded up.
`FLIPPER_ENTRIES` is `CONFIG_FLIPPER_TRACE_ENTRIES`, set when the kernel is configured. -/
def cachedSize (FLIPPER_ENTRIES : Nat) : Nat :=
  FLIPPER_ENTRIES / 8 + (if FLIPPER_ENTRIES % 8 = 0 then 0 else 1)

/-- The conversion of an integer to `loff_t` (`long long`, 64 bit, two's complement). -/
def toLoff (x : Int) : Int := (x + 2 ^ 63) % 2 ^ 64 - 2 ^ 63

/-- The conversion of an integer to `unsigned long long`. -/
def toU64 (x : Int) : Int := x % 2 ^ 64

/-- The statements of `flipper_lseek` after the `switch`, run on the requested position
`testpos`: the value returned and `file->f_pos` afterwards. `size_t_bits` is the width of
`size_t`, the type of `sizeof`: with a `size_t` of 64 bit (`unsigned long` on a 64 bit
kernel) the usual arithmetic conversions turn both operands of
`testpos < sizeof(flipper_bitfield_cached)` into `unsigned long long`; with a narrower
`size_t` both are `long long`. -/
def lseekClamp (size_t_bits : Nat) (size : Nat) (testpos : Int) : Int × Int :=
  let below : Bool :=
    if 64 ≤ size_t_bits then decide (toU64 testpos < toU64 size) else decide (testpos < size)
  let testpos := if below then testpos else size
  let testpos := if testpos ≥ 0 then testpos else 0
  (testpos, testpos)

/-- `flipper_lseek(file, offset, orig)`: the value returned and `file->f_pos` afterwards.
The sums wrap around to 64 bit (the kernel is built with `-fno-strict-overflow`, and the
sum with `sizeof` is unsigned for a `size_t` of 64 bit). -/
def flipper_lseek (size_t_bits : Nat) (FLIPPER_ENTRIES : Nat) (f_pos offset orig : Int) :
    Int × Int :=
  let requested : Option Int :=
    if orig = SEEK_SET then some offset
    else if orig = SEEK_CUR then some (toLoff (f_pos + offset))
    else if orig = SEEK_END then some (toLoff (cachedSize FLIPPER_ENTRIES + offset))
    else none
  match requested with
  | none => (-EINVAL, f_pos)
  | some testpos => lseekClamp size_t_bits (cachedSize FLIPPER_ENTRIES) testpos

/-! ## The escalation ladder, as the specification words it -/

/-- A step of the escalation ladder: the kind of defect it stands for, the entry it makes
in the per-arch table, what its SAT check decides (all that the checker has been fed up to
this step) and the conjunction that is stored as the proved formula. -/
structure Rung where
  kind : DEFECTTYPE
  tag : String
  query : List SatInput
  formula : String

/-- The code formula of a check: `first && codeConstraints(b)`. -/
def codeFormula (first : String) (cb : ConditionalBlock) : String :=
  StringJoiner.join (StringJoiner.push_back (StringJoiner.push_back [] first)
    cb.getCodeConstraints) "\n&&\n"

/-- The steps of the ladder for a block and a model, in order. `first` is the conjunct the
polarity starts from (`B_i` for dead, `( parent && ! B_i )` for undead).
1. code: `first && codeConstraints(b)`;
2. configuration, when there is a model: additionally the slice `doIntersect` yields for
   the code constraints (a CNF model is loaded into the checker before);
3. build system, when there is a model: additionally the build precondition and its slice;
4. referential, when the model is complete: additionally the missing-items constraint. -/
def ladder (env : Env) (first : String) (cb : ConditionalBlock)
    (model : Option ConfigurationModel) : List Rung :=
  let code := cb.getCodeConstraints
  let parts1 := StringJoiner.push_back (StringJoiner.push_back [] first) code
  let q1 := [SatInput.formula (codeFormula first cb)]
  let rung1 : Rung := ⟨DEFECTTYPE.Implementation, "", q1, codeFormula first cb⟩
  match model with
  | none => [rung1]
  | some m =>
    let kc := m.doIntersect env.itemsOfString code (some cb.getFile.getDefineChecker) [] none
    let parts2 := StringJoiner.push_back parts1 kc.2.2
    let q2 := q1 ++ (if m.getModelVersionIdentifier = "cnf" then [SatInput.cnfModel m.addr]
      else []) ++ [SatInput.formula kc.2.2]
    let pre := cb.getBuildSystemCondition
    let kb := m.doIntersect env.itemsOfString pre none kc.2.1 (some kc.1)
    let build := (if kb.2.2.length > 0 then kb.2.2 ++ "\n&& " else kb.2.2) ++ pre
    let parts3 := StringJoiner.push_back parts2 build
    let q3 := q2 ++ [SatInput.formula build]
    let missing := getMissingItemsConstraints kb.2.1
    let parts4 := StringJoiner.push_back parts3 missing
    let q4 := q3 ++ [SatInput.formula missing]
    [rung1, ⟨DEFECTTYPE.Configuration, "kconfig", q2, StringJoiner.join parts2 "\n&&\n"⟩,
      ⟨DEFECTTYPE.BuildSystem, "kbuild", q3, StringJoiner.join parts3 "\n&&\n"⟩]
      ++ (if m.isComplete then
            [⟨DEFECTTYPE.Referential, "missing", q4, StringJoiner.join parts4 "\n&&\n"⟩]
          else [])

/-- Walking the ladder: the steps are decided in order and the walk stops at the first
unsatisfiable one; `some none` when every step is satisfiable, `none` when a check
throws. -/
def firstUnsat (sat : List SatInput → Option Bool) : List Rung → Option (Option Rung)
  | [] => some none
  | r :: rest =>
    match sat r.query with
    | none => none
    | some false => some (some r)
    | some true => firstUnsat sat rest

/-- The conjunct an undead check starts from. -/
def undeadFirst (parent cb : ConditionalBlock) : String :=
  "( " ++ parent.getName ++ " && ! " ++ cb.getName ++ " )"

/-- The kind a defect has after a step of kind `k` was found unsatisfiable, `old` being its
kind before: a build-system kind is kept, and a referential step does not replace a
configuration kind. -/
def escalate (old k : DEFECTTYPE) : DEFECTTYPE :=
  match k with
  | .Configuration => if old = DEFECTTYPE.BuildSystem then old else k
  | .Referential =>
    if old = DEFECTTYPE.Configuration ∨ old = DEFECTTYPE.BuildSystem then old else k
  | _ => k

/-- The defect after a walk of the ladder that stopped at step `r`. -/
def BlockDefect.hit (d : BlockDefect) (arch : String) (is_main_model : Bool) (r : Rung) :
    BlockDefect :=
  { d with
    _formula := r.formula,
    _defectType := escalate d._defectType r.kind,
    _isGlobal := if r.kind = DEFECTTYPE.Implementation then true else d._isGlobal,
    defectMap :=
      if r.kind = DEFECTTYPE.Implementation then d.defectMap
      else mapEmplace arch r.tag d.defectMap,
    _musFormula :=
      if d.dead = true ∧ (is_main_model = true ∨ r.kind = DEFECTTYPE.Implementation) then
        r.formula
      else d._musFormula }

/-- What `isDefect` returns after a walk of the ladder: `true` and the defect the step
leaves, or `false` and the defect with the code formula stored. -/
def BlockDefect.settle (d : BlockDefect) (arch : String) (is_main_model : Bool) (code : String) :
    Option Rung → Bool × BlockDefect
  | some r => (true, d.hit arch is_main_model r)
  | none => (false, { d with _formula := code })

/-- The architecture name entered in the per-arch table. -/
def archOf (env : Env) : Option ConfigurationModel → String
  | some m => env.lookupArch m
  | none => ""

/-- The conjunct the check of a defect object of the given class starts from: `B_i` for a
dead check, `( parent && ! B_i )` for an undead check; a block without parent has no
undead check. -/
def firstConjunct (dead : Bool) (cb : ConditionalBlock) : Option String :=
  if dead then some cb.getName
  else
    match cb.getParent with
    | .nullptr => none
    | .ptr parent => some (undeadFirst parent cb)

/-- The walk of the ladder for a class of defect, a block and a model; `some none` also
when there is no ladder to walk. -/
def walk (env : Env) (dead : Bool) (cb : ConditionalBlock) (model : Option ConfigurationModel) :
    Option (Option Rung) :=
  match firstConjunct dead cb with
  | none => some none
  | some first => firstUnsat env.checkSatisfiable (ladder env first cb model)

/-- What the SAT check of the code step decides; a check that is not made counts as
satisfiable. -/
def codeSat (env : Env) (dead : Bool) (cb : ConditionalBlock) : Option Bool :=
  match firstConjunct dead cb with
  | none => some true
  | some first => env.checkSatisfiable [SatInput.formula (codeFormula first cb)]

/-- The formula a check stores before its first step; without a ladder nothing is
stored. -/
def BlockDefect.code (d : BlockDefect) : String :=
  match firstConjunct d.dead d._cb with
  | none => d._formula
  | some first => codeFormula first d._cb

/-- A fresh defect object of the given class for a block. -/
def BlockDefect.fresh (dead : Bool) (cb : ConditionalBlock) : BlockDefect :=
  if dead then DeadBlockDefect.new cb else UndeadBlockDefect.new cb

/-! ## A concrete world

A tokenizer, a decision procedure for propositional formulas and a source file with two
models, on which the definitions above are run. -/

namespace Scenario

/-- The characters of a symbol name. -/
def isWordChar (c : Char) : Bool := c.isAlphanum || c = '_' || c = '.'

/-- The maximal words of a character sequence; `cur` is the word being read, reversed. -/
def words : List Char → List Char → List String
  | [], cur => if cur.isEmpty then [] else [String.mk cur.reverse]
  | c :: cs, cur =>
    if isWordChar c then words cs (c :: cur)
    else if cur.isEmpty then words cs []
    else String.mk cur.reverse :: words cs []

/-- The symbol names of a formula, for `undertaker::itemsOfString`. -/
def itemsOfString (s : String) : List String := words s.data []

/-- The tokens of a propositional formula. -/
inductive Tok where
  | lp | rp | neg | and | or | imp | iff
  | id (s : String)
  deriving DecidableEq, Repr

/-- A word that has been read, put in front of the tokens that follow it. -/
def flushWord (cur : List Char) (rest : List Tok) : List Tok :=
  if cur.isEmpty then rest else Tok.id (String.mk cur.reverse) :: rest

/-- The tokens of a character sequence, `none` at a character that starts no token. -/
def lex : List Char → List Char → Option (List Tok)
  | [], cur => some (flushWord cur [])
  | '<' :: '-' :: '>' :: cs, cur => (lex cs []).map (fun r => flushWord cur (Tok.iff :: r))
  | '-' :: '>' :: cs, cur => (lex cs []).map (fun r => flushWord cur (Tok.imp :: r))
  | '&' :: '&' :: cs, cur => (lex cs []).map (fun r => flushWord cur (Tok.and :: r))
  | '|' :: '|' :: cs, cur => (lex cs []).map (fun r => flushWord cur (Tok.or :: r))
  | c :: cs, cur =>
    if c = '!' then (lex cs []).map (fun r => flushWord cur (Tok.neg :: r))
    else if c = '(' then (lex cs []).map (fun r => flushWord cur (Tok.lp :: r))
    else if c = ')' then (lex cs []).map (fun r => flushWord cur (Tok.rp :: r))
    else if c = ' ' || c = '\n' then (lex cs []).map (fun r => flushWord cur r)
    else if isWordChar c then lex cs (c :: cur)
    else none

/-- A propositional formula. -/
inductive BoolExp where
  | var (s : String)
  | neg (e : BoolExp)
  | and (a b : BoolExp)
  | or (a b : BoolExp)
  | imp (a b : BoolExp)
  | iff (a b : BoolExp)
  deriving Repr

/-- The binary operator of a precedence level: 0 is the equivalence, 1 the implication,
2 the disjunction, 3 the conjunction. -/
def levelOp (level : Nat) (t : Tok) : Option (BoolExp → BoolExp → BoolExp) :=
  match level, t with
  | 0, Tok.iff => some BoolExp.iff
  | 1, Tok.imp => some BoolExp.imp
  | 2, Tok.or => some BoolExp.or
  | 3, Tok.and => some BoolExp.and
  | _, _ => none

mutual
/-- Recursive descent at a precedence level; level 4 reads negations, parentheses and
names. -/
def parseLevel : Nat → Nat → List Tok → Option (BoolExp × List Tok)
  | 0, _, _ => none
  | fuel + 1, level, toks =>
    if level < 4 then
      match parseLevel fuel (level + 1) toks with
      | some (lhs, rest) => parseRest fuel level lhs rest
      | none => none
    else
      match toks with
      | Tok.neg :: rest =>
        match parseLevel fuel 4 rest with
        | some (e, r) => some (BoolExp.neg e, r)
        | none => none
      | Tok.lp :: rest =>
        match parseLevel fuel 0 rest with
        | some (e, Tok.rp :: r) => some (e, r)
        | _ => none
      | Tok.id s :: rest => some (BoolExp.var s, rest)
      | _ => none
/-- The operands that follow the first one at a precedence level, left to right. -/
def parseRest : Nat → Nat → BoolExp → List Tok → Option (BoolExp × List Tok)
  | 0, _, _, _ => none
  | _ + 1, _, lhs, [] => some (lhs, [])
  | fuel + 1, level, lhs, t :: rest =>
    match levelOp level t with
    | some op =>
      match parseLevel fuel (level + 1) rest with
      | some (rhs, r) => parseRest fuel level (op lhs rhs) r
      | none => none
    | none => some (lhs, t :: rest)
end

/-- The formula a string denotes, `none` at a syntax error. -/
def parseString (s : String) : Option BoolExp :=
  match lex s.data [] with
  | none => none
  | some toks =>
    match parseLevel (6 * toks.length + 6) 0 toks with
    | some (e, []) => some e
    | _ => none

/-- The value of a formula under an assignment. -/
def BoolExp.eval (σ : String → Bool) : BoolExp → Bool
  | .var s => σ s
  | .neg e => !e.eval σ
  | .and a b => a.eval σ && b.eval σ
  | .or a b => a.eval σ || b.eval σ
  | .imp a b => !a.eval σ || b.eval σ
  | .iff a b => a.eval σ == b.eval σ

/-- The names of a formula. -/
def BoolExp.vars : BoolExp → List String
  | .var s => [s]
  | .neg e => e.vars
  | .and a b => a.vars ++ b.vars
  | .or a b => a.vars ++ b.vars
  | .imp a b => a.vars ++ b.vars
  | .iff a b => a.vars ++ b.vars

/-- Whether some assignment of the listed names (all others false) satisfies `p`. -/
def anyAssignment (p : (String → Bool) → Bool) : List String → (String → Bool) → Bool
  | [], σ => p σ
  | v :: vs, σ =>
    anyAssignment p vs (fun x => if x = v then true else σ x)
      || anyAssignment p vs (fun x => if x = v then false else σ x)

/-- The formulas fed to a checker, parsed; an empty formula adds nothing, a CNF model is
not part of this world. `none` at a syntax error. -/
def parseInputs : List SatInput → Option (List BoolExp)
  | [] => some []
  | SatInput.cnfModel _ :: _ => none
  | SatInput.formula s :: rest =>
    match parseInputs rest with
    | none => none
    | some es =>
      if s = "" then some es
      else
        match parseString s with
        | none => none
        | some e => some (e :: es)

/-- A solver: the conjunction of the formulas fed to the checker is decided by trying
every assignment of its names; a syntax error is the thrown `CNFBuilderError`. -/
def checkSatisfiable (q : List SatInput) : Option Bool :=
  match parseInputs q with
  | none => none
  | some es =>
    some (anyAssignment (fun σ => es.all (fun e => e.eval σ))
      ((es.map BoolExp.vars).flatten.eraseDups) (fun _ => false))

/-- A string that starts with `pre`, goes on and has no blank. -/
def matchPrefixNoBlank (pre s : String) : Bool :=
  starts_with s pre && decide (pre.length < s.length) && !s.data.contains ' '

/-- The regular expressions of this world, for `boost::regex_match`. -/
def regex (pattern s : String) : Bool :=
  if pattern = "^CONFIG_[^ ]+$" then matchPrefixNoBlank "CONFIG_" s
  else if pattern = "^FOO_[^ ]+$" then matchPrefixNoBlank "FOO_" s
  else false

/-- The file `a.c`; `arch` is its architecture tag. -/
def file (arch : String) : CppFile :=
  { filename := "a.c", specific_arch := arch, top_block := some 0, define_map := [] }

/-- The artificial top block `B00` of `a.c`. -/
def B00 (arch : String) : ConditionalBlock :=
  .mk { addr := 0, getName := "B00", lineStart := 0, colStart := 0, lineEnd := 0, colEnd := 0,
        isElseBlock := false, _exp := "", defectType := DEFECTTYPE.None,
        cpp_file := file arch, getCodeConstraints := "B00", getBuildSystemCondition := "" }
    .nullptr .nullptr

/-- The block `B0` of `a.c`, opened by `#ifdef CONFIG_A`. -/
def B0 (arch : String) : ConditionalBlock :=
  .mk { addr := 1, getName := "B0", lineStart := 1, colStart := 1, lineEnd := 3, colEnd := 1,
        isElseBlock := false, _exp := "CONFIG_A", defectType := DEFECTTYPE.None,
        cpp_file := file arch, getCodeConstraints := "( B0 <-> CONFIG_A )\n&& B00",
        getBuildSystemCondition := "" }
    (.ptr (B00 arch)) .nullptr

/-- The block `B1` of `a.c`, the `#else` of `B0`; `saved` is the kind saved in `B0`. -/
def B1 (saved : DEFECTTYPE) : ConditionalBlock :=
  .mk { addr := 2, getName := "B1", lineStart := 3, colStart := 1, lineEnd := 5, colEnd := 1,
        isElseBlock := true, _exp := "", defectType := DEFECTTYPE.None,
        cpp_file := file "",
        getCodeConstraints := "( B1 <-> ( ! B0 ) )\n&& ( B0 <-> CONFIG_A )\n&& B00",
        getBuildSystemCondition := "" }
    (.ptr (B00 "")) (.ptr ((B0 "").setDefectType saved))

/-- A block of `a.c` opened by `#if defined(FOO_X) && !defined(FOO_X)`. -/
def B2 : ConditionalBlock :=
  .mk { addr := 3, getName := "B2", lineStart := 7, colStart := 1, lineEnd := 9, colEnd := 1,
        isElseBlock := false, _exp := "FOO_X && !FOO_X", defectType := DEFECTTYPE.None,
        cpp_file := file "", getCodeConstraints := "( B2 <-> FOO_X && !FOO_X )\n&& B00",
        getBuildSystemCondition := "" }
    (.ptr (B00 "")) .nullptr

/-- A textual model as a `ConfigurationModel` of this world. -/
def rsfModel (addr : Nat) (name : String) (entries : List (String × String))
    (metas : List (String × List String)) : ConfigurationModel :=
  (RsfConfigurationModel.new regex addr name ⟨entries, metas⟩ []).toConfigurationModel
    itemsOfString

/-- The model `x86`: `CONFIG_A` implies `CONFIG_B`, `CONFIG_B` implies `!CONFIG_A`. -/
def x86 : ConfigurationModel :=
  rsfModel 100 "x86" [("CONFIG_A", "CONFIG_B"), ("CONFIG_B", "!CONFIG_A")] []

/-- The model `arm`: `CONFIG_A` and `CONFIG_B` imply each other. -/
def arm : ConfigurationModel :=
  rsfModel 101 "arm" [("CONFIG_A", "CONFIG_B"), ("CONFIG_B", "CONFIG_A")] []

/-- The model `mips`, whose formula for `CONFIG_A` has a syntax error. -/
def mips : ConfigurationModel :=
  rsfModel 102 "mips" [("CONFIG_A", "CONFIG_B &&")] []

/-- The model `foo`, whose configuration space is the names `FOO_...`. -/
def foo : ConfigurationModel :=
  rsfModel 103 "foo" [("FOO_Y", "FOO_Z")] [("CONFIGURATION_SPACE_REGEX", ["^FOO_[^ ]+$"])]

/-- The model `x86` marked incomplete. -/
def x86Incomplete : ConfigurationModel :=
  rsfModel 100 "x86" [("CONFIG_A", "CONFIG_B"), ("CONFIG_B", "!CONFIG_A")]
    [("CONFIGURATION_SPACE_INCOMPLETE", ["1"])]

/-- The world with a given registry of models. -/
def env (models : List (String × ConfigurationModel)) : Env :=
  { itemsOfString := itemsOfString, checkSatisfiable := checkSatisfiable,
    lookupArch := fun m => m._name, models := models }

/-- The code formula of the dead check of `B2`. -/
def deadB2 : String := "B2\n&&\n( B2 <-> FOO_X && !FOO_X )\n&& B00"

/-- The defect `analyzeBlock` returns for `B2`, with or without main model. -/
def defectB2 : BlockDefect :=
  { dead := true, _defectType := DEFECTTYPE.NoKconfig, _isGlobal := true,
    _formula := deadB2, _suffix := "dead",
    _cb := B2.setDefectType DEFECTTYPE.NoKconfig, defectMap := [], _musFormula := deadB2 }

/-- The code formula of the dead check of `B0`. -/
def deadB0 : String := "B0\n&&\n( B0 <-> CONFIG_A )\n&& B00"

/-- The slice of the model `x86` for the code constraints of `B0`. -/
def sliceX86 : String := "(CONFIG_A -> (CONFIG_B))\n&& (CONFIG_B -> (!CONFIG_A))"

/-- The model `ia64`: `CONFIG_A` implies `!CONFIG_A`. -/
def ia64 : ConfigurationModel :=
  rsfModel 104 "ia64" [("CONFIG_A", "!CONFIG_A")] []

/-- The dead defect of kind `Configuration` found for `B0` under the main model `x86`,
with the global bit, the stored formula and the per-arch table as given. -/
def defectB0 (arch : String) (isGlobal : Bool) (formula : String)
    (defectMap : List (String × String)) : BlockDefect :=
  { dead := true, _defectType := DEFECTTYPE.Configuration, _isGlobal := isGlobal,
    _formula := formula, _suffix := "dead",
    _cb := (B0 arch).setDefectType DEFECTTYPE.Configuration,
    defectMap := defectMap, _musFormula := deadB0 ++ "\n&&\n" ++ sliceX86 }

/-- The code formula of the undead check of `B1`. -/
def undeadB1 : String :=
  "( B00 && ! B1 )\n&&\n( B1 <-> ( ! B0 ) )\n&& ( B0 <-> CONFIG_A )\n&& B00"

/-- The undead defect `analyzeBlock` returns for `B1` when `x86` is the only model. -/
def defectB1 : BlockDefect :=
  { dead := false, _defectType := DEFECTTYPE.Configuration, _isGlobal := true,
    _formula := undeadB1 ++ "\n&&\n" ++ sliceX86, _suffix := "undead",
    _cb := (B1 DEFECTTYPE.None).setDefectType DEFECTTYPE.Configuration,
    defectMap := [("x86", "kconfig")], _musFormula := "" }

/-- The validation file `correct_parentheses_for_elif.c`: `#ifdef CONFIG_A` around the
chain `#if defined(CONFIG_A)`, `#elif defined(CONFIG_B) || defined(CONFIG_C)`, `#else`. -/
def elifFile : CppFile :=
  { filename := "correct_parentheses_for_elif.c", specific_arch := "", top_block := some 0,
    define_map := [] }

/-- A block of the validation file. -/
def elifBlock (addr : Nat) (name exp : String) (isElse : Bool) (code : String)
    (parent prev : BlockPtr) : ConditionalBlock :=
  .mk { addr := addr, getName := name, lineStart := 0, colStart := 0, lineEnd := 0, colEnd := 0,
        isElseBlock := isElse, _exp := exp, defectType := DEFECTTYPE.None,
        cpp_file := elifFile, getCodeConstraints := code, getBuildSystemCondition := "" }
    parent prev

/-- The top block of the validation file. -/
def elifB00 : ConditionalBlock := elifBlock 0 "B00" "" false "B00" .nullptr .nullptr

/-- The outer block `#ifdef CONFIG_A`. -/
def elifB0 : ConditionalBlock :=
  elifBlock 1 "B0" "CONFIG_A" false "( B0 <-> CONFIG_A )\n&& B00" (.ptr elifB00) .nullptr

/-- The block `#if defined(CONFIG_A)`. -/
def elifB1 : ConditionalBlock :=
  elifBlock 2 "B1" "CONFIG_A" false
    "( B1 <-> CONFIG_A )\n&& ( B1 -> B0 )\n&& ( B0 <-> CONFIG_A )\n&& B00"
    (.ptr elifB0) .nullptr

/-- The block `#elif defined(CONFIG_B) || defined(CONFIG_C)`. -/
def elifB2 : ConditionalBlock :=
  elifBlock 3 "B2" "CONFIG_B || CONFIG_C" false
    ("( B2 <-> ( CONFIG_B || CONFIG_C ) && ( ! B1 ) )\n&& ( B2 -> B0 )\n"
      ++ "&& ( B1 <-> CONFIG_A )\n&& ( B0 <-> CONFIG_A )\n&& B00")
    (.ptr elifB0) (.ptr elifB1)

/-- The block `#else` of the chain. -/
def elifB3 : ConditionalBlock :=
  elifBlock 4 "B3" "" true
    ("( B3 <-> ( ! B1 ) && ( ! B2 ) )\n&& ( B3 -> B0 )\n"
      ++ "&& ( B2 <-> ( CONFIG_B || CONFIG_C ) && ( ! B1 ) )\n"
      ++ "&& ( B1 <-> CONFIG_A )\n&& ( B0 <-> CONFIG_A )\n&& B00")
    (.ptr elifB0) (.ptr elifB2)

/-- The model `sparc`: `CONFIG_A` implies `CONFIG_B`, which has no entry. -/
def sparc : ConfigurationModel :=
  rsfModel 105 "sparc" [("CONFIG_A", "CONFIG_B")] []

/-- The model loaded from an empty model file. -/
def empty : ConfigurationModel := rsfModel 107 "empty" [] []

/-- A block of `a.c` opened by `#ifndef CONFIG_ARM`, the file being built only with
`CONFIG_ARM`. -/
def B3 : ConditionalBlock :=
  .mk { addr := 4, getName := "B3", lineStart := 11, colStart := 1, lineEnd := 13, colEnd := 1,
        isElseBlock := false, _exp := "! CONFIG_ARM", defectType := DEFECTTYPE.None,
        cpp_file := file "", getCodeConstraints := "( B3 <-> ! CONFIG_ARM )\n&& B00",
        getBuildSystemCondition := "CONFIG_ARM" }
    (.ptr (B00 "")) .nullptr

/-- The only block of the file `b.c`, which has no conditional block. -/
def rootOnly : ConditionalBlock :=
  .mk { addr := 0, getName := "B00", lineStart := 0, colStart := 0, lineEnd := 0, colEnd := 0,
        isElseBlock := false, _exp := "", defectType := DEFECTTYPE.None,
        cpp_file := { filename := "b.c", specific_arch := "", top_block := some 0,
                      define_map := [] },
        getCodeConstraints := "( B00 <-> FILE_b.c )", getBuildSystemCondition := "FILE_b.c" }
    .nullptr .nullptr

/-- The model `sh`, under which `b.c` is built only with `CONFIG_A`, which is always
off. -/
def sh : ConfigurationModel :=
  rsfModel 108 "sh" [("FILE_b.c", "CONFIG_A"), ("CONFIG_A", "")] [("ALWAYS_OFF", ["CONFIG_A"])]

/-- A textual model with the type file `Item A boolean`, `Item A_MODULE tristate`,
`Item FOO boolean`. -/
def typed : RsfConfigurationModel :=
  RsfConfigurationModel.new regex 109 "typed" ⟨[("CONFIG_A", "CONFIG_B")], []⟩
    [("A", "boolean"), ("A_MODULE", "tristate"), ("FOO", "boolean")]

/-- A CNF model in which `A` is a boolean symbol and `CONFIG_A` the only name with an
associated symbol. -/
def cnf : CnfConfigurationModel :=
  { getSymbolType := fun item => if item = "A" then 1 else 0,
    hasAssociatedSymbol := fun symbol => symbol = "CONFIG_A",
    getMetaValue := fun _ => none }

/-- The defect `analyzeBlock` returns for `B3` under the main model `empty`. -/
def defectB3 : BlockDefect :=
  { dead := true, _defectType := DEFECTTYPE.BuildSystem, _isGlobal := true,
    _formula := "B3\n&&\n( B3 <-> ! CONFIG_ARM )\n&& B00\n&&\nCONFIG_ARM", _suffix := "dead",
    _cb := B3.setDefectType DEFECTTYPE.BuildSystem, defectMap := [("empty", "kbuild")],
    _musFormula := "B3\n&&\n( B3 <-> ! CONFIG_ARM )\n&& B00\n&&\nCONFIG_ARM" }

/-- The model `alpha`, complete and without an entry for `CONFIG_A`. -/
def alpha : ConfigurationModel := rsfModel 110 "alpha" [("CONFIG_X", "")] []

/-- The textual model `chain`: `CONFIG_A` implies `CONFIG_B && CONFIG_C`, `CONFIG_B`
implies `CONFIG_A`, `CONFIG_C` implies `CONFIG_D`, `CONFIG_E` implies `CONFIG_F`. -/
def chain : RsfConfigurationModel :=
  RsfConfigurationModel.new regex 111 "chain"
    ⟨[("CONFIG_A", "CONFIG_B && CONFIG_C"), ("CONFIG_B", "CONFIG_A"),
      ("CONFIG_C", "CONFIG_D"), ("CONFIG_E", "CONFIG_F")], []⟩ []

/-- The file name of the report `analyzeBlock` makes for a block without any model. -/
def reportName (block : ConditionalBlock) : Option String :=
  (analyzeBlock (env []) block none).1.map (fun d => d.getDefectReportFilename)

end Scenario

/-! ## The ladder of `isDefect` -/

/-- `DeadBlockDefect::isDefect` walks the ladder from `B_i`, whatever the state of the
object it runs on. -/
theorem dead_isDefect_eq (env : Env) (d : BlockDefect) (model : Option ConfigurationModel)
    (is_main_model : Bool) (hd : d.dead = true) :
    DeadBlockDefect.isDefect env d model is_main_model
      = (firstUnsat env.checkSatisfiable (ladder env d._cb.getName d._cb model)).map
          (d.settle (archOf env model) is_main_model (codeFormula d._cb.getName d._cb)) := by
  unfold DeadBlockDefect.isDefect ladder
  simp only [SatChecker.call, SatChecker.add, SatChecker.new, SatChecker.loadCnfModel]
  cases model with
  | none =>
    simp only [firstUnsat, List.nil_append, codeFormula]
    cases h1 : env.checkSatisfiable _ with
    | none => simp
    | some r => cases r <;> simp [BlockDefect.settle, BlockDefect.hit, escalate, hd]
  | some m =>
    simp only [firstUnsat, List.nil_append, List.cons_append, List.singleton_append, codeFormula]
    generalize m.doIntersect env.itemsOfString d._cb.getCodeConstraints
      (some d._cb.getFile.getDefineChecker) [] none = kc
    generalize m.doIntersect env.itemsOfString d._cb.getBuildSystemCondition none kc.2.1
      (some kc.1) = kb
    by_cases hcnf : m.getModelVersionIdentifier = "cnf" <;>
    by_cases hcomp : m.isComplete = true <;>
    simp only [hcnf, hcomp, if_true, if_false, List.cons_append, List.nil_append,
      List.append_nil, firstUnsat, Bool.not_true, Bool.not_false, Bool.false_eq_true] <;>
    (repeat' split) <;>
    simp_all [BlockDefect.settle, BlockDefect.hit, escalate, archOf, firstUnsat] <;>
    (cases hdt : d._defectType <;> simp_all)

/-- `UndeadBlockDefect::isDefect` on a block with a parent walks the ladder from
`( parent && ! B_i )`, whatever the state of the object it runs on. -/
theorem undead_isDefect_eq (env : Env) (d : BlockDefect) (model : Option ConfigurationModel)
    (is_main_model : Bool) (hd : d.dead = false) (parent : ConditionalBlock)
    (hp : d._cb.getParent = BlockPtr.ptr parent) :
    UndeadBlockDefect.isDefect env d model is_main_model
      = (firstUnsat env.checkSatisfiable (ladder env (undeadFirst parent d._cb) d._cb model)).map
          (d.settle (archOf env model) is_main_model
            (codeFormula (undeadFirst parent d._cb) d._cb)) := by
  unfold UndeadBlockDefect.isDefect ladder
  simp only [hp, SatChecker.call, SatChecker.add, SatChecker.new, SatChecker.loadCnfModel,
    undeadFirst]
  cases model with
  | none =>
    simp only [firstUnsat, List.nil_append, codeFormula]
    cases h1 : env.checkSatisfiable _ with
    | none => simp
    | some r => cases r <;> simp [BlockDefect.settle, BlockDefect.hit, escalate, hd]
  | some m =>
    simp only [firstUnsat, List.nil_append, List.cons_append, List.singleton_append, codeFormula]
    generalize m.doIntersect env.itemsOfString d._cb.getCodeConstraints
      (some d._cb.getFile.getDefineChecker) [] none = kc
    generalize m.doIntersect env.itemsOfString d._cb.getBuildSystemCondition none kc.2.1
      (some kc.1) = kb
    by_cases hcnf : m.getModelVersionIdentifier = "cnf" <;>
    by_cases hcomp : m.isComplete = true <;>
    simp only [hcnf, hcomp, if_true, if_false, List.cons_append, List.nil_append,
      List.append_nil, firstUnsat, Bool.not_true, Bool.not_false, Bool.false_eq_true] <;>
    (repeat' split) <;>
    simp_all [BlockDefect.settle, BlockDefect.hit, escalate, archOf, firstUnsat] <;>
    (cases hdt : d._defectType <;> simp_all)

/-- The virtual `isDefect` is the walk of the ladder of the object, settled on it. -/
theorem isDefect_eq_walk (env : Env) (d : BlockDefect) (model : Option ConfigurationModel)
    (is_main_model : Bool) :
    d.isDefect env model is_main_model
      = (walk env d.dead d._cb model).map (d.settle (archOf env model) is_main_model d.code) := by
  unfold BlockDefect.isDefect walk BlockDefect.code firstConjunct
  cases hd : d.dead with
  | true => simp [dead_isDefect_eq env d model is_main_model hd]
  | false =>
    cases hp : d._cb.getParent with
    | nullptr => simp [UndeadBlockDefect.isDefect, hp, BlockDefect.settle]
    | ptr parent => simp [undead_isDefect_eq env d model is_main_model hd parent hp]

/-! ## Facts about the ladder -/

theorem firstUnsat_mem (sat : List SatInput → Option Bool) (l : List Rung) (r : Rung)
    (h : firstUnsat sat l = some (some r)) : r ∈ l ∧ sat r.query = some false := by
  induction l with
  | nil => simp [firstUnsat] at h
  | cons r0 rest ih =>
    unfold firstUnsat at h
    split at h
    · simp at h
    · rename_i hq
      simp only [Option.some.injEq] at h
      subst h
      exact ⟨List.mem_cons_self _ _, hq⟩
    · have := ih h
      exact ⟨List.mem_cons_of_mem _ this.1, this.2⟩

/-- The ladder starts with the code step, which does not depend on the model, and goes on
with steps of the kinds configuration, build system and, for a complete model only,
referential. -/
theorem ladder_cons (env : Env) (first : String) (cb : ConditionalBlock)
    (model : Option ConfigurationModel) :
    ∃ tail, ladder env first cb model
        = ⟨DEFECTTYPE.Implementation, "", [SatInput.formula (codeFormula first cb)],
            codeFormula first cb⟩ :: tail
      ∧ ∀ r ∈ tail, r.kind = DEFECTTYPE.Configuration ∨ r.kind = DEFECTTYPE.BuildSystem
          ∨ (r.kind = DEFECTTYPE.Referential ∧ ∃ m, model = some m ∧ m.isComplete = true) := by
  cases model with
  | none => exact ⟨[], by simp [ladder]⟩
  | some m =>
    refine ⟨_, by simp only [ladder, List.cons_append, List.nil_append]; rfl, ?_⟩
    intro r hr
    by_cases hc : m.isComplete = true
    · simp only [hc, if_true, List.mem_cons, List.mem_singleton, List.not_mem_nil,
        or_false] at hr
      rcases hr with hr | hr | hr <;> simp [hr, hc]
    · simp only [hc, if_false, List.mem_cons, List.mem_singleton, List.not_mem_nil,
        or_false, List.append_nil, Bool.false_eq_true] at hr
      rcases hr with hr | hr <;> simp [hr]

/-- When the code step throws, every walk throws. -/
theorem walk_of_codeSat_none (env : Env) (dead : Bool) (cb : ConditionalBlock)
    (h : codeSat env dead cb = none) (model : Option ConfigurationModel) :
    walk env dead cb model = none := by
  unfold codeSat at h
  unfold walk
  cases hf : firstConjunct dead cb with
  | none => simp [hf] at h
  | some first =>
    obtain ⟨tail, htail, _⟩ := ladder_cons env first cb model
    simp only [hf] at h
    simp [htail, firstUnsat, h]

/-- When the code step is unsatisfiable, every walk stops at it, whatever the model. -/
theorem walk_of_codeSat_false (env : Env) (dead : Bool) (cb : ConditionalBlock)
    (h : codeSat env dead cb = some false) (model : Option ConfigurationModel) :
    ∃ r, walk env dead cb model = some (some r) ∧ r.kind = DEFECTTYPE.Implementation := by
  unfold codeSat at h
  unfold walk
  cases hf : firstConjunct dead cb with
  | none => simp [hf] at h
  | some first =>
    obtain ⟨tail, htail, _⟩ := ladder_cons env first cb model
    simp only [hf] at h
    refine ⟨⟨DEFECTTYPE.Implementation, "", [SatInput.formula (codeFormula first cb)],
      codeFormula first cb⟩, ?_, rfl⟩
    simp [htail, firstUnsat, h]

/-- When the code step is satisfiable, a walk stops at a configuration, a build system
or, for a complete model only, a referential step. -/
theorem walk_of_codeSat_true (env : Env) (dead : Bool) (cb : ConditionalBlock)
    (h : codeSat env dead cb = some true) (model : Option ConfigurationModel) (r : Rung)
    (hw : walk env dead cb model = some (some r)) :
    r.kind = DEFECTTYPE.Configuration ∨ r.kind = DEFECTTYPE.BuildSystem
      ∨ (r.kind = DEFECTTYPE.Referential ∧ ∃ m, model = some m ∧ m.isComplete = true) := by
  unfold codeSat at h
  unfold walk at hw
  cases hf : firstConjunct dead cb with
  | none => simp [hf] at hw
  | some first =>
    obtain ⟨tail, htail, hkinds⟩ := ladder_cons env first cb model
    simp only [hf] at h hw
    simp only [htail, firstUnsat, h] at hw
    exact hkinds r (firstUnsat_mem _ _ _ hw).1

/-- A walk that stops at a step other than the code step has found the code step
satisfiable. -/
theorem codeSat_of_walk (env : Env) (dead : Bool) (cb : ConditionalBlock)
    (model : Option ConfigurationModel) (r : Rung)
    (hw : walk env dead cb model = some (some r)) :
    (r.kind = DEFECTTYPE.Implementation ∧ codeSat env dead cb = some false)
      ∨ (r.kind ≠ DEFECTTYPE.Implementation ∧ codeSat env dead cb = some true) := by
  cases hc : codeSat env dead cb with
  | none => simp [walk_of_codeSat_none env dead cb hc model] at hw
  | some b =>
    cases b with
    | false =>
      obtain ⟨r1, h1, hk⟩ := walk_of_codeSat_false env dead cb hc model
      simp only [hw, Option.some.injEq] at h1
      subst h1
      exact Or.inl ⟨hk, rfl⟩
    | true =>
      have := walk_of_codeSat_true env dead cb hc model r hw
      refine Or.inr ⟨?_, rfl⟩
      rcases this with h | h | h <;> simp [h]

/-! ## Facts about a single check -/

/-- The two ways a check returns: `false` after a walk without unsatisfiable step, the
code formula stored; `true` after a walk that stopped at a step, the step settled on the
object. -/
theorem isDefect_cases (env : Env) (d : BlockDefect) (model : Option ConfigurationModel)
    (is_main_model : Bool) (r : Bool) (d1 : BlockDefect)
    (h : d.isDefect env model is_main_model = some (r, d1)) :
    (r = false ∧ walk env d.dead d._cb model = some none
        ∧ d1 = { d with _formula := d.code })
      ∨ (r = true ∧ ∃ rg, walk env d.dead d._cb model = some (some rg)
        ∧ d1 = d.hit (archOf env model) is_main_model rg) := by
  rw [isDefect_eq_walk] at h
  cases hw : walk env d.dead d._cb model with
  | none => simp [hw] at h
  | some v =>
    cases v with
    | none =>
      simp only [hw, Option.map_some', BlockDefect.settle, Option.some.injEq,
        Prod.mk.injEq] at h
      exact Or.inl ⟨h.1.symm, rfl, h.2.symm⟩
    | some rg =>
      simp only [hw, Option.map_some', BlockDefect.settle, Option.some.injEq,
        Prod.mk.injEq] at h
      exact Or.inr ⟨h.1.symm, rg, rfl, h.2.symm⟩

/-- A configuration or build-system kind stays one under every step but the code step. -/
theorem escalate_keeps (old k : DEFECTTYPE)
    (hold : old = DEFECTTYPE.Configuration ∨ old = DEFECTTYPE.BuildSystem)
    (hk : k = DEFECTTYPE.Configuration ∨ k = DEFECTTYPE.BuildSystem
      ∨ k = DEFECTTYPE.Referential) :
    escalate old k = DEFECTTYPE.Configuration ∨ escalate old k = DEFECTTYPE.BuildSystem := by
  rcases hold with h | h <;> rcases hk with h2 | h2 | h2 <;> simp [escalate, h, h2]

/-- A configuration, build-system or referential kind stays one of these under every step
but the code step. -/
theorem escalate_stays (old k : DEFECTTYPE)
    (hold : old = DEFECTTYPE.Configuration ∨ old = DEFECTTYPE.BuildSystem
      ∨ old = DEFECTTYPE.Referential)
    (hk : k = DEFECTTYPE.Configuration ∨ k = DEFECTTYPE.BuildSystem
      ∨ k = DEFECTTYPE.Referential) :
    escalate old k = DEFECTTYPE.Configuration ∨ escalate old k = DEFECTTYPE.BuildSystem
      ∨ escalate old k = DEFECTTYPE.Referential := by
  rcases hold with h | h | h <;> rcases hk with h2 | h2 | h2 <;> simp [escalate, h, h2]

/-- One check of the cross-check, made on a block whose code step is satisfiable: the
class, the block and the global bit of the object are kept, a configuration or
build-system kind stays one, and the returned value tells whether the walk stopped at a
step. -/
theorem isDefect_crosscheck_step (env : Env) (d : BlockDefect) (m : ConfigurationModel)
    (hcode : codeSat env d.dead d._cb = some true) (r : Bool) (d1 : BlockDefect)
    (h : d.isDefect env (some m) false = some (r, d1)) :
    d1.dead = d.dead ∧ d1._cb = d._cb ∧ d1._isGlobal = d._isGlobal
      ∧ ((d._defectType = DEFECTTYPE.Configuration ∨ d._defectType = DEFECTTYPE.BuildSystem) →
          (d1._defectType = DEFECTTYPE.Configuration ∨ d1._defectType = DEFECTTYPE.BuildSystem))
      ∧ ((d._defectType = DEFECTTYPE.Configuration ∨ d._defectType = DEFECTTYPE.BuildSystem
            ∨ d._defectType = DEFECTTYPE.Referential) →
          (d1._defectType = DEFECTTYPE.Configuration ∨ d1._defectType = DEFECTTYPE.BuildSystem
            ∨ d1._defectType = DEFECTTYPE.Referential))
      ∧ (r = false → walk env d.dead d._cb (some m) = some none ∧ d1._formula = d.code)
      ∧ (r = true → ∃ rg, walk env d.dead d._cb (some m) = some (some rg)) := by
  rcases isDefect_cases env d (some m) false r d1 h with ⟨hr, hw, hd⟩ | ⟨hr, rg, hw, hd⟩
  · subst hd
    subst hr
    simp [hw]
  · subst hd
    subst hr
    have hk := walk_of_codeSat_true env d.dead d._cb hcode (some m) rg hw
    have hk2 : rg.kind = DEFECTTYPE.Configuration ∨ rg.kind = DEFECTTYPE.BuildSystem
        ∨ rg.kind = DEFECTTYPE.Referential := by
      rcases hk with h1 | h1 | h1
      · exact Or.inl h1
      · exact Or.inr (Or.inl h1)
      · exact Or.inr (Or.inr h1.1)
    have hne : rg.kind ≠ DEFECTTYPE.Implementation := by
      rcases hk2 with h1 | h1 | h1 <;> simp [h1]
    refine ⟨rfl, rfl, ?_, ?_, ?_, ?_, ?_⟩
    · simp [BlockDefect.hit, hne]
    · intro hold
      exact escalate_keeps _ _ hold hk2
    · intro hold
      exact escalate_stays _ _ hold hk2
    · intro hf
      cases hf
    · intro _
      exact ⟨rg, hw⟩

/-- The cross-check on a block whose code step is satisfiable, started on a defect that
is not global: either it ran through the whole registry, every model other than the main
model showed the defect and the result is marked global, or a model other than the main
model did not show the defect and the result is not global. -/
theorem crosscheck_spec (env : Env) (main : ConfigurationModel) (dead : Bool)
    (cb : ConditionalBlock) (hcode : codeSat env dead cb = some true)
    (models : List (String × ConfigurationModel)) :
    ∀ (d d1 : BlockDefect), d.dead = dead → d._cb = cb → d._isGlobal = false →
      crosscheck env main models d = some d1 →
      d1.dead = dead ∧ d1._cb = cb
        ∧ ((d._defectType = DEFECTTYPE.Configuration ∨ d._defectType = DEFECTTYPE.BuildSystem) →
          (d1._defectType = DEFECTTYPE.Configuration ∨ d1._defectType = DEFECTTYPE.BuildSystem))
        ∧ ((d._defectType = DEFECTTYPE.Configuration ∨ d._defectType = DEFECTTYPE.BuildSystem
              ∨ d._defectType = DEFECTTYPE.Referential) →
          (d1._defectType = DEFECTTYPE.Configuration ∨ d1._defectType = DEFECTTYPE.BuildSystem
              ∨ d1._defectType = DEFECTTYPE.Referential))
        ∧ ((d1._isGlobal = true ∧ ∀ e ∈ models, e.2.addr ≠ main.addr →
              ∃ rg, walk env dead cb (some e.2) = some (some rg))
          ∨ (d1._isGlobal = false
              ∧ (∃ e ∈ models, e.2.addr ≠ main.addr ∧ walk env dead cb (some e.2) = some none)
              ∧ ∀ first, firstConjunct dead cb = some first →
                  d1._formula = codeFormula first cb)) := by
  induction models with
  | nil =>
    intro d d1 hd hcb _ h
    simp only [crosscheck, Option.some.injEq] at h
    subst h
    simp [BlockDefect.markAsGlobal, hd, hcb]
  | cons e rest ih =>
    intro d d1 hd hcb hg h
    unfold crosscheck at h
    by_cases hm : e.2.addr = main.addr
    · simp only [hm, if_true] at h
      obtain ⟨h1, h2, h3, h3b, h4⟩ := ih d d1 hd hcb hg h
      refine ⟨h1, h2, h3, h3b, ?_⟩
      rcases h4 with ⟨hg1, hall⟩ | ⟨hg1, ⟨e1, he1, hne, hw⟩, hform⟩
      · left
        refine ⟨hg1, ?_⟩
        intro e2 he2 hne2
        rcases List.mem_cons.mp he2 with heq | hmem
        · subst heq
          exact absurd hm hne2
        · exact hall e2 hmem hne2
      · right
        exact ⟨hg1, ⟨e1, List.mem_cons_of_mem _ he1, hne, hw⟩, hform⟩
    · simp only [hm, if_false] at h
      cases hres : d.isDefect env (some e.2) false with
      | none => simp [hres] at h
      | some res =>
        obtain ⟨r, d2⟩ := res
        have hcode2 : codeSat env d.dead d._cb = some true := by rw [hd, hcb]; exact hcode
        obtain ⟨s1, s2, s3, s4, s4b, s5, s6⟩ :=
          isDefect_crosscheck_step env d e.2 hcode2 r d2 hres
        cases r with
        | false =>
          simp only [hres, Option.some.injEq] at h
          subst h
          refine ⟨s1.trans hd, s2.trans hcb, s4, s4b,
            Or.inr ⟨s3.trans hg, ⟨e, List.mem_cons_self _ _, hm, ?_⟩, ?_⟩⟩
          · have := (s5 rfl).1
            rw [hd, hcb] at this
            exact this
          · intro first hfirst
            rw [(s5 rfl).2]
            unfold BlockDefect.code
            rw [hd, hcb, hfirst]
        | true =>
          simp only [hres] at h
          obtain ⟨h1, h2, h3, h3b, h4⟩ :=
            ih d2 d1 (s1.trans hd) (s2.trans hcb) (s3.trans hg) h
          refine ⟨h1, h2, fun hold => h3 (s4 hold), fun hold => h3b (s4b hold), ?_⟩
          rcases h4 with ⟨hg1, hall⟩ | ⟨hg1, ⟨e1, he1, hne, hw⟩, hform⟩
          · left
            refine ⟨hg1, ?_⟩
            intro e2 he2 hne2
            rcases List.mem_cons.mp he2 with heq | hmem
            · subst heq
              have := s6 rfl
              rw [hd, hcb] at this
              exact this
            · exact hall e2 hmem hne2
          · right
            exact ⟨hg1, ⟨e1, List.mem_cons_of_mem _ he1, hne, hw⟩, hform⟩

/-! ## Facts about `analyzeBlock` -/

/-- The saved kind of a block is read by none of the steps of a walk. -/
theorem walk_setDefectType (env : Env) (dead : Bool) (cb : ConditionalBlock) (t : DEFECTTYPE)
    (model : Option ConfigurationModel) :
    walk env dead (cb.setDefectType t) model = walk env dead cb model := by
  cases cb
  rfl

/-- The saved kind of a block is not read by the code step. -/
theorem codeSat_setDefectType (env : Env) (dead : Bool) (cb : ConditionalBlock)
    (t : DEFECTTYPE) : codeSat env dead (cb.setDefectType t) = codeSat env dead cb := by
  cases cb
  rfl

theorem firstConjunct_setDefectType (dead : Bool) (cb : ConditionalBlock) (t : DEFECTTYPE) :
    firstConjunct dead (cb.setDefectType t) = firstConjunct dead cb := by
  cases cb
  rfl

theorem codeFormula_setDefectType (first : String) (cb : ConditionalBlock) (t : DEFECTTYPE) :
    codeFormula first (cb.setDefectType t) = codeFormula first cb := by
  cases cb
  rfl

theorem fresh_dead (dead : Bool) (cb : ConditionalBlock) :
    (BlockDefect.fresh dead cb).dead = dead := by
  cases dead <;> rfl

theorem fresh_cb (dead : Bool) (cb : ConditionalBlock) :
    (BlockDefect.fresh dead cb)._cb = cb := by
  cases dead <;> rfl

/-- A fresh defect on which a check returned `true`: the walk under the model stopped at
a step `rg`, whose kind is the kind of the defect; the defect is global exactly when the
step is the code step. -/
theorem fresh_isDefect_true (env : Env) (dead : Bool) (cb : ConditionalBlock)
    (model : Option ConfigurationModel) (is_main_model : Bool) (d0 : BlockDefect)
    (h : (BlockDefect.fresh dead cb).isDefect env model is_main_model = some (true, d0)) :
    ∃ rg, walk env dead cb model = some (some rg)
      ∧ d0.dead = dead ∧ d0._cb = cb ∧ d0._defectType = rg.kind
      ∧ d0._formula = rg.formula
      ∧ (d0._isGlobal = true ↔ rg.kind = DEFECTTYPE.Implementation)
      ∧ d0._suffix = (if dead then "dead" else "undead") := by
  rcases isDefect_cases env _ model is_main_model true d0 h with ⟨hr, _, _⟩ | ⟨_, rg, hw, hd⟩
  · cases hr
  · rw [fresh_dead, fresh_cb] at hw
    refine ⟨rg, hw, ?_⟩
    subst hd
    cases dead <;> cases hk : rg.kind <;>
      simp [BlockDefect.hit, BlockDefect.fresh, DeadBlockDefect.new, UndeadBlockDefect.new,
        escalate, hk]

/-- A walk decides what a check on a fresh defect returns. -/
theorem fresh_isDefect_of_walk (env : Env) (dead : Bool) (cb : ConditionalBlock)
    (model : Option ConfigurationModel) (is_main_model : Bool) (v : Option Rung)
    (h : walk env dead cb model = some v) :
    ∃ d1, (BlockDefect.fresh dead cb).isDefect env model is_main_model = some (v.isSome, d1) := by
  rw [isDefect_eq_walk, fresh_dead, fresh_cb, h]
  cases v <;> simp [BlockDefect.settle]

/-- How `analyzeBlock` comes to return a defect: a check on a fresh defect of one of the
two classes returned `true` under the main model, the undead one only after the dead one
returned `false`, and the rest of `analyzeBlock_helper` returned the defect. -/
theorem analyzeBlock_some (env : Env) (block : ConditionalBlock)
    (main : Option ConfigurationModel) (d : BlockDefect) (block1 : ConditionalBlock)
    (h : analyzeBlock env block main = (some d, block1)) :
    ∃ dead d0, (BlockDefect.fresh dead block).isDefect env main true = some (true, d0)
      ∧ (dead = false →
          ∃ d1, (DeadBlockDefect.new block).isDefect env main true = some (false, d1))
      ∧ analyzeBlock_found env block main d0 = (some (some d), block1) := by
  unfold analyzeBlock analyzeBlock_helper at h
  cases h1 : (DeadBlockDefect.new block).isDefect env main true with
  | none => simp [h1] at h
  | some res1 =>
    obtain ⟨r1, d1⟩ := res1
    cases r1 with
    | true =>
      simp only [h1] at h
      refine ⟨true, d1, h1, by simp, ?_⟩
      generalize analyzeBlock_found env block main d1 = res at h
      obtain ⟨o, b⟩ := res
      cases o with
      | none => simp at h
      | some r => simp only [Prod.mk.injEq] at h; rw [h.1, h.2]
    | false =>
      simp only [h1] at h
      cases h2 : (UndeadBlockDefect.new block).isDefect env main true with
      | none => simp [h2] at h
      | some res2 =>
        obtain ⟨r2, d2⟩ := res2
        cases r2 with
        | false => simp [h2] at h
        | true =>
          simp only [h2] at h
          refine ⟨false, d2, h2, fun _ => ⟨d1, rfl⟩, ?_⟩
          generalize analyzeBlock_found env block main d2 = res at h
          obtain ⟨o, b⟩ := res
          cases o with
          | none => simp at h
          | some r => simp only [Prod.mk.injEq] at h; rw [h.1, h.2]

theorem getFile_setDefectType (cb : ConditionalBlock) (t : DEFECTTYPE) :
    (cb.setDefectType t).getFile = cb.getFile := by
  cases cb
  rfl

theorem getName_setDefectType (cb : ConditionalBlock) (t : DEFECTTYPE) :
    (cb.setDefectType t).getName = cb.getName := by
  cases cb
  rfl

/-- The ways the rest of `analyzeBlock_helper` returns a defect: marked global for an
arch specific file; as it is without main model or when no cross-check is needed; else as
the cross-check leaves it. -/
theorem analyzeBlock_found_some (env : Env) (block : ConditionalBlock)
    (main : Option ConfigurationModel) (d0 d : BlockDefect) (block1 : ConditionalBlock)
    (h : analyzeBlock_found env block main d0 = (some (some d), block1)) :
    block1 = (reclassified env block main d0)._cb
      ∧ ((block.getFile.specific_arch ≠ "" ∧ d = (reclassified env block main d0).markAsGlobal)
        ∨ (block.getFile.specific_arch = "" ∧ main = none
            ∧ d = reclassified env block main d0)
        ∨ (block.getFile.specific_arch = "" ∧ main ≠ none
            ∧ (reclassified env block main d0).needsCrosscheck = false
            ∧ d = reclassified env block main d0)
        ∨ (block.getFile.specific_arch = "" ∧ ∃ mm, main = some mm
            ∧ (reclassified env block main d0).needsCrosscheck = true
            ∧ crosscheck env mm env.models (reclassified env block main d0) = some d)) := by
  unfold analyzeBlock_found at h
  simp only [getFile_setDefectType] at h
  have hrec : ({ (if d0.isNoKconfigDefect env.itemsOfString main = true then
            d0.setDefectType DEFECTTYPE.NoKconfig else d0) with
          _cb := block.setDefectType
            (if d0.isNoKconfigDefect env.itemsOfString main = true then
              d0.setDefectType DEFECTTYPE.NoKconfig else d0).defectType } : BlockDefect)
        = reclassified env block main d0 := by
    unfold reclassified
    by_cases hn : d0.isNoKconfigDefect env.itemsOfString main = true <;>
      simp [hn, BlockDefect.setDefectType, BlockDefect.defectType]
  have hblk : block.setDefectType
        (if d0.isNoKconfigDefect env.itemsOfString main = true then
          d0.setDefectType DEFECTTYPE.NoKconfig else d0).defectType
        = (reclassified env block main d0)._cb := by
    unfold reclassified
    by_cases hn : d0.isNoKconfigDefect env.itemsOfString main = true <;>
      simp [hn, BlockDefect.setDefectType, BlockDefect.defectType]
  rw [hrec, hblk] at h
  by_cases harch : block.getFile.specific_arch = ""
  · simp only [harch, ne_eq, not_true_eq_false, if_false] at h
    cases main with
    | none =>
      simp only [Prod.mk.injEq, Option.some.injEq] at h
      exact ⟨h.2.symm, Or.inr (Or.inl ⟨harch, rfl, h.1.symm⟩)⟩
    | some mm =>
      simp only at h
      by_cases hn : (reclassified env block (some mm) d0).needsCrosscheck = true
      · simp only [hn, Bool.not_true, Bool.false_eq_true, if_false] at h
        cases hc : crosscheck env mm env.models (reclassified env block (some mm) d0) with
        | none => simp [hc] at h
        | some dd =>
          simp only [hc, Prod.mk.injEq, Option.some.injEq] at h
          refine ⟨h.2.symm, Or.inr (Or.inr (Or.inr ⟨harch, mm, rfl, hn, ?_⟩))⟩
          rw [hc, h.1]
      · simp only [Bool.not_eq_true] at hn
        simp only [hn, Bool.not_false, if_true, Prod.mk.injEq, Option.some.injEq] at h
        exact ⟨h.2.symm, Or.inr (Or.inr (Or.inl ⟨harch, by simp, hn, h.1.symm⟩))⟩
  · simp only [harch, ne_eq, not_false_eq_true, if_true, Prod.mk.injEq,
      Option.some.injEq] at h
    exact ⟨h.2.symm, Or.inl ⟨harch, h.1.symm⟩⟩

theorem needsCrosscheck_true (d : BlockDefect) (h : d.needsCrosscheck = true) :
    (d._defectType = DEFECTTYPE.Configuration ∨ d._defectType = DEFECTTYPE.BuildSystem
        ∨ d._defectType = DEFECTTYPE.Referential) ∧ d._isGlobal = false := by
  unfold BlockDefect.needsCrosscheck at h
  cases hdt : d._defectType <;> simp_all

theorem needsCrosscheck_false (d : BlockDefect) (h : d.needsCrosscheck = false) :
    d._defectType = DEFECTTYPE.None ∨ d._defectType = DEFECTTYPE.Implementation
      ∨ d._defectType = DEFECTTYPE.NoKconfig ∨ d._isGlobal = true := by
  unfold BlockDefect.needsCrosscheck at h
  cases hdt : d._defectType <;> simp_all

/-- The kind of the step at which a walk stopped. -/
theorem walk_kind (env : Env) (dead : Bool) (cb : ConditionalBlock)
    (model : Option ConfigurationModel) (rg : Rung)
    (hw : walk env dead cb model = some (some rg)) :
    (rg.kind = DEFECTTYPE.Implementation ∧ codeSat env dead cb = some false)
      ∨ ((rg.kind = DEFECTTYPE.Configuration ∨ rg.kind = DEFECTTYPE.BuildSystem
          ∨ (rg.kind = DEFECTTYPE.Referential ∧ ∃ m, model = some m ∧ m.isComplete = true))
        ∧ codeSat env dead cb = some true) := by
  rcases codeSat_of_walk env dead cb model rg hw with ⟨hk, hc⟩ | ⟨_, hc⟩
  · exact Or.inl ⟨hk, hc⟩
  · exact Or.inr ⟨walk_of_codeSat_true env dead cb hc model rg hw, hc⟩

/-- The defect that enters the cross-check in `analyzeBlock_helper` and the one that
leaves it. The main check stopped at a step `rg` other than the code step, whose kind was
not replaced by `NoKconfig`; the cross-check keeps a configuration or build-system kind
as such and the three model kinds among themselves; and either every model other than
the main model shows the defect and the result is global, or one of them does not and
the result is not global. -/
theorem analyzeBlock_crosschecked (env : Env) (block : ConditionalBlock)
    (mm : ConfigurationModel) (dead : Bool) (d0 d : BlockDefect) (rg : Rung)
    (hw : walk env dead block (some mm) = some (some rg))
    (hd0 : d0.dead = dead) (hty0 : d0._defectType = rg.kind)
    (hn : (reclassified env block (some mm) d0).needsCrosscheck = true)
    (hc : crosscheck env mm env.models (reclassified env block (some mm) d0) = some d) :
    codeSat env dead block = some true
      ∧ d.dead = dead ∧ d._cb = block.setDefectType rg.kind
      ∧ ((rg.kind = DEFECTTYPE.Configuration ∨ rg.kind = DEFECTTYPE.BuildSystem) →
          (d._defectType = DEFECTTYPE.Configuration ∨ d._defectType = DEFECTTYPE.BuildSystem))
      ∧ (d._defectType = DEFECTTYPE.Configuration ∨ d._defectType = DEFECTTYPE.BuildSystem
          ∨ d._defectType = DEFECTTYPE.Referential)
      ∧ ((d._isGlobal = true ∧ ∀ e ∈ env.models, e.2.addr ≠ mm.addr →
            ∃ rg1, walk env dead block (some e.2) = some (some rg1))
        ∨ (d._isGlobal = false
            ∧ (∃ e ∈ env.models, e.2.addr ≠ mm.addr
                ∧ walk env dead block (some e.2) = some none)
            ∧ ∀ first, firstConjunct dead block = some first →
                d._formula = codeFormula first block)) := by
  obtain ⟨hq, hg⟩ := needsCrosscheck_true _ hn
  have hnk : d0.isNoKconfigDefect env.itemsOfString (some mm) = false := by
    by_contra hcon
    simp only [Bool.not_eq_false] at hcon
    simp [reclassified, hcon] at hq
  have htyr : (reclassified env block (some mm) d0)._defectType = rg.kind := by
    simp [reclassified, hnk, hty0]
  have hcbr : (reclassified env block (some mm) d0)._cb = block.setDefectType rg.kind := by
    simp [reclassified, hnk, hty0]
  have hdr : (reclassified env block (some mm) d0).dead = dead := hd0
  rw [htyr] at hq
  have hcode : codeSat env dead block = some true := by
    rcases walk_kind env dead block (some mm) rg hw with ⟨hk, _⟩ | ⟨_, hcs⟩
    · rcases hq with h1 | h1 | h1 <;> simp [h1] at hk
    · exact hcs
  have hcode1 : codeSat env dead (block.setDefectType rg.kind) = some true := by
    rw [codeSat_setDefectType]; exact hcode
  obtain ⟨c1, c2, c3, c4, c5⟩ := crosscheck_spec env mm dead (block.setDefectType rg.kind)
    hcode1 env.models _ d hdr hcbr hg hc
  rw [htyr] at c3 c4
  refine ⟨hcode, c1, c2, c3, c4 hq, ?_⟩
  simp only [walk_setDefectType, firstConjunct_setDefectType, codeFormula_setDefectType] at c5
  exact c5

/-- A check keeps the class of the object it runs on. -/
theorem isDefect_dead (env : Env) (d : BlockDefect) (model : Option ConfigurationModel)
    (is_main_model : Bool) (r : Bool) (d1 : BlockDefect)
    (h : d.isDefect env model is_main_model = some (r, d1)) : d1.dead = d.dead := by
  rcases isDefect_cases env d model is_main_model r d1 h with ⟨_, _, hd⟩ | ⟨_, rg, _, hd⟩ <;>
    subst hd <;> rfl

/-- The cross-check keeps the class of the object it runs on. -/
theorem crosscheck_dead (env : Env) (main : ConfigurationModel)
    (models : List (String × ConfigurationModel)) :
    ∀ (d d1 : BlockDefect), crosscheck env main models d = some d1 → d1.dead = d.dead := by
  induction models with
  | nil =>
    intro d d1 h
    simp only [crosscheck, Option.some.injEq] at h
    subst h
    rfl
  | cons e rest ih =>
    intro d d1 h
    unfold crosscheck at h
    by_cases hm : e.2.addr = main.addr
    · simp only [hm, if_true] at h
      exact ih d d1 h
    · simp only [hm, if_false] at h
      cases hres : d.isDefect env (some e.2) false with
      | none => simp [hres] at h
      | some res =>
        obtain ⟨r, d2⟩ := res
        have hd2 := isDefect_dead env d (some e.2) false r d2 hres
        cases r with
        | false =>
          simp only [hres, Option.some.injEq] at h
          subst h
          exact hd2
        | true =>
          simp only [hres] at h
          exact (ih d2 d1 h).trans hd2

/-- The rest of `analyzeBlock_helper` returns the defect it was given, of the same class,
or throws; it never returns `nullptr`. -/
theorem analyzeBlock_found_cases (env : Env) (block : ConditionalBlock)
    (main : Option ConfigurationModel) (d0 : BlockDefect) :
    (analyzeBlock_found env block main d0).1 = none
      ∨ ∃ d, (analyzeBlock_found env block main d0).1 = some (some d) ∧ d.dead = d0.dead := by
  cases hres : analyzeBlock_found env block main d0 with
  | mk o block1 =>
    cases o with
    | none => exact Or.inl rfl
    | some r =>
      cases r with
      | none =>
        exfalso
        unfold analyzeBlock_found at hres
        simp only at hres
        repeat' (split at hres)
        all_goals simp at hres
      | some d =>
        refine Or.inr ⟨d, rfl, ?_⟩
        obtain ⟨_, hcases⟩ := analyzeBlock_found_some env block main d0 d block1 hres
        rcases hcases with ⟨_, hd⟩ | ⟨_, _, hd⟩ | ⟨_, _, _, hd⟩ | ⟨_, mm, _, _, hc⟩
        · subst hd; rfl
        · subst hd; rfl
        · subst hd; rfl
        · exact crosscheck_dead env mm env.models (reclassified env block main d0) d hc

/-- How `analyzeBlock` comes to return a defect that is neither global nor of kind
`NoKconfig`: the check under the main model stopped at a step other than the code step,
and the cross-check returned at a model, other than the main model, under which no step
is unsatisfiable; the formula stored then is the code formula. -/
theorem analyzeBlock_local (env : Env) (block : ConditionalBlock)
    (main : Option ConfigurationModel) (d : BlockDefect) (block1 : ConditionalBlock)
    (h : analyzeBlock env block main = (some d, block1))
    (hloc : ¬(d._isGlobal = true ∨ d._defectType = DEFECTTYPE.NoKconfig)) :
    ∃ mm d0 rg, main = some mm
      ∧ (BlockDefect.fresh d.dead block).isDefect env (some mm) true = some (true, d0)
      ∧ walk env d.dead block (some mm) = some (some rg)
      ∧ codeSat env d.dead block = some true
      ∧ (∃ e ∈ env.models, e.2.addr ≠ mm.addr ∧ walk env d.dead block (some e.2) = some none)
      ∧ ∀ first, firstConjunct d.dead block = some first →
          d._formula = codeFormula first block := by
  obtain ⟨dead, d0, h0, _, hfound⟩ := analyzeBlock_some env block main d block1 h
  obtain ⟨rg, hw, hd0, _, hty0, _, hgl0, _⟩ :=
    fresh_isDefect_true env dead block main true d0 h0
  obtain ⟨_, hcases⟩ := analyzeBlock_found_some env block main d0 d block1 hfound
  rcases hcases with ⟨_, hd⟩ | ⟨_, hnone, hd⟩ | ⟨_, _, hn, hd⟩ | ⟨_, mm, hmm, hn, hc⟩
  · subst hd
    exact absurd (Or.inl rfl) hloc
  · subst hd
    subst hnone
    exact absurd (Or.inr (by simp [reclassified, BlockDefect.isNoKconfigDefect])) hloc
  · subst hd
    exfalso
    apply hloc
    by_cases hnk : d0.isNoKconfigDefect env.itemsOfString main = true
    · exact Or.inr (by simp [reclassified, hnk])
    · rcases needsCrosscheck_false _ hn with h1 | h1 | h1 | h1
      · simp only [reclassified, hnk, hty0] at h1
        rcases walk_kind env dead block main rg hw with ⟨hk, _⟩ | ⟨hk | hk | ⟨hk, _⟩, _⟩ <;>
          simp [hk] at h1
      · simp only [reclassified, hnk, hty0] at h1
        exact Or.inl (hgl0.mpr h1)
      · exact Or.inr h1
      · exact Or.inl h1
  · subst hmm
    obtain ⟨hcode, hdd, _, _, _, hglob⟩ :=
      analyzeBlock_crosschecked env block mm dead d0 d rg hw hd0 hty0 hn hc
    rw [hdd]
    refine ⟨mm, d0, rg, rfl, h0, hw, hcode, ?_⟩
    rcases hglob with ⟨hg, _⟩ | ⟨_, hex, hform⟩
    · exact absurd (Or.inl hg) hloc
    · exact ⟨hex, hform⟩

/-! ## Sets of strings -/

theorem StrSet.mem_insert (x s : String) (ys : StrSet) :
    s ∈ StrSet.insert x ys ↔ s = x ∨ s ∈ ys := by
  induction ys with
  | nil => simp [StrSet.insert]
  | cons y rest ih =>
    unfold StrSet.insert
    by_cases h1 : x = y
    · subst h1
      simp
    · by_cases h2 : strLt x y = true
      · simp [h1, h2]
      · simp only [h1, h2, if_false, List.mem_cons, ih, Bool.false_eq_true]
        constructor
        · rintro (h | h | h)
          · exact Or.inr (Or.inl h)
          · exact Or.inl h
          · exact Or.inr (Or.inr h)
        · rintro (h | h | h)
          · exact Or.inr (Or.inl h)
          · exact Or.inl h
          · exact Or.inr (Or.inr h)

theorem StrSet.mem_foldl_insert (l : List String) (s : String) (acc : StrSet) :
    s ∈ l.foldl (fun st x => StrSet.insert x st) acc ↔ s ∈ l ∨ s ∈ acc := by
  induction l generalizing acc with
  | nil => simp
  | cons x rest ih =>
    simp only [List.foldl_cons, ih, StrSet.mem_insert, List.mem_cons]
    constructor
    · rintro (h | h | h)
      · exact Or.inl (Or.inr h)
      · exact Or.inl (Or.inl h)
      · exact Or.inr h
    · rintro ((h | h) | h)
      · exact Or.inr (Or.inl h)
      · exact Or.inl h
      · exact Or.inr (Or.inr h)

/-- The set built from a sequence has the elements of the sequence. -/
theorem StrSet.mem_ofList (l : List String) (s : String) : s ∈ StrSet.ofList l ↔ s ∈ l := by
  unfold StrSet.ofList
  rw [StrSet.mem_foldl_insert]
  simp

/-! ## The report file name -/

/-- The file name of a report, for a defect with a kind on a block whose file name and
block name are not empty. -/
theorem getDefectReportFilename_eq (d : BlockDefect) (hf : d._cb.getFile.filename ≠ "")
    (hn : d._cb.getName ≠ "") (ht : d._defectType ≠ DEFECTTYPE.None) (hs : d._suffix ≠ "") :
    d.getDefectReportFilename
      = d._cb.getFile.filename ++ "." ++ d._cb.getName ++ "." ++ d.defectTypeToString ++ "."
        ++ (if d._isGlobal = true ∨ d._defectType = DEFECTTYPE.NoKconfig then "globally"
            else "locally") ++ "." ++ d._suffix := by
  have hk : d.defectTypeToString ≠ "" := by
    unfold BlockDefect.defectTypeToString
    cases hdt : d._defectType <;> simp_all
  unfold BlockDefect.getDefectReportFilename
  by_cases hg : d._isGlobal = true ∨ d._defectType = DEFECTTYPE.NoKconfig
  · have hg2 : (d._isGlobal || decide (d._defectType = DEFECTTYPE.NoKconfig)) = true := by
      simpa using hg
    simp [StringJoiner.push_back, StringJoiner.join, hf, hn, hk, hs, hg, hg2]
  · have hg2 : (d._isGlobal || decide (d._defectType = DEFECTTYPE.NoKconfig)) = false := by
      simpa using hg
    simp [StringJoiner.push_back, StringJoiner.join, hf, hn, hk, hs, hg, hg2]

/-! ## The claims -/

/-- C1. `DeadBlockDefect::isDefect` on a freshly constructed defect walks the escalation
ladder of the block and the model in order and stops at the first unsatisfiable step: it
returns `true` with the kind of that step (Implementation for `B_i && codeConstraints(b)`,
Configuration for that formula with the slice of `doIntersect`, BuildSystem with the
build precondition and its slice in addition, Referential, for a complete model only,
with the missing-items constraint in addition), and `false` with the kind `None` when no
step is unsatisfiable, in particular without a model after a satisfiable code step. A
check that throws makes the call throw. -/
theorem C1_dead_isDefect_walks_ladder (env : Env) (cb : ConditionalBlock)
    (model : Option ConfigurationModel) (is_main_model : Bool) :
    (DeadBlockDefect.isDefect env (DeadBlockDefect.new cb) model is_main_model).map
        (fun r => (r.1, r.2._defectType))
      = (firstUnsat env.checkSatisfiable (ladder env cb.getName cb model)).map
          (fun v => match v with
            | some rg => (true, rg.kind)
            | none => (false, DEFECTTYPE.None)) := by
  rw [dead_isDefect_eq env (DeadBlockDefect.new cb) model is_main_model rfl]
  have hcb : (DeadBlockDefect.new cb)._cb = cb := rfl
  rw [hcb]
  cases firstUnsat env.checkSatisfiable (ladder env cb.getName cb model) with
  | none => rfl
  | some v =>
    cases v with
    | none => rfl
    | some rg =>
      cases hk : rg.kind <;>
        simp [BlockDefect.settle, BlockDefect.hit, escalate, DeadBlockDefect.new, hk]

/-- C7. For a block without parent, `UndeadBlockDefect::isDefect` on a fresh defect
returns `false` and leaves the object as it was constructed (kind `None`, not global,
empty formula), for every model or none and whatever the solver would answer: no SAT
check is run. -/
theorem C7_root_never_undead (env : Env) (cb : ConditionalBlock)
    (model : Option ConfigurationModel) (is_main_model : Bool)
    (hroot : cb.getParent = BlockPtr.nullptr) :
    (∀ sat : List SatInput → Option Bool,
        UndeadBlockDefect.isDefect { env with checkSatisfiable := sat }
          (UndeadBlockDefect.new cb) model is_main_model
          = some (false, UndeadBlockDefect.new cb))
      ∧ (UndeadBlockDefect.new cb)._defectType = DEFECTTYPE.None
      ∧ (UndeadBlockDefect.new cb)._isGlobal = false
      ∧ (UndeadBlockDefect.new cb)._formula = "" := by
  refine ⟨?_, rfl, rfl, rfl⟩
  intro sat
  unfold UndeadBlockDefect.isDefect
  have hcb : (UndeadBlockDefect.new cb)._cb = cb := rfl
  simp only [hcb, hroot]

/-- C7 on the top block `B00` of `a.c`, with a solver that throws on every query. -/
theorem C7_root_never_undead_witness :
    (Scenario.B00 "").getParent = BlockPtr.nullptr
      ∧ UndeadBlockDefect.isDefect
          { Scenario.env [("arm", Scenario.arm), ("x86", Scenario.x86)] with
            checkSatisfiable := fun _ => none }
          (UndeadBlockDefect.new (Scenario.B00 "")) (some Scenario.x86) true
          = some (false, UndeadBlockDefect.new (Scenario.B00 "")) :=
  ⟨rfl, (C7_root_never_undead (Scenario.env [("arm", Scenario.arm), ("x86", Scenario.x86)])
    (Scenario.B00 "") (some Scenario.x86) true rfl).1 (fun _ => none)⟩

/-- C10. For a defect with a kind other than `None` on a block whose file name and block
name are not empty, `getDefectReportFilename` returns
`<source>.<blockname>.<kind>.<scope>.<polarity>`: kind is code, kconfig, kbuild, missing,
no_kconfig for Implementation, Configuration, BuildSystem, Referential, NoKconfig; scope
is `globally` when the global bit is set or the kind is NoKconfig and `locally`
otherwise; polarity is `dead` for a `DeadBlockDefect` and `undead` for an
`UndeadBlockDefect`, whatever the values of the other members. -/
theorem C10_report_filename (cb : ConditionalBlock) (t : DEFECTTYPE) (g : Bool)
    (f mus : String) (map : List (String × String)) (ht : t ≠ DEFECTTYPE.None)
    (hfile : cb.getFile.filename ≠ "") (hname : cb.getName ≠ "") :
    ({ DeadBlockDefect.new cb with
        _defectType := t, _isGlobal := g, _formula := f, defectMap := map,
        _musFormula := mus } : BlockDefect).getDefectReportFilename
        = cb.getFile.filename ++ "." ++ cb.getName ++ "."
          ++ (match t with
              | .Implementation => "code"
              | .Configuration => "kconfig"
              | .BuildSystem => "kbuild"
              | .Referential => "missing"
              | .NoKconfig => "no_kconfig"
              | .None => "") ++ "."
          ++ (if g = true ∨ t = DEFECTTYPE.NoKconfig then "globally" else "locally")
          ++ "." ++ "dead"
      ∧ ({ UndeadBlockDefect.new cb with
        _defectType := t, _isGlobal := g, _formula := f, defectMap := map,
        _musFormula := mus } : BlockDefect).getDefectReportFilename
        = cb.getFile.filename ++ "." ++ cb.getName ++ "."
          ++ (match t with
              | .Implementation => "code"
              | .Configuration => "kconfig"
              | .BuildSystem => "kbuild"
              | .Referential => "missing"
              | .NoKconfig => "no_kconfig"
              | .None => "") ++ "."
          ++ (if g = true ∨ t = DEFECTTYPE.NoKconfig then "globally" else "locally")
          ++ "." ++ "undead" := by
  constructor
  · rw [getDefectReportFilename_eq _ hfile hname ht (by simp [DeadBlockDefect.new])]
    cases t <;> simp [BlockDefect.defectTypeToString, DeadBlockDefect.new]
  · rw [getDefectReportFilename_eq _ hfile hname ht (by simp [UndeadBlockDefect.new])]
    cases t <;> simp [BlockDefect.defectTypeToString, UndeadBlockDefect.new]

/-- C10 on the block `B0` of `a.c`: a local referential dead defect and an undead defect
of kind `NoKconfig`. -/
theorem C10_report_filename_witness :
    ({ DeadBlockDefect.new (Scenario.B0 "") with
        _defectType := DEFECTTYPE.Referential, _isGlobal := false, _formula := "B0",
        defectMap := [], _musFormula := "" } : BlockDefect).getDefectReportFilename
      = "a.c.B0.missing.locally.dead"
      ∧ ({ UndeadBlockDefect.new (Scenario.B0 "") with
        _defectType := DEFECTTYPE.NoKconfig, _isGlobal := false, _formula := "B0",
        defectMap := [], _musFormula := "" } : BlockDefect).getDefectReportFilename
      = "a.c.B0.no_kconfig.globally.undead" :=
  ⟨(C10_report_filename (Scenario.B0 "") DEFECTTYPE.Referential false "B0" "" []
      (by decide) (by decide) (by decide)).1,
   (C10_report_filename (Scenario.B0 "") DEFECTTYPE.NoKconfig false "B0" "" []
      (by decide) (by decide) (by decide)).2⟩

/-- C9. Called without a main model, `analyzeBlock` returns only defects of kind
`NoKconfig`, of polarity `dead` or `undead`; the report file name joins file, block,
`no_kconfig`, `globally` and the polarity with dots (file name and block name not being
empty, as the joiner drops an empty part). -/
theorem C9_no_main_model (env : Env) (block : ConditionalBlock) (d : BlockDefect)
    (block1 : ConditionalBlock) (h : analyzeBlock env block none = (some d, block1)) :
    d._defectType = DEFECTTYPE.NoKconfig
      ∧ (d._suffix = "dead" ∨ d._suffix = "undead")
      ∧ (block.getFile.filename ≠ "" → block.getName ≠ "" →
          d.getDefectReportFilename
            = block.getFile.filename ++ "." ++ block.getName ++ "." ++ "no_kconfig" ++ "."
              ++ "globally" ++ "." ++ d._suffix) := by
  obtain ⟨dead, d0, h0, _, hfound⟩ := analyzeBlock_some env block none d block1 h
  obtain ⟨rg, _, _, _, _, _, _, hsuf0⟩ := fresh_isDefect_true env dead block none true d0 h0
  obtain ⟨_, hcases⟩ := analyzeBlock_found_some env block none d0 d block1 hfound
  have hty : d._defectType = DEFECTTYPE.NoKconfig := by
    rcases hcases with ⟨_, hd⟩ | ⟨_, _, hd⟩ | ⟨_, hne, _⟩ | ⟨_, mm, hmm, _⟩
    · subst hd; simp [reclassified, BlockDefect.markAsGlobal, BlockDefect.isNoKconfigDefect]
    · subst hd; simp [reclassified, BlockDefect.isNoKconfigDefect]
    · exact absurd rfl hne
    · cases hmm
  have hsuf : d._suffix = (if dead then "dead" else "undead") := by
    rcases hcases with ⟨_, hd⟩ | ⟨_, _, hd⟩ | ⟨_, hne, _⟩ | ⟨_, mm, hmm, _⟩
    · subst hd; simp [reclassified, BlockDefect.markAsGlobal, hsuf0]
    · subst hd; simp [reclassified, hsuf0]
    · exact absurd rfl hne
    · cases hmm
  have hcb : d._cb = block.setDefectType DEFECTTYPE.NoKconfig := by
    rcases hcases with ⟨_, hd⟩ | ⟨_, _, hd⟩ | ⟨_, hne, _⟩ | ⟨_, mm, hmm, _⟩
    · subst hd; simp [reclassified, BlockDefect.markAsGlobal, BlockDefect.isNoKconfigDefect]
    · subst hd; simp [reclassified, BlockDefect.isNoKconfigDefect]
    · exact absurd rfl hne
    · cases hmm
  refine ⟨hty, ?_, ?_⟩
  · cases dead <;> simp [hsuf]
  · intro hfile hname
    have hf : d._cb.getFile.filename ≠ "" := by rw [hcb, getFile_setDefectType]; exact hfile
    have hn : d._cb.getName ≠ "" := by rw [hcb, getName_setDefectType]; exact hname
    have hs : d._suffix ≠ "" := by cases dead <;> simp [hsuf]
    rw [getDefectReportFilename_eq d hf hn (by simp [hty]) hs, hcb, getFile_setDefectType,
      getName_setDefectType]
    simp [BlockDefect.defectTypeToString, hty]

set_option maxRecDepth 8000 in
/-- C9 on the block `B2`, whose code formula is unsatisfiable, without any model, and on
the blocks of the validation file `correct_parentheses_for_elif.c`, with the reports its
expected output lists. -/
theorem C9_no_main_model_witness :
    analyzeBlock (Scenario.env []) Scenario.B2 none
        = (some Scenario.defectB2, Scenario.B2.setDefectType DEFECTTYPE.NoKconfig)
      ∧ Scenario.defectB2._defectType = DEFECTTYPE.NoKconfig
      ∧ Scenario.defectB2.getDefectReportFilename = "a.c.B2.no_kconfig.globally.dead"
      ∧ Scenario.reportName Scenario.elifB0 = none
      ∧ Scenario.reportName Scenario.elifB1
          = some "correct_parentheses_for_elif.c.B1.no_kconfig.globally.undead"
      ∧ Scenario.reportName Scenario.elifB2
          = some "correct_parentheses_for_elif.c.B2.no_kconfig.globally.dead"
      ∧ Scenario.reportName Scenario.elifB3
          = some "correct_parentheses_for_elif.c.B3.no_kconfig.globally.dead" :=
  ⟨rfl,
   (C9_no_main_model (Scenario.env []) Scenario.B2 Scenario.defectB2
      (Scenario.B2.setDefectType DEFECTTYPE.NoKconfig) rfl).1,
   (C9_no_main_model (Scenario.env []) Scenario.B2 Scenario.defectB2
      (Scenario.B2.setDefectType DEFECTTYPE.NoKconfig) rfl).2.2 (by decide) (by decide),
   rfl, rfl, rfl, rfl⟩

/-- C5. For a main model that is incomplete, `analyzeBlock` never returns a defect of
kind `Referential`, of either polarity, whatever the registry of models holds. -/
theorem C5_incomplete_never_referential (env : Env) (block : ConditionalBlock)
    (mm : ConfigurationModel) (d : BlockDefect) (block1 : ConditionalBlock)
    (h : analyzeBlock env block (some mm) = (some d, block1))
    (hinc : mm.isComplete = false) :
    d._defectType ≠ DEFECTTYPE.Referential := by
  obtain ⟨dead, d0, h0, _, hfound⟩ := analyzeBlock_some env block (some mm) d block1 h
  obtain ⟨rg, hw, hd0, _, hty0, _, _, _⟩ :=
    fresh_isDefect_true env dead block (some mm) true d0 h0
  obtain ⟨_, hcases⟩ := analyzeBlock_found_some env block (some mm) d0 d block1 hfound
  have hrg : rg.kind = DEFECTTYPE.Implementation ∨ rg.kind = DEFECTTYPE.Configuration
      ∨ rg.kind = DEFECTTYPE.BuildSystem := by
    rcases walk_kind env dead block (some mm) rg hw with ⟨hk, _⟩ | ⟨hk | hk | ⟨_, m, hm, hcomp⟩, _⟩
    · exact Or.inl hk
    · exact Or.inr (Or.inl hk)
    · exact Or.inr (Or.inr hk)
    · simp only [Option.some.injEq] at hm
      subst hm
      simp [hinc] at hcomp
  have hrec : (reclassified env block (some mm) d0)._defectType ≠ DEFECTTYPE.Referential := by
    by_cases hnk : d0.isNoKconfigDefect env.itemsOfString (some mm) = true
    · simp [reclassified, hnk]
    · simp only [reclassified, hnk, hty0]
      rcases hrg with h1 | h1 | h1 <;> simp [h1]
  rcases hcases with ⟨_, hd⟩ | ⟨_, hnone, _⟩ | ⟨_, _, _, hd⟩ | ⟨_, m1, hm1, hn, hc⟩
  · subst hd; exact hrec
  · cases hnone
  · subst hd; exact hrec
  · simp only [Option.some.injEq] at hm1
    subst hm1
    obtain ⟨_, _, _, hkeep, _, _⟩ :=
      analyzeBlock_crosschecked env block mm dead d0 d rg hw hd0 hty0 hn hc
    obtain ⟨hq, _⟩ := needsCrosscheck_true _ hn
    have hnk : d0.isNoKconfigDefect env.itemsOfString (some mm) = false := by
      by_contra hcon
      simp only [Bool.not_eq_false] at hcon
      simp [reclassified, hcon] at hq
    simp only [reclassified, hnk, hty0] at hq
    have hcb : rg.kind = DEFECTTYPE.Configuration ∨ rg.kind = DEFECTTYPE.BuildSystem := by
      rcases hrg with h1 | h1 | h1
      · simp [h1] at hq
      · exact Or.inl h1
      · exact Or.inr h1
    rcases hkeep hcb with h1 | h1 <;> simp [h1]

/-- C5 on the block `B0` under the incomplete main model `x86`, `arm` being loaded too. -/
theorem C5_incomplete_never_referential_witness :
    analyzeBlock (Scenario.env [("arm", Scenario.arm), ("x86", Scenario.x86Incomplete)])
        (Scenario.B0 "") (some Scenario.x86Incomplete)
        = (some (Scenario.defectB0 "" false Scenario.deadB0 [("x86", "kconfig")]),
            (Scenario.B0 "").setDefectType DEFECTTYPE.Configuration)
      ∧ Scenario.x86Incomplete.isComplete = false
      ∧ (Scenario.defectB0 "" false Scenario.deadB0 [("x86", "kconfig")])._defectType ≠ DEFECTTYPE.Referential :=
  ⟨rfl, rfl,
   C5_incomplete_never_referential
     (Scenario.env [("arm", Scenario.arm), ("x86", Scenario.x86Incomplete)]) (Scenario.B0 "")
     Scenario.x86Incomplete (Scenario.defectB0 "" false Scenario.deadB0 [("x86", "kconfig")])
     ((Scenario.B0 "").setDefectType DEFECTTYPE.Configuration) rfl rfl⟩

/-- C4. A defect returned by `analyzeBlock` whose report scope is `locally` (neither the
global bit nor the kind `NoKconfig`, the test of `getDefectReportFilename`) was found
under a main model, and the registry holds a model other than the main model for which
`isDefect` returns `false`. -/
theorem C4_local_scope (env : Env) (block : ConditionalBlock)
    (main : Option ConfigurationModel) (d : BlockDefect) (block1 : ConditionalBlock)
    (h : analyzeBlock env block main = (some d, block1))
    (hloc : ¬(d._isGlobal = true ∨ d._defectType = DEFECTTYPE.NoKconfig)) :
    ∃ mm, main = some mm
      ∧ (∃ d1, (BlockDefect.fresh d.dead block).isDefect env (some mm) true = some (true, d1))
      ∧ ∃ e ∈ env.models, e.2.addr ≠ mm.addr
          ∧ ∃ d1, (BlockDefect.fresh d.dead block).isDefect env (some e.2) false
              = some (false, d1) := by
  obtain ⟨mm, d0, rg, hmain, h0, _, _, ⟨e, he, hne, hwe⟩, _⟩ :=
    analyzeBlock_local env block main d block1 h hloc
  exact ⟨mm, hmain, ⟨d0, h0⟩, e, he, hne,
    fresh_isDefect_of_walk env d.dead block (some e.2) false none hwe⟩

/-- C4 on the block `B0`, dead under the main model `x86` and not under `arm`. -/
theorem C4_local_scope_witness :
    analyzeBlock (Scenario.env [("arm", Scenario.arm), ("x86", Scenario.x86)])
        (Scenario.B0 "") (some Scenario.x86)
        = (some (Scenario.defectB0 "" false Scenario.deadB0 [("x86", "kconfig")]),
            (Scenario.B0 "").setDefectType DEFECTTYPE.Configuration)
      ∧ ∃ mm, some Scenario.x86 = some mm
        ∧ (∃ d1, (BlockDefect.fresh true (Scenario.B0 "")).isDefect
            (Scenario.env [("arm", Scenario.arm), ("x86", Scenario.x86)]) (some mm) true
            = some (true, d1))
        ∧ ∃ e ∈ [("arm", Scenario.arm), ("x86", Scenario.x86)], e.2.addr ≠ mm.addr
            ∧ ∃ d1, (BlockDefect.fresh true (Scenario.B0 "")).isDefect
                (Scenario.env [("arm", Scenario.arm), ("x86", Scenario.x86)]) (some e.2) false
                = some (false, d1) :=
  ⟨rfl,
   C4_local_scope (Scenario.env [("arm", Scenario.arm), ("x86", Scenario.x86)])
     (Scenario.B0 "") (some Scenario.x86) (Scenario.defectB0 "" false Scenario.deadB0 [("x86", "kconfig")])
     ((Scenario.B0 "").setDefectType DEFECTTYPE.Configuration) rfl (by decide)⟩

/-- C3 as amended. For a file that is not arch specific, a defect returned by
`analyzeBlock` with the global bit set holds under every loaded model: `isDefect` for the
block returns `true` under the main model (or without one, when there is none) and under
every model of the registry other than the main model. -/
theorem C3_global_holds_everywhere (env : Env) (block : ConditionalBlock)
    (main : Option ConfigurationModel) (d : BlockDefect) (block1 : ConditionalBlock)
    (h : analyzeBlock env block main = (some d, block1))
    (harch : block.getFile.specific_arch = "") (hg : d._isGlobal = true) :
    (∃ d1, (BlockDefect.fresh d.dead block).isDefect env main true = some (true, d1))
      ∧ ∀ e ∈ env.models, (∀ mm, main = some mm → e.2.addr ≠ mm.addr) →
          ∃ d1, (BlockDefect.fresh d.dead block).isDefect env (some e.2) false
            = some (true, d1) := by
  obtain ⟨dead, d0, h0, _, hfound⟩ := analyzeBlock_some env block main d block1 h
  obtain ⟨rg, hw, hd0, _, hty0, _, hgl0, _⟩ :=
    fresh_isDefect_true env dead block main true d0 h0
  obtain ⟨_, hcases⟩ := analyzeBlock_found_some env block main d0 d block1 hfound
  have hcode : d = reclassified env block main d0 → d.dead = dead ∧
      ∀ e : String × ConfigurationModel,
        ∃ d1, (BlockDefect.fresh dead block).isDefect env (some e.2) false
          = some (true, d1) := by
    intro hd
    subst hd
    refine ⟨hd0, ?_⟩
    intro e
    have hk : rg.kind = DEFECTTYPE.Implementation := hgl0.mp hg
    have hcs : codeSat env dead block = some false := by
      rcases walk_kind env dead block main rg hw with ⟨_, hc⟩ | ⟨hk2 | hk2 | ⟨hk2, _⟩, _⟩
      · exact hc
      · simp [hk] at hk2
      · simp [hk] at hk2
      · simp [hk] at hk2
    obtain ⟨r1, hw1, _⟩ := walk_of_codeSat_false env dead block hcs (some e.2)
    exact fresh_isDefect_of_walk env dead block (some e.2) false (some r1) hw1
  rcases hcases with ⟨hne, _⟩ | ⟨_, _, hd⟩ | ⟨_, _, _, hd⟩ | ⟨_, mm, hmm, hn, hc⟩
  · exact absurd harch hne
  · obtain ⟨hdd, hall⟩ := hcode hd
    rw [hdd]
    exact ⟨⟨d0, h0⟩, fun e _ _ => hall e⟩
  · obtain ⟨hdd, hall⟩ := hcode hd
    rw [hdd]
    exact ⟨⟨d0, h0⟩, fun e _ _ => hall e⟩
  · subst hmm
    obtain ⟨_, hdd, _, _, _, hglob⟩ :=
      analyzeBlock_crosschecked env block mm dead d0 d rg hw hd0 hty0 hn hc
    rw [hdd]
    refine ⟨⟨d0, h0⟩, ?_⟩
    intro e he hne
    rcases hglob with ⟨_, hall⟩ | ⟨hg2, _⟩
    · obtain ⟨r1, hw1⟩ := hall e he (hne mm rfl)
      exact fresh_isDefect_of_walk env dead block (some e.2) false (some r1) hw1
    · rw [hg] at hg2
      cases hg2

/-- C3 as amended, on the block `B0`, dead under the main model `x86` and under `ia64`. -/
theorem C3_global_holds_everywhere_witness :
    analyzeBlock (Scenario.env [("ia64", Scenario.ia64), ("x86", Scenario.x86)])
        (Scenario.B0 "") (some Scenario.x86)
        = (some (Scenario.defectB0 "" true
              (Scenario.deadB0 ++ "\n&&\n" ++ "(CONFIG_A -> (!CONFIG_A))")
              [("ia64", "kconfig"), ("x86", "kconfig")]),
            (Scenario.B0 "").setDefectType DEFECTTYPE.Configuration)
      ∧ ∃ d1, (BlockDefect.fresh true (Scenario.B0 "")).isDefect
          (Scenario.env [("ia64", Scenario.ia64), ("x86", Scenario.x86)])
          (some Scenario.ia64) false = some (true, d1) :=
  ⟨rfl,
   (C3_global_holds_everywhere
      (Scenario.env [("ia64", Scenario.ia64), ("x86", Scenario.x86)])
      (Scenario.B0 "") (some Scenario.x86)
      (Scenario.defectB0 "" true (Scenario.deadB0 ++ "\n&&\n" ++ "(CONFIG_A -> (!CONFIG_A))")
        [("ia64", "kconfig"), ("x86", "kconfig")])
      ((Scenario.B0 "").setDefectType DEFECTTYPE.Configuration) rfl rfl rfl).2
      ("ia64", Scenario.ia64) (List.mem_cons_self _ _)
      (fun mm hmm => by
        simp only [Option.some.injEq] at hmm
        subst hmm
        decide)⟩

/-- C3, the claim as stated, fails for an arch specific file. The block `B0` of the file
`a.c` tagged `x86` is dead under the main model `x86` and not under the loaded model
`arm`, yet `analyzeBlock` returns the defect with the global bit set. -/
theorem C3_counterexample :
    (analyzeBlock (Scenario.env [("arm", Scenario.arm), ("x86", Scenario.x86)])
        (Scenario.B0 "x86") (some Scenario.x86)).1.map (fun d => (d.dead, d._isGlobal))
        = some (true, true)
      ∧ ((BlockDefect.fresh true (Scenario.B0 "x86")).isDefect
          (Scenario.env [("arm", Scenario.arm), ("x86", Scenario.x86)])
          (some Scenario.arm) false).map Prod.fst = some false
      ∧ Scenario.arm.addr ≠ Scenario.x86.addr := by
  decide

/-- C8 as amended. When `analyzeBlock`, called with a main model, returns a defect of
kind `NoKconfig`: for a block that is neither an `#else` block nor the top block, no
symbol of its rewritten expression lies in the configuration space of the main model;
for the top block the same holds of the symbols of the stored formula; for an `#else`
block every preceding sibling has the saved kind `NoKconfig`. -/
theorem C8_noKconfig_main_space (env : Env) (block : ConditionalBlock)
    (mm : ConfigurationModel) (d : BlockDefect) (block1 : ConditionalBlock)
    (h : analyzeBlock env block (some mm) = (some d, block1))
    (hk : d._defectType = DEFECTTYPE.NoKconfig) :
    (block.isElseBlock = true → block.getPrev.priorAllNoKconfig = true)
      ∧ (block.isElseBlock = false → block.getFile.top_block ≠ some block.data.addr →
          ∀ s ∈ env.itemsOfString block.ifdefExpression, mm.inConfigurationSpace s = false)
      ∧ (block.isElseBlock = false → block.getFile.top_block = some block.data.addr →
          ∀ s ∈ env.itemsOfString d._formula, mm.inConfigurationSpace s = false) := by
  obtain ⟨dead, d0, h0, _, hfound⟩ := analyzeBlock_some env block (some mm) d block1 h
  obtain ⟨rg, hw, hd0, hcb0, hty0, _, _, _⟩ :=
    fresh_isDefect_true env dead block (some mm) true d0 h0
  obtain ⟨_, hcases⟩ := analyzeBlock_found_some env block (some mm) d0 d block1 hfound
  have hrgk : rg.kind ≠ DEFECTTYPE.NoKconfig := by
    rcases walk_kind env dead block (some mm) rg hw with ⟨hk1, _⟩ | ⟨hk1 | hk1 | ⟨hk1, _⟩, _⟩ <;>
      simp [hk1]
  -- the kind `NoKconfig` comes from the check after the analysis
  have hfacts : d0.isNoKconfigDefect env.itemsOfString (some mm) = true
      ∧ d._formula = d0._formula := by
    have hrec : d._defectType = (reclassified env block (some mm) d0)._defectType →
        d0.isNoKconfigDefect env.itemsOfString (some mm) = true := by
      intro heq
      by_contra hcon
      rw [hk] at heq
      simp [reclassified, hcon, hty0] at heq
      exact hrgk heq.symm
    rcases hcases with ⟨_, hd⟩ | ⟨_, hnone, _⟩ | ⟨_, _, _, hd⟩ | ⟨_, m1, hm1, hn, hc⟩
    · subst hd
      exact ⟨hrec rfl, rfl⟩
    · cases hnone
    · subst hd
      exact ⟨hrec rfl, rfl⟩
    · simp only [Option.some.injEq] at hm1
      subst hm1
      obtain ⟨_, _, _, _, hq, _⟩ :=
        analyzeBlock_crosschecked env block mm dead d0 d rg hw hd0 hty0 hn hc
      rcases hq with h1 | h1 | h1 <;> simp [h1] at hk
  obtain ⟨hnk, hform⟩ := hfacts
  unfold BlockDefect.isNoKconfigDefect at hnk
  simp only [hcb0] at hnk
  refine ⟨?_, ?_, ?_⟩
  · intro helse
    by_contra hcon
    simp [helse, hcon] at hnk
  · intro helse htop s hs
    simp only [helse, htop, if_false, Bool.false_eq_true] at hnk
    by_contra hcon
    simp only [Bool.not_eq_false] at hcon
    have hany : (StrSet.ofList (env.itemsOfString block.ifdefExpression)).any
        mm.inConfigurationSpace = true :=
      List.any_eq_true.mpr ⟨s, (StrSet.mem_ofList _ _).mpr hs, hcon⟩
    simp [hany] at hnk
  · intro helse htop s hs
    simp only [helse, htop, if_true, if_false, Bool.false_eq_true] at hnk
    by_contra hcon
    simp only [Bool.not_eq_false] at hcon
    rw [hform] at hs
    have hany : (StrSet.ofList (env.itemsOfString d0._formula)).any
        mm.inConfigurationSpace = true :=
      List.any_eq_true.mpr ⟨s, (StrSet.mem_ofList _ _).mpr hs, hcon⟩
    simp [hany] at hnk

/-- C8 as amended, on the block `B2` under the main model `x86`: its symbol `FOO_X` is
outside the configuration space of `x86`. -/
theorem C8_noKconfig_main_space_witness :
    analyzeBlock (Scenario.env [("foo", Scenario.foo), ("x86", Scenario.x86)])
        Scenario.B2 (some Scenario.x86)
        = (some Scenario.defectB2, Scenario.B2.setDefectType DEFECTTYPE.NoKconfig)
      ∧ "FOO_X" ∈ Scenario.itemsOfString Scenario.B2.ifdefExpression
      ∧ Scenario.x86.inConfigurationSpace "FOO_X" = false :=
  ⟨rfl, by decide,
   (C8_noKconfig_main_space (Scenario.env [("foo", Scenario.foo), ("x86", Scenario.x86)])
      Scenario.B2 Scenario.x86 Scenario.defectB2
      (Scenario.B2.setDefectType DEFECTTYPE.NoKconfig) rfl rfl).2.1 rfl (by decide)
      "FOO_X" (by decide)⟩

/-- C8, the claim as stated, fails for a loaded model other than the main model. The
block `B2`, opened by `#if defined(FOO_X) && !defined(FOO_X)`, is returned with the kind
`NoKconfig` under the main model `x86`, and its symbol `FOO_X` lies in the configuration
space of the loaded model `foo`. -/
theorem C8_counterexample :
    (analyzeBlock (Scenario.env [("foo", Scenario.foo), ("x86", Scenario.x86)])
        Scenario.B2 (some Scenario.x86)).1.map (fun d => d._defectType)
        = some DEFECTTYPE.NoKconfig
      ∧ Scenario.B2.isElseBlock = false
      ∧ "FOO_X" ∈ Scenario.itemsOfString Scenario.B2.ifdefExpression
      ∧ Scenario.foo.inConfigurationSpace "FOO_X" = true := by
  decide

/-- C6 as amended. `analyzeBlock` tries the dead analysis before the undead one: it
returns an undead defect only if `DeadBlockDefect::isDefect` returned `false` under the
main model; when that check returns `true` it returns the dead defect, unless a SAT check
of the cross-check throws, in which case it returns no defect; and it returns no defect
exactly when both checks return `false` or a SAT check throws in `analyzeBlock_helper`. -/
theorem C6_dead_before_undead (env : Env) (block : ConditionalBlock)
    (main : Option ConfigurationModel) :
    (∀ d block1, analyzeBlock env block main = (some d, block1) → d.dead = false →
        ∃ d1, (DeadBlockDefect.new block).isDefect env main true = some (false, d1))
      ∧ (∀ d0, (DeadBlockDefect.new block).isDefect env main true = some (true, d0) →
          (∃ d, (analyzeBlock env block main).1 = some d ∧ d.dead = true)
            ∨ ((analyzeBlock_helper env block main).1 = none
                ∧ (analyzeBlock env block main).1 = none))
      ∧ ((analyzeBlock env block main).1 = none ↔
          ((∃ d1 d2, (DeadBlockDefect.new block).isDefect env main true = some (false, d1)
              ∧ (UndeadBlockDefect.new block).isDefect env main true = some (false, d2))
            ∨ (analyzeBlock_helper env block main).1 = none)) := by
  refine ⟨?_, ?_, ?_⟩
  · intro d block1 h hdead
    obtain ⟨dead, d0, h0, hund, hfound⟩ := analyzeBlock_some env block main d block1 h
    apply hund
    rcases analyzeBlock_found_cases env block main d0 with hnone | ⟨d2, h2, hd2⟩
    · simp [hfound] at hnone
    · simp only [hfound, Option.some.injEq] at h2
      subst h2
      have := isDefect_dead env _ main true true d0 h0
      rw [fresh_dead] at this
      rw [← this, ← hd2]
      exact hdead
  · intro d0 h0
    have hd0 : d0.dead = true := isDefect_dead env _ main true true d0 h0
    have hhelper : analyzeBlock_helper env block main = analyzeBlock_found env block main d0 := by
      unfold analyzeBlock_helper
      simp only [h0]
    unfold analyzeBlock
    rw [hhelper]
    rcases analyzeBlock_found_cases env block main d0 with hnone | ⟨d2, h2, hd2⟩
    · right
      refine ⟨hnone, ?_⟩
      generalize analyzeBlock_found env block main d0 = res at hnone
      obtain ⟨o, b⟩ := res
      simp only at hnone
      subst hnone
      rfl
    · left
      refine ⟨d2, ?_, hd2.trans hd0⟩
      generalize analyzeBlock_found env block main d0 = res at h2
      obtain ⟨o, b⟩ := res
      simp only at h2
      subst h2
      rfl
  · unfold analyzeBlock analyzeBlock_helper
    cases h1 : (DeadBlockDefect.new block).isDefect env main true with
    | none => simp [h1]
    | some res1 =>
      obtain ⟨r1, d1⟩ := res1
      cases r1 with
      | true =>
        simp only [h1, Option.some.injEq, Prod.mk.injEq, Bool.true_eq_false, false_and,
          exists_false, false_or]
        rcases analyzeBlock_found_cases env block main d1 with hnone | ⟨d2, h2, _⟩
        · generalize analyzeBlock_found env block main d1 = res at hnone
          obtain ⟨o, b⟩ := res
          simp only at hnone
          subst hnone
          simp
        · generalize analyzeBlock_found env block main d1 = res at h2
          obtain ⟨o, b⟩ := res
          simp only at h2
          subst h2
          simp
      | false =>
        cases h2 : (UndeadBlockDefect.new block).isDefect env main true with
        | none => simp [h1, h2]
        | some res2 =>
          obtain ⟨r2, d2⟩ := res2
          cases r2 with
          | false => simp [h1, h2]
          | true =>
            simp only [h1, h2, Option.some.injEq, Prod.mk.injEq, Bool.true_eq_false,
              and_false, exists_false, false_or, false_and]
            rcases analyzeBlock_found_cases env block main d2 with hnone | ⟨d3, h3, _⟩
            · generalize analyzeBlock_found env block main d2 = res at hnone
              obtain ⟨o, b⟩ := res
              simp only at hnone
              subst hnone
              simp
            · generalize analyzeBlock_found env block main d2 = res at h3
              obtain ⟨o, b⟩ := res
              simp only at h3
              subst h3
              simp

/-- C6 as amended, on the `#else` block `B1`, undead under `x86`: the dead check returned
`false`. -/
theorem C6_dead_before_undead_witness :
    analyzeBlock (Scenario.env [("x86", Scenario.x86)]) (Scenario.B1 DEFECTTYPE.None)
        (some Scenario.x86)
        = (some Scenario.defectB1,
            (Scenario.B1 DEFECTTYPE.None).setDefectType DEFECTTYPE.Configuration)
      ∧ ∃ d1, (DeadBlockDefect.new (Scenario.B1 DEFECTTYPE.None)).isDefect
          (Scenario.env [("x86", Scenario.x86)]) (some Scenario.x86) true = some (false, d1) :=
  ⟨rfl,
   (C6_dead_before_undead (Scenario.env [("x86", Scenario.x86)]) (Scenario.B1 DEFECTTYPE.None)
      (some Scenario.x86)).1 Scenario.defectB1
      ((Scenario.B1 DEFECTTYPE.None).setDefectType DEFECTTYPE.Configuration) rfl rfl⟩

/-- C6, the claim as stated, fails when a SAT check of the cross-check throws. The
block `B0` is dead under the main model `x86`: `DeadBlockDefect::isDefect` returns
`true`. The formula of the loaded model `mips` has a syntax error, the cross-check
throws, `analyzeBlock` catches the error and returns no defect, although not both
checks returned `false`. -/
theorem C6_counterexample :
    ((DeadBlockDefect.new (Scenario.B0 "")).isDefect
        (Scenario.env [("mips", Scenario.mips), ("x86", Scenario.x86)])
        (some Scenario.x86) true).map Prod.fst = some true
      ∧ (analyzeBlock_helper (Scenario.env [("mips", Scenario.mips), ("x86", Scenario.x86)])
          (Scenario.B0 "") (some Scenario.x86)).1.isNone = true
      ∧ (analyzeBlock (Scenario.env [("mips", Scenario.mips), ("x86", Scenario.x86)])
          (Scenario.B0 "") (some Scenario.x86)).1.isNone = true := by
  decide

/-- C2, what the code does instead. Every defect that `analyzeBlock` returns with the
scope `locally` (cross-checked, a loaded model not showing it) has the code formula of its
check stored, and the SAT check decided that formula satisfiable: the formula decided
unsatisfiable under the main model was overwritten by the cross-check. -/
theorem C2_local_defect_formula (env : Env) (block : ConditionalBlock)
    (main : Option ConfigurationModel) (d : BlockDefect) (block1 : ConditionalBlock)
    (h : analyzeBlock env block main = (some d, block1))
    (hloc : ¬(d._isGlobal = true ∨ d._defectType = DEFECTTYPE.NoKconfig)) :
    ∃ first, firstConjunct d.dead block = some first
      ∧ d._formula = codeFormula first block
      ∧ env.checkSatisfiable [SatInput.formula d._formula] = some true := by
  obtain ⟨mm, d0, rg, _, _, hw, hcode, _, hform⟩ :=
    analyzeBlock_local env block main d block1 h hloc
  cases hf : firstConjunct d.dead block with
  | none => simp [walk, hf] at hw
  | some first =>
    refine ⟨first, rfl, hform first hf, ?_⟩
    rw [hform first hf]
    simpa [codeSat, hf] using hcode

/-- C2 at a failing input. The block `B0` is dead under the main model `x86`, by the
formula `deadB0 && sliceX86`, which the SAT check decides unsatisfiable; the loaded model
`arm` does not show the defect. `analyzeBlock` returns the defect with the scope
`locally`, and the formula stored in it and written to its report is the code formula
`deadB0` alone, which the SAT check decides satisfiable. -/
theorem C2_local_defect_formula_witness :
    analyzeBlock (Scenario.env [("arm", Scenario.arm), ("x86", Scenario.x86)])
        (Scenario.B0 "") (some Scenario.x86)
        = (some (Scenario.defectB0 "" false Scenario.deadB0 [("x86", "kconfig")]),
            (Scenario.B0 "").setDefectType DEFECTTYPE.Configuration)
      ∧ (Scenario.defectB0 "" false Scenario.deadB0 [("x86", "kconfig")]).writeReportToFile false
        = some ("a.c.B0.kconfig.locally.dead",
            "#B0:a.c:1:1:a.c:3:1:\n" ++ Scenario.deadB0 ++ "\n"
              ++ "\nArch -> Defect Type:\nx86 -> kconfig\n")
      ∧ Scenario.checkSatisfiable [SatInput.formula Scenario.deadB0] = some true
      ∧ Scenario.checkSatisfiable
          [SatInput.formula Scenario.deadB0, SatInput.formula Scenario.sliceX86] = some false
      ∧ ((DeadBlockDefect.new (Scenario.B0 "")).isDefect
          (Scenario.env [("arm", Scenario.arm), ("x86", Scenario.x86)])
          (some Scenario.x86) true).map (fun r => (r.1, r.2._formula))
        = some (true, Scenario.deadB0 ++ "\n&&\n" ++ Scenario.sliceX86)
      ∧ ∃ first, firstConjunct true (Scenario.B0 "") = some first
          ∧ Scenario.deadB0 = codeFormula first (Scenario.B0 "")
          ∧ Scenario.checkSatisfiable [SatInput.formula Scenario.deadB0] = some true :=
  ⟨rfl, rfl, rfl, rfl, rfl,
   C2_local_defect_formula (Scenario.env [("arm", Scenario.arm), ("x86", Scenario.x86)])
     (Scenario.B0 "") (some Scenario.x86)
     (Scenario.defectB0 "" false Scenario.deadB0 [("x86", "kconfig")])
     ((Scenario.B0 "").setDefectType DEFECTTYPE.Configuration) rfl (by decide)⟩

/-! ## Facts about `doIntersect` -/

/-- The parts of `doIntersect`: the item set and the joiner that the preprocessing of the
model leaves, and the loop over the item set. -/
theorem doIntersect_eq (itemsOfString : String → List String) (m : ConfigurationModel)
    (exp : String) (c : Option (String → Bool)) (missing : StrSet)
    (exclude_set : Option StrSet) :
    m.doIntersect itemsOfString exp c missing exclude_set
      = ((m.doIntersectPreprocess (StrSet.ofList (itemsOfString exp)) exclude_set).1,
          ((m.doIntersectPreprocess (StrSet.ofList (itemsOfString exp)) exclude_set).1.foldl
            (doIntersectStep m c)
            ((m.doIntersectPreprocess (StrSet.ofList (itemsOfString exp)) exclude_set).2,
              missing)).2,
          StringJoiner.join
            ((m.doIntersectPreprocess (StrSet.ofList (itemsOfString exp)) exclude_set).1.foldl
              (doIntersectStep m c)
              ((m.doIntersectPreprocess (StrSet.ofList (itemsOfString exp)) exclude_set).2,
                missing)).1 "\n&& ") := by
  rfl

/-- A property of the pair of joiner and missing set that holds at the start of the loop
of `doIntersect` and is kept by every round holds at its end. -/
theorem foldl_doIntersectStep_inv (m : ConfigurationModel) (c : Option (String → Bool))
    (P : StringJoiner × StrSet → Prop) (items : List String)
    (hstep : ∀ acc str, str ∈ items → P acc → P (doIntersectStep m c acc str)) :
    ∀ acc, P acc → P (items.foldl (doIntersectStep m c) acc) := by
  induction items with
  | nil => intro acc h; exact h
  | cons x rest ih =>
    intro acc h
    simp only [List.foldl_cons]
    exact ih (fun acc str hs hp => hstep acc str (List.mem_cons_of_mem _ hs) hp) _
      (hstep acc x (List.mem_cons_self _ _) h)

/-- What a round of the loop of `doIntersect` does to the missing set: it is kept, or the
item of the round is inserted, the item then being in the configuration space, not
contained in the model, accepted by the checker and neither free nor a constant value. -/
theorem doIntersectStep_missing (m : ConfigurationModel) (c : Option (String → Bool))
    (acc : StringJoiner × StrSet) (str : String) :
    (doIntersectStep m c acc str).2 = acc.2
      ∨ ((doIntersectStep m c acc str).2 = StrSet.insert str acc.2
          ∧ m.inConfigurationSpace str = true ∧ m.containsSymbol str = false
          ∧ (∀ chk, c = some chk → chk str = true)
          ∧ starts_with str "__FREE__" = false
          ∧ starts_with str "CONFIG_CVALUE_" = false) := by
  obtain ⟨sj, missing⟩ := acc
  unfold doIntersectStep
  by_cases h1 : m.containsSymbol str = true
  · simp [h1]
  · by_cases h2 : m.inConfigurationSpace str = true
    · cases c with
      | none =>
        by_cases h4 : starts_with str "__FREE__" = true
        · simp [h1, h2, h4]
        · by_cases h5 : starts_with str "CONFIG_CVALUE_" = true
          · simp [h1, h2, h4, h5]
          · simp [h1, h2, h4, h5]
      | some chk =>
        by_cases h3 : chk str = true
        · by_cases h4 : starts_with str "__FREE__" = true
          · simp [h1, h2, h3, h4]
          · by_cases h5 : starts_with str "CONFIG_CVALUE_" = true
            · simp [h1, h2, h3, h4, h5]
            · simp [h1, h2, h3, h4, h5]
        · simp [h1, h2, h3]
    · simp [h1, h2]

/-! ## Facts about the preprocessing of a textual model -/

/-- The members of the working set after one item was looked at. -/
theorem extendPush_mem (acc : List String × StrSet) (str s : String) :
    s ∈ (extendPush acc str).2 ↔ s = str ∨ s ∈ acc.2 := by
  unfold extendPush
  by_cases h : acc.2.contains str = true
  · simp only [h, if_true]
    constructor
    · exact Or.inr
    · rintro (h1 | h1)
      · subst h1
        simpa using h
      · exact h1
  · simp only [h, StrSet.mem_insert, Bool.false_eq_true, if_false]

/-- The members of the working set after the items of one formula were looked at. -/
theorem foldl_extendPush_mem (l : List String) (s : String) :
    ∀ acc : List String × StrSet, s ∈ (l.foldl extendPush acc).2 ↔ s ∈ l ∨ s ∈ acc.2 := by
  induction l with
  | nil => intro acc; simp
  | cons x rest ih =>
    intro acc
    simp only [List.foldl_cons, ih, extendPush_mem, List.mem_cons]
    constructor
    · rintro (h | h | h)
      · exact Or.inl (Or.inr h)
      · exact Or.inl (Or.inl h)
      · exact Or.inr h
    · rintro ((h | h) | h)
      · exact Or.inr (Or.inl h)
      · exact Or.inl h
      · exact Or.inr (Or.inr h)

/-- The loop of `extendWithInterestingItems` only adds to the working set. -/
theorem extendLoop_subset (itemsOfString : String → List String) (r : RsfReader) (s : String) :
    ∀ (fuel : Nat) (stack : List String) (ws : StrSet), s ∈ ws →
      s ∈ extendLoop itemsOfString r fuel stack ws := by
  intro fuel
  induction fuel with
  | zero => intro stack ws h; simpa [extendLoop] using h
  | succ n ih =>
    intro stack ws h
    cases stack with
    | nil => simpa [extendLoop] using h
    | cons top rest =>
      unfold extendLoop
      cases hv : r.getValue top with
      | none => exact ih _ _ h
      | some item =>
        by_cases he : item = ""
        · simp only [he, ne_eq, not_true_eq_false, if_false]
          exact ih _ _ h
        · simp only [he, ne_eq, not_false_eq_true, if_true]
          apply ih
          exact (foldl_extendPush_mem _ _ _).mpr (Or.inr h)

/-- What the loop of `extendWithInterestingItems` adds is an item of a stored formula. -/
theorem extendLoop_origin (itemsOfString : String → List String) (r : RsfReader) (s : String) :
    ∀ (fuel : Nat) (stack : List String) (ws : StrSet),
      s ∈ extendLoop itemsOfString r fuel stack ws →
      s ∈ ws ∨ ∃ key item, r.getValue key = some item ∧ item ≠ "" ∧ s ∈ itemsOfString item := by
  intro fuel
  induction fuel with
  | zero => intro stack ws h; exact Or.inl (by simpa [extendLoop] using h)
  | succ n ih =>
    intro stack ws h
    cases stack with
    | nil => exact Or.inl (by simpa [extendLoop] using h)
    | cons top rest =>
      unfold extendLoop at h
      cases hv : r.getValue top with
      | none =>
        simp only [hv] at h
        exact ih _ _ h
      | some item =>
        simp only [hv] at h
        by_cases he : item = ""
        · simp only [he, ne_eq, not_true_eq_false, if_false] at h
          exact ih _ _ h
        · simp only [he, ne_eq, not_false_eq_true, if_true] at h
          rcases ih _ _ h with h1 | h1
          · rcases (foldl_extendPush_mem _ _ _).mp h1 with h2 | h2
            · exact Or.inr ⟨top, item, hv, he, (StrSet.mem_ofList _ _).mp h2⟩
            · exact Or.inl h2
          · exact Or.inr h1

/-- The loop of `extendWithInterestingItems` changes nothing when no element of the stack
has a formula stored. -/
theorem extendLoop_id (itemsOfString : String → List String) (r : RsfReader) :
    ∀ (fuel : Nat) (stack : List String) (ws : StrSet),
      (∀ x ∈ stack, r.getValue x = none ∨ r.getValue x = some "") →
      extendLoop itemsOfString r fuel stack ws = ws := by
  intro fuel
  induction fuel with
  | zero => intro stack ws _; simp [extendLoop]
  | succ n ih =>
    intro stack ws h
    cases stack with
    | nil => simp [extendLoop]
    | cons top rest =>
      unfold extendLoop
      have hrest : ∀ x ∈ rest, r.getValue x = none ∨ r.getValue x = some "" :=
        fun x hx => h x (List.mem_cons_of_mem _ hx)
      rcases h top (List.mem_cons_self _ _) with hv | hv
      · simp only [hv]
        exact ih _ _ hrest
      · simp only [hv, ne_eq, not_true_eq_false, if_false]
        exact ih _ _ hrest

/-- The item set `doIntersectPreprocess` leaves is the one built stage by stage. -/
theorem rsf_preprocess_fst (itemsOfString : String → List String)
    (m : RsfConfigurationModel) (item_set : StrSet) (exclude_set : Option StrSet) :
    (m.doIntersectPreprocess itemsOfString item_set exclude_set).1
      = m.preprocessedItems itemsOfString item_set exclude_set := by
  unfold RsfConfigurationModel.doIntersectPreprocess RsfConfigurationModel.preprocessedItems
    insertItems eraseItems
  cases m._model.getMetaValue "ALWAYS_ON" <;> cases m._model.getMetaValue "ALWAYS_OFF" <;>
    cases exclude_set <;> rfl

/-- The members of the item set after a meta list was inserted. -/
theorem mem_insertItems (l : Option (List String)) (item_set : StrSet) (s : String) :
    s ∈ insertItems l item_set ↔ s ∈ item_set ∨ ∃ l1, l = some l1 ∧ s ∈ l1 := by
  cases l with
  | none => simp [insertItems]
  | some l1 =>
    simp only [insertItems, StrSet.mem_foldl_insert, Option.some.injEq, exists_eq_left']
    exact Or.comm

/-- The members of the item set after the exclude set was erased. -/
theorem mem_eraseItems (ex : Option StrSet) (item_set : StrSet) (s : String) :
    s ∈ eraseItems ex item_set ↔ s ∈ item_set ∧ ∀ ex1, ex = some ex1 → s ∉ ex1 := by
  cases ex with
  | none => simp [eraseItems]
  | some ex1 => simp [eraseItems, List.mem_filter]

/-- The preprocessing of a textual model keeps every item that is not excluded. -/
theorem rsf_preprocess_keeps (itemsOfString : String → List String)
    (m : RsfConfigurationModel) (item_set : StrSet) (exclude_set : Option StrSet) (s : String)
    (hs : s ∈ item_set) (hex : ∀ ex, exclude_set = some ex → s ∉ ex) :
    s ∈ (m.doIntersectPreprocess itemsOfString item_set exclude_set).1 := by
  rw [rsf_preprocess_fst]
  unfold RsfConfigurationModel.preprocessedItems
  have hkept : s ∈ eraseItems exclude_set
      (m.extendWithInterestingItems itemsOfString
        (insertItems (m._model.getMetaValue "ALWAYS_ON") item_set)) :=
    (mem_eraseItems _ _ _).mpr
      ⟨extendLoop_subset itemsOfString m._model s _ _ _
        ((mem_insertItems _ _ _).mpr (Or.inl hs)), hex⟩
  cases m._model.getMetaValue "ALWAYS_OFF" with
  | none => exact hkept
  | some l =>
    exact extendLoop_subset itemsOfString m._model s _ _ _
      ((mem_insertItems _ _ _).mpr (Or.inl hkept))

/-- Where the members of the item set come from that the preprocessing of a textual model
leaves: the items given, the `ALWAYS_ON` and `ALWAYS_OFF` lists and the stored formulas. -/
theorem rsf_preprocess_origin (itemsOfString : String → List String)
    (m : RsfConfigurationModel) (item_set : StrSet) (exclude_set : Option StrSet) (s : String)
    (hs : s ∈ (m.doIntersectPreprocess itemsOfString item_set exclude_set).1) :
    s ∈ item_set
      ∨ (∃ l, m._model.getMetaValue "ALWAYS_ON" = some l ∧ s ∈ l)
      ∨ (∃ l, m._model.getMetaValue "ALWAYS_OFF" = some l ∧ s ∈ l)
      ∨ ∃ key item, m._model.getValue key = some item ∧ item ≠ ""
          ∧ s ∈ itemsOfString item := by
  rw [rsf_preprocess_fst] at hs
  unfold RsfConfigurationModel.preprocessedItems at hs
  have hkept : ∀ x, x ∈ eraseItems exclude_set
      (m.extendWithInterestingItems itemsOfString
        (insertItems (m._model.getMetaValue "ALWAYS_ON") item_set)) →
      x ∈ item_set
        ∨ (∃ l, m._model.getMetaValue "ALWAYS_ON" = some l ∧ x ∈ l)
        ∨ (∃ l, m._model.getMetaValue "ALWAYS_OFF" = some l ∧ x ∈ l)
        ∨ ∃ key item, m._model.getValue key = some item ∧ item ≠ ""
            ∧ x ∈ itemsOfString item := by
    intro x hx
    rcases extendLoop_origin itemsOfString m._model x _ _ _ ((mem_eraseItems _ _ _).mp hx).1
      with h | h
    · rcases (mem_insertItems _ _ _).mp h with h1 | h1
      · exact Or.inl h1
      · exact Or.inr (Or.inl h1)
    · exact Or.inr (Or.inr (Or.inr h))
  cases hoff : m._model.getMetaValue "ALWAYS_OFF" with
  | none =>
    simp only [hoff] at hs
    have := hkept s hs
    simpa [hoff] using this
  | some l =>
    simp only [hoff] at hs
    rcases extendLoop_origin itemsOfString m._model s _ _ _ hs with h | h
    · rcases (mem_insertItems _ _ _).mp h with h1 | ⟨l1, hl1, h1⟩
      · have := hkept s h1
        simpa [hoff] using this
      · simp only [Option.some.injEq] at hl1
        subst hl1
        exact Or.inr (Or.inr (Or.inl ⟨l, rfl, h1⟩))
    · exact Or.inr (Or.inr (Or.inr h))

/-- The preprocessing of a textual model leaves the item set as it is when there is
neither an `ALWAYS_ON` nor an `ALWAYS_OFF` list, no exclude set, and no item has a formula
stored. -/
theorem rsf_preprocess_id (itemsOfString : String → List String)
    (m : RsfConfigurationModel) (item_set : StrSet)
    (hon : m._model.getMetaValue "ALWAYS_ON" = none)
    (hoff : m._model.getMetaValue "ALWAYS_OFF" = none)
    (hval : ∀ x ∈ item_set, m._model.getValue x = none ∨ m._model.getValue x = some "") :
    (m.doIntersectPreprocess itemsOfString item_set none).1 = item_set := by
  rw [rsf_preprocess_fst]
  unfold RsfConfigurationModel.preprocessedItems
  simp only [hon, hoff, insertItems, eraseItems]
  unfold RsfConfigurationModel.extendWithInterestingItems
  exact extendLoop_id itemsOfString m._model _ _ _
    (fun x hx => hval x (List.mem_reverse.mp hx))

/-! ## The literals of `doIntersect` -/

/-- A negated name is not the empty string. -/
theorem bang_ne_empty (s : String) : "!" ++ s ≠ "" := by
  intro h
  have := congrArg String.length h
  simp at this
  exact absurd this.1 (by decide)

/-- A name the loop of `doIntersect` adds to the missing set is one of the items the loop
runs over. -/
theorem foldl_doIntersectStep_missing_mem (m : ConfigurationModel)
    (c : Option (String → Bool)) (items : List String) (acc : StringJoiner × StrSet)
    (s : String) (hs : s ∈ (items.foldl (doIntersectStep m c) acc).2) :
    s ∈ acc.2 ∨ s ∈ items := by
  have hinv := foldl_doIntersectStep_inv m c
    (fun a => ∀ x ∈ a.2, x ∈ acc.2 ∨ x ∈ items) items
    (by
      intro a str hstr ha x hx
      rcases doIntersectStep_missing m c a str with h | ⟨h, _⟩
      · rw [h] at hx; exact ha x hx
      · rw [h] at hx
        rcases (StrSet.mem_insert str x a.2).mp hx with h1 | h1
        · exact Or.inr (h1 ▸ hstr)
        · exact ha x h1)
    acc (fun x hx => Or.inl hx)
  exact hinv s hs

/-- The `start_items` that `doIntersect` returns are what `doIntersectPreprocess` leaves
of the items of the expression. -/
theorem doIntersect_fst (itemsOfString : String → List String) (m : ConfigurationModel)
    (exp : String) (c : Option (String → Bool)) (missing : StrSet)
    (exclude_set : Option StrSet) :
    (m.doIntersect itemsOfString exp c missing exclude_set).1
      = (m.doIntersectPreprocess (StrSet.ofList (itemsOfString exp)) exclude_set).1 := by
  rw [doIntersect_eq]

/-- A name `doIntersect` adds to the missing set is one of the `start_items` it returns. -/
theorem doIntersect_missing_mem (itemsOfString : String → List String)
    (m : ConfigurationModel) (exp : String) (c : Option (String → Bool)) (missing : StrSet)
    (exclude_set : Option StrSet) (s : String)
    (hs : s ∈ (m.doIntersect itemsOfString exp c missing exclude_set).2.1)
    (hn : s ∉ missing) :
    s ∈ (m.doIntersect itemsOfString exp c missing exclude_set).1 := by
  rw [doIntersect_eq] at hs ⊢
  rcases foldl_doIntersectStep_missing_mem m c _ _ s hs with h | h
  · exact absurd h hn
  · exact h


/-! ## The claims about `doIntersect` -/

/-- C13. Every name `doIntersect` inserts into the missing set satisfies
`inConfigurationSpace`, is not contained in the model, is accepted by the define checker
when one is given, and starts neither with `__FREE__` nor with `CONFIG_CVALUE_`; the names
already in the missing set are kept. -/
theorem C13_missing_set (itemsOfString : String → List String) (m : ConfigurationModel)
    (exp : String) (c : Option (String → Bool)) (missing : StrSet)
    (exclude_set : Option StrSet) :
    (∀ s ∈ missing, s ∈ (m.doIntersect itemsOfString exp c missing exclude_set).2.1)
      ∧ ∀ s ∈ (m.doIntersect itemsOfString exp c missing exclude_set).2.1, s ∉ missing →
          m.inConfigurationSpace s = true ∧ m.containsSymbol s = false
            ∧ (∀ chk, c = some chk → chk s = true)
            ∧ starts_with s "__FREE__" = false
            ∧ starts_with s "CONFIG_CVALUE_" = false := by
  rw [doIntersect_eq]
  simp only
  generalize (m.doIntersectPreprocess (StrSet.ofList (itemsOfString exp)) exclude_set) = pre
  have hinv := foldl_doIntersectStep_inv m c
    (fun acc => (∀ s ∈ missing, s ∈ acc.2)
      ∧ ∀ s ∈ acc.2, s ∉ missing →
          m.inConfigurationSpace s = true ∧ m.containsSymbol s = false
            ∧ (∀ chk, c = some chk → chk s = true)
            ∧ starts_with s "__FREE__" = false
            ∧ starts_with s "CONFIG_CVALUE_" = false)
    pre.1
    (by
      intro acc str _ hp
      rcases doIntersectStep_missing m c acc str with h | ⟨h, g1, g2, g3, g4, g5⟩
      · rw [h]; exact hp
      · rw [h]
        refine ⟨fun s hs => (StrSet.mem_insert _ _ _).mpr (Or.inr (hp.1 s hs)), ?_⟩
        intro s hs hn
        rcases (StrSet.mem_insert _ _ _).mp hs with heq | hmem
        · subst heq
          exact ⟨g1, g2, g3, g4, g5⟩
        · exact hp.2 s hmem hn)
    (pre.2, missing)
    ⟨fun s hs => hs, fun s hs hn => absurd hs hn⟩
  exact hinv

/-- C13 under the incomplete model `x86`: of the symbols `__FREE__X`, `CONFIG_CVALUE_42` and
`CONFIG_Z` only `CONFIG_Z` is added to the missing set. -/
theorem C13_missing_set_witness :
    (Scenario.x86Incomplete.doIntersect Scenario.itemsOfString
        "__FREE__X && CONFIG_CVALUE_42 && CONFIG_Z" none [] none).2.1 = ["CONFIG_Z"]
      ∧ Scenario.x86Incomplete.inConfigurationSpace "CONFIG_Z" = true
      ∧ Scenario.x86Incomplete.containsSymbol "CONFIG_Z" = false :=
  ⟨by rfl,
    ((C13_missing_set Scenario.itemsOfString Scenario.x86Incomplete
      "__FREE__X && CONFIG_CVALUE_42 && CONFIG_Z" none [] none).2 "CONFIG_Z"
        (by decide) (by simp)).1,
    ((C13_missing_set Scenario.itemsOfString Scenario.x86Incomplete
      "__FREE__X && CONFIG_CVALUE_42 && CONFIG_Z" none [] none).2 "CONFIG_Z"
        (by decide) (by simp)).2.1⟩

/-- C14 (amended). For a textual model the set `doIntersect` returns is the item set its
preprocessing leaves of the symbols of `F`: it holds every symbol of `F` that is not in
the exclude set; every member is a symbol of `F`, an entry of the `ALWAYS_ON` or
`ALWAYS_OFF` list or an item of a stored non-empty formula; and it is exactly the set of
symbols of `F` when there is no exclude set, neither list, and no symbol of `F` has a
non-empty formula stored. -/
theorem C14_returned_items (itemsOfString : String → List String) (m : RsfConfigurationModel)
    (exp : String) (c : Option (String → Bool)) (missing : StrSet)
    (exclude_set : Option StrSet) :
    ((m.toConfigurationModel itemsOfString).doIntersect itemsOfString exp c missing
        exclude_set).1
        = m.preprocessedItems itemsOfString (StrSet.ofList (itemsOfString exp)) exclude_set
      ∧ (∀ s ∈ itemsOfString exp, (∀ ex, exclude_set = some ex → s ∉ ex) →
          s ∈ ((m.toConfigurationModel itemsOfString).doIntersect itemsOfString exp c missing
            exclude_set).1)
      ∧ (∀ s ∈ ((m.toConfigurationModel itemsOfString).doIntersect itemsOfString exp c missing
            exclude_set).1,
          s ∈ itemsOfString exp
            ∨ (∃ l, m._model.getMetaValue "ALWAYS_ON" = some l ∧ s ∈ l)
            ∨ (∃ l, m._model.getMetaValue "ALWAYS_OFF" = some l ∧ s ∈ l)
            ∨ ∃ key item, m._model.getValue key = some item ∧ item ≠ ""
                ∧ s ∈ itemsOfString item)
      ∧ (exclude_set = none → m._model.getMetaValue "ALWAYS_ON" = none →
          m._model.getMetaValue "ALWAYS_OFF" = none →
          (∀ x ∈ itemsOfString exp,
            m._model.getValue x = none ∨ m._model.getValue x = some "") →
          ((m.toConfigurationModel itemsOfString).doIntersect itemsOfString exp c missing
            exclude_set).1 = StrSet.ofList (itemsOfString exp)) := by
  have hfst : ((m.toConfigurationModel itemsOfString).doIntersect itemsOfString exp c missing
        exclude_set).1
      = (m.doIntersectPreprocess itemsOfString (StrSet.ofList (itemsOfString exp))
          exclude_set).1 := doIntersect_fst _ _ _ _ _ _
  rw [hfst]
  refine ⟨rsf_preprocess_fst _ _ _ _, ?_, ?_, ?_⟩
  · intro s hs hex
    exact rsf_preprocess_keeps itemsOfString m _ exclude_set s
      ((StrSet.mem_ofList _ s).mpr hs) hex
  · intro s hs
    rcases rsf_preprocess_origin itemsOfString m _ exclude_set s hs with h | h
    · exact Or.inl ((StrSet.mem_ofList _ s).mp h)
    · exact Or.inr h
  · intro hex hon hoff hval
    subst hex
    exact rsf_preprocess_id itemsOfString m _ hon hoff
      (fun x hx => hval x ((StrSet.mem_ofList _ x).mp hx))

/-- C14 as amended, on the formula `CONFIG_A && X` with the exclude set `X`. -/
theorem C14_returned_items_witness :
    "CONFIG_A" ∈ ((Scenario.typed.toConfigurationModel Scenario.itemsOfString).doIntersect
      Scenario.itemsOfString "CONFIG_A && X" none [] (some ["X"])).1 :=
  (C14_returned_items Scenario.itemsOfString Scenario.typed "CONFIG_A && X" none []
    (some ["X"])).2.1 "CONFIG_A" (by decide) (by decide)

/-- C14 (as stated) fails: under the model `x86` the set returned for the code constraints
of `B0` holds `CONFIG_B`, which the formula does not mention. -/
theorem C14_counterexample :
    (Scenario.x86.doIntersect Scenario.itemsOfString (Scenario.B0 "").getCodeConstraints
        none [] none).1
        ≠ StrSet.ofList (Scenario.itemsOfString (Scenario.B0 "").getCodeConstraints)
      ∧ "CONFIG_B" ∈ (Scenario.x86.doIntersect Scenario.itemsOfString
          (Scenario.B0 "").getCodeConstraints none [] none).1
      ∧ "CONFIG_B" ∉ Scenario.itemsOfString (Scenario.B0 "").getCodeConstraints := by
  decide

/-- C15 (amended). Every name `doIntersect` adds to the missing set under a textual model
is a member of the set it returns; it is a symbol of `F`, an entry of the `ALWAYS_ON` or
`ALWAYS_OFF` list, or an item of a stored non-empty formula. -/
theorem C15_missing_origin (itemsOfString : String → List String) (m : RsfConfigurationModel)
    (exp : String) (c : Option (String → Bool)) (missing : StrSet)
    (exclude_set : Option StrSet) (s : String)
    (hs : s ∈ ((m.toConfigurationModel itemsOfString).doIntersect itemsOfString exp c missing
      exclude_set).2.1)
    (hn : s ∉ missing) :
    s ∈ ((m.toConfigurationModel itemsOfString).doIntersect itemsOfString exp c missing
        exclude_set).1
      ∧ (s ∈ itemsOfString exp
        ∨ (∃ l, m._model.getMetaValue "ALWAYS_ON" = some l ∧ s ∈ l)
        ∨ (∃ l, m._model.getMetaValue "ALWAYS_OFF" = some l ∧ s ∈ l)
        ∨ ∃ key item, m._model.getValue key = some item ∧ item ≠ ""
            ∧ s ∈ itemsOfString item) := by
  have hmem := doIntersect_missing_mem itemsOfString (m.toConfigurationModel itemsOfString)
    exp c missing exclude_set s hs hn
  refine ⟨hmem, ?_⟩
  rw [doIntersect_fst] at hmem
  rcases rsf_preprocess_origin itemsOfString m _ exclude_set s hmem with h | h
  · exact Or.inl ((StrSet.mem_ofList _ s).mp h)
  · exact Or.inr h

/-- C15 as amended, on the formula `CONFIG_A`: the missing name `CONFIG_B` is an item of the
formula stored for `CONFIG_A`. -/
theorem C15_missing_origin_witness :
    "CONFIG_B" ∈ ((Scenario.typed.toConfigurationModel Scenario.itemsOfString).doIntersect
        Scenario.itemsOfString "CONFIG_A" none [] none).1
      ∧ ("CONFIG_B" ∈ Scenario.itemsOfString "CONFIG_A"
        ∨ (∃ l, Scenario.typed._model.getMetaValue "ALWAYS_ON" = some l ∧ "CONFIG_B" ∈ l)
        ∨ (∃ l, Scenario.typed._model.getMetaValue "ALWAYS_OFF" = some l ∧ "CONFIG_B" ∈ l)
        ∨ ∃ key item, Scenario.typed._model.getValue key = some item ∧ item ≠ ""
            ∧ "CONFIG_B" ∈ Scenario.itemsOfString item) :=
  C15_missing_origin Scenario.itemsOfString Scenario.typed "CONFIG_A" none [] none "CONFIG_B"
    (by decide) (by simp)

/-- C15 (as stated) fails: under the model `sparc` the name `CONFIG_B`, reached only
through the formula stored for `CONFIG_A`, is added to the missing set for the code
constraints of `B0`. -/
theorem C15_counterexample :
    (Scenario.sparc.doIntersect Scenario.itemsOfString (Scenario.B0 "").getCodeConstraints
        (some (Scenario.B0 "").getFile.getDefineChecker) [] none).2.1 = ["CONFIG_B"]
      ∧ "CONFIG_B" ∉ Scenario.itemsOfString (Scenario.B0 "").getCodeConstraints := by
  constructor
  · rfl
  · decide

/-- After `RsfReader::addMetaValue` the key has a list of values. -/
theorem lookup_addMetaValueTo (key value : String) (l : List (String × List String)) :
    (addMetaValueTo key value l).lookup key ≠ none := by
  induction l with
  | nil => simp [addMetaValueTo, List.lookup]
  | cons e rest ih =>
    obtain ⟨k, values⟩ := e
    unfold addMetaValueTo
    by_cases h : k = key
    · subst h
      simp [List.lookup]
    · have h1 : (key == k) = false := by
        simp only [beq_eq_false_iff_ne, ne_eq]
        exact fun h2 => h h2.symm
      simp only [h, if_false, List.lookup, h1]
      exact ih

/-- C20. `isComplete()` is true exactly when the meta map has no key
`CONFIGURATION_SPACE_INCOMPLETE`, and the textual model constructed from a reader without
entries is not complete, whatever meta information the file holds. -/
theorem C20_isComplete (regex : String → String → Bool) (addr : Nat) (name : String)
    (meta_information : List (String × List String)) (rsf : List (String × String))
    (itemsOfString : String → List String) :
    (∀ m : ConfigurationModel,
        m.isComplete = true ↔ m.getMetaValue "CONFIGURATION_SPACE_INCOMPLETE" = none)
      ∧ (∀ m : RsfConfigurationModel,
        (m.toConfigurationModel itemsOfString).isComplete = true
          ↔ m._model.meta_information.lookup "CONFIGURATION_SPACE_INCOMPLETE" = none)
      ∧ ((RsfConfigurationModel.new regex addr name ⟨[], meta_information⟩
          rsf).toConfigurationModel itemsOfString).isComplete = false := by
  refine ⟨fun m => ?_, fun m => ?_, ?_⟩
  · exact Option.isNone_iff_eq_none
  · exact Option.isNone_iff_eq_none
  · unfold ConfigurationModel.isComplete RsfConfigurationModel.toConfigurationModel
      RsfConfigurationModel.new RsfReader.addMetaValue RsfReader.getMetaValue
    simp only [List.length_nil, if_true]
    have := lookup_addMetaValueTo "CONFIGURATION_SPACE_INCOMPLETE" "1" meta_information
    cases h : (addMetaValueTo "CONFIGURATION_SPACE_INCOMPLETE" "1" meta_information).lookup
      "CONFIGURATION_SPACE_INCOMPLETE" with
    | none => exact absurd h this
    | some v => simp [h]

/-- The group of `item_regexp` on a name that goes on with `_MODULE` after item
characters. -/
theorem matchItemRest_module (xs : List Char) (hxs : xs.all isItemChar = true) :
    ∀ taken, matchItemRest taken (xs ++ "_MODULE".data) = some (taken ++ xs) := by
  induction xs with
  | nil =>
    intro taken
    simp [matchItemRest]
  | cons x rest ih =>
    intro taken
    simp only [List.all_cons, Bool.and_eq_true] at hxs
    have hlen : x :: (rest ++ "_MODULE".data) ≠ "_MODULE".data := by
      intro h
      have := congrArg List.length h
      simp at this
    show matchItemRest taken (x :: (rest ++ "_MODULE".data)) = _
    rw [matchItemRest, if_neg hlen, if_pos hxs.1, ih hxs.2]
    simp

/-- The group of `item_regexp` on item characters of which no suffix is `_MODULE`. -/
theorem matchItemRest_plain (xs : List Char) (hxs : xs.all isItemChar = true) :
    (∀ p, xs ≠ p ++ "_MODULE".data) →
    ∀ taken, matchItemRest taken xs = some (taken ++ xs) := by
  induction xs with
  | nil =>
    intro _ taken
    simp [matchItemRest]
  | cons x rest ih =>
    intro hp taken
    simp only [List.all_cons, Bool.and_eq_true] at hxs
    have hne : x :: rest ≠ "_MODULE".data := fun h => hp [] (by simpa using h)
    rw [matchItemRest, if_neg hne, if_pos hxs.1,
      ih hxs.2 (fun p h => hp (x :: p) (by simp [h]))]
    simp

/-- The group of `item_regexp` is found only on item characters. -/
theorem matchItemRest_some (xs : List Char) :
    ∀ taken r, matchItemRest taken xs = some r → xs.all isItemChar = true := by
  induction xs with
  | nil => intro _ _ _; rfl
  | cons x rest ih =>
    intro taken r h
    unfold matchItemRest at h
    by_cases hm : x :: rest = "_MODULE".data
    · rw [hm]; decide
    · simp only [hm, if_false] at h
      by_cases hx : isItemChar x = true
      · simp only [hx, if_true] at h
        simp [hx, ih _ _ h]
      · simp [hx] at h

/-- What `item_regexp` matches on `CONFIG_` followed by a word. -/
theorem matchItem_config (w : List Char) :
    matchItem (String.mk ("CONFIG_".data ++ w))
      = match w with
        | c :: rest => if isItemChar c then (matchItemRest [c] rest).map String.mk else none
        | [] => none := by
  unfold matchItem
  have h1 : "CONFIG_".data.isPrefixOf ("CONFIG_".data ++ w) = true := by
    simp [List.isPrefixOf]
  have h2 : ("CONFIG_".data ++ w).drop 7 = w := by
    simp [List.drop]
  simp only [h1, if_true, h2]

/-- What `item_regexp` finds in `CONFIG_X_MODULE`. -/
theorem matchItem_module (X : String) (hne : X.data ≠ [])
    (hX : X.data.all isItemChar = true) :
    matchItem ("CONFIG_" ++ X ++ "_MODULE") = some X := by
  have hd : "CONFIG_" ++ X ++ "_MODULE" = String.mk ("CONFIG_".data ++ (X.data ++ "_MODULE".data)) := by
    apply String.ext
    simp [String.data_append]
  rw [hd, matchItem_config]
  cases hx : X.data with
  | nil => exact absurd hx hne
  | cons c rest =>
    rw [hx] at hX
    simp only [List.all_cons, Bool.and_eq_true] at hX
    simp only [List.cons_append, hX.1, if_true]
    rw [matchItemRest_module rest hX.2]
    simp only [Option.map_some', List.singleton_append, Option.some.injEq]
    apply String.ext
    simp [hx]

/-- What `item_regexp` finds in `CONFIG_X` when `X` does not end in `_MODULE` after a
non-empty word. -/
theorem matchItem_plain (X : String) (hne : X.data ≠ [])
    (hX : X.data.all isItemChar = true)
    (hp : ∀ Y : List Char, Y ≠ [] → X.data ≠ Y ++ "_MODULE".data) :
    matchItem ("CONFIG_" ++ X) = some X := by
  have hd : "CONFIG_" ++ X = String.mk ("CONFIG_".data ++ X.data) := by
    apply String.ext
    simp [String.data_append]
  rw [hd, matchItem_config]
  cases hx : X.data with
  | nil => exact absurd hx hne
  | cons c rest =>
    rw [hx] at hX hp
    simp only [List.all_cons, Bool.and_eq_true] at hX
    simp only [hX.1, if_true]
    rw [matchItemRest_plain rest hX.2
      (fun p h => hp (c :: p) (by simp) (by simp [h]))]
    simp only [Option.map_some', List.singleton_append, Option.some.injEq]
    apply String.ext
    simp [hx]

/-- The names `item_regexp` does not match. -/
theorem matchItem_none (name : String)
    (h : ¬∃ w, name.data = "CONFIG_".data ++ w ∧ w ≠ [] ∧ w.all isItemChar = true) :
    matchItem name = none := by
  unfold matchItem
  by_cases hpre : "CONFIG_".data.isPrefixOf name.data = true
  · simp only [hpre, if_true]
    have hw : name.data = "CONFIG_".data ++ name.data.drop 7 := by
      obtain ⟨t, ht⟩ := List.isPrefixOf_iff_prefix.mp hpre
      rw [← ht]
      simp [List.drop]
    cases hd : name.data.drop 7 with
    | nil => rfl
    | cons c rest =>
      simp only
      by_cases hc : isItemChar c = true
      · simp only [hc, if_true]
        cases hr : matchItemRest [c] rest with
        | none => rfl
        | some r =>
          exfalso
          apply h
          refine ⟨c :: rest, ?_, by simp, ?_⟩
          · rw [← hd]; exact hw
          · simp [hc, matchItemRest_some rest _ _ hr]
      · simp [hc]
  · simp [hpre]

/-! ## The claims about `getType`, `containsSymbol` and `isComplete` -/

/-- C17 (amended). For every option name `X`, a non-empty word over `[0-9A-Za-z_]`,
`getType("CONFIG_" + X + "_MODULE")` returns the upper-cased type word recorded for `X`,
or `MISSING` when none is recorded (for a CNF model: the entry of the type table for the
symbol type of `X`), and so does `getType("CONFIG_" + X)` when `X` is not itself a
non-empty word followed by `_MODULE`; for every name that is not `CONFIG_` followed by
such a word, `getType` returns `#ERROR`. -/
theorem C17_getType (m : RsfConfigurationModel) (cnf : CnfConfigurationModel) :
    (∀ X : String, X.data ≠ [] → X.data.all isItemChar = true →
        m.getType ("CONFIG_" ++ X ++ "_MODULE")
            = ((m._rsf.lookup X).map toupper).getD "MISSING"
          ∧ cnf.getType ("CONFIG_" ++ X ++ "_MODULE")
            = CnfConfigurationModel.types.get? (cnf.getSymbolType X)
          ∧ ((∀ Y : List Char, Y ≠ [] → X.data ≠ Y ++ "_MODULE".data) →
              m.getType ("CONFIG_" ++ X) = ((m._rsf.lookup X).map toupper).getD "MISSING"
                ∧ cnf.getType ("CONFIG_" ++ X)
                  = CnfConfigurationModel.types.get? (cnf.getSymbolType X)))
      ∧ (∀ name : String,
          (¬∃ w, name.data = "CONFIG_".data ++ w ∧ w ≠ [] ∧ w.all isItemChar = true) →
          m.getType name = "#ERROR" ∧ cnf.getType name = some "#ERROR") := by
  refine ⟨fun X hne hX => ⟨?_, ?_, fun hp => ⟨?_, ?_⟩⟩, fun name h => ⟨?_, ?_⟩⟩
  · unfold RsfConfigurationModel.getType
    rw [matchItem_module X hne hX]
    simp only
    cases List.lookup X m._rsf <;> rfl
  · unfold CnfConfigurationModel.getType
    rw [matchItem_module X hne hX]
  · unfold RsfConfigurationModel.getType
    rw [matchItem_plain X hne hX hp]
    simp only
    cases List.lookup X m._rsf <;> rfl
  · unfold CnfConfigurationModel.getType
    rw [matchItem_plain X hne hX hp]
  · unfold RsfConfigurationModel.getType
    rw [matchItem_none name h]
  · unfold CnfConfigurationModel.getType
    rw [matchItem_none name h]

/-- C17 as amended, on the type file of the model `typed`. -/
theorem C17_getType_witness :
    Scenario.typed.getType ("CONFIG_" ++ "A_MODULE" ++ "_MODULE")
        = ((Scenario.typed._rsf.lookup "A_MODULE").map toupper).getD "MISSING"
      ∧ Scenario.typed.getType "CONFIG_A_MODULE_MODULE" = "TRISTATE"
      ∧ Scenario.typed.getType ("CONFIG_" ++ "A")
        = ((Scenario.typed._rsf.lookup "A").map toupper).getD "MISSING"
      ∧ Scenario.typed.getType "CONFIG_A" = "BOOLEAN"
      ∧ Scenario.typed.getType "CONFIG_B" = "MISSING"
      ∧ Scenario.typed.getType "CONFIG_A-B" = "#ERROR" :=
  ⟨((C17_getType Scenario.typed Scenario.cnf).1 "A_MODULE" (by decide) (by decide)).1,
    by decide,
    (((C17_getType Scenario.typed Scenario.cnf).1 "A" (by decide) (by decide)).2.2
      (by
        intro Y _ h
        have := congrArg List.length h
        simp at this)).1,
    by decide, by decide,
    ((C17_getType Scenario.typed Scenario.cnf).2 "CONFIG_A-B"
      (by
        rintro ⟨w, hw, _, hall⟩
        have hw2 : w = ['A', '-', 'B'] := by
          have h1 : "CONFIG_A-B".data = "CONFIG_".data ++ ['A', '-', 'B'] := by decide
          rw [h1] at hw
          exact (List.append_cancel_left hw).symm
        subst hw2
        exact absurd hall (by decide))).1⟩

/-- C17 (as stated) fails: the type file records `tristate` for the option `A_MODULE` and
`boolean` for `A`, and `getType("CONFIG_A_MODULE")` returns the type of `A`. -/
theorem C17_counterexample :
    "A_MODULE".data ≠ [] ∧ "A_MODULE".data.all isItemChar = true
      ∧ Scenario.typed._rsf.lookup "A_MODULE" = some "tristate"
      ∧ toupper "tristate" = "TRISTATE"
      ∧ Scenario.typed.getType ("CONFIG_" ++ "A_MODULE") = "BOOLEAN"
      ∧ Scenario.cnf.getSymbolType "A_MODULE" = 0
      ∧ Scenario.cnf.getType ("CONFIG_" ++ "A_MODULE") = some "BOOLEAN" := by
  decide

/-- C18. The code at the failing input: the type file records `boolean` for `FOO`;
`getType("CONFIG_FOO")` returns `BOOLEAN`, and `getType("FOO")` returns `#ERROR`, for the
textual and the CNF model alike. -/
theorem C18_getType_bare_name :
    Scenario.typed._rsf.lookup "FOO" = some "boolean"
      ∧ Scenario.typed.getType ("CONFIG_" ++ "FOO") = "BOOLEAN"
      ∧ Scenario.typed.getType "FOO" = "#ERROR"
      ∧ Scenario.cnf.getType ("CONFIG_" ++ "A") = some "BOOLEAN"
      ∧ Scenario.cnf.getType "A" = some "#ERROR" := by
  decide

/-- C19. The code at the failing input: the name `FILE_a.c` starts with `FILE_` and has no
entry in the textual model; `containsSymbol` of the textual model returns false for it,
and `containsSymbol` of a CNF model returns true for it, being the disjunction of the
prefix test and the lookup. -/
theorem C19_containsSymbol_file :
    starts_with "FILE_a.c" "FILE_" = true
      ∧ Scenario.typed._model.getValue "FILE_a.c" = none
      ∧ Scenario.typed.containsSymbol "FILE_a.c" = false
      ∧ Scenario.cnf.hasAssociatedSymbol "FILE_a.c" = false
      ∧ Scenario.cnf.containsSymbol "FILE_a.c" = true
      ∧ (∀ (m : CnfConfigurationModel) (name : String),
          m.containsSymbol name = (starts_with name "FILE_" || m.hasAssociatedSymbol name))
      ∧ (∀ (m : RsfConfigurationModel) (name : String),
          m.containsSymbol name = (m._model.getValue name).isSome) := by
  refine ⟨by decide, by decide, by decide, by decide, by decide, fun _ _ => rfl,
    fun _ _ => rfl⟩

/-! ## Facts about an empty model and about the root block -/

/-- A textual model without entries yields the empty slice. -/
theorem rsf_empty_slice (itemsOfString : String → List String) (m : RsfConfigurationModel)
    (hm : m._model.entries = []) (exp : String) (c : Option (String → Bool))
    (missing : StrSet) (exclude_set : Option StrSet) :
    ((m.toConfigurationModel itemsOfString).doIntersect itemsOfString exp c missing
      exclude_set).2.2 = "" := by
  have hv : ∀ str, m._model.getValue str = none := by
    intro str
    simp [RsfReader.getValue, hm]
  have hconst : ∀ (X : List String) (acc : StringJoiner),
      X.foldl (fun sj _ => sj) acc = acc := by
    intro X
    induction X with
    | nil => intro acc; rfl
    | cons x rest ih => intro acc; simp [ih]
  have hpre : ∀ S, (m.doIntersectPreprocess itemsOfString S exclude_set).2 = [] := by
    intro S
    simp only [RsfConfigurationModel.doIntersectPreprocess, hv]
    exact hconst _ _
  rw [doIntersect_eq]
  simp only
  have hfold := foldl_doIntersectStep_inv (m.toConfigurationModel itemsOfString) c
    (fun acc => acc.1 = [])
    ((m.toConfigurationModel itemsOfString).doIntersectPreprocess
      (StrSet.ofList (itemsOfString exp)) exclude_set).1
    (by
      intro acc str _ hacc
      obtain ⟨sj, ms⟩ := acc
      have hc : (m.toConfigurationModel itemsOfString).containsSymbol str = false := by
        show m.containsSymbol str = false
        simp [RsfConfigurationModel.containsSymbol, hm]
      simp only at hacc
      subst hacc
      unfold doIntersectStep
      simp only [hc, Bool.false_eq_true, if_false]
      split_ifs <;> rfl)
    (((m.toConfigurationModel itemsOfString).doIntersectPreprocess
      (StrSet.ofList (itemsOfString exp)) exclude_set).2, missing)
    (hpre _)
  rw [hfold]
  rfl

/-- Under a textual model whose slices are empty, and with a solver to which an empty
formula adds nothing, no walk of the ladder stops at the configuration step. -/
theorem walk_empty_slice (env : Env) (dead : Bool) (cb : ConditionalBlock)
    (mm : ConfigurationModel)
    (hslice : ∀ exp c missing ex,
      (mm.doIntersect env.itemsOfString exp c missing ex).2.2 = "")
    (hrsf : mm.getModelVersionIdentifier ≠ "cnf")
    (hempty : ∀ q, env.checkSatisfiable (q ++ [SatInput.formula ""]) = env.checkSatisfiable q)
    (rg : Rung) (hw : walk env dead cb (some mm) = some (some rg)) :
    rg.kind ≠ DEFECTTYPE.Configuration := by
  unfold walk at hw
  cases hf : firstConjunct dead cb with
  | none => simp [hf] at hw
  | some first =>
    simp only [hf] at hw
    unfold ladder at hw
    simp only [hslice, hrsf, if_false, List.append_nil, List.cons_append, List.nil_append,
      firstUnsat] at hw
    have h2 := hempty [SatInput.formula (codeFormula first cb)]
    simp only [List.cons_append, List.nil_append] at h2
    rw [h2] at hw
    cases h1 : env.checkSatisfiable [SatInput.formula (codeFormula first cb)] with
    | none => simp [h1] at hw
    | some b =>
      cases b with
      | false =>
        simp only [h1, Option.some.injEq] at hw
        subst hw
        simp
      | true =>
        simp only [h1] at hw
        split at hw
        · cases hw
        · simp only [Option.some.injEq] at hw
          subst hw
          simp
        · by_cases hcomp : mm.isComplete = true
          · simp only [hcomp, if_true, firstUnsat] at hw
            split at hw
            · cases hw
            · simp only [Option.some.injEq] at hw
              subst hw
              simp
            · cases hw
          · simp only [hcomp, firstUnsat] at hw
            cases hw

/-- A check in the cross-check keeps the kind `BuildSystem`. -/
theorem isDefect_keeps_build (env : Env) (d : BlockDefect) (m : ConfigurationModel)
    (hcode : codeSat env d.dead d._cb = some true) (r : Bool) (d1 : BlockDefect)
    (h : d.isDefect env (some m) false = some (r, d1))
    (hb : d._defectType = DEFECTTYPE.BuildSystem) :
    d1._defectType = DEFECTTYPE.BuildSystem := by
  rcases isDefect_cases env d (some m) false r d1 h with ⟨_, _, hd⟩ | ⟨_, rg, hw, hd⟩
  · subst hd
    exact hb
  · subst hd
    rcases walk_of_codeSat_true env d.dead d._cb hcode (some m) rg hw with h1 | h1 | ⟨h1, _⟩ <;>
      simp [BlockDefect.hit, escalate, h1, hb]

/-- The cross-check keeps the kind `BuildSystem`. -/
theorem crosscheck_keeps_build (env : Env) (main : ConfigurationModel)
    (models : List (String × ConfigurationModel)) :
    ∀ (d d1 : BlockDefect), codeSat env d.dead d._cb = some true →
      d._defectType = DEFECTTYPE.BuildSystem →
      crosscheck env main models d = some d1 → d1._defectType = DEFECTTYPE.BuildSystem := by
  induction models with
  | nil =>
    intro d d1 _ hb h
    simp only [crosscheck, Option.some.injEq] at h
    subst h
    simpa [BlockDefect.markAsGlobal] using hb
  | cons e rest ih =>
    intro d d1 hcode hb h
    unfold crosscheck at h
    by_cases hm : e.2.addr = main.addr
    · simp only [hm, if_true] at h
      exact ih d d1 hcode hb h
    · simp only [hm, if_false] at h
      cases hres : d.isDefect env (some e.2) false with
      | none => simp [hres] at h
      | some res =>
        obtain ⟨r, d2⟩ := res
        have hb2 := isDefect_keeps_build env d e.2 hcode r d2 hres hb
        obtain ⟨s1, s2, _⟩ := isDefect_crosscheck_step env d e.2 hcode r d2 hres
        cases r with
        | false =>
          simp only [hres, Option.some.injEq] at h
          subst h
          exact hb2
        | true =>
          simp only [hres] at h
          exact ih d2 d1 (by rw [s1, s2]; exact hcode) hb2 h

/-- The textual model constructed from a reader without entries is not complete. -/
theorem rsf_new_incomplete (regex : String → String → Bool) (addr : Nat) (name : String)
    (meta_information : List (String × List String)) (rsf : List (String × String))
    (itemsOfString : String → List String) :
    ((RsfConfigurationModel.new regex addr name ⟨[], meta_information⟩
      rsf).toConfigurationModel itemsOfString).isComplete = false := by
  unfold ConfigurationModel.isComplete RsfConfigurationModel.toConfigurationModel
    RsfConfigurationModel.new RsfReader.addMetaValue RsfReader.getMetaValue
  simp only [List.length_nil, if_true]
  have := lookup_addMetaValueTo "CONFIGURATION_SPACE_INCOMPLETE" "1" meta_information
  cases h : (addMetaValueTo "CONFIGURATION_SPACE_INCOMPLETE" "1" meta_information).lookup
    "CONFIGURATION_SPACE_INCOMPLETE" with
  | none => exact absurd h this
  | some v => simp [h]

/-- The textual model constructed from a reader without entries has no entries. -/
theorem rsf_new_entries (regex : String → String → Bool) (addr : Nat) (name : String)
    (meta_information : List (String × List String)) (rsf : List (String × String)) :
    (RsfConfigurationModel.new regex addr name ⟨[], meta_information⟩ rsf)._model.entries
      = [] := by
  simp [RsfConfigurationModel.new, RsfReader.addMetaValue]


/-- An empty formula adds nothing to what the solver of the concrete world has been fed. -/
theorem Scenario.parseInputs_empty (q : List SatInput) :
    Scenario.parseInputs (q ++ [SatInput.formula ""]) = Scenario.parseInputs q := by
  induction q with
  | nil => rfl
  | cons a rest ih =>
    cases a with
    | cnfModel addr => rfl
    | formula s =>
      show Scenario.parseInputs (SatInput.formula s :: (rest ++ [SatInput.formula ""])) = _
      rw [Scenario.parseInputs, ih, Scenario.parseInputs]

/-- The solver of the concrete world decides the same with and without an empty formula. -/
theorem Scenario.checkSatisfiable_empty (q : List SatInput) :
    Scenario.checkSatisfiable (q ++ [SatInput.formula ""]) = Scenario.checkSatisfiable q := by
  unfold Scenario.checkSatisfiable
  rw [Scenario.parseInputs_empty]

/-- The undead check of a block without parent finds nothing. -/
theorem walk_undead_root (env : Env) (block : ConditionalBlock)
    (main : Option ConfigurationModel) (hroot : block.getParent = BlockPtr.nullptr) :
    walk env false block main = some none := by
  simp [walk, firstConjunct, hroot]

/-- `analyzeBlock` returns no defect when neither walk of the ladder stops. -/
theorem analyzeBlock_none_of_walk (env : Env) (block : ConditionalBlock)
    (main : Option ConfigurationModel)
    (hdead : walk env true block main = some none)
    (hundead : walk env false block main = some none) :
    analyzeBlock env block main = (none, block) := by
  obtain ⟨d1, h1⟩ := fresh_isDefect_of_walk env true block main true none hdead
  obtain ⟨d2, h2⟩ := fresh_isDefect_of_walk env false block main true none hundead
  have h1a : (DeadBlockDefect.new block).isDefect env main true = some (false, d1) := h1
  have h2a : (UndeadBlockDefect.new block).isDefect env main true = some (false, d2) := h2
  simp [analyzeBlock, analyzeBlock_helper, h1a, h2a]


/-! ## The claims about the root block and the empty model -/

/-- C11 (amended). `analyzeBlock` on a block without parent, the root `B00`, returns no
defect when every step of the dead ladder under the main model is satisfiable, in
particular without main model when `B00 && codeConstraints` is satisfiable; a defect it
returns is a dead one. -/
theorem C11_root_block (env : Env) (block : ConditionalBlock)
    (main : Option ConfigurationModel) (hroot : block.getParent = BlockPtr.nullptr) :
    (∀ d block1, analyzeBlock env block main = (some d, block1) → d.dead = true)
      ∧ (walk env true block main = some none → analyzeBlock env block main = (none, block))
      ∧ (main = none → codeSat env true block = some true →
          analyzeBlock env block main = (none, block)) := by
  have hund := walk_undead_root env block main hroot
  refine ⟨?_, fun hw => analyzeBlock_none_of_walk env block main hw hund, ?_⟩
  · intro d block1 h
    obtain ⟨dead, d0, h0, _, hfound⟩ := analyzeBlock_some env block main d block1 h
    obtain ⟨rg, hw, hd0, _⟩ := fresh_isDefect_true env dead block main true d0 h0
    cases dead with
    | false =>
      rw [hund] at hw
      cases hw
    | true =>
      rcases analyzeBlock_found_cases env block main d0 with hn | ⟨d', hd', hdead⟩
      · rw [hfound] at hn
        cases hn
      · rw [hfound] at hd'
        simp only [Option.some.injEq] at hd'
        subst hd'
        exact hdead.trans hd0
  · intro hmain hcode
    subst hmain
    apply analyzeBlock_none_of_walk env block none _ hund
    unfold codeSat at hcode
    simp only [walk, firstConjunct, if_true] at hcode ⊢
    simp [ladder, firstUnsat, hcode]

/-- C11 as amended, on the top block `B00` of `a.c` without any model. -/
theorem C11_root_block_witness :
    (Scenario.B00 "").getParent = BlockPtr.nullptr
      ∧ codeSat (Scenario.env []) true (Scenario.B00 "") = some true
      ∧ analyzeBlock (Scenario.env []) (Scenario.B00 "") none = (none, Scenario.B00 "") :=
  ⟨rfl, by rfl,
    (C11_root_block (Scenario.env []) (Scenario.B00 "") none rfl).2.2 rfl (by rfl)⟩

/-- C11 (as stated) fails: `b.c` has no block but `B00`; under the main model `sh` the file
is built only with `CONFIG_A`, which is always off, and `analyzeBlock` returns a dead
defect of kind `Configuration` for `B00`. -/
theorem C11_counterexample :
    Scenario.rootOnly.getParent = BlockPtr.nullptr
      ∧ (analyzeBlock (Scenario.env [("sh", Scenario.sh)]) Scenario.rootOnly
          (some Scenario.sh)).1.map (fun d => (d.dead, d._defectType, d._isGlobal, d._formula))
        = some (true, DEFECTTYPE.Configuration, true,
            "B00\n&&\n( B00 <-> FILE_b.c )\n&&\n(FILE_b.c -> (CONFIG_A))\n&& !CONFIG_A") := by
  constructor <;> rfl


/-- C12 (amended). When the main model is a textual model loaded from a file without
option entries, every defect `analyzeBlock` returns has kind Implementation, NoKconfig,
Configuration or BuildSystem, never Referential; and it has kind Implementation, NoKconfig
or BuildSystem when the empty formula adds nothing to what the solver has been fed. -/
theorem C12_empty_model (env : Env) (regex : String → String → Bool) (addr : Nat)
    (name : String) (meta_information : List (String × List String))
    (rsf : List (String × String)) (block : ConditionalBlock) (d : BlockDefect)
    (block1 : ConditionalBlock)
    (h : analyzeBlock env block
      (some ((RsfConfigurationModel.new regex addr name ⟨[], meta_information⟩
        rsf).toConfigurationModel env.itemsOfString)) = (some d, block1)) :
    (d._defectType = DEFECTTYPE.Implementation ∨ d._defectType = DEFECTTYPE.NoKconfig
        ∨ d._defectType = DEFECTTYPE.Configuration ∨ d._defectType = DEFECTTYPE.BuildSystem)
      ∧ ((∀ q, env.checkSatisfiable (q ++ [SatInput.formula ""]) = env.checkSatisfiable q) →
          d._defectType = DEFECTTYPE.Implementation ∨ d._defectType = DEFECTTYPE.NoKconfig
            ∨ d._defectType = DEFECTTYPE.BuildSystem) := by
  generalize hmm : (RsfConfigurationModel.new regex addr name ⟨[], meta_information⟩
    rsf).toConfigurationModel env.itemsOfString = mm at h
  have hinc : mm.isComplete = false := by
    rw [← hmm]; exact rsf_new_incomplete _ _ _ _ _ _
  have hslice : ∀ exp c missing ex,
      (mm.doIntersect env.itemsOfString exp c missing ex).2.2 = "" := by
    intro exp c missing ex
    rw [← hmm]
    exact rsf_empty_slice _ _ (rsf_new_entries _ _ _ _ _) _ _ _ _
  have hrsf : mm.getModelVersionIdentifier ≠ "cnf" := by
    rw [← hmm]
    show "rsf" ≠ "cnf"
    decide
  obtain ⟨dead, d0, h0, _, hfound⟩ := analyzeBlock_some env block (some mm) d block1 h
  obtain ⟨rg, hw, hd0, hcb0, hty0, _, _, _⟩ :=
    fresh_isDefect_true env dead block (some mm) true d0 h0
  obtain ⟨_, hcases⟩ := analyzeBlock_found_some env block (some mm) d0 d block1 hfound
  have hwk := walk_kind env dead block (some mm) rg hw
  have hrg : rg.kind = DEFECTTYPE.Implementation ∨ rg.kind = DEFECTTYPE.Configuration
      ∨ rg.kind = DEFECTTYPE.BuildSystem := by
    rcases hwk with ⟨hk, _⟩ | ⟨hk | hk | ⟨_, m, hm, hcomp⟩, _⟩
    · exact Or.inl hk
    · exact Or.inr (Or.inl hk)
    · exact Or.inr (Or.inr hk)
    · simp only [Option.some.injEq] at hm
      subst hm
      simp [hinc] at hcomp
  have hrec : (reclassified env block (some mm) d0)._defectType = DEFECTTYPE.NoKconfig
      ∨ (reclassified env block (some mm) d0)._defectType = rg.kind := by
    by_cases hnk : d0.isNoKconfigDefect env.itemsOfString (some mm) = true
    · left; simp [reclassified, hnk]
    · right; simp only [reclassified, hnk, hty0]; simp
  have hrec1 : ∀ t, (reclassified env block (some mm) d0)._defectType = t →
      (t = DEFECTTYPE.Implementation ∨ t = DEFECTTYPE.NoKconfig
        ∨ t = DEFECTTYPE.Configuration ∨ t = DEFECTTYPE.BuildSystem)
      ∧ ((∀ q, env.checkSatisfiable (q ++ [SatInput.formula ""]) = env.checkSatisfiable q) →
          t = DEFECTTYPE.Implementation ∨ t = DEFECTTYPE.NoKconfig
            ∨ t = DEFECTTYPE.BuildSystem) := by
    intro t ht
    rcases hrec with h1 | h1
    · rw [h1] at ht
      subst ht
      simp
    · rw [h1] at ht
      subst ht
      constructor
      · rcases hrg with h2 | h2 | h2 <;> simp [h2]
      · intro hempty
        have hne := walk_empty_slice env dead block mm hslice hrsf hempty rg hw
        rcases hrg with h2 | h2 | h2
        · simp [h2]
        · exact absurd h2 hne
        · simp [h2]
  rcases hcases with ⟨_, hd⟩ | ⟨_, hnone, _⟩ | ⟨_, _, _, hd⟩ | ⟨_, m1, hm1, hn, hc⟩
  · subst hd; exact hrec1 _ rfl
  · cases hnone
  · subst hd; exact hrec1 _ rfl
  · simp only [Option.some.injEq] at hm1
    subst hm1
    obtain ⟨hcode, _, _, hkeep, _, _⟩ :=
      analyzeBlock_crosschecked env block mm dead d0 d rg hw hd0 hty0 hn hc
    obtain ⟨hq, _⟩ := needsCrosscheck_true _ hn
    have hrk : (reclassified env block (some mm) d0)._defectType = rg.kind := by
      rcases hrec with h1 | h1
      · rw [h1] at hq
        simp at hq
      · exact h1
    rw [hrk] at hq
    have hcb : rg.kind = DEFECTTYPE.Configuration ∨ rg.kind = DEFECTTYPE.BuildSystem := by
      rcases hrg with h1 | h1 | h1
      · simp [h1] at hq
      · exact Or.inl h1
      · exact Or.inr h1
    constructor
    · rcases hkeep hcb with h1 | h1 <;> simp [h1]
    · intro hempty
      have hne := walk_empty_slice env dead block mm hslice hrsf hempty rg hw
      have hb : rg.kind = DEFECTTYPE.BuildSystem := by
        rcases hcb with h1 | h1
        · exact absurd h1 hne
        · exact h1
      have hcs : codeSat env (reclassified env block (some mm) d0).dead
          (reclassified env block (some mm) d0)._cb = some true := by
        have h1 : (reclassified env block (some mm) d0).dead = dead := hd0
        rw [h1]
        show codeSat env dead (block.setDefectType _) = some true
        rw [codeSat_setDefectType]
        exact hcode
      have := crosscheck_keeps_build env mm env.models _ d hcs (hrk.trans hb) hc
      simp [this]

/-- C12 as amended, on the block `B3` under the main model `empty`. -/
theorem C12_empty_model_witness :
    analyzeBlock (Scenario.env [("empty", Scenario.empty)]) Scenario.B3 (some Scenario.empty)
        = (some Scenario.defectB3, Scenario.B3.setDefectType DEFECTTYPE.BuildSystem)
      ∧ (Scenario.defectB3._defectType = DEFECTTYPE.Implementation
        ∨ Scenario.defectB3._defectType = DEFECTTYPE.NoKconfig
        ∨ Scenario.defectB3._defectType = DEFECTTYPE.BuildSystem) :=
  ⟨by rfl,
    (C12_empty_model (Scenario.env [("empty", Scenario.empty)]) Scenario.regex 107 "empty" []
      [] Scenario.B3 Scenario.defectB3 (Scenario.B3.setDefectType DEFECTTYPE.BuildSystem)
      (by rfl)).2 (fun q => Scenario.checkSatisfiable_empty q)⟩

/-- C12 (as stated) fails: under the main model loaded from an empty file the block `B3`,
opened by `#ifndef CONFIG_ARM` in a file built only with `CONFIG_ARM`, gets a defect of
kind `BuildSystem`. -/
theorem C12_counterexample :
    (analyzeBlock (Scenario.env [("empty", Scenario.empty)]) Scenario.B3
        (some Scenario.empty)).1.map (fun d => d._defectType)
        = some DEFECTTYPE.BuildSystem
      ∧ Scenario.empty = (RsfConfigurationModel.new Scenario.regex 107 "empty" ⟨[], []⟩
          []).toConfigurationModel Scenario.itemsOfString
      ∧ Scenario.empty.isComplete = false := by
  refine ⟨by rfl, rfl, by rfl⟩

/-! ## Facts about `StringJoiner` -/

/-- The container after a sequence of calls, started from any container: the non-empty
arguments of the calls at the front, last call first, then what the container held, then
the non-empty arguments of the calls at the back in call order. -/
theorem foldl_run_eq (calls : List JoinerCall) :
    ∀ sj : StringJoiner, calls.foldl JoinerCall.run sj
      = (((calls.filter (fun c => c.atFront)).map JoinerCall.arg).filter
            (fun x => x ≠ "")).reverse
          ++ sj
          ++ ((calls.filter (fun c => !c.atFront)).map JoinerCall.arg).filter
            (fun x => x ≠ "") := by
  induction calls with
  | nil => intro sj; simp
  | cons c rest ih =>
    intro sj
    rw [List.foldl_cons, ih]
    cases c with
    | push_back x =>
      by_cases hx : x = "" <;>
        simp [JoinerCall.run, JoinerCall.atFront, JoinerCall.arg, StringJoiner.push_back, hx]
    | emplace_back x =>
      by_cases hx : x = "" <;>
        simp [JoinerCall.run, JoinerCall.atFront, JoinerCall.arg, StringJoiner.emplace_back,
          hx]
    | push_front x =>
      by_cases hx : x = "" <;>
        simp [JoinerCall.run, JoinerCall.atFront, JoinerCall.arg, StringJoiner.push_front, hx]
    | emplace_front x =>
      by_cases hx : x = "" <;>
        simp [JoinerCall.run, JoinerCall.atFront, JoinerCall.arg, StringJoiner.emplace_front,
          hx]

/-- A fragment in front of the first element goes in front of the joined string. -/
theorem joinSpec_append_head (sep a b : String) (rest : List String) :
    joinSpec sep ((a ++ b) :: rest) = a ++ joinSpec sep (b :: rest) := by
  cases rest with
  | nil => rfl
  | cons y r => simp [joinSpec, String.append_assoc]

/-- The loop of `join` computes the joined string. -/
theorem foldl_join_eq (sep : String) (rest : List String) :
    ∀ x : String, rest.foldl (fun ss s => ss ++ sep ++ s) x = joinSpec sep (x :: rest) := by
  induction rest with
  | nil => intro x; rfl
  | cons y r ih =>
    intro x
    rw [List.foldl_cons, ih, String.append_assoc, joinSpec_append_head,
      joinSpec_append_head]
    simp [joinSpec, String.append_assoc]

/-- The value of `join` is the joined string. -/
theorem join_eq_joinSpec (sj : StringJoiner) (sep : String) :
    StringJoiner.join sj sep = joinSpec sep sj := by
  cases sj with
  | nil => rfl
  | cons x rest => exact foldl_join_eq sep rest x

/-- C30. After any sequence of `push_back`, `emplace_back`, `push_front` and
`emplace_front` calls on an empty `StringJoiner` the container holds the non-empty
arguments: those of the calls at the front, last call first, followed by those of the
calls at the back in call order; and `join` returns the elements of a container with the
separator between each consecutive pair, the empty string for the empty container. -/
theorem C30_joiner (calls : List JoinerCall) (sep : String) :
    calls.foldl JoinerCall.run []
        = (((calls.filter (fun c => c.atFront)).map JoinerCall.arg).filter
              (fun x => x ≠ "")).reverse
            ++ ((calls.filter (fun c => !c.atFront)).map JoinerCall.arg).filter
              (fun x => x ≠ "")
      ∧ StringJoiner.join (calls.foldl JoinerCall.run []) sep
        = joinSpec sep (calls.foldl JoinerCall.run [])
      ∧ StringJoiner.join [] sep = "" := by
  refine ⟨?_, join_eq_joinSpec _ _, rfl⟩
  rw [foldl_run_eq]
  simp

/-! ## Facts about `addMetaValue` -/

/-- The list of a key after `addMetaValue`. -/
theorem lookup_addMetaValueTo_self (key value : String) (l : List (String × List String)) :
    (addMetaValueTo key value l).lookup key
      = some (if value ∈ (l.lookup key).getD [] then (l.lookup key).getD []
          else (l.lookup key).getD [] ++ [value]) := by
  induction l with
  | nil => simp [addMetaValueTo, List.lookup]
  | cons e rest ih =>
    obtain ⟨k, values⟩ := e
    unfold addMetaValueTo
    by_cases h : k = key
    · subst h
      by_cases hv : value ∈ values <;> simp [List.lookup, hv]
    · have h1 : (key == k) = false := by
        simp only [beq_eq_false_iff_ne, ne_eq]
        exact fun h2 => h h2.symm
      simp only [h, if_false, List.lookup, h1]
      exact ih

/-- The lists of the other keys after `addMetaValue`. -/
theorem lookup_addMetaValueTo_other (key value k : String) (hk : k ≠ key)
    (l : List (String × List String)) :
    (addMetaValueTo key value l).lookup k = l.lookup k := by
  induction l with
  | nil =>
    have h1 : (k == key) = false := by simpa using hk
    simp [addMetaValueTo, List.lookup, h1]
  | cons e rest ih =>
    obtain ⟨k1, values⟩ := e
    unfold addMetaValueTo
    by_cases h : k1 = key
    · subst h
      have h1 : (k == k1) = false := by simpa using hk
      simp [List.lookup, h1]
    · simp only [h, if_false, List.lookup]
      rw [ih]

/-- Adding a value a second time changes nothing. -/
theorem addMetaValueTo_idem (key value : String) (l : List (String × List String)) :
    addMetaValueTo key value (addMetaValueTo key value l) = addMetaValueTo key value l := by
  induction l with
  | nil => simp [addMetaValueTo]
  | cons e rest ih =>
    obtain ⟨k, values⟩ := e
    by_cases h : k = key
    · subst h
      by_cases hv : value ∈ values
      · simp [addMetaValueTo, hv]
      · simp [addMetaValueTo, hv]
    · simp only [addMetaValueTo, h, if_false]
      rw [ih]

/-- C21. `addMetaValue(key, value)` appends the value at the end of the list of the key
when the list does not hold it and leaves the list as it is when it does (a key without
list gets the list of the value alone); the lists of the other keys and the entries of
the reader are untouched, and adding the same value a second time changes nothing. -/
theorem C21_addMetaValue (r : RsfReader) (key value : String) :
    (r.addMetaValue key value).getMetaValue key
        = some (if value ∈ (r.getMetaValue key).getD [] then (r.getMetaValue key).getD []
            else (r.getMetaValue key).getD [] ++ [value])
      ∧ (∀ k, k ≠ key → (r.addMetaValue key value).getMetaValue k = r.getMetaValue k)
      ∧ (r.addMetaValue key value).entries = r.entries
      ∧ (r.addMetaValue key value).addMetaValue key value = r.addMetaValue key value := by
  refine ⟨lookup_addMetaValueTo_self key value _, ?_, rfl, ?_⟩
  · intro k hk
    exact lookup_addMetaValueTo_other key value k hk _
  · simp [RsfReader.addMetaValue, addMetaValueTo_idem]

/-- C21 on the list `a b` of the key `ALWAYS_ON`. -/
theorem C21_addMetaValue_witness :
    ((⟨[], [("ALWAYS_ON", ["a", "b"])]⟩ : RsfReader).addMetaValue "ALWAYS_ON"
        "c").getMetaValue "ALWAYS_ON" = some ["a", "b", "c"]
      ∧ ((⟨[], [("ALWAYS_ON", ["a", "b"])]⟩ : RsfReader).addMetaValue "ALWAYS_ON"
        "a").getMetaValue "ALWAYS_ON" = some ["a", "b"]
      ∧ ((⟨[], [("ALWAYS_ON", ["a", "b"])]⟩ : RsfReader).addMetaValue "ALWAYS_OFF"
        "a").getMetaValue "ALWAYS_ON" = some ["a", "b"] :=
  ⟨(C21_addMetaValue ⟨[], [("ALWAYS_ON", ["a", "b"])]⟩ "ALWAYS_ON" "c").1.trans (by decide),
    by decide,
    ((C21_addMetaValue ⟨[], [("ALWAYS_ON", ["a", "b"])]⟩ "ALWAYS_OFF" "a").2.1 "ALWAYS_ON"
      (by decide)).trans (by decide)⟩

/-! ## Facts about the assignment map -/

/-- What `AssignmentMap::operator==` decides: every entry of the left map is an entry of
the right map. -/
theorem AssignmentMap.eq_iff (a b : AssignmentMap) :
    a.eq b = true ↔ ∀ e ∈ a, b.lookup e.1 = some e.2 := by
  unfold AssignmentMap.eq
  rw [List.all_eq_true]
  constructor
  · intro h e he
    have := h e he
    cases hl : b.lookup e.1 with
    | none => simp [hl] at this
    | some v =>
      simp only [hl, beq_iff_eq] at this
      rw [this]
  · intro h e he
    rw [h e he]
    simp

/-- C29. The code at the failing input: the empty assignment compares equal to the
assignment that binds `A` to true, and that assignment does not compare equal to the
empty one. -/
theorem C29_eq_not_symmetric :
    AssignmentMap.eq [] [("A", true)] = true ∧ AssignmentMap.eq [("A", true)] [] = false := by
  decide

/-! ## Facts about maps keyed by strings -/

/-- The lookup in a map with one more entry in front. -/
theorem lookup_cons_eq {V : Type} (a k : String) (v : V) (m : List (String × V)) :
    ((k, v) :: m).lookup a = if a = k then some v else m.lookup a := by
  by_cases h : a = k
  · subst h; simp [List.lookup]
  · have h1 : (a == k) = false := by simpa using h
    simp [List.lookup, h1, h]

/-- A key without value is no key of the map. -/
theorem lookup_eq_none_iff {V : Type} (a : String) (m : List (String × V)) :
    m.lookup a = none ↔ a ∉ m.map Prod.fst := by
  induction m with
  | nil => simp
  | cons e rest ih =>
    obtain ⟨k, v⟩ := e
    rw [lookup_cons_eq]
    by_cases h : a = k
    · simp [h]
    · simp [h, ih]

/-- The value found for a key is in an entry of the map. -/
theorem mem_of_lookup {V : Type} (a : String) (b : V) (m : List (String × V))
    (h : m.lookup a = some b) : (a, b) ∈ m := by
  induction m with
  | nil => simp at h
  | cons e rest ih =>
    obtain ⟨k, v⟩ := e
    rw [lookup_cons_eq] at h
    by_cases hk : a = k
    · simp only [hk, if_true, Option.some.injEq] at h
      simp [hk, h]
    · simp only [hk, if_false] at h
      exact List.mem_cons_of_mem _ (ih h)

/-- In a map whose keys are distinct an entry is what the lookup finds. -/
theorem lookup_of_mem {V : Type} (a : String) (b : V) (m : List (String × V))
    (hnd : (m.map Prod.fst).Nodup) (h : (a, b) ∈ m) : m.lookup a = some b := by
  induction m with
  | nil => simp at h
  | cons e rest ih =>
    obtain ⟨k, v⟩ := e
    simp only [List.map_cons, List.nodup_cons] at hnd
    rw [lookup_cons_eq]
    rcases List.mem_cons.mp h with heq | hmem
    · simp only [Prod.mk.injEq] at heq
      simp [heq.1, heq.2]
    · have hne : a ≠ k := by
        intro hk
        subst hk
        exact hnd.1 (List.mem_map.mpr ⟨(a, b), hmem, rfl⟩)
      simp only [hne, if_false]
      exact ih hnd.2 hmem

/-- The keys after an insertion. -/
theorem mapInsert_keys {V : Type} (k : String) (v : V) (m : List (String × V)) :
    ∀ a, a ∈ (mapInsert k v m).map Prod.fst ↔ a = k ∨ a ∈ m.map Prod.fst := by
  induction m with
  | nil => intro a; simp [mapInsert]
  | cons e rest ih =>
    obtain ⟨k1, v1⟩ := e
    intro a
    unfold mapInsert
    cases h : strLt k k1 with
    | true => simp
    | false =>
      simp only [Bool.false_eq_true, if_false, List.map_cons, List.mem_cons, ih]
      tauto

/-- An insertion of a new key keeps the keys distinct. -/
theorem mapInsert_nodup {V : Type} (k : String) (v : V) (m : List (String × V))
    (hk : k ∉ m.map Prod.fst) (hnd : (m.map Prod.fst).Nodup) :
    ((mapInsert k v m).map Prod.fst).Nodup := by
  induction m with
  | nil => simp [mapInsert]
  | cons e rest ih =>
    obtain ⟨k1, v1⟩ := e
    simp only [List.map_cons, List.nodup_cons, List.mem_cons, not_or] at hnd hk
    unfold mapInsert
    cases h : strLt k k1 with
    | true =>
      simp only [if_true, List.map_cons, List.nodup_cons, List.mem_cons, not_or]
      exact ⟨⟨hk.1, hk.2⟩, hnd.1, hnd.2⟩
    | false =>
      simp only [Bool.false_eq_true, if_false, List.map_cons, List.nodup_cons]
      refine ⟨?_, ih hk.2 hnd.2⟩
      intro hmem
      rcases (mapInsert_keys k v rest k1).mp hmem with h1 | h1
      · exact hk.1 h1.symm
      · exact hnd.1 h1

/-- The lookup after the insertion of a new key. -/
theorem lookup_mapInsert {V : Type} (k : String) (v : V) (m : List (String × V))
    (hk : m.lookup k = none) (a : String) :
    (mapInsert k v m).lookup a = if a = k then some v else m.lookup a := by
  induction m with
  | nil => simp [mapInsert, lookup_cons_eq]
  | cons e rest ih =>
    obtain ⟨k1, v1⟩ := e
    rw [lookup_cons_eq] at hk
    by_cases hk1 : k = k1
    · simp [hk1] at hk
    · simp only [hk1, if_false] at hk
      unfold mapInsert
      cases h : strLt k k1 with
      | true => simp only [if_true, lookup_cons_eq]
      | false =>
        simp only [Bool.false_eq_true, if_false, lookup_cons_eq, ih hk]
        by_cases ha : a = k1
        · have : a ≠ k := fun h2 => hk1 (h2.symm.trans ha)
          simp [ha, Ne.symm hk1]
        · simp [ha]

/-- A replacement keeps the keys. -/
theorem mapReplace_keys {V : Type} (k : String) (v : V) (m : List (String × V)) :
    (mapReplace k v m).map Prod.fst = m.map Prod.fst := by
  induction m with
  | nil => rfl
  | cons e rest ih =>
    obtain ⟨k1, v1⟩ := e
    unfold mapReplace
    by_cases h : k1 = k
    · simp [h]
    · simp [h, ih]

/-- The lookup after a replacement. -/
theorem lookup_mapReplace {V : Type} (k : String) (v : V) (m : List (String × V))
    (a : String) :
    (mapReplace k v m).lookup a
      = if a = k then (m.lookup k).map (fun _ => v) else m.lookup a := by
  induction m with
  | nil => simp [mapReplace]
  | cons e rest ih =>
    obtain ⟨k1, v1⟩ := e
    unfold mapReplace
    by_cases h : k1 = k
    · subst h
      simp only [if_true, lookup_cons_eq]
      by_cases ha : a = k1 <;> simp [ha]
    · simp only [h, if_false, lookup_cons_eq, ih]
      by_cases ha : a = k
      · subst ha
        simp [Ne.symm h]
      · simp [ha]

/-- The lookup after the assignment `map[k] = v`. -/
theorem lookup_mapAssign {V : Type} (k : String) (v : V) (m : List (String × V))
    (a : String) : (mapAssign k v m).lookup a = if a = k then some v else m.lookup a := by
  unfold mapAssign
  cases h : m.lookup k with
  | none => simp [lookup_mapInsert k v m h]
  | some old =>
    simp only [Option.isSome_some, if_true, lookup_mapReplace, h, Option.map_some']

/-- The assignment `map[k] = v` keeps the keys distinct. -/
theorem mapAssign_nodup {V : Type} (k : String) (v : V) (m : List (String × V))
    (hnd : (m.map Prod.fst).Nodup) : ((mapAssign k v m).map Prod.fst).Nodup := by
  unfold mapAssign
  cases h : m.lookup k with
  | none =>
    simp only [Option.isSome_none, Bool.false_eq_true, if_false]
    exact mapInsert_nodup k v m ((lookup_eq_none_iff k m).mp h) hnd
  | some old =>
    simp only [Option.isSome_some, if_true, mapReplace_keys]
    exact hnd

/-- The lookup after `map.emplace(k, v)`. -/
theorem lookup_mapEmplaceNew {V : Type} (k : String) (v : V) (m : List (String × V))
    (a : String) :
    (mapEmplaceNew k v m).lookup a
      = if a = k then some ((m.lookup k).getD v) else m.lookup a := by
  unfold mapEmplaceNew
  cases h : m.lookup k with
  | none => simp [lookup_mapInsert k v m h]
  | some old =>
    by_cases ha : a = k
    · simp [ha, h]
    · simp [ha]

/-- The call `map.emplace(k, v)` keeps the keys distinct. -/
theorem mapEmplaceNew_nodup {V : Type} (k : String) (v : V) (m : List (String × V))
    (hnd : (m.map Prod.fst).Nodup) : ((mapEmplaceNew k v m).map Prod.fst).Nodup := by
  unfold mapEmplaceNew
  cases h : m.lookup k with
  | none =>
    simp only [Option.isSome_none, Bool.false_eq_true, if_false]
    exact mapInsert_nodup k v m ((lookup_eq_none_iff k m).mp h) hnd
  | some old => simpa using hnd

/-- A binding of the table outlives `getAssignment`, whatever the solver derefs. -/
theorem getAssignment_keeps (_cnf : PicosatView) (name : String) (old : Bool) :
    ∀ table : AssignmentMap, table.lookup name = some old →
      (SatChecker.getAssignment _cnf table).lookup name = some old := by
  unfold SatChecker.getAssignment
  induction _cnf.getSymbolMap with
  | nil => intro table h; exact h
  | cons e rest ih =>
    intro table h
    rw [List.foldl_cons]
    apply ih
    rw [lookup_mapEmplaceNew]
    by_cases hn : name = e.1
    · rw [if_pos hn, ← hn, h]
      rfl
    · rw [if_neg hn, h]

/-! ## Facts about the regular expressions of `formatKconfig` -/

/-- The name `module_regexp` matches is `CONFIG_`, the group and `_MODULE`. -/
theorem matchModule_eq (name t : String) (h : matchModule name = some t) :
    name = "CONFIG_" ++ t ++ "_MODULE" := by
  unfold matchModule at h
  split at h
  · rename_i hc
    simp only [Bool.and_eq_true] at hc
    obtain ⟨hp, hs⟩ := hc
    obtain ⟨r, hr⟩ := List.isPrefixOf_iff_prefix.mp hp
    obtain ⟨g, hg⟩ := List.isSuffixOf_iff_suffix.mp hs
    have hd : name.data.drop 7 = r := by
      rw [← hr]
      simp [List.drop]
    rw [hd] at hg h
    simp only [Option.some.injEq] at h
    subst h
    apply String.ext
    simp only [String.data_append]
    rw [← hr, ← hg]
    simp
  · cases h

/-- The group `module_regexp` finds in `CONFIG_X_MODULE` is `X`. -/
theorem matchModule_append (X : String) :
    matchModule ("CONFIG_" ++ X ++ "_MODULE") = some X := by
  unfold matchModule
  have hd : ("CONFIG_" ++ X ++ "_MODULE").data = "CONFIG_".data ++ (X.data ++ "_MODULE".data) := by
    simp [String.data_append]
  have h1 : "CONFIG_".data.isPrefixOf ("CONFIG_" ++ X ++ "_MODULE").data = true := by
    rw [hd]
    exact List.isPrefixOf_iff_prefix.mpr ⟨_, rfl⟩
  have h2 : ("CONFIG_" ++ X ++ "_MODULE").data.drop 7 = X.data ++ "_MODULE".data := by
    rw [hd]
    simp [List.drop]
  have h3 : "_MODULE".data.isSuffixOf (X.data ++ "_MODULE".data) = true :=
    List.isSuffixOf_iff_suffix.mpr ⟨_, rfl⟩
  rw [h2, h1, h3]
  simp only [Bool.and_self, if_true, Option.some.injEq]
  apply String.ext
  simp

/-- A name `module_regexp` matches ends in `_MODULE`. -/
theorem ends_with_of_matchModule (name t : String) (h : matchModule name = some t) :
    ends_with name "_MODULE" = true := by
  rw [matchModule_eq name t h]
  unfold ends_with
  apply List.isSuffixOf_iff_suffix.mpr
  exact ⟨("CONFIG_" ++ t).data, by simp [String.data_append]⟩

/-- A name that starts with `CONFIG_` is no block variable. -/
theorem matchBlock_config (name : String) (h : starts_with name "CONFIG_" = true) :
    matchBlock name = false := by
  unfold starts_with at h
  obtain ⟨r, hr⟩ := List.isPrefixOf_iff_prefix.mp h
  unfold matchBlock
  rw [← hr]
  rfl

/-! ## Facts about the first loop of `formatKconfig` -/

/-- What a round of the first loop does to `selection`: nothing, or the base name of a
true module variant gets the state `module`, or the name of the entry, not yet selected,
gets the state of its value. Neither name is in the missing set. -/
theorem formatKconfigStep_selection (mainModel : Option (String → String))
    (missingSet : StrSet) (acc : List (String × state) × List (String × state))
    (entry : String × Bool) :
    (formatKconfigStep mainModel missingSet acc entry).1 = acc.1
      ∨ (∃ t, matchModule entry.1 = some t ∧ entry.2 = true
          ∧ missingSet.contains ("CONFIG_" ++ t) = false
          ∧ missingSet.contains entry.1 = false
          ∧ (formatKconfigStep mainModel missingSet acc entry).1
            = mapAssign ("CONFIG_" ++ t) state.module acc.1)
      ∨ (acc.1.lookup entry.1 = none ∧ missingSet.contains entry.1 = false
          ∧ (formatKconfigStep mainModel missingSet acc entry).1
            = mapAssign entry.1 (stateOf entry.2) acc.1) := by
  obtain ⟨sel, other⟩ := acc
  obtain ⟨name, valid⟩ := entry
  unfold formatKconfigStep
  simp only
  cases hm : (if valid = true then matchModule name else none) with
  | some t =>
    simp only
    have hv : valid = true ∧ matchModule name = some t := by
      cases valid <;> simp_all
    cases h1 : (missingSet.contains ("CONFIG_" ++ t) || missingSet.contains name) with
    | true => simp
    | false =>
      simp only [Bool.or_eq_false_iff] at h1
      right; left
      exact ⟨t, hv.2, hv.1, h1.1, h1.2, by simp⟩
  | none =>
    simp only
    cases hch : matchChoice name with
    | true => simp
    | false =>
      simp only [Bool.false_eq_true, if_false]
      cases hi : matchKconfigItem name with
      | none =>
        simp only
        cases matchBlock name <;> simp
      | some item =>
        simp only
        cases hmiss : missingSet.contains name with
        | true => simp
        | false =>
          simp only [Bool.false_eq_true, if_false]
          split
          · left; rfl
          · split
            · rename_i hl
              right; right
              refine ⟨by simpa using hl, ?_, ?_⟩ <;> first | rfl | trivial
            · left; rfl

/-- What a round of the first loop does to `other_variables`: nothing, or the base name of
a true module variant gets the state `yes`, or the name of the entry gets the state of its
value. -/
theorem formatKconfigStep_other (mainModel : Option (String → String))
    (missingSet : StrSet) (acc : List (String × state) × List (String × state))
    (entry : String × Bool) :
    (formatKconfigStep mainModel missingSet acc entry).2 = acc.2
      ∨ (∃ t, matchModule entry.1 = some t ∧ entry.2 = true
          ∧ (formatKconfigStep mainModel missingSet acc entry).2
            = mapAssign ("CONFIG_" ++ t) state.yes acc.2)
      ∨ ((matchModule entry.1 = none ∨ entry.2 = false)
          ∧ (formatKconfigStep mainModel missingSet acc entry).2
            = mapAssign entry.1 (stateOf entry.2) acc.2) := by
  obtain ⟨sel, other⟩ := acc
  obtain ⟨name, valid⟩ := entry
  unfold formatKconfigStep
  simp only
  cases hm : (if valid = true then matchModule name else none) with
  | some t =>
    simp only
    have hv : valid = true ∧ matchModule name = some t := by
      cases valid <;> simp_all
    cases h1 : (missingSet.contains ("CONFIG_" ++ t) || missingSet.contains name) with
    | true =>
      right; left
      exact ⟨t, hv.2, hv.1, by simp [stateOf, hv.1]⟩
    | false => simp
  | none =>
    have hv : matchModule name = none ∨ valid = false := by
      cases valid <;> simp_all
    simp only
    cases hch : matchChoice name with
    | true =>
      right; right
      exact ⟨hv, by simp⟩
    | false =>
      simp only [Bool.false_eq_true, if_false]
      cases hi : matchKconfigItem name with
      | none =>
        simp only
        cases matchBlock name with
        | true => simp
        | false =>
          right; right
          exact ⟨hv, by simp⟩
      | some item =>
        simp only
        cases hmiss : missingSet.contains name with
        | true =>
          right; right
          exact ⟨hv, by simp⟩
        | false =>
          simp only [Bool.false_eq_true, if_false]
          left
          split
          · rfl
          · split <;> rfl

/-- A round of the first loop keeps the state `module` of a selected name. -/
theorem formatKconfigStep_keeps_module (mainModel : Option (String → String))
    (missingSet : StrSet) (acc : List (String × state) × List (String × state))
    (entry : String × Bool) (K : String) (h : acc.1.lookup K = some state.module) :
    (formatKconfigStep mainModel missingSet acc entry).1.lookup K = some state.module := by
  rcases formatKconfigStep_selection mainModel missingSet acc entry with
    h1 | ⟨t, _, _, _, _, h1⟩ | ⟨hnone, _, h1⟩
  · rw [h1]; exact h
  · rw [h1, lookup_mapAssign]
    by_cases hk : K = "CONFIG_" ++ t
    · simp [hk]
    · simp [hk, h]
  · rw [h1, lookup_mapAssign]
    have hk : K ≠ entry.1 := by
      intro hk
      rw [hk, hnone] at h
      cases h
    simp [hk, h]

/-- The first loop keeps the state `module` of a selected name. -/
theorem foldl_formatKconfigStep_keeps_module (mainModel : Option (String → String))
    (missingSet : StrSet) (K : String) (l : List (String × Bool)) :
    ∀ acc : List (String × state) × List (String × state),
      acc.1.lookup K = some state.module →
      (l.foldl (formatKconfigStep mainModel missingSet) acc).1.lookup K
        = some state.module := by
  induction l with
  | nil => intro acc h; exact h
  | cons e rest ih =>
    intro acc h
    rw [List.foldl_cons]
    exact ih _ (formatKconfigStep_keeps_module mainModel missingSet acc e K h)

/-- The round of the first loop for a true module variant, neither the variant nor its
base name being missing: the base name gets the state `module`. -/
theorem formatKconfigStep_module (mainModel : Option (String → String))
    (missingSet : StrSet) (acc : List (String × state) × List (String × state))
    (X : String) (h1 : "CONFIG_" ++ X ∉ missingSet)
    (h2 : "CONFIG_" ++ X ++ "_MODULE" ∉ missingSet) :
    (formatKconfigStep mainModel missingSet acc ("CONFIG_" ++ X ++ "_MODULE", true)).1.lookup
      ("CONFIG_" ++ X) = some state.module := by
  unfold formatKconfigStep
  have c1 : missingSet.contains ("CONFIG_" ++ X) = false := by simpa using h1
  have c2 : missingSet.contains ("CONFIG_" ++ X ++ "_MODULE") = false := by simpa using h2
  simp only [if_true, matchModule_append, c1, c2, Bool.or_self, Bool.false_eq_true, if_false,
    lookup_mapAssign]

/-- After the first loop the base name of a true module variant of the assignment has the
state `module`, neither the variant nor the base name being missing. -/
theorem foldl_formatKconfigStep_module (mainModel : Option (String → String))
    (missingSet : StrSet) (X : String) (h1 : "CONFIG_" ++ X ∉ missingSet)
    (h2 : "CONFIG_" ++ X ++ "_MODULE" ∉ missingSet) (l : List (String × Bool)) :
    ∀ acc : List (String × state) × List (String × state),
      ("CONFIG_" ++ X ++ "_MODULE", true) ∈ l →
      (l.foldl (formatKconfigStep mainModel missingSet) acc).1.lookup ("CONFIG_" ++ X)
        = some state.module := by
  induction l with
  | nil => intro acc h; cases h
  | cons e rest ih =>
    intro acc h
    rw [List.foldl_cons]
    rcases List.mem_cons.mp h with heq | hmem
    · rw [← heq]
      exact foldl_formatKconfigStep_keeps_module mainModel missingSet _ rest _
        (formatKconfigStep_module mainModel missingSet acc X h1 h2)
    · exact ih _ hmem

/-- The first loop keeps the keys of `selection` and of `other_variables` distinct, and no
key of `selection` is in the missing set. -/
theorem foldl_formatKconfigStep_inv (mainModel : Option (String → String))
    (missingSet : StrSet) (l : List (String × Bool)) :
    ∀ acc : List (String × state) × List (String × state),
      ((acc.1.map Prod.fst).Nodup ∧ (acc.2.map Prod.fst).Nodup
        ∧ (∀ k ∈ acc.1.map Prod.fst, k ∉ missingSet)
        ∧ ∀ k st, acc.2.lookup k = some st → st ≠ state.module) →
      (((l.foldl (formatKconfigStep mainModel missingSet) acc).1.map Prod.fst).Nodup
        ∧ ((l.foldl (formatKconfigStep mainModel missingSet) acc).2.map Prod.fst).Nodup
        ∧ (∀ k ∈ (l.foldl (formatKconfigStep mainModel missingSet) acc).1.map Prod.fst,
            k ∉ missingSet)
        ∧ ∀ k st, (l.foldl (formatKconfigStep mainModel missingSet) acc).2.lookup k = some st →
            st ≠ state.module) := by
  induction l with
  | nil => intro acc h; exact h
  | cons e rest ih =>
    intro acc ⟨hs, ho, hm, hst⟩
    rw [List.foldl_cons]
    apply ih
    have hkeys : ∀ (b : String) (st : state), b ∉ missingSet →
        ∀ k ∈ (mapAssign b st acc.1).map Prod.fst, k ∉ missingSet := by
      intro b st hb k hk
      by_cases hkb : k = b
      · rw [hkb]; exact hb
      · apply hm
        have h1 : (mapAssign b st acc.1).lookup k ≠ none := by
          rw [Ne, lookup_eq_none_iff]
          exact fun hc => hc hk
        rw [lookup_mapAssign, if_neg hkb] at h1
        by_contra hc
        exact h1 ((lookup_eq_none_iff k acc.1).mpr hc)
    have hstate : ∀ (b : String) (st : state), st ≠ state.module →
        ∀ k st1, (mapAssign b st acc.2).lookup k = some st1 → st1 ≠ state.module := by
      intro b st hne k st1 hl
      rw [lookup_mapAssign] at hl
      by_cases hkb : k = b
      · simp only [hkb, if_true, Option.some.injEq] at hl
        rw [← hl]; exact hne
      · simp only [hkb, if_false] at hl
        exact hst k st1 hl
    refine ⟨?_, ?_, ?_, ?_⟩
    · rcases formatKconfigStep_selection mainModel missingSet acc e with
        h1 | ⟨t, _, _, _, _, h1⟩ | ⟨_, _, h1⟩ <;> rw [h1]
      · exact hs
      · exact mapAssign_nodup _ _ _ hs
      · exact mapAssign_nodup _ _ _ hs
    · rcases formatKconfigStep_other mainModel missingSet acc e with
        h1 | ⟨t, _, _, h1⟩ | ⟨_, h1⟩ <;> rw [h1]
      · exact ho
      · exact mapAssign_nodup _ _ _ ho
      · exact mapAssign_nodup _ _ _ ho
    · rcases formatKconfigStep_selection mainModel missingSet acc e with
        h1 | ⟨t, _, _, hb, _, h1⟩ | ⟨_, hb, h1⟩ <;> rw [h1]
      · exact hm
      · exact hkeys _ _ (by simpa using hb)
      · exact hkeys _ _ (by simpa using hb)
    · rcases formatKconfigStep_other mainModel missingSet acc e with
        h1 | ⟨t, _, _, h1⟩ | ⟨_, h1⟩ <;> rw [h1]
      · exact hst
      · exact hstate _ _ (by decide)
      · exact hstate _ _ (by cases e.2 <;> simp [stateOf])

/-! ## Facts about the lines of `formatKconfig` -/

/-- The name and the state of a selection line. -/
theorem selectionLine_eq (entry : String × state) (K : String) (c : Char)
    (h : selectionLine entry = K ++ "=" ++ String.singleton c) :
    entry.1 = K ∧ ((c = 'n' ∧ entry.2 = state.no) ∨ (c = 'm' ∧ entry.2 = state.module)
      ∨ (c = 'y' ∧ entry.2 = state.yes)) := by
  obtain ⟨k, st⟩ := entry
  unfold selectionLine at h
  have hd := congrArg String.data h
  cases st <;> simp only [String.data_append] at hd <;>
    (have h1 := List.append_inj' hd rfl
     have h2 := List.append_inj' h1.1 rfl
     have h3 : k = K := String.ext h2.1
     have h4 := h1.2
     simp only [String.singleton, String.data_push] at h4
     simp at h4
     simp [h3, ← h4])

/-- A comment line is no line that starts with `CONFIG_`. -/
theorem otherLine_ne (selection : List (String × state)) (entry : String × state)
    (line rest : String) (h : otherLine selection entry = some line) :
    line ≠ "CONFIG_" ++ rest := by
  unfold otherLine at h
  simp only at h
  split_ifs at h
  simp only [Option.some.injEq] at h
  intro hc
  rw [← h] at hc
  have hd := congrArg String.data hc
  simp only [String.data_append] at hd
  have : ("# ".data ++ entry.1.data ++ "=".data ++ _).head? = ("CONFIG_".data ++ rest.data).head? :=
    congrArg List.head? hd
  simp at this

/-- A name that starts with `CONFIG_` is `CONFIG_` and a rest. -/
theorem starts_with_config (name : String) (h : starts_with name "CONFIG_" = true) :
    ∃ rest : String, name = "CONFIG_" ++ rest := by
  unfold starts_with at h
  obtain ⟨r, hr⟩ := List.isPrefixOf_iff_prefix.mp h
  exact ⟨String.mk r, String.ext (by simp [String.data_append, hr])⟩

/-- A name that starts with `CONFIG_` does not start with `__FREE__`. -/
theorem starts_with_free (name : String) (h : starts_with name "CONFIG_" = true) :
    starts_with name "__FREE__" = false := by
  obtain ⟨rest, hr⟩ := starts_with_config name h
  rw [hr]
  unfold starts_with
  simp only [String.data_append]
  rfl

/-- The round of the first loop for a missing name of the configuration namespace that is
neither a module variant nor a choice: the name gets the state of its value in
`other_variables`. -/
theorem formatKconfigStep_missing (mainModel : Option (String → String))
    (missingSet : StrSet) (acc : List (String × state) × List (String × state))
    (name : String) (v : Bool) (hmiss : name ∈ missingSet)
    (hcfg : starts_with name "CONFIG_" = true) (hmod : ends_with name "_MODULE" = false)
    (hch : starts_with name "CONFIG_CHOICE_" = false) :
    (formatKconfigStep mainModel missingSet acc (name, v)).2
      = mapAssign name (stateOf v) acc.2 := by
  have h1 : matchModule name = none := by
    cases h : matchModule name with
    | none => rfl
    | some t =>
      rw [ends_with_of_matchModule name t h] at hmod
      cases hmod
  have h2 : matchChoice name = false := hch
  have h3 : matchBlock name = false := matchBlock_config name hcfg
  have h4 : missingSet.contains name = true := by simpa using hmiss
  unfold formatKconfigStep
  simp only [h1, ite_self, h2, Bool.false_eq_true, if_false, h4, if_true, h3]
  cases matchKconfigItem name <;> rfl

/-- Rounds of the first loop for entries other than a name and its true module variant
leave the state of the name in `other_variables` as it is. -/
theorem foldl_formatKconfigStep_other_keep (mainModel : Option (String → String))
    (missingSet : StrSet) (name : String) (l : List (String × Bool)) :
    ∀ acc : List (String × state) × List (String × state),
      (∀ e ∈ l, e.1 ≠ name) → (name ++ "_MODULE", true) ∉ l →
      (l.foldl (formatKconfigStep mainModel missingSet) acc).2.lookup name
        = acc.2.lookup name := by
  induction l with
  | nil => intro acc _ _; rfl
  | cons e rest ih =>
    intro acc hk hmv
    rw [List.foldl_cons, ih _ (fun x hx => hk x (List.mem_cons_of_mem _ hx))
      (fun hc => hmv (List.mem_cons_of_mem _ hc))]
    rcases formatKconfigStep_other mainModel missingSet acc e with
      h1 | ⟨t, ht, hv, h1⟩ | ⟨_, h1⟩ <;> rw [h1]
    · rw [lookup_mapAssign]
      have hne : name ≠ "CONFIG_" ++ t := by
        intro hc
        apply hmv
        have he : e = (name ++ "_MODULE", true) := by
          rw [hc, ← matchModule_eq e.1 t ht, ← hv]
        rw [he]
        exact List.mem_cons_self _ _
      simp [hne]
    · rw [lookup_mapAssign]
      have hne : name ≠ e.1 := fun hc => hk e (List.mem_cons_self _ _) hc.symm
      simp [hne]

/-- A name that has a state in `other_variables` has one after further rounds. -/
theorem foldl_formatKconfigStep_other_some (mainModel : Option (String → String))
    (missingSet : StrSet) (name : String) (l : List (String × Bool)) :
    ∀ acc : List (String × state) × List (String × state),
      (acc.2.lookup name).isSome = true →
      ((l.foldl (formatKconfigStep mainModel missingSet) acc).2.lookup name).isSome
        = true := by
  induction l with
  | nil => intro acc h; exact h
  | cons e rest ih =>
    intro acc h
    rw [List.foldl_cons]
    apply ih
    rcases formatKconfigStep_other mainModel missingSet acc e with
      h1 | ⟨t, _, _, h1⟩ | ⟨_, h1⟩ <;> rw [h1]
    · exact h
    · rw [lookup_mapAssign]
      split
      · rfl
      · exact h
    · rw [lookup_mapAssign]
      split
      · rfl
      · exact h

/-- After the first loop a missing name of the assignment that is in the configuration
namespace and neither a module variant nor a choice has a state in `other_variables`: the
state of its value when its module variant is not bound to true. -/
theorem foldl_formatKconfigStep_missing (mainModel : Option (String → String))
    (missingSet : StrSet) (name : String) (v : Bool) (hmiss : name ∈ missingSet)
    (hcfg : starts_with name "CONFIG_" = true) (hmod : ends_with name "_MODULE" = false)
    (hch : starts_with name "CONFIG_CHOICE_" = false) (l : List (String × Bool)) :
    ∀ acc : List (String × state) × List (String × state),
      (l.map Prod.fst).Nodup → (name, v) ∈ l →
      ((l.foldl (formatKconfigStep mainModel missingSet) acc).2.lookup name).isSome = true
        ∧ ((name ++ "_MODULE", true) ∉ l →
          (l.foldl (formatKconfigStep mainModel missingSet) acc).2.lookup name
            = some (stateOf v)) := by
  induction l with
  | nil => intro acc _ h; cases h
  | cons e rest ih =>
    intro acc hnd h
    simp only [List.map_cons, List.nodup_cons] at hnd
    rw [List.foldl_cons]
    rcases List.mem_cons.mp h with heq | hmem
    · have hstep : (formatKconfigStep mainModel missingSet acc e).2.lookup name
          = some (stateOf v) := by
        rw [← heq, formatKconfigStep_missing mainModel missingSet acc name v hmiss hcfg hmod
          hch, lookup_mapAssign]
        simp
      have hrest : ∀ x ∈ rest, x.1 ≠ name := by
        intro x hx hc
        apply hnd.1
        rw [← heq]
        exact List.mem_map.mpr ⟨x, hx, hc⟩
      constructor
      · apply foldl_formatKconfigStep_other_some
        rw [hstep]
        rfl
      · intro hmv
        rw [foldl_formatKconfigStep_other_keep mainModel missingSet name rest _ hrest
          (fun hc => hmv (List.mem_cons_of_mem _ hc)), hstep]
    · obtain ⟨i1, i2⟩ := ih (formatKconfigStep mainModel missingSet acc e) hnd.2 hmem
      exact ⟨i1, fun hmv => i2 (fun hc => hmv (List.mem_cons_of_mem _ hc))⟩

/-! ## The claims about the assignment map -/

/-- C24. For an assignment that binds `CONFIG_X_MODULE` to true, neither `CONFIG_X` nor
`CONFIG_X_MODULE` being in the missing set, `formatKconfig` writes the line `CONFIG_X=m`
and writes neither `CONFIG_X=y` nor `CONFIG_X=n`, whatever else the assignment binds and
whatever the main model says. -/
theorem C24_module_line (mainModel : Option (String → String)) (a : AssignmentMap)
    (missingSet : StrSet) (X : String)
    (hm : ("CONFIG_" ++ X ++ "_MODULE", true) ∈ a)
    (h1 : "CONFIG_" ++ X ∉ missingSet) (h2 : "CONFIG_" ++ X ++ "_MODULE" ∉ missingSet) :
    "CONFIG_" ++ X ++ "=m" ∈ (a.formatKconfig mainModel missingSet).1
      ∧ "CONFIG_" ++ X ++ "=y" ∉ (a.formatKconfig mainModel missingSet).1
      ∧ "CONFIG_" ++ X ++ "=n" ∉ (a.formatKconfig mainModel missingSet).1 := by
  have hl := foldl_formatKconfigStep_module mainModel missingSet X h1 h2 a ([], []) hm
  obtain ⟨hnd, _, _, _⟩ := foldl_formatKconfigStep_inv mainModel missingSet a ([], [])
    ⟨by simp, by simp, by simp, by simp⟩
  have hno : ∀ c : Char, c ≠ 'm' →
      "CONFIG_" ++ X ++ "=" ++ String.singleton c
        ∉ (a.formatKconfig mainModel missingSet).1 := by
    intro c hc hmem
    unfold AssignmentMap.formatKconfig at hmem
    simp only [List.mem_append, List.mem_map, List.mem_filterMap] at hmem
    rcases hmem with ⟨e, he, hline⟩ | ⟨e, _, hline⟩
    · obtain ⟨hk, hst⟩ := selectionLine_eq e ("CONFIG_" ++ X) c hline
      have hlook := lookup_of_mem e.1 e.2 _ hnd he
      rw [hk, hl] at hlook
      rcases hst with ⟨_, h3⟩ | ⟨h3, _⟩ | ⟨_, h3⟩
      · rw [h3] at hlook; cases hlook
      · exact hc h3
      · rw [h3] at hlook; cases hlook
    · apply otherLine_ne _ e _ (X ++ "=" ++ String.singleton c) hline
      simp [String.append_assoc]
  refine ⟨?_, ?_, ?_⟩
  · unfold AssignmentMap.formatKconfig
    apply List.mem_append_left
    apply List.mem_map.mpr
    refine ⟨("CONFIG_" ++ X, state.module), mem_of_lookup _ _ _ hl, ?_⟩
    show "CONFIG_" ++ X ++ "=" ++ "m" = "CONFIG_" ++ X ++ "=m"
    rw [String.append_assoc ("CONFIG_" ++ X)]
    rfl
  · have := hno 'y' (by decide)
    have hs : "CONFIG_" ++ X ++ "=y" = "CONFIG_" ++ X ++ "=" ++ String.singleton 'y' := by
      rw [String.append_assoc ("CONFIG_" ++ X)]; rfl
    rw [hs]; exact this
  · have := hno 'n' (by decide)
    have hs : "CONFIG_" ++ X ++ "=n" = "CONFIG_" ++ X ++ "=" ++ String.singleton 'n' := by
      rw [String.append_assoc ("CONFIG_" ++ X)]; rfl
    rw [hs]; exact this

/-- C24 on the assignment that binds `CONFIG_ACPI` to false and `CONFIG_ACPI_MODULE` to
true. -/
theorem C24_module_line_witness :
    AssignmentMap.formatKconfig none [("CONFIG_ACPI", false), ("CONFIG_ACPI_MODULE", true)] []
        = (["CONFIG_ACPI=m"], 1)
      ∧ "CONFIG_" ++ "ACPI" ++ "=m" ∈ (AssignmentMap.formatKconfig none
          [("CONFIG_ACPI", false), ("CONFIG_ACPI_MODULE", true)] []).1
      ∧ "CONFIG_" ++ "ACPI" ++ "=y" ∉ (AssignmentMap.formatKconfig none
          [("CONFIG_ACPI", false), ("CONFIG_ACPI_MODULE", true)] []).1
      ∧ "CONFIG_" ++ "ACPI" ++ "=n" ∉ (AssignmentMap.formatKconfig none
          [("CONFIG_ACPI", false), ("CONFIG_ACPI_MODULE", true)] []).1 :=
  ⟨by decide,
    C24_module_line none [("CONFIG_ACPI", false), ("CONFIG_ACPI_MODULE", true)] [] "ACPI"
      (by decide) (by simp) (by simp)⟩

/-- C25. The code at the failing input: for the assignment that binds the module variant
`CONFIG_CHOICE_1_MODULE` of a choice variable to true, the missing set being empty,
`formatKconfig` writes the selection line `CONFIG_CHOICE_1=m`, which names a choice
variable. -/
theorem C25_choice_module_line :
    AssignmentMap.formatKconfig none [("CONFIG_CHOICE_1_MODULE", true)] []
        = (["CONFIG_CHOICE_1=m"], 1)
      ∧ starts_with "CONFIG_CHOICE_1" "CONFIG_CHOICE_" = true
      ∧ AssignmentMap.formatKconfig none
          [("B1", true), ("CONFIG_CHOICE_1", true), ("CONFIG_CHOICE_2_MODULE", false)] []
        = ([], 0) := by
  decide

/-- C27. The code at the failing input: the symbol table binds `A` and `B`; after the
check of `A || B` the solver derefs `A` to true and `B` to false, and `getAssignment` is
called; after the incremental check of `!A` on the same object the solver derefs `A` to
false and `B` to true. The second `getAssignment` returns the bindings of the first call,
under which `!A` is false. -/
theorem C27_getAssignment_stale :
    SatChecker.getAssignment ⟨[("A", 1), ("B", 2)], fun n => n == 2⟩
        (SatChecker.getAssignment ⟨[("A", 1), ("B", 2)], fun n => n == 1⟩ [])
        = [("A", true), ("B", false)]
      ∧ (Scenario.parseString "A || B").map
          (Scenario.BoolExp.eval (fun s => s == "A")) = some true
      ∧ (Scenario.parseString "A || B").map
          (Scenario.BoolExp.eval (fun s => s == "B")) = some true
      ∧ (Scenario.parseString "!A").map
          (Scenario.BoolExp.eval (fun s => s == "B")) = some true
      ∧ (Scenario.parseString "!A").map
          (Scenario.BoolExp.eval (fun s =>
            (List.lookup s [("A", true), ("B", false)]).getD false)) = some false := by
  decide

/-! ## Facts about `checkMUS` -/

/-- The clause the inner loop of `checkMUS` collects: the named literals of the integers
up to the next `0`. -/
theorem musClause_eq (getSymbolName : Nat → String) (ss : List Int) :
    ∀ clause : StringJoiner, musClause getSymbolName ss clause
      = (clause ++ namedLiterals getSymbolName (ss.takeWhile (fun tmp => tmp ≠ 0)),
          (ss.dropWhile (fun tmp => tmp ≠ 0)).drop 1) := by
  induction ss with
  | nil => intro clause; simp [musClause, namedLiterals]
  | cons tmp rest ih =>
    intro clause
    unfold musClause
    by_cases h0 : tmp = 0
    · simp [h0, namedLiterals]
    · simp only [h0, if_false]
      have htw : (tmp :: rest).takeWhile (fun tmp => tmp ≠ 0)
          = tmp :: rest.takeWhile (fun tmp => tmp ≠ 0) := by
        simp [List.takeWhile, h0]
      have hdw : (tmp :: rest).dropWhile (fun tmp => tmp ≠ 0)
          = rest.dropWhile (fun tmp => tmp ≠ 0) := by
        simp [List.dropWhile, h0]
      rw [htw, hdw]
      by_cases hs : getSymbolName tmp.natAbs = ""
      · simp only [hs, if_true, ih]
        simp [namedLiterals, hs]
      · simp only [hs, if_false]
        by_cases hneg : tmp < 0
        · simp only [hneg, if_true, ih]
          have hne : "!" ++ getSymbolName tmp.natAbs ≠ "" := bang_ne_empty _
          simp [namedLiterals, hs, hneg, StringJoiner.emplace_back, hne]
        · simp only [hneg, if_false, ih]
          simp [namedLiterals, hs, hneg, StringJoiner.emplace_back]

/-- The elements of a `UniqueStringJoiner` after `emplace_back`. -/
theorem mem_unique_emplace_back (sj : UniqueStringJoiner) (x d : String)
    (h : d ∈ (sj.emplace_back x).elems) : d ∈ sj.elems ∨ d = x := by
  unfold UniqueStringJoiner.emplace_back at h
  have hsj : ∀ l : StringJoiner, d ∈ StringJoiner.emplace_back l x → d ∈ l ∨ d = x := by
    intro l hl
    unfold StringJoiner.emplace_back at hl
    split at hl
    · exact Or.inl hl
    · simpa using hl
  split at h
  · split at h
    · exact Or.inl h
    · exact hsj _ h
  · exact hsj _ h

/-- The disjunctions the outer loop of `checkMUS` collects: each is the text of the named
literals of one of the clauses read, which are not all unnamed. -/
theorem musLines_mem (getSymbolName : Nat → String) (d : String) :
    ∀ (n : Nat) (ss : List Int) (sj : UniqueStringJoiner),
      d ∈ (musLines getSymbolName n ss sj).elems →
      d ∈ sj.elems ∨ ∃ c ∈ clausesOf n ss, namedLiterals getSymbolName c ≠ []
        ∧ d = "(" ++ StringJoiner.join (namedLiterals getSymbolName c) " v " ++ ")" := by
  intro n
  induction n with
  | zero => intro ss sj h; exact Or.inl h
  | succ n ih =>
    intro ss sj h
    unfold musLines at h
    simp only [musClause_eq, List.nil_append] at h
    rcases ih _ _ h with h1 | ⟨c, hc, hne, hd⟩
    · split at h1
      · rename_i hlen
        rcases mem_unique_emplace_back _ _ _ h1 with h2 | h2
        · exact Or.inl h2
        · right
          refine ⟨ss.takeWhile (fun tmp => tmp ≠ 0), ?_, ?_, h2⟩
          · unfold clausesOf
            exact List.mem_cons_self _ _
          · intro hc
            rw [hc] at hlen
            simp at hlen
      · exact Or.inl h1
    · right
      refine ⟨c, ?_, hne, hd⟩
      unfold clausesOf
      exact List.mem_cons_of_mem _ hc

/-! ## Facts about the stream of `RsfReader::RsfReader` -/

/-- The longest prefix with a property, of a list that starts with elements that have
it. -/
theorem takeWhile_append_all {α : Type} (p : α → Bool) (xs ys : List α)
    (h : ∀ x ∈ xs, p x = true) : (xs ++ ys).takeWhile p = xs ++ ys.takeWhile p := by
  induction xs with
  | nil => rfl
  | cons x rest ih =>
    have hx : p x = true := h x (List.mem_cons_self _ _)
    simp only [List.cons_append, List.takeWhile_cons, hx, if_true]
    rw [ih (fun y hy => h y (List.mem_cons_of_mem _ hy))]

/-- What is left after the longest prefix with a property, of a list that starts with
elements that have it. -/
theorem dropWhile_append_all {α : Type} (p : α → Bool) (xs ys : List α)
    (h : ∀ x ∈ xs, p x = true) : (xs ++ ys).dropWhile p = ys.dropWhile p := by
  induction xs with
  | nil => rfl
  | cons x rest ih =>
    have hx : p x = true := h x (List.mem_cons_self _ _)
    simp only [List.cons_append, List.dropWhile_cons, hx, if_true]
    rw [ih (fun y hy => h y (List.mem_cons_of_mem _ hy))]

/-- A list is its longest prefix with a property followed by nothing or by an element
without the property. -/
theorem split_at_first {α : Type} (p : α → Bool) (v : List α) :
    (∀ x ∈ v, p x = true)
      ∨ ∃ a w b, v = a ++ w :: b ∧ (∀ x ∈ a, p x = true) ∧ p w = false := by
  induction v with
  | nil => left; intro x hx; cases hx
  | cons y rest ih =>
    cases hy : p y with
    | false => right; exact ⟨[], y, rest, rfl, by simp, hy⟩
    | true =>
      rcases ih with h | ⟨a, w, b, hv, ha, hw⟩
      · left
        intro x hx
        rcases List.mem_cons.mp hx with h1 | h1
        · rw [h1]; exact hy
        · exact h x h1
      · right
        refine ⟨y :: a, w, b, by simp [hv], ?_, hw⟩
        intro x hx
        rcases List.mem_cons.mp hx with h1 | h1
        · rw [h1]; exact hy
        · exact ha x h1

/-- The extraction of a word that stands in the stream after whitespace. -/
theorem extract_word (sp w T : List Char) (hsp : ∀ c ∈ sp, isspace c = true)
    (hw : ∀ c ∈ w, isspace c = false) (hne : w ≠ []) (hT : AfterWord T) :
    IStream.extract (some (sp ++ (w ++ T))) = (some w, streamAfter T) := by
  unfold IStream.extract
  have hw2 : ∀ c ∈ w, (fun ch => !isspace ch) c = true := by
    intro c hc
    simp [hw c hc]
  have hTd : T.dropWhile (fun ch => !isspace ch) = T := by
    rcases hT with h | ⟨c, T', h, hc⟩
    · rw [h]; rfl
    · rw [h]; simp [List.dropWhile, hc]
  have hTt : T.takeWhile (fun ch => !isspace ch) = [] := by
    rcases hT with h | ⟨c, T', h, hc⟩
    · rw [h]; rfl
    · rw [h]; simp [List.takeWhile, hc]
  have h1 : (sp ++ (w ++ T)).dropWhile isspace = w ++ T := by
    rw [dropWhile_append_all isspace sp _ hsp]
    cases w with
    | nil => exact absurd rfl hne
    | cons c rest =>
      have := hw c (List.mem_cons_self _ _)
      simp [List.dropWhile, this]
  simp only
  rw [h1]
  cases hwt : w ++ T with
  | nil =>
    cases w with
    | nil => exact absurd rfl hne
    | cons c rest => simp at hwt
  | cons c rest =>
    simp only
    rw [← hwt, dropWhile_append_all _ w T hw2, takeWhile_append_all _ w T hw2, hTd, hTt,
      List.append_nil]
    unfold streamAfter
    cases T with
    | nil => rfl
    | cons d left => simp

/-- The call `getline` up to a delimiter that stands in the stream. -/
theorem getline_delim (delim : Char) (b T : List Char) (hb : delim ∉ b) :
    IStream.getline delim (some (b ++ delim :: T)) = (b, some T) := by
  unfold IStream.getline
  have hp : ∀ c ∈ b, (fun ch => decide (ch ≠ delim)) c = true := by
    intro c hc
    have : c ≠ delim := fun h => hb (h ▸ hc)
    simp [this]
  simp only
  rw [dropWhile_append_all _ b _ hp, takeWhile_append_all _ b _ hp]
  simp [List.dropWhile, List.takeWhile]

/-- The call `getline` on a stream without the delimiter. -/
theorem getline_all (delim : Char) (b : List Char) (hb : delim ∉ b) :
    IStream.getline delim (some b) = (b, none) := by
  unfold IStream.getline
  have hp : ∀ c ∈ b, (fun ch => decide (ch ≠ delim)) c = true := by
    intro c hc
    have : c ≠ delim := fun h => hb (h ▸ hc)
    simp [this]
  have h1 := dropWhile_append_all _ b [] hp
  have h2 := takeWhile_append_all _ b [] hp
  simp only [List.append_nil, List.dropWhile_nil, List.takeWhile_nil] at h1 h2
  simp only
  rw [h1, h2]

/-- What `trim` returns on a string that is neither empty nor a lone `"`. -/
theorem trim_eq_unquote (s : List Char) (h1 : s ≠ []) (h2 : s ≠ ['"']) :
    trim s = some (unquote s) := by
  cases s with
  | nil => exact absurd rfl h1
  | cons c cs =>
    unfold trim unquote
    by_cases hc : c = '"'
    · subst hc
      cases cs with
      | nil => exact absurd rfl h2
      | cons d ds =>
        simp only [if_true, List.head?_cons, List.tail_cons]
        split <;> rfl
    · have hh : ¬((c :: cs).head? = some '"') := by simpa using hc
      simp only [hc, if_false, hh]
      split <;> rfl

/-- A quoted value is trimmed to the value. -/
theorem trim_quoted (v : List Char) : trim ('"' :: (v ++ ['"'])) = some v := by
  unfold trim
  simp only [if_true]
  cases hv : v ++ ['"'] with
  | nil => simp at hv
  | cons d ds =>
    simp only
    rw [← hv]
    simp

/-- A value after an opening `"` that does not end in `"` is trimmed to the value. -/
theorem trim_open (v : List Char) (hne : v ≠ []) (hq : '"' ∉ v) :
    trim ('"' :: v) = some v := by
  unfold trim
  simp only [if_true]
  cases v with
  | nil => exact absurd rfl hne
  | cons d ds =>
    simp only
    have : (d :: ds).getLast? ≠ some '"' := by
      intro h
      exact hq (List.mem_of_getLast?_eq_some h)
    simp [this]

/-- The loop over the values of a meta line ends on a stream that is not good or has
nothing left. -/
theorem readMetaItems_end (fuel : Nat) (items : List String) :
    readMetaItems fuel none items = some items
      ∧ readMetaItems fuel (some []) items = some items := by
  cases fuel with
  | zero => exact ⟨rfl, rfl⟩
  | succ n => exact ⟨rfl, rfl⟩

/-- The loop over the values of a meta line goes on the same way on a stream that holds
`T` and on the stream after a word that `T` follows. -/
theorem readMetaItems_streamAfter (fuel : Nat) (T : List Char) (items : List String) :
    readMetaItems fuel (some T) items = readMetaItems fuel (streamAfter T) items := by
  unfold streamAfter
  by_cases h : T = []
  · rw [h, if_pos rfl, (readMetaItems_end fuel items).1, (readMetaItems_end fuel items).2]
  · rw [if_neg h]

/-- What follows the values of a meta line. -/
theorem quotedValues_afterWord (vs : List (List Char)) : AfterWord (quotedValues vs) := by
  cases vs with
  | nil => exact Or.inl rfl
  | cons v rest => exact Or.inr ⟨' ', _, rfl, by decide⟩

/-- The values of a meta line take at least one character each. -/
theorem quotedValues_length (vs : List (List Char)) :
    vs.length ≤ (quotedValues vs).length := by
  induction vs with
  | nil => simp
  | cons v rest ih =>
    simp only [quotedValues, List.length_cons, List.length_append]
    omega

/-- One round of the loop over the values of a meta line: a value without `"` that does
not start with whitespace, written between `"` after a blank, is read as it stands. -/
theorem readMetaItems_round (v T : List Char) (fuel : Nat) (items : List String)
    (hq : '"' ∉ v) (hh : ∀ c, v.head? = some c → isspace c = false) (hT : AfterWord T) :
    readMetaItems (fuel + 1) (some (' ' :: '"' :: (v ++ '"' :: T))) items
      = readMetaItems fuel (streamAfter T) (items ++ [String.mk v]) := by
  rcases split_at_first (fun ch => !isspace ch) v with hall | ⟨a, w, b, hv, ha, hw⟩
  · -- the value is one word
    have hbuf : (' ' :: '"' :: (v ++ '"' :: T)) = [' '] ++ (('"' :: (v ++ ['"'])) ++ T) := by
      simp
    have hword : ∀ c ∈ '"' :: (v ++ ['"']), isspace c = false := by
      intro c hc
      simp only [List.mem_cons, List.mem_append, List.mem_singleton] at hc
      rcases hc with h | h | h | h
      · rw [h]; decide
      · simpa using hall c h
      · rw [h]; decide
      · cases h
    have hex := extract_word [' '] ('"' :: (v ++ ['"'])) T
      (by intro c hc; simp at hc; rw [hc]; decide) hword (by simp) hT
    rw [hbuf, readMetaItems, hex]
    have hlast : ('"' :: (v ++ ['"'])).getLast? = some '"' :=
      List.getLast?_concat ('"' :: v)
    simp only [hlast, ne_eq, not_true_eq_false, if_false, List.append_nil]
    rw [trim_quoted]
  · -- the value goes on after whitespace
    have hw' : isspace w = true := by simpa using hw
    have hane : a ≠ [] := by
      intro h
      rw [h] at hv
      have := hh w (by rw [hv]; rfl)
      rw [hw'] at this
      cases this
    have hbuf : (' ' :: '"' :: (v ++ '"' :: T))
        = [' '] ++ (('"' :: a) ++ (w :: (b ++ '"' :: T))) := by
      simp [hv]
    have hword : ∀ c ∈ '"' :: a, isspace c = false := by
      intro c hc
      rcases List.mem_cons.mp hc with h | h
      · rw [h]; decide
      · simpa using ha c h
    have hex := extract_word [' '] ('"' :: a) (w :: (b ++ '"' :: T))
      (by intro c hc; simp at hc; rw [hc]; decide) hword (by simp)
      (Or.inr ⟨w, _, rfl, hw'⟩)
    have hqa : '"' ∉ a := fun h => hq (by rw [hv]; exact List.mem_append_left _ h)
    have hqb : '"' ∉ w :: b := fun h => hq (by rw [hv]; exact List.mem_append_right _ h)
    have hlast : ('"' :: a).getLast? ≠ some '"' := by
      intro h
      cases a with
      | nil => exact hane rfl
      | cons d ds =>
        rw [List.getLast?_cons_cons] at h
        exact hqa (List.mem_of_getLast?_eq_some h)
    have hgl : IStream.getline '"' (some (w :: (b ++ '"' :: T))) = (w :: b, some T) :=
      getline_delim '"' (w :: b) T hqb
    have hsa : streamAfter (w :: (b ++ '"' :: T)) = some (w :: (b ++ '"' :: T)) := by
      simp [streamAfter]
    rw [hsa] at hex
    rw [hbuf, readMetaItems, hex]
    simp only [hlast, ne_eq, not_false_eq_true, if_true, hgl]
    have hitem : '"' :: a ++ w :: b = '"' :: v := by simp [hv]
    have hvne : v ≠ [] := by rw [hv]; simp
    rw [hitem, trim_open v hvne hq]
    simp only
    rw [readMetaItems_streamAfter]

/-- The loop over the values of a meta line reads the values as they stand, when the
fuel is at least their number. -/
theorem readMetaItems_values (vs : List (List Char))
    (hvs : ∀ v ∈ vs, '"' ∉ v ∧ ∀ c, v.head? = some c → isspace c = false) :
    ∀ (fuel : Nat) (items : List String), vs.length ≤ fuel →
      readMetaItems fuel (streamAfter (quotedValues vs)) items
        = some (items ++ vs.map String.mk) := by
  induction vs with
  | nil =>
    intro fuel items _
    simp only [quotedValues, streamAfter, if_true, List.map_nil, List.append_nil]
    exact (readMetaItems_end fuel items).1
  | cons v rest ih =>
    intro fuel items hf
    cases fuel with
    | zero => simp at hf
    | succ n =>
      have hs : streamAfter (quotedValues (v :: rest))
          = some (' ' :: '"' :: (v ++ '"' :: quotedValues rest)) := by
        simp [streamAfter, quotedValues]
      rw [hs, readMetaItems_round v _ n items (hvs v (List.mem_cons_self _ _)).1
        (hvs v (List.mem_cons_self _ _)).2 (quotedValues_afterWord rest),
        ih (fun x hx => hvs x (List.mem_cons_of_mem _ hx)) n _ (by simpa using hf)]
      simp

/-- The round of the constructor for a meta line: the flag, a key and values without `"`
that do not start with whitespace, each between `"` after a blank. The values are read as
they stand and become the list of the key, unless the key has a list already. -/
theorem readLine_meta (metaflag : String) (r : RsfReader) (k : List Char)
    (vs : List (List Char))
    (hflag : ∀ c ∈ metaflag.data, isspace c = false) (hfne : metaflag.data ≠ [])
    (hk : ∀ c ∈ k, isspace c = false) (hkne : k ≠ [])
    (hvs : ∀ v ∈ vs, '"' ∉ v ∧ ∀ c, v.head? = some c → isspace c = false) :
    r.readLine metaflag (metaflag.data ++ ' ' :: (k ++ quotedValues vs))
      = some { r with
          meta_information :=
            mapEmplaceNew (String.mk k) (vs.map String.mk) r.meta_information } := by
  have hfirst : IStream.extract (some (metaflag.data ++ ' ' :: (k ++ quotedValues vs)))
      = (some metaflag.data, some (' ' :: (k ++ quotedValues vs))) := by
    have := extract_word [] metaflag.data (' ' :: (k ++ quotedValues vs))
      (by intro c hc; cases hc) hflag hfne (Or.inr ⟨' ', _, rfl, by decide⟩)
    simpa [streamAfter] using this
  have hsecond : IStream.extract (some (' ' :: (k ++ quotedValues vs)))
      = (some k, streamAfter (quotedValues vs)) := by
    have := extract_word [' '] k (quotedValues vs)
      (by intro c hc; simp at hc; rw [hc]; decide) hk hkne (quotedValues_afterWord vs)
    simpa using this
  have hline : metaflag.data ++ ' ' :: (k ++ quotedValues vs) ≠ [] := by simp
  have hmf : metaflag ≠ "" := by
    intro h
    rw [h] at hfne
    exact hfne rfl
  have hfuel : vs.length ≤ (metaflag.data ++ ' ' :: (k ++ quotedValues vs)).length + 1 := by
    have := quotedValues_length vs
    simp only [List.length_append, List.length_cons]
    omega
  unfold RsfReader.readLine
  rw [if_neg hline, hfirst]
  simp only [hmf, ne_eq, not_false_eq_true, decide_True, Bool.and_self, if_true, hsecond]
  rw [readMetaItems_values vs hvs _ [] hfuel]
  simp

/-- The round of the constructor for a line that binds a key: the key, a blank and a
rest that is neither empty nor a lone `"` and does not start with whitespace. The key is
bound to the rest without a leading and a trailing `"`, unless it is bound already. -/
theorem readLine_entry (metaflag : String) (r : RsfReader) (k rest : List Char)
    (hk : ∀ c ∈ k, isspace c = false) (hkne : k ≠ []) (hkf : String.mk k ≠ metaflag)
    (hne : rest ≠ []) (hq : rest ≠ ['"'])
    (hh : ∀ c, rest.head? = some c → isspace c = false) (hnl : '\n' ∉ rest) :
    r.readLine metaflag (k ++ ' ' :: rest)
      = some { r with
          entries := mapEmplaceNew (String.mk k) (String.mk (unquote rest)) r.entries } := by
  have hfirst : IStream.extract (some (k ++ ' ' :: rest)) = (some k, some (' ' :: rest)) := by
    have := extract_word [] k (' ' :: rest) (by intro c hc; cases hc) hk hkne
      (Or.inr ⟨' ', _, rfl, by decide⟩)
    simpa [streamAfter] using this
  have hws : IStream.ws (some (' ' :: rest)) = some rest := by
    unfold IStream.ws
    cases rest with
    | nil => exact absurd rfl hne
    | cons c cs =>
      have hc := hh c rfl
      simp [List.dropWhile, hc, show isspace ' ' = true by decide]
  have hline : k ++ ' ' :: rest ≠ [] := by simp
  unfold RsfReader.readLine
  rw [if_neg hline, hfirst]
  simp only [hkf, decide_False, Bool.and_false, Bool.false_eq_true, if_false, hws,
    getline_all '\n' rest hnl, trim_eq_unquote rest hne hq]

/-- A string whose first character, if any, is no whitespace. -/
theorem head_not_space (v : List Char) (h : v.head?.any isspace = false) :
    ∀ c, v.head? = some c → isspace c = false := by
  intro c hc
  rw [hc] at h
  simpa using h

/-- The strings of the character sequences of strings. -/
theorem map_mk_data (vs : List String) : (vs.map String.data).map String.mk = vs := by
  induction vs with
  | nil => rfl
  | cons v rest ih => simp [ih]

/-! ## The claims about the reader of model files -/

/-- C22 (amended). The reader stores the values of a meta line as they stand: for the
line `UNDERTAKER_SET k "v1" ... "vn"`, the values holding no `"` and not starting with
whitespace, the list of `k` after the line is `[v1, ..., vn]`, empty values and repeated
values included, when `k` had no list before; a list `k` had before is kept. -/
theorem C22_meta_values_kept (r : RsfReader) (k : String) (vs : List String)
    (hkne : k.data ≠ []) (hk : ∀ c ∈ k.data, isspace c = false)
    (hvs : ∀ v ∈ vs, '"' ∉ v.data ∧ v.data.head?.any isspace = false) :
    ∃ r1, r.readLine "UNDERTAKER_SET"
        ("UNDERTAKER_SET".data ++ ' ' :: (k.data ++ quotedValues (vs.map String.data)))
        = some r1
      ∧ (r.getMetaValue k = none → r1.getMetaValue k = some vs)
      ∧ (∀ old, r.getMetaValue k = some old → r1.getMetaValue k = some old) := by
  have hvs' : ∀ v ∈ vs.map String.data,
      '"' ∉ v ∧ ∀ c, v.head? = some c → isspace c = false := by
    intro v hv
    obtain ⟨s, hs, rfl⟩ := List.mem_map.mp hv
    exact ⟨(hvs s hs).1, head_not_space _ (hvs s hs).2⟩
  refine ⟨_, readLine_meta "UNDERTAKER_SET" r k.data (vs.map String.data) (by decide)
    (by decide) hk hkne hvs', ?_, ?_⟩
  · intro hnone
    show (mapEmplaceNew (String.mk k.data) ((vs.map String.data).map String.mk)
      r.meta_information).lookup k = some vs
    have hn : r.meta_information.lookup k = none := hnone
    rw [lookup_mapEmplaceNew, map_mk_data]
    simp [hn]
  · intro old hold
    show (mapEmplaceNew (String.mk k.data) ((vs.map String.data).map String.mk)
      r.meta_information).lookup k = some old
    have hn : r.meta_information.lookup k = some old := hold
    rw [lookup_mapEmplaceNew]
    simp [hn]

/-- C22 as amended, on a meta line with an empty and a repeated value. -/
theorem C22_meta_values_kept_witness :
    ∃ r1, (⟨[], []⟩ : RsfReader).readLine "UNDERTAKER_SET"
        ("UNDERTAKER_SET".data ++ ' ' ::
          ("ALWAYS_ON".data ++ quotedValues (["A", "", "A"].map String.data)))
        = some r1
      ∧ ((⟨[], []⟩ : RsfReader).getMetaValue "ALWAYS_ON" = none →
          r1.getMetaValue "ALWAYS_ON" = some ["A", "", "A"])
      ∧ (∀ old, (⟨[], []⟩ : RsfReader).getMetaValue "ALWAYS_ON" = some old →
          r1.getMetaValue "ALWAYS_ON" = some old) :=
  C22_meta_values_kept ⟨[], []⟩ "ALWAYS_ON" ["A", "", "A"] (by decide) (by decide)
    (by decide)

/-- C22 (as stated) fails: for the file with the one line
`UNDERTAKER_SET ALWAYS_ON "A" "" "A"` the reader stores the list `A`, the empty string,
`A` for the key `ALWAYS_ON`. -/
theorem C22_counterexample :
    (RsfReader.read "UNDERTAKER_SET ALWAYS_ON \"A\" \"\" \"A\"" "UNDERTAKER_SET").map
        (fun r => r.getMetaValue "ALWAYS_ON") = some (some ["A", "", "A"]) := by
  decide

/-- C23 (amended). For a key `k` (non-empty, without whitespace) that no earlier line has
bound: the line `UNDERTAKER_SET k "v1" ... "vn"`, each value non-empty, without `"` and
not starting with whitespace, is read as the meta entry of `k` with the list
`[v1, ..., vn]`; and, `k` not being the meta flag, the line `k rest`, where `rest` is
neither empty nor a lone `"`, holds no line break and does not start with whitespace,
binds `k` to `rest` without a leading and without a trailing `"`. -/
theorem C23_keyed_lines (r : RsfReader) (k : String)
    (hkne : k.data ≠ []) (hk : ∀ c ∈ k.data, isspace c = false) :
    (∀ vs : List String,
        (∀ v ∈ vs, v.data ≠ [] ∧ '"' ∉ v.data ∧ v.data.head?.any isspace = false) →
        r.getMetaValue k = none →
        ∃ r1, r.readLine "UNDERTAKER_SET"
            ("UNDERTAKER_SET".data ++ ' ' :: (k.data ++ quotedValues (vs.map String.data)))
            = some r1
          ∧ r1.getMetaValue k = some vs ∧ r1.entries = r.entries)
      ∧ (∀ rest : String, k ≠ "UNDERTAKER_SET" → rest.data ≠ [] → rest.data ≠ ['"'] →
          rest.data.head?.any isspace = false → '\n' ∉ rest.data →
          r.getValue k = none →
          ∃ r1, r.readLine "UNDERTAKER_SET" (k.data ++ ' ' :: rest.data) = some r1
            ∧ r1.getValue k = some (String.mk (unquote rest.data))
            ∧ r1.meta_information = r.meta_information) := by
  constructor
  · intro vs hvs hnone
    have hvs' : ∀ v ∈ vs.map String.data,
        '"' ∉ v ∧ ∀ c, v.head? = some c → isspace c = false := by
      intro v hv
      obtain ⟨s, hs, rfl⟩ := List.mem_map.mp hv
      exact ⟨(hvs s hs).2.1, head_not_space _ (hvs s hs).2.2⟩
    refine ⟨_, readLine_meta "UNDERTAKER_SET" r k.data (vs.map String.data) (by decide)
      (by decide) hk hkne hvs', ?_, rfl⟩
    show (mapEmplaceNew (String.mk k.data) ((vs.map String.data).map String.mk)
      r.meta_information).lookup k = some vs
    have hn : r.meta_information.lookup k = none := hnone
    rw [lookup_mapEmplaceNew, map_mk_data]
    simp [hn]
  · intro rest hkf hne hq hh hnl hnone
    refine ⟨_, readLine_entry "UNDERTAKER_SET" r k.data rest.data hk hkne hkf hne hq
      (head_not_space _ hh) hnl, ?_, rfl⟩
    show (mapEmplaceNew (String.mk k.data) (String.mk (unquote rest.data))
      r.entries).lookup k = some (String.mk (unquote rest.data))
    have hn : r.entries.lookup k = none := hnone
    rw [lookup_mapEmplaceNew]
    simp [hn]

/-- C23 as amended, on the lines `UNDERTAKER_SET ALWAYS_ON "CONFIG_A" "b c"` and
`CONFIG_A "CONFIG_B && CONFIG_C"`. -/
theorem C23_keyed_lines_witness :
    (∃ r1, (⟨[], []⟩ : RsfReader).readLine "UNDERTAKER_SET"
          ("UNDERTAKER_SET".data ++ ' ' ::
            ("ALWAYS_ON".data ++ quotedValues (["CONFIG_A", "b c"].map String.data)))
          = some r1
        ∧ r1.getMetaValue "ALWAYS_ON" = some ["CONFIG_A", "b c"]
        ∧ r1.entries = [])
      ∧ (∃ r1, (⟨[], []⟩ : RsfReader).readLine "UNDERTAKER_SET"
          ("CONFIG_A".data ++ ' ' :: "\"CONFIG_B && CONFIG_C\"".data) = some r1
        ∧ r1.getValue "CONFIG_A"
          = some (String.mk (unquote "\"CONFIG_B && CONFIG_C\"".data))
        ∧ r1.meta_information = [])
      ∧ String.mk (unquote "\"CONFIG_B && CONFIG_C\"".data) = "CONFIG_B && CONFIG_C"
      ∧ (RsfReader.read
          "UNDERTAKER_SET ALWAYS_ON \"CONFIG_A\" \"b c\"\nCONFIG_A \"CONFIG_B && CONFIG_C\"\n"
          "UNDERTAKER_SET").map (fun r => (r.entries, r.meta_information))
        = some ([("CONFIG_A", "CONFIG_B && CONFIG_C")],
            [("ALWAYS_ON", ["CONFIG_A", "b c"])]) :=
  ⟨(C23_keyed_lines ⟨[], []⟩ "ALWAYS_ON" (by decide) (by decide)).1 ["CONFIG_A", "b c"]
      (by decide) rfl,
    (C23_keyed_lines ⟨[], []⟩ "CONFIG_A" (by decide) (by decide)).2
      "\"CONFIG_B && CONFIG_C\"" (by decide) (by decide) (by decide) (by decide) (by decide)
      rfl,
    by decide, by decide⟩

/-- C23 (as stated) fails: in the file with the lines `A x` and `A y` the second line does
not bind `A` to `y`, and in the file with the lines `UNDERTAKER_SET K "a"` and
`UNDERTAKER_SET K "b"` the second line is not read as the meta entry of `K`: the first
binding of a key is kept. -/
theorem C23_counterexample :
    (RsfReader.read "A x\nA y" "UNDERTAKER_SET").map (fun r => r.getValue "A")
        = some (some "x")
      ∧ (RsfReader.read "UNDERTAKER_SET K \"a\"\nUNDERTAKER_SET K \"b\""
          "UNDERTAKER_SET").map (fun r => r.getMetaValue "K") = some (some ["a"]) := by
  decide

/-! ## Facts about the order of the keys of a `std::map` -/

/-- A character sequence is less than itself with more characters after it. -/
theorem chars_lt_append (l s : List Char) (hs : s ≠ []) : l < l ++ s := by
  induction l with
  | nil =>
    cases s with
    | nil => exact absurd rfl hs
    | cons c cs => exact List.Lex.nil
  | cons a rest ih => exact List.Lex.cons ih

/-- The order of character sequences is asymmetric. -/
theorem chars_lt_asymm (a b : List Char) (h1 : a < b) (h2 : b < a) : False :=
  lt_asymm h1 h2

/-- The round of the first loop for the true module variant of a missing name: the name
gets the state `yes` in `other_variables`. -/
theorem formatKconfigStep_missing_module (mainModel : Option (String → String))
    (missingSet : StrSet) (acc : List (String × state) × List (String × state))
    (name : String) (hmiss : name ∈ missingSet) (hcfg : starts_with name "CONFIG_" = true) :
    (formatKconfigStep mainModel missingSet acc (name ++ "_MODULE", true)).2
      = mapAssign name state.yes acc.2 := by
  obtain ⟨X, hX⟩ := starts_with_config name hcfg
  have h4 : missingSet.contains ("CONFIG_" ++ X) = true := by
    rw [← hX]; simpa using hmiss
  rw [hX]
  unfold formatKconfigStep
  simp only [if_true, matchModule_append, h4, Bool.true_or, stateOf]

/-- After the first loop over an assignment in key order, a missing name whose module
variant is bound to true has the state `yes` in `other_variables`. -/
theorem foldl_formatKconfigStep_missing_module (mainModel : Option (String → String))
    (missingSet : StrSet) (name : String) (hmiss : name ∈ missingSet)
    (hcfg : starts_with name "CONFIG_" = true) (l : List (String × Bool)) :
    ∀ acc : List (String × state) × List (String × state),
      l.Pairwise (fun x y => x.1.data < y.1.data) → (name ++ "_MODULE", true) ∈ l →
      (l.foldl (formatKconfigStep mainModel missingSet) acc).2.lookup name
        = some state.yes := by
  induction l with
  | nil => intro acc _ h; cases h
  | cons e rest ih =>
    intro acc hs h
    rw [List.pairwise_cons] at hs
    rw [List.foldl_cons]
    rcases List.mem_cons.mp h with heq | hmem
    · have hlt : ∀ x ∈ rest, (name ++ "_MODULE").data < x.1.data := by
        intro x hx
        have := hs.1 x hx
        rw [← heq] at this
        exact this
      have hname : name.data < (name ++ "_MODULE").data := by
        rw [String.data_append]
        exact chars_lt_append _ _ (by decide)
      have hk : ∀ x ∈ rest, x.1 ≠ name := by
        intro x hx hc
        have h1 := hlt x hx
        rw [hc] at h1
        exact chars_lt_asymm _ _ hname h1
      have hmv : (name ++ "_MODULE", true) ∉ rest := by
        intro hc
        exact lt_irrefl _ (hlt _ hc)
      rw [foldl_formatKconfigStep_other_keep mainModel missingSet name rest _ hk hmv, ← heq,
        formatKconfigStep_missing_module mainModel missingSet acc name hmiss hcfg,
        lookup_mapAssign]
      simp
    · exact ih _ hs.2 hmem

/-! ## The claim about the missing names in `formatKconfig` -/

/-- C26 (amended). A name of the assignment that is in the missing set, starts with
`CONFIG_`, does not end in `_MODULE` and is neither a choice variable nor `CONFIG_n` nor
`CONFIG_y` is never written by `formatKconfig` as a selection line; it is written as a
comment line `# name=y` or `# name=n`: the one of its value when its module variant
`name_MODULE` is not bound to true, and `# name=y` when it is. The keys of the assignment,
a `std::map`, are distinct, and its entries are run through in key order. -/
theorem C26_missing_comment (mainModel : Option (String → String)) (a : AssignmentMap)
    (missingSet : StrSet) (name : String) (v : Bool)
    (hkeys : (a.map Prod.fst).Nodup) (ha : (name, v) ∈ a) (hmiss : name ∈ missingSet)
    (hcfg : starts_with name "CONFIG_" = true) (hmod : ends_with name "_MODULE" = false)
    (hch : starts_with name "CONFIG_CHOICE_" = false)
    (hn : name ≠ "CONFIG_n") (hy : name ≠ "CONFIG_y") :
    (name ++ "=y" ∉ (a.formatKconfig mainModel missingSet).1
        ∧ name ++ "=n" ∉ (a.formatKconfig mainModel missingSet).1
        ∧ name ++ "=m" ∉ (a.formatKconfig mainModel missingSet).1)
      ∧ ("# " ++ name ++ "=y" ∈ (a.formatKconfig mainModel missingSet).1
        ∨ "# " ++ name ++ "=n" ∈ (a.formatKconfig mainModel missingSet).1)
      ∧ ((name ++ "_MODULE", true) ∉ a →
          "# " ++ name ++ (if v then "=y" else "=n")
            ∈ (a.formatKconfig mainModel missingSet).1)
      ∧ (a.Pairwise (fun x y => x.1.data < y.1.data) → (name ++ "_MODULE", true) ∈ a →
          "# " ++ name ++ "=y" ∈ (a.formatKconfig mainModel missingSet).1) := by
  obtain ⟨_, hndo, hsel, hnomod⟩ := foldl_formatKconfigStep_inv mainModel missingSet a ([], [])
    ⟨by simp, by simp, by simp, by simp⟩
  obtain ⟨hsome, hval⟩ := foldl_formatKconfigStep_missing mainModel missingSet name v hmiss
    hcfg hmod hch a ([], []) hkeys ha
  have hselnone : (a.foldl (formatKconfigStep mainModel missingSet) ([], [])).1.lookup name
      = none := by
    rw [lookup_eq_none_iff]
    exact fun hc => hsel name hc hmiss
  have hno : ∀ c : Char,
      name ++ "=" ++ String.singleton c ∉ (a.formatKconfig mainModel missingSet).1 := by
    intro c hmem
    unfold AssignmentMap.formatKconfig at hmem
    simp only [List.mem_append, List.mem_map, List.mem_filterMap] at hmem
    rcases hmem with ⟨e, he, hline⟩ | ⟨e, _, hline⟩
    · obtain ⟨hk, _⟩ := selectionLine_eq e name c hline
      apply hsel name _ hmiss
      rw [← hk]
      exact List.mem_map.mpr ⟨e, he, rfl⟩
    · obtain ⟨rest, hr⟩ := starts_with_config name hcfg
      apply otherLine_ne _ e _ (rest ++ "=" ++ String.singleton c) hline
      rw [hr]
      simp [String.append_assoc]
  have hline : ∀ st : state, st ≠ state.module →
      (a.foldl (formatKconfigStep mainModel missingSet) ([], [])).2.lookup name = some st →
      "# " ++ name ++ "=" ++ (if st = state.yes then "y" else "n")
        ∈ (a.formatKconfig mainModel missingSet).1 := by
    intro st hst hl
    unfold AssignmentMap.formatKconfig
    apply List.mem_append_right
    apply List.mem_filterMap.mpr
    refine ⟨(name, st), mem_of_lookup _ _ _ hl, ?_⟩
    unfold otherLine
    simp only [hmod, Bool.false_eq_true, if_false, hch, starts_with_free name hcfg, hn, hy,
      decide_False, Bool.or_self, hselnone, Option.isSome_none]
    cases st <;> simp at hst ⊢
  refine ⟨⟨?_, ?_, ?_⟩, ?_, ?_, ?_⟩
  · have hs : name ++ "=y" = name ++ "=" ++ String.singleton 'y' := by
      rw [String.append_assoc]; rfl
    rw [hs]; exact hno 'y'
  · have hs : name ++ "=n" = name ++ "=" ++ String.singleton 'n' := by
      rw [String.append_assoc]; rfl
    rw [hs]; exact hno 'n'
  · have hs : name ++ "=m" = name ++ "=" ++ String.singleton 'm' := by
      rw [String.append_assoc]; rfl
    rw [hs]; exact hno 'm'
  · cases hl : (a.foldl (formatKconfigStep mainModel missingSet) ([], [])).2.lookup name with
    | none => rw [hl] at hsome; cases hsome
    | some st =>
      have hst := hnomod name st hl
      have := hline st hst hl
      rw [String.append_assoc ("# " ++ name)] at this
      cases st with
      | no => right; exact this
      | yes => left; exact this
      | module => exact absurd rfl hst
  · intro hmv
    have hl := hval hmv
    have := hline (stateOf v) (by cases v <;> simp [stateOf]) hl
    rw [String.append_assoc ("# " ++ name)] at this
    cases v <;> exact this
  · intro hs hmv
    have hl := foldl_formatKconfigStep_missing_module mainModel missingSet name hmiss hcfg a
      ([], []) hs hmv
    have := hline state.yes (by decide) hl
    rw [String.append_assoc ("# " ++ name)] at this
    exact this

/-- C26 as amended, on the missing name `CONFIG_Z`, bound to false. -/
theorem C26_missing_comment_witness :
    AssignmentMap.formatKconfig none [("CONFIG_A", true), ("CONFIG_Z", false)] ["CONFIG_Z"]
        = (["CONFIG_A=y", "# CONFIG_Z=n"], 1)
      ∧ "# " ++ "CONFIG_Z" ++ (if false then "=y" else "=n")
        ∈ (AssignmentMap.formatKconfig none [("CONFIG_A", true), ("CONFIG_Z", false)]
            ["CONFIG_Z"]).1 :=
  ⟨by decide,
    (C26_missing_comment none [("CONFIG_A", true), ("CONFIG_Z", false)] ["CONFIG_Z"]
      "CONFIG_Z" false (by decide) (by decide) (by decide) (by decide) (by decide)
      (by decide) (by decide) (by decide)).2.2.1 (by decide)⟩

/-- C26 (as stated) fails: the missing name `CONFIG_Z_MODULE`, bound to false, is written
on no line at all; and for the missing name `CONFIG_Z`, bound to false, whose module
variant is bound to true, the comment line says `y`. -/
theorem C26_counterexample :
    AssignmentMap.formatKconfig none [("CONFIG_Z_MODULE", false)] ["CONFIG_Z_MODULE"]
        = ([], 0)
      ∧ AssignmentMap.formatKconfig none [("CONFIG_Z", false), ("CONFIG_Z_MODULE", true)]
          ["CONFIG_Z"] = (["# CONFIG_Z=y"], 0) := by
  decide

/-- While `uniqueFlag` is set, `emplace_back` keeps the elements of a
`UniqueStringJoiner` distinct and inside `_unique_set`. -/
theorem unique_emplace_back_inv (sj : UniqueStringJoiner) (x : String)
    (hinv : sj.uniqueFlag = true ∧ (∀ d ∈ sj.elems, d ∈ sj._unique_set) ∧ sj.elems.Nodup) :
    (sj.emplace_back x).uniqueFlag = true
      ∧ (∀ d ∈ (sj.emplace_back x).elems, d ∈ (sj.emplace_back x)._unique_set)
      ∧ (sj.emplace_back x).elems.Nodup := by
  obtain ⟨hf, hsub, hnd⟩ := hinv
  unfold UniqueStringJoiner.emplace_back
  rw [if_pos hf]
  by_cases hc : sj._unique_set.contains x = true
  · rw [if_pos hc]
    exact ⟨hf, hsub, hnd⟩
  · rw [if_neg hc]
    have hx : x ∉ sj._unique_set := by simpa using hc
    have hxe : x ∉ sj.elems := fun h => hx (hsub x h)
    refine ⟨hf, ?_, ?_⟩
    · intro d hd
      simp only [StringJoiner.emplace_back] at hd
      rw [StrSet.mem_insert]
      split at hd
      · exact Or.inr (hsub d hd)
      · rcases List.mem_append.mp hd with h | h
        · exact Or.inr (hsub d h)
        · simp only [List.mem_singleton] at h
          exact Or.inl h
    · simp only [StringJoiner.emplace_back]
      split
      · exact hnd
      · rw [List.nodup_append]
        refine ⟨hnd, List.nodup_singleton x, ?_⟩
        intro a ha hb
        simp only [List.mem_singleton] at hb
        exact hxe (hb ▸ ha)

/-- The disjunctions the outer loop of `checkMUS` collects are distinct. -/
theorem musLines_nodup (getSymbolName : Nat → String) :
    ∀ (n : Nat) (ss : List Int) (sj : UniqueStringJoiner),
      (sj.uniqueFlag = true ∧ (∀ d ∈ sj.elems, d ∈ sj._unique_set) ∧ sj.elems.Nodup) →
      (musLines getSymbolName n ss sj).elems.Nodup := by
  intro n
  induction n with
  | zero => intro ss sj h; exact h.2.2
  | succ n ih =>
    intro ss sj h
    unfold musLines
    apply ih
    split
    · exact unique_emplace_back_inv sj _ h
    · exact h

/-! ## The claim about `checkMUS` -/

/-- C28 (amended). When the clauses of the output of the minimizer are clauses of the CNF
of the solver, the minimized formula `checkMUS` builds is the join of parenthesised
disjunctions each of which is the text of a clause of that CNF with the literals left out
whose variable has no symbol name: the literals that have a name, `!` in front of the
negative ones, joined by ` v `; a clause without any named literal gives no
disjunction, and no disjunction is there twice. -/
theorem C28_mus_clauses (getSymbolName : Nat → String) (cnf : List (List Int))
    (p cnfstr : String) (vars lines : Int) (ss : List Int)
    (hsub : ∀ c ∈ clausesOf lines.toNat ss, c ∈ cnf) (hp : p = "p") (hc : cnfstr = "cnf") :
    ∃ disjunctions : StringJoiner,
      SatChecker.checkMUS getSymbolName p cnfstr vars lines ss
          = some (StringJoiner.join disjunctions " ^ ")
        ∧ disjunctions.Nodup
        ∧ ∀ d ∈ disjunctions, ∃ c ∈ cnf, namedLiterals getSymbolName c ≠ []
            ∧ d = "(" ++ StringJoiner.join (namedLiterals getSymbolName c) " v " ++ ")" := by
  refine ⟨(musLines getSymbolName lines.toNat ss UniqueStringJoiner.new).elems, ?_, ?_, ?_⟩
  · simp [SatChecker.checkMUS, hp, hc]
  · exact musLines_nodup getSymbolName _ _ _
      ⟨rfl, by simp [UniqueStringJoiner.new], by simp [UniqueStringJoiner.new]⟩
  · intro d hd
    rcases musLines_mem getSymbolName d _ _ _ hd with h1 | ⟨c, hc1, hne, hd1⟩
    · simp [UniqueStringJoiner.new] at h1
    · exact ⟨c, hsub c hc1, hne, hd1⟩

/-- C28 as amended, on the CNF with the clauses `1 -2 3` and `3`, the variable `3` having
no name. -/
theorem C28_mus_clauses_witness :
    ∃ disjunctions : StringJoiner,
      SatChecker.checkMUS (fun n => if n = 1 then "A" else if n = 2 then "B" else "")
          "p" "cnf" 3 2 [1, -2, 3, 0, 3, 0]
          = some (StringJoiner.join disjunctions " ^ ")
        ∧ disjunctions.Nodup
        ∧ ∀ d ∈ disjunctions, ∃ c ∈ [[1, -2, 3], [3]],
            namedLiterals (fun n => if n = 1 then "A" else if n = 2 then "B" else "") c ≠ []
              ∧ d = "(" ++ StringJoiner.join
                (namedLiterals (fun n => if n = 1 then "A" else if n = 2 then "B" else "") c)
                " v " ++ ")" :=
  C28_mus_clauses (fun n => if n = 1 then "A" else if n = 2 then "B" else "")
    [[1, -2, 3], [3]] "p" "cnf" 3 2 [1, -2, 3, 0, 3, 0] (by decide) rfl rfl

/-- C28 (as stated) fails: the CNF has the one clause `1 -2 3` with the symbol names `A`
for `1` and `B` for `2` and none for `3`, and the minimizer returns the clause; the
minimized formula is `(A v !B)`, which read back through the symbol table is the clause
`1 -2`, no clause of the CNF. -/
theorem C28_counterexample :
    SatChecker.checkMUS (fun n => if n = 1 then "A" else if n = 2 then "B" else "")
        "p" "cnf" 3 1 [1, -2, 3, 0] = some "(A v !B)"
      ∧ clausesOf 1 [1, -2, 3, 0] = [[1, -2, 3]]
      ∧ readBack [("A", 1), ("B", 2)] "(A v !B)" = some [1, -2]
      ∧ [1, -2] ∉ [[(1 : Int), -2, 3]] := by
  decide

/-! ## Facts about `UniqueStringJoiner::push_back` -/

/-- The elements after a sequence of `push_back` calls on a `UniqueStringJoiner` whose
`uniqueFlag` is set: what it held, followed by the first occurrences of the arguments that
are neither in `_unique_set` nor empty. -/
theorem foldl_unique_push_back (args : List String) :
    ∀ sj : UniqueStringJoiner, sj.uniqueFlag = true →
      (args.foldl UniqueStringJoiner.push_back sj).elems
        = sj.elems ++ (keepFirst args).filter
            (fun x => !sj._unique_set.contains x && decide (x ≠ "")) := by
  induction args with
  | nil => intro sj _; simp [keepFirst]
  | cons x rest ih =>
    intro sj hf
    rw [List.foldl_cons]
    by_cases hc : sj._unique_set.contains x = true
    · have hstep : sj.push_back x = sj := by
        unfold UniqueStringJoiner.push_back
        rw [if_pos hf, if_pos hc]
      rw [hstep, ih sj hf]
      congr 1
      have hx : x ∈ sj._unique_set := by simpa using hc
      simp only [keepFirst, List.filter_cons, hc, Bool.not_true, Bool.false_and,
        Bool.false_eq_true, if_false, List.filter_filter]
      apply List.filter_congr
      intro y _
      by_cases hy : y = x
      · subst hy
        simp [hx]
      · simp [hy]
    · have hstep : sj.push_back x
          = { sj with
              _unique_set := StrSet.insert x sj._unique_set,
              elems := StringJoiner.push_back sj.elems x } := by
        unfold UniqueStringJoiner.push_back
        rw [if_pos hf, if_neg hc]
      rw [hstep, ih { sj with
              _unique_set := StrSet.insert x sj._unique_set,
              elems := StringJoiner.push_back sj.elems x } hf]
      have hx : x ∉ sj._unique_set := by simpa using hc
      have hfilt : (keepFirst rest).filter
            (fun y => !(StrSet.insert x sj._unique_set).contains y && decide (y ≠ ""))
          = ((keepFirst rest).filter (fun y => y ≠ x)).filter
            (fun y => !sj._unique_set.contains y && decide (y ≠ "")) := by
        rw [List.filter_filter]
        apply List.filter_congr
        intro y _
        by_cases hy : y = x
        · subst hy
          simp [StrSet.mem_insert]
        · by_cases hy2 : y ∈ sj._unique_set <;> simp [StrSet.mem_insert, hy, hy2]
      simp only [hfilt, keepFirst, List.filter_cons, hc, Bool.not_false, Bool.true_and]
      by_cases he : x = ""
      · simp [he, StringJoiner.push_back]
      · simp [he, StringJoiner.push_back]

/-- C31. For every sequence of `push_back` calls on a fresh `UniqueStringJoiner`, whose
uniqueness is never disabled, the container holds the non-empty arguments with every
repetition of an earlier argument removed: the first occurrence is kept, later ones are
dropped, and the insertion order is preserved. -/
theorem C31_unique_push_back (args : List String) :
    (args.foldl UniqueStringJoiner.push_back UniqueStringJoiner.new).elems
        = (keepFirst args).filter (fun x => x ≠ "")
      ∧ (args.foldl UniqueStringJoiner.push_back UniqueStringJoiner.new).elems.Nodup
      ∧ (∀ x, x ∈ (args.foldl UniqueStringJoiner.push_back UniqueStringJoiner.new).elems
          ↔ x ∈ args ∧ x ≠ "")
      ∧ List.Sublist (args.foldl UniqueStringJoiner.push_back UniqueStringJoiner.new).elems
          args := by
  have h := foldl_unique_push_back args UniqueStringJoiner.new rfl
  have h1 : (args.foldl UniqueStringJoiner.push_back UniqueStringJoiner.new).elems
      = (keepFirst args).filter (fun x => x ≠ "") := by
    rw [h]
    simp [UniqueStringJoiner.new]
  have hmem : ∀ (l : List String) (x : String), x ∈ keepFirst l ↔ x ∈ l := by
    intro l
    induction l with
    | nil => intro x; simp [keepFirst]
    | cons a r ih =>
      intro x
      simp only [keepFirst, List.mem_cons, List.mem_filter, ih, decide_eq_true_eq]
      constructor
      · rintro (hx | ⟨hx, _⟩)
        · exact Or.inl hx
        · exact Or.inr hx
      · intro hx
        by_cases hxa : x = a
        · exact Or.inl hxa
        · rcases hx with hx | hx
          · exact Or.inl hx
          · exact Or.inr ⟨hx, hxa⟩
  have hnd : ∀ l : List String, (keepFirst l).Nodup := by
    intro l
    induction l with
    | nil => simp [keepFirst]
    | cons a r ih =>
      simp only [keepFirst, List.nodup_cons, List.mem_filter, decide_eq_true_eq, ne_eq,
        not_true_eq_false, and_false, not_false_eq_true, true_and]
      exact ih.filter _
  have hsub : ∀ l : List String, List.Sublist (keepFirst l) l := by
    intro l
    induction l with
    | nil => simp [keepFirst]
    | cons a r ih =>
      simp only [keepFirst]
      exact List.Sublist.cons₂ a ((List.filter_sublist _).trans ih)
  refine ⟨h1, ?_, ?_, ?_⟩
  · rw [h1]
    exact (hnd args).filter _
  · intro x
    rw [h1]
    simp [List.mem_filter, hmem]
  · rw [h1]
    exact (List.filter_sublist _).trans (hsub args)

/-! ## Facts about joining joined strings -/

/-- The container after a sequence of `push_back` calls: the non-empty arguments behind
what it held. -/
theorem foldl_push_back_eq (l : List String) :
    ∀ sj : StringJoiner, l.foldl StringJoiner.push_back sj = sj ++ l.filter (fun x => x ≠ "") := by
  induction l with
  | nil => intro sj; simp
  | cons x rest ih =>
    intro sj
    rw [List.foldl_cons, ih]
    by_cases hx : x = "" <;> simp [StringJoiner.push_back, hx]

/-- The joined string of two sequences put one behind the other, neither being empty. -/
theorem joinSpec_append (sep : String) (a : List String) (y : String) (b : List String)
    (ha : a ≠ []) :
    joinSpec sep (a ++ y :: b) = joinSpec sep a ++ sep ++ joinSpec sep (y :: b) := by
  induction a with
  | nil => exact absurd rfl ha
  | cons x rest ih =>
    cases rest with
    | nil => simp [joinSpec]
    | cons z r =>
      have := ih (by simp)
      rw [List.cons_append] at this
      show joinSpec sep (x :: z :: (r ++ y :: b)) = _
      rw [joinSpec, this, joinSpec]
      simp only [String.append_assoc]

/-- The joined string of non-empty strings is empty only when there is none. -/
theorem joinSpec_eq_empty (sep : String) (l : List String) (hl : ∀ x ∈ l, x ≠ "")
    (h : joinSpec sep l = "") : l = [] := by
  cases l with
  | nil => rfl
  | cons x rest =>
    exfalso
    have hx : x ≠ "" := hl x (List.mem_cons_self _ _)
    have hlen : x.length ≠ 0 := by
      intro h0
      apply hx
      apply String.ext
      exact List.length_eq_zero.mp h0
    cases rest with
    | nil =>
      simp only [joinSpec] at h
      exact hx h
    | cons y r =>
      simp only [joinSpec] at h
      have := congrArg String.length h
      rw [String.length_append, String.length_append] at this
      have h0 : "".length = 0 := rfl
      omega

/-- Joining the joined strings of two containers of non-empty strings is joining the two
containers put one behind the other. -/
theorem join_join (a b : List String) (sep : String) (ha : ∀ x ∈ a, x ≠ "")
    (hb : ∀ x ∈ b, x ≠ "") :
    StringJoiner.join
        (StringJoiner.push_back (StringJoiner.push_back [] (StringJoiner.join a sep))
          (StringJoiner.join b sep)) sep
      = StringJoiner.join (a ++ b) sep := by
  simp only [join_eq_joinSpec]
  cases a with
  | nil =>
    cases b with
    | nil => rfl
    | cons y r =>
      have hne : joinSpec sep (y :: r) ≠ "" := fun h => by
        have := joinSpec_eq_empty sep (y :: r) hb h
        simp at this
      simp [StringJoiner.push_back, joinSpec, hne]
  | cons x q =>
    have hna : joinSpec sep (x :: q) ≠ "" := fun h => by
      have := joinSpec_eq_empty sep (x :: q) ha h
      simp at this
    cases b with
    | nil => simp [StringJoiner.push_back, joinSpec, hna]
    | cons y r =>
      have hnb : joinSpec sep (y :: r) ≠ "" := fun h => by
        have := joinSpec_eq_empty sep (y :: r) hb h
        simp at this
      rw [joinSpec_append sep (x :: q) y r (by simp)]
      simp [StringJoiner.push_back, joinSpec, hna, hnb]

/-- C32. `join` is associative: for all fragment lists `xs` and `ys` pushed into joiners and
every separator `s`, pushing `join(xs, s)` and then `join(ys, s)` into a fresh
`StringJoiner` and joining with `s` gives the same string as joining the joiner filled
with `xs ++ ys`, also when `xs` or `ys` is empty; and the same holds of the contents of two
joiners as such, which hold no empty string. -/
theorem C32_join_associative (xs ys : List String) (s : String) :
    StringJoiner.join
        (StringJoiner.push_back
          (StringJoiner.push_back []
            (StringJoiner.join (xs.foldl StringJoiner.push_back []) s))
          (StringJoiner.join (ys.foldl StringJoiner.push_back []) s)) s
        = StringJoiner.join ((xs ++ ys).foldl StringJoiner.push_back []) s
      ∧ ((∀ x ∈ xs, x ≠ "") → (∀ y ∈ ys, y ≠ "") →
          StringJoiner.join
              (StringJoiner.push_back (StringJoiner.push_back [] (StringJoiner.join xs s))
                (StringJoiner.join ys s)) s
            = StringJoiner.join (xs ++ ys) s)
      ∧ StringJoiner.join
            (StringJoiner.push_back (StringJoiner.push_back [] (StringJoiner.join [] s))
              (StringJoiner.join (ys.foldl StringJoiner.push_back []) s)) s
          = StringJoiner.join (ys.foldl StringJoiner.push_back []) s
      ∧ StringJoiner.join
            (StringJoiner.push_back
              (StringJoiner.push_back []
                (StringJoiner.join (xs.foldl StringJoiner.push_back []) s))
              (StringJoiner.join [] s)) s
          = StringJoiner.join (xs.foldl StringJoiner.push_back []) s := by
  have hfill : ∀ l : List String, ∀ x ∈ l.foldl StringJoiner.push_back [], x ≠ "" := by
    intro l x hx
    rw [foldl_push_back_eq] at hx
    simp only [List.nil_append, List.mem_filter, decide_eq_true_eq] at hx
    exact hx.2
  refine ⟨?_, fun hx hy => join_join xs ys s hx hy, ?_, ?_⟩
  · rw [join_join _ _ s (hfill xs) (hfill ys)]
    simp only [foldl_push_back_eq, List.nil_append, List.filter_append]
  · have := join_join [] _ s (by simp) (hfill ys)
    simpa using this
  · have := join_join _ [] s (hfill xs) (by simp)
    simpa using this

/-- An instance of C32 with an empty fragment among the arguments. -/
theorem C32_join_associative_witness :
    StringJoiner.join
        (StringJoiner.push_back (StringJoiner.push_back [] (StringJoiner.join ["a", "b"] ", "))
          (StringJoiner.join ["c"] ", ")) ", "
      = StringJoiner.join (["a", "b"] ++ ["c"]) ", " :=
  (C32_join_associative ["a", "b"] ["c"] ", ").2.1 (by decide) (by decide)

/-! ## Facts about the order of a `std::set` -/

/-- Inserting into an ascending set leaves it ascending. -/
theorem StrSet.insert_sorted (x : String) (ys : StrSet)
    (h : ys.Pairwise (fun a b => a.data < b.data)) :
    (StrSet.insert x ys).Pairwise (fun a b => a.data < b.data) := by
  induction ys with
  | nil => simp [StrSet.insert]
  | cons y rest ih =>
    unfold StrSet.insert
    by_cases h1 : x = y
    · rw [if_pos h1]
      exact h
    · rw [if_neg h1]
      cases h2 : strLt x y with
      | true =>
        simp only [if_true]
        have hxy : x.data < y.data := by simpa [strLt] using h2
        refine List.Pairwise.cons ?_ h
        intro a ha
        rcases List.mem_cons.mp ha with ha | ha
        · rw [ha]; exact hxy
        · exact lt_trans hxy ((List.pairwise_cons.mp h).1 a ha)
      | false =>
        simp only [Bool.false_eq_true, if_false]
        have hnlt : ¬ x.data < y.data := by simpa [strLt] using h2
        have hne : x.data ≠ y.data := fun hd => h1 (String.ext hd)
        have hyx : y.data < x.data := by
          rcases lt_trichotomy x.data y.data with hl | hl | hl
          · exact absurd hl hnlt
          · exact absurd hl hne
          · exact hl
        refine List.Pairwise.cons ?_ (ih (List.pairwise_cons.mp h).2)
        intro a ha
        rcases (StrSet.mem_insert x a rest).mp ha with ha | ha
        · rw [ha]; exact hyx
        · exact (List.pairwise_cons.mp h).1 a ha

/-- Inserting a sequence into an ascending set leaves it ascending. -/
theorem StrSet.foldl_insert_sorted (l : List String) :
    ∀ acc : StrSet, acc.Pairwise (fun a b => a.data < b.data) →
      (l.foldl (fun st x => StrSet.insert x st) acc).Pairwise (fun a b => a.data < b.data) := by
  induction l with
  | nil => intro acc h; exact h
  | cons x rest ih =>
    intro acc h
    exact ih _ (StrSet.insert_sorted x acc h)

/-- The set built from a sequence is ascending. -/
theorem StrSet.ofList_sorted (l : List String) :
    (StrSet.ofList l).Pairwise (fun a b => a.data < b.data) :=
  StrSet.foldl_insert_sorted l [] List.Pairwise.nil

/-- An ascending set has no element twice. -/
theorem StrSet.nodup_of_sorted (s : StrSet) (h : s.Pairwise (fun a b => a.data < b.data)) :
    s.Nodup := by
  apply List.Pairwise.imp _ h
  intro a b hab heq
  rw [heq] at hab
  exact lt_irrefl _ hab

/-! ## The missing-items constraint -/

/-- C35 (amended). `getMissingItemsConstraints` returns the empty string for the empty set
and for a set without a non-empty member; for every other set it returns
`( ! ( m1 || m2 || ... || mn ) )`, naming every non-empty member once, in ascending order.
In particular a non-empty set of non-empty names yields the constraint over all its
members. -/
theorem C35_missing_constraint (l : List String) :
    getMissingItemsConstraints [] = ""
      ∧ getMissingItemsConstraints (StrSet.ofList l)
          = (if (StrSet.ofList l).filter (fun x => x ≠ "") = [] then ""
            else "( ! ( " ++ joinSpec " || " ((StrSet.ofList l).filter (fun x => x ≠ ""))
              ++ " ) )")
      ∧ ((StrSet.ofList l).filter (fun x => x ≠ "")).Pairwise (fun a b => a.data < b.data)
      ∧ ((StrSet.ofList l).filter (fun x => x ≠ "")).Nodup
      ∧ (∀ x, x ∈ (StrSet.ofList l).filter (fun x => x ≠ "") ↔ x ∈ l ∧ x ≠ "")
      ∧ (l ≠ [] → (∀ x ∈ l, x ≠ "") →
          getMissingItemsConstraints (StrSet.ofList l)
            = "( ! ( " ++ joinSpec " || " (StrSet.ofList l) ++ " ) )") := by
  have hsorted := (StrSet.ofList_sorted l).filter (fun x => decide (x ≠ ""))
  have hgen : getMissingItemsConstraints (StrSet.ofList l)
      = (if (StrSet.ofList l).filter (fun x => x ≠ "") = [] then ""
        else "( ! ( " ++ joinSpec " || " ((StrSet.ofList l).filter (fun x => x ≠ ""))
          ++ " ) )") := by
    unfold getMissingItemsConstraints
    have hfill : (StrSet.ofList l).foldl StringJoiner.push_back []
        = (StrSet.ofList l).filter (fun x => x ≠ "") := by
      rw [foldl_push_back_eq]
      simp only [List.nil_append]
    simp only [hfill, join_eq_joinSpec]
    by_cases h0 : (StrSet.ofList l).filter (fun x => x ≠ "") = []
    · rw [h0]
      simp
    · have hpos : ((StrSet.ofList l).filter (fun x => x ≠ "")).length > 0 :=
        List.length_pos.mpr h0
      rw [if_pos hpos, if_neg h0]
  refine ⟨rfl, hgen, hsorted, StrSet.nodup_of_sorted _ hsorted, ?_, ?_⟩
  · intro x
    simp only [List.mem_filter, StrSet.mem_ofList, decide_eq_true_eq]
  · intro hne hsym
    have hall : (StrSet.ofList l).filter (fun x => x ≠ "") = StrSet.ofList l := by
      apply List.filter_eq_self.mpr
      intro x hx
      simpa using hsym x ((StrSet.mem_ofList l x).mp hx)
    rw [hgen, hall]
    have hn : StrSet.ofList l ≠ [] := by
      intro h0
      cases l with
      | nil => exact hne rfl
      | cons a r =>
        have : a ∈ StrSet.ofList (a :: r) :=
          (StrSet.mem_ofList _ a).mpr (List.mem_cons_self _ _)
        rw [h0] at this
        simp at this
    rw [if_neg hn]

/-- C35 as amended, on the set built from `CONFIG_B`, the empty string, `CONFIG_A` and
`CONFIG_B`, and on a set of non-empty names. -/
theorem C35_missing_constraint_witness :
    getMissingItemsConstraints (StrSet.ofList ["CONFIG_B", "", "CONFIG_A", "CONFIG_B"])
        = "( ! ( CONFIG_A || CONFIG_B ) )"
      ∧ getMissingItemsConstraints (StrSet.ofList ["CONFIG_B", "CONFIG_A", "CONFIG_B"])
        = "( ! ( CONFIG_A || CONFIG_B ) )" :=
  ⟨(C35_missing_constraint ["CONFIG_B", "", "CONFIG_A", "CONFIG_B"]).2.1.trans (by decide),
    ((C35_missing_constraint ["CONFIG_B", "CONFIG_A", "CONFIG_B"]).2.2.2.2.2 (by decide)
      (by decide)).trans (by decide)⟩

/-- C35 (as stated) fails: the set whose only member is the empty string is not empty, yet
the empty string is returned, `StringJoiner::push_back` ignoring the empty string; and of
the set of the empty string and `CONFIG_A` only `CONFIG_A` is named. -/
theorem C35_counterexample :
    StrSet.ofList [""] = [""]
      ∧ getMissingItemsConstraints (StrSet.ofList [""]) = ""
      ∧ StrSet.ofList ["CONFIG_A", ""] = ["", "CONFIG_A"]
      ∧ getMissingItemsConstraints (StrSet.ofList ["CONFIG_A", ""]) = "( ! ( CONFIG_A ) )" := by
  decide

/-! ## The claim about `trim` -/

/-- C37. The code at a line that consists of a key only: the constructor of `RsfReader`
applies `trim` to the empty string; after the key was extracted the stream is at its end,
`std::ws` and `std::getline` leave `formula` empty, and `trim(formula)` calls `front()` on
it. The same holds of a line whose rest is a lone `"`, where `trim` empties the string and
then calls `back()`. -/
theorem C37_trim_on_empty (metaflag : String) (r : RsfReader) (k : List Char)
    (hk : ∀ c ∈ k, isspace c = false) (hkne : k ≠ []) (hkf : String.mk k ≠ metaflag) :
    (IStream.getline '\n' (IStream.ws (IStream.extract (some k)).2)).1 = []
      ∧ trim [] = none
      ∧ r.readLine metaflag k = none
      ∧ r.readLine metaflag (k ++ [' ', '"']) = none := by
  have hfirst : IStream.extract (some k) = (some k, none) := by
    have := extract_word [] k [] (by intro c hc; cases hc) hk hkne (Or.inl rfl)
    simpa [streamAfter] using this
  have hfirst2 : IStream.extract (some (k ++ [' ', '"'])) = (some k, some [' ', '"']) := by
    have := extract_word [] k [' ', '"'] (by intro c hc; cases hc) hk hkne
      (Or.inr ⟨' ', _, rfl, by decide⟩)
    simpa [streamAfter] using this
  have hline : k ++ [' ', '"'] ≠ [] := by simp
  refine ⟨?_, rfl, ?_, ?_⟩
  · rw [hfirst]
    rfl
  · unfold RsfReader.readLine
    simp only [hkne, if_false, hfirst]
    simp only [hkf, decide_False, Bool.and_false, Bool.false_eq_true, if_false]
    rfl
  · unfold RsfReader.readLine
    simp only [hline, if_false, hfirst2]
    simp only [hkf, decide_False, Bool.and_false, Bool.false_eq_true, if_false]
    rfl

/-- C37 at the failing input, the model file with the one line `CONFIG_A`. -/
theorem C37_trim_on_empty_witness :
    RsfReader.readLine "UNDERTAKER_SET" ⟨[], []⟩ "CONFIG_A".data = none
      ∧ RsfReader.read "CONFIG_A\n" "UNDERTAKER_SET" = none :=
  ⟨(C37_trim_on_empty "UNDERTAKER_SET" ⟨[], []⟩ "CONFIG_A".data (by decide) (by decide)
      (by decide)).2.2.1, by rfl⟩

/-! ## Facts about the formula kept for the minimizer -/

/-- A check under the main model that returned `true` on a fresh dead defect has stored
the formula of the step at which the walk stopped as `_musFormula`. -/
theorem fresh_isDefect_mus (env : Env) (cb : ConditionalBlock)
    (model : Option ConfigurationModel) (d0 : BlockDefect) (rg : Rung)
    (h : (BlockDefect.fresh true cb).isDefect env model true = some (true, d0))
    (hw : walk env true cb model = some (some rg)) :
    d0._musFormula = rg.formula := by
  rcases isDefect_cases env _ model true true d0 h with ⟨hr, _, _⟩ | ⟨_, rg1, hw1, hd⟩
  · cases hr
  · rw [fresh_dead, fresh_cb, hw] at hw1
    simp only [Option.some.injEq] at hw1
    subst hw1
    subst hd
    simp [BlockDefect.hit, BlockDefect.fresh, DeadBlockDefect.new]

/-- One check of the cross-check, made on a block whose code step is satisfiable, leaves
`_musFormula` as it is. -/
theorem isDefect_crosscheck_mus (env : Env) (d : BlockDefect) (m : ConfigurationModel)
    (hcode : codeSat env d.dead d._cb = some true) (r : Bool) (d1 : BlockDefect)
    (h : d.isDefect env (some m) false = some (r, d1)) :
    d1._musFormula = d._musFormula := by
  rcases isDefect_cases env d (some m) false r d1 h with ⟨_, _, hd⟩ | ⟨_, rg, hw, hd⟩
  · subst hd
    rfl
  · subst hd
    have hk := walk_of_codeSat_true env d.dead d._cb hcode (some m) rg hw
    have hne : rg.kind ≠ DEFECTTYPE.Implementation := by
      rcases hk with h1 | h1 | h1
      · simp [h1]
      · simp [h1]
      · simp [h1.1]
    simp [BlockDefect.hit, hne]

/-- The cross-check against any list of models, on a block whose code step is
satisfiable, leaves `_musFormula` as it is. -/
theorem crosscheck_mus (env : Env) (main : ConfigurationModel) (dead : Bool)
    (cb : ConditionalBlock) (hcode : codeSat env dead cb = some true)
    (models : List (String × ConfigurationModel)) :
    ∀ (d d1 : BlockDefect), d.dead = dead → d._cb = cb →
      crosscheck env main models d = some d1 → d1._musFormula = d._musFormula := by
  induction models with
  | nil =>
    intro d d1 _ _ h
    simp only [crosscheck, Option.some.injEq] at h
    subst h
    rfl
  | cons e rest ih =>
    intro d d1 hd hcb h
    unfold crosscheck at h
    by_cases hm : e.2.addr = main.addr
    · simp only [hm, if_true] at h
      exact ih d d1 hd hcb h
    · simp only [hm, if_false] at h
      cases hres : d.isDefect env (some e.2) false with
      | none => simp [hres] at h
      | some res =>
        obtain ⟨r, d2⟩ := res
        have hc : codeSat env d.dead d._cb = some true := by rw [hd, hcb]; exact hcode
        have hmus := isDefect_crosscheck_mus env d e.2 hc r d2 hres
        obtain ⟨hd2, hcb2, _⟩ := isDefect_crosscheck_step env d e.2 hc r d2 hres
        cases r with
        | false =>
          simp only [hres, Option.some.injEq] at h
          subst h
          exact hmus
        | true =>
          simp only [hres] at h
          exact (ih d2 d1 (hd2.trans hd) (hcb2.trans hcb) h).trans hmus

/-- C36. For every dead defect returned by `analyzeBlock`, the stored MUS formula is the
formula of the step of the ladder that was proved unsatisfiable under the main model, the
one the check under the main model stored as `_formula`; and the cross-check against any
list of other models, made on a defect whose code step is satisfiable, leaves it
unchanged. -/
theorem C36_mus_formula (env : Env) (block : ConditionalBlock)
    (main : Option ConfigurationModel) (d : BlockDefect) (block1 : ConditionalBlock)
    (h : analyzeBlock env block main = (some d, block1)) (hdead : d.dead = true) :
    (∃ rg d0, walk env true block main = some (some rg)
        ∧ env.checkSatisfiable rg.query = some false
        ∧ (DeadBlockDefect.new block).isDefect env main true = some (true, d0)
        ∧ d0._formula = rg.formula
        ∧ d0._musFormula = rg.formula
        ∧ d._musFormula = rg.formula)
      ∧ ∀ (mm : ConfigurationModel) (models : List (String × ConfigurationModel))
          (d1 d2 : BlockDefect), codeSat env d1.dead d1._cb = some true →
          crosscheck env mm models d1 = some d2 → d2._musFormula = d1._musFormula := by
  refine ⟨?_, fun mm models d1 d2 hc hcr =>
    crosscheck_mus env mm d1.dead d1._cb hc models d1 d2 rfl rfl hcr⟩
  obtain ⟨dead, d0, h0, _, hfound⟩ := analyzeBlock_some env block main d block1 h
  obtain ⟨rg, hw, hd0, hcb0, hty0, hfo0, hgl0, _⟩ :=
    fresh_isDefect_true env dead block main true d0 h0
  have hdd : dead = true := by
    rcases analyzeBlock_found_cases env block main d0 with hn | ⟨d', hd', hdead'⟩
    · rw [hfound] at hn
      cases hn
    · rw [hfound] at hd'
      simp only [Option.some.injEq] at hd'
      subst hd'
      rw [← hd0, ← hdead', hdead]
  subst hdd
  have hmus0 : d0._musFormula = rg.formula := fresh_isDefect_mus env block main d0 rg h0 hw
  have hunsat : env.checkSatisfiable rg.query = some false := by
    unfold walk firstConjunct at hw
    simp only [if_true] at hw
    exact (firstUnsat_mem _ _ _ hw).2
  refine ⟨rg, d0, hw, hunsat, h0, hfo0, hmus0, ?_⟩
  have hrec : (reclassified env block main d0)._musFormula = d0._musFormula := by
    unfold reclassified
    split <;> rfl
  obtain ⟨_, hcases⟩ := analyzeBlock_found_some env block main d0 d block1 hfound
  rcases hcases with ⟨_, hd⟩ | ⟨_, _, hd⟩ | ⟨_, _, _, hd⟩ | ⟨_, mm, hmm, hn, hc⟩
  · subst hd
    exact hrec.trans hmus0
  · subst hd
    exact hrec.trans hmus0
  · subst hd
    exact hrec.trans hmus0
  · subst hmm
    obtain ⟨hcode, _⟩ :=
      analyzeBlock_crosschecked env block mm true d0 d rg hw hd0 hty0 hn hc
    have hcode1 : codeSat env (reclassified env block (some mm) d0).dead
        (reclassified env block (some mm) d0)._cb = some true := by
      have hdr : (reclassified env block (some mm) d0).dead = true := hd0
      rw [hdr]
      have hcbr : ∃ t, (reclassified env block (some mm) d0)._cb = block.setDefectType t := by
        unfold reclassified
        split <;> exact ⟨_, rfl⟩
      obtain ⟨t, ht⟩ := hcbr
      rw [ht, codeSat_setDefectType]
      exact hcode
    exact (crosscheck_mus env mm _ _ hcode1 env.models _ d rfl rfl hc).trans
      (hrec.trans hmus0)

set_option maxRecDepth 8000 in
/-- C36 on the block `B0`, dead under the main model `x86` and under `ia64`: the formula
kept for the minimizer is the one proved unsatisfiable under `x86`, while the formula of
the report is the one of the cross-check. -/
theorem C36_mus_formula_witness :
    analyzeBlock (Scenario.env [("ia64", Scenario.ia64), ("x86", Scenario.x86)])
        (Scenario.B0 "") (some Scenario.x86)
        = (some (Scenario.defectB0 "" true
              (Scenario.deadB0 ++ "\n&&\n" ++ "(CONFIG_A -> (!CONFIG_A))")
              [("ia64", "kconfig"), ("x86", "kconfig")]),
            (Scenario.B0 "").setDefectType DEFECTTYPE.Configuration)
      ∧ ∃ rg d0, walk (Scenario.env [("ia64", Scenario.ia64), ("x86", Scenario.x86)]) true
            (Scenario.B0 "") (some Scenario.x86) = some (some rg)
          ∧ (Scenario.env [("ia64", Scenario.ia64), ("x86", Scenario.x86)]).checkSatisfiable
              rg.query = some false
          ∧ (DeadBlockDefect.new (Scenario.B0 "")).isDefect
              (Scenario.env [("ia64", Scenario.ia64), ("x86", Scenario.x86)])
              (some Scenario.x86) true = some (true, d0)
          ∧ d0._formula = rg.formula
          ∧ d0._musFormula = rg.formula
          ∧ (Scenario.defectB0 "" true
              (Scenario.deadB0 ++ "\n&&\n" ++ "(CONFIG_A -> (!CONFIG_A))")
              [("ia64", "kconfig"), ("x86", "kconfig")])._musFormula = rg.formula :=
  ⟨rfl,
   (C36_mus_formula (Scenario.env [("ia64", Scenario.ia64), ("x86", Scenario.x86)])
      (Scenario.B0 "") (some Scenario.x86)
      (Scenario.defectB0 "" true (Scenario.deadB0 ++ "\n&&\n" ++ "(CONFIG_A -> (!CONFIG_A))")
        [("ia64", "kconfig"), ("x86", "kconfig")])
      ((Scenario.B0 "").setDefectType DEFECTTYPE.Configuration) rfl rfl).1⟩

/-! ## The claim about the kind saved in the block -/

/-- The kind read from a block after it was saved there. -/
theorem defectType_setDefectType (cb : ConditionalBlock) (t : DEFECTTYPE) :
    (cb.setDefectType t).defectType = t := by
  cases cb
  rfl

/-- C38 (amended). Whenever `analyzeBlock` returns a defect, the kind saved in the block is
the kind the defect had under the main model after the `NoKconfig` check, before any
cross-check, and the block of the defect is the block with that kind saved. The saved kind
is the kind of the returned defect when no cross-check is made; after a cross-check the
saved and the returned kind are both among `Configuration`, `BuildSystem` and
`Referential`, a saved `Configuration` or `BuildSystem` being returned as one of these
two. So the saved kind is `NoKconfig` exactly when the returned kind is. -/
theorem C38_saved_kind (env : Env) (block : ConditionalBlock)
    (main : Option ConfigurationModel) (d : BlockDefect) (block1 : ConditionalBlock)
    (h : analyzeBlock env block main = (some d, block1)) :
    (∃ dead d0, (BlockDefect.fresh dead block).isDefect env main true = some (true, d0)
        ∧ block1 = block.setDefectType
            (if d0.isNoKconfigDefect env.itemsOfString main then DEFECTTYPE.NoKconfig
              else d0._defectType)
        ∧ d._cb = block1)
      ∧ (block1.defectType = d._defectType
        ∨ (block.getFile.specific_arch = "" ∧ main ≠ none
            ∧ (block1.defectType = DEFECTTYPE.Configuration
              ∨ block1.defectType = DEFECTTYPE.BuildSystem
              ∨ block1.defectType = DEFECTTYPE.Referential)
            ∧ (d._defectType = DEFECTTYPE.Configuration
              ∨ d._defectType = DEFECTTYPE.BuildSystem
              ∨ d._defectType = DEFECTTYPE.Referential)
            ∧ ((block1.defectType = DEFECTTYPE.Configuration
                ∨ block1.defectType = DEFECTTYPE.BuildSystem) →
              (d._defectType = DEFECTTYPE.Configuration
                ∨ d._defectType = DEFECTTYPE.BuildSystem))))
      ∧ (block1.defectType = DEFECTTYPE.NoKconfig ↔ d._defectType = DEFECTTYPE.NoKconfig) := by
  obtain ⟨dead, d0, h0, _, hfound⟩ := analyzeBlock_some env block main d block1 h
  obtain ⟨rg, hw, hd0, hcb0, hty0, _, hgl0, _⟩ :=
    fresh_isDefect_true env dead block main true d0 h0
  obtain ⟨hb1, hcases⟩ := analyzeBlock_found_some env block main d0 d block1 hfound
  have hcbr : (reclassified env block main d0)._cb = block.setDefectType
      (if d0.isNoKconfigDefect env.itemsOfString main then DEFECTTYPE.NoKconfig
        else d0._defectType) := rfl
  have htyr : (reclassified env block main d0)._defectType
      = (if d0.isNoKconfigDefect env.itemsOfString main then DEFECTTYPE.NoKconfig
        else d0._defectType) := rfl
  have hsaved : block1.defectType = (reclassified env block main d0)._defectType := by
    rw [hb1, hcbr, defectType_setDefectType, htyr]
  have hsame : d._defectType = (reclassified env block main d0)._defectType →
      d._cb = (reclassified env block main d0)._cb →
      (∃ dead d0, (BlockDefect.fresh dead block).isDefect env main true = some (true, d0)
          ∧ block1 = block.setDefectType
              (if d0.isNoKconfigDefect env.itemsOfString main then DEFECTTYPE.NoKconfig
                else d0._defectType)
          ∧ d._cb = block1)
        ∧ (block1.defectType = d._defectType
          ∨ (block.getFile.specific_arch = "" ∧ main ≠ none
              ∧ (block1.defectType = DEFECTTYPE.Configuration
                ∨ block1.defectType = DEFECTTYPE.BuildSystem
                ∨ block1.defectType = DEFECTTYPE.Referential)
              ∧ (d._defectType = DEFECTTYPE.Configuration
                ∨ d._defectType = DEFECTTYPE.BuildSystem
                ∨ d._defectType = DEFECTTYPE.Referential)
              ∧ ((block1.defectType = DEFECTTYPE.Configuration
                  ∨ block1.defectType = DEFECTTYPE.BuildSystem) →
                (d._defectType = DEFECTTYPE.Configuration
                  ∨ d._defectType = DEFECTTYPE.BuildSystem))))
        ∧ (block1.defectType = DEFECTTYPE.NoKconfig
            ↔ d._defectType = DEFECTTYPE.NoKconfig) := by
    intro hty hcb
    refine ⟨⟨dead, d0, h0, by rw [hb1, hcbr], by rw [hcb, hb1]⟩, Or.inl ?_, ?_⟩
    · rw [hsaved, hty]
    · rw [hsaved, hty]
  rcases hcases with ⟨_, hd⟩ | ⟨_, _, hd⟩ | ⟨_, _, _, hd⟩ | ⟨harch, mm, hmm, hn, hc⟩
  · subst hd
    exact hsame rfl rfl
  · subst hd
    exact hsame rfl rfl
  · subst hd
    exact hsame rfl rfl
  · subst hmm
    obtain ⟨_, _, hdcb, hkeep, hthree, _⟩ :=
      analyzeBlock_crosschecked env block mm dead d0 d rg hw hd0 hty0 hn hc
    obtain ⟨hq, _⟩ := needsCrosscheck_true _ hn
    have hnk : d0.isNoKconfigDefect env.itemsOfString (some mm) = false := by
      by_contra hcon
      simp only [Bool.not_eq_false] at hcon
      simp [reclassified, hcon] at hq
    have hsv : block1.defectType = rg.kind := by
      rw [hsaved, htyr, hnk, ← hty0]
      rfl
    have hb1' : block1 = block.setDefectType rg.kind := by
      rw [hb1, hcbr, hnk, ← hty0]
      rfl
    refine ⟨⟨dead, d0, h0, by rw [hb1, hcbr], by rw [hdcb, hb1']⟩, Or.inr ⟨harch, by simp, ?_, hthree,
      ?_⟩, ?_⟩
    · rw [hsaved]
      exact hq
    · rw [hsv]
      exact hkeep
    · rw [hsaved]
      constructor
      · intro hk
        rcases hq with h1 | h1 | h1 <;> rw [h1] at hk <;> cases hk
      · intro hk
        rcases hthree with h1 | h1 | h1 <;> rw [h1] at hk <;> cases hk

set_option maxRecDepth 8000 in
/-- C38 as amended, on the block `B0`, dead under the main model `x86` and not under
`arm`: the kind `Configuration` is saved and returned. -/
theorem C38_saved_kind_witness :
    analyzeBlock (Scenario.env [("arm", Scenario.arm), ("x86", Scenario.x86)])
        (Scenario.B0 "") (some Scenario.x86)
        = (some (Scenario.defectB0 "" false Scenario.deadB0 [("x86", "kconfig")]),
            (Scenario.B0 "").setDefectType DEFECTTYPE.Configuration)
      ∧ (((Scenario.B0 "").setDefectType DEFECTTYPE.Configuration).defectType
            = DEFECTTYPE.NoKconfig
          ↔ (Scenario.defectB0 "" false Scenario.deadB0 [("x86", "kconfig")])._defectType
            = DEFECTTYPE.NoKconfig) :=
  ⟨rfl,
   (C38_saved_kind (Scenario.env [("arm", Scenario.arm), ("x86", Scenario.x86)])
     (Scenario.B0 "") (some Scenario.x86)
     (Scenario.defectB0 "" false Scenario.deadB0 [("x86", "kconfig")])
     ((Scenario.B0 "").setDefectType DEFECTTYPE.Configuration) rfl).2.2⟩

set_option maxRecDepth 8000 in
/-- C38 (as stated) fails: `CONFIG_A` is missing in the complete main model `alpha`, so the
block `B0` is dead with the kind `Referential`, which is saved in the block; the
cross-check against `ia64`, under which the configuration step is unsatisfiable, turns
the kind of the defect into `Configuration`, and the defect is returned with that kind. -/
theorem C38_counterexample :
    (analyzeBlock (Scenario.env [("alpha", Scenario.alpha), ("ia64", Scenario.ia64)])
        (Scenario.B0 "") (some Scenario.alpha)).1.map
          (fun d => (d._defectType, d._cb.defectType, d.getDefectReportFilename))
        = some (DEFECTTYPE.Configuration, DEFECTTYPE.Referential,
            "a.c.B0.kconfig.globally.dead")
      ∧ (analyzeBlock (Scenario.env [("alpha", Scenario.alpha), ("ia64", Scenario.ia64)])
          (Scenario.B0 "") (some Scenario.alpha)).2.defectType = DEFECTTYPE.Referential
      ∧ (analyzeBlock (Scenario.env [("alpha", Scenario.alpha)])
          (Scenario.B0 "") (some Scenario.alpha)).1.map
            (fun d => (d._defectType, d.getDefectReportFilename))
          = some (DEFECTTYPE.Referential, "a.c.B0.missing.globally.dead") := by
  decide

/-! ## The claim about `flipper_lseek` -/

/-- C40. What the code does. With a `size_t` of 64 bit, for `SEEK_SET`, `SEEK_CUR` and
`SEEK_END` the file position is set to, and the call returns, the requested position
(wrapped to 64 bit) when that lies in `[0, size)`, and the size of the cached bit field
otherwise, also for a negative requested position: the comparison
`testpos < sizeof(flipper_bitfield_cached)` is made on `unsigned long long`, so the line
`testpos >= 0 ? testpos : 0` never meets a negative value. With a narrower `size_t` the
requested position, wrapped to 64 bit, is clamped into `[0, size]`. Any other `orig`
returns `-EINVAL` and leaves the file position unchanged. -/
theorem C40_flipper_lseek (FLIPPER_ENTRIES : Nat) (f_pos offset : Int)
    (hsize : (cachedSize FLIPPER_ENTRIES : Int) < 2 ^ 63)
    (ho : -2 ^ 63 ≤ offset ∧ offset < 2 ^ 63) :
    (offset < 0 → flipper_lseek 64 FLIPPER_ENTRIES f_pos offset SEEK_SET
        = ((cachedSize FLIPPER_ENTRIES : Int), (cachedSize FLIPPER_ENTRIES : Int)))
      ∧ flipper_lseek 64 FLIPPER_ENTRIES f_pos offset SEEK_SET
          = (if 0 ≤ offset ∧ offset < cachedSize FLIPPER_ENTRIES then (offset, offset)
            else ((cachedSize FLIPPER_ENTRIES : Int), (cachedSize FLIPPER_ENTRIES : Int)))
      ∧ flipper_lseek 64 FLIPPER_ENTRIES f_pos offset SEEK_CUR
          = (if 0 ≤ toLoff (f_pos + offset)
                ∧ toLoff (f_pos + offset) < cachedSize FLIPPER_ENTRIES then
              (toLoff (f_pos + offset), toLoff (f_pos + offset))
            else ((cachedSize FLIPPER_ENTRIES : Int), (cachedSize FLIPPER_ENTRIES : Int)))
      ∧ flipper_lseek 64 FLIPPER_ENTRIES f_pos offset SEEK_END
          = (if 0 ≤ toLoff (cachedSize FLIPPER_ENTRIES + offset)
                ∧ toLoff (cachedSize FLIPPER_ENTRIES + offset) < cachedSize FLIPPER_ENTRIES then
              (toLoff (cachedSize FLIPPER_ENTRIES + offset),
                toLoff (cachedSize FLIPPER_ENTRIES + offset))
            else ((cachedSize FLIPPER_ENTRIES : Int), (cachedSize FLIPPER_ENTRIES : Int)))
      ∧ (∀ bits : Nat, bits < 64 →
          flipper_lseek bits FLIPPER_ENTRIES f_pos offset SEEK_SET
              = (max 0 (min offset (cachedSize FLIPPER_ENTRIES)),
                  max 0 (min offset (cachedSize FLIPPER_ENTRIES)))
            ∧ flipper_lseek bits FLIPPER_ENTRIES f_pos offset SEEK_CUR
              = (max 0 (min (toLoff (f_pos + offset)) (cachedSize FLIPPER_ENTRIES)),
                  max 0 (min (toLoff (f_pos + offset)) (cachedSize FLIPPER_ENTRIES)))
            ∧ flipper_lseek bits FLIPPER_ENTRIES f_pos offset SEEK_END
              = (max 0 (min (toLoff (cachedSize FLIPPER_ENTRIES + offset))
                    (cachedSize FLIPPER_ENTRIES)),
                  max 0 (min (toLoff (cachedSize FLIPPER_ENTRIES + offset))
                    (cachedSize FLIPPER_ENTRIES))))
      ∧ ∀ (bits : Nat) (orig : Int), orig ≠ SEEK_SET → orig ≠ SEEK_CUR → orig ≠ SEEK_END →
          flipper_lseek bits FLIPPER_ENTRIES f_pos offset orig = (-EINVAL, f_pos) := by
  have hs0 : (0 : Int) ≤ cachedSize FLIPPER_ENTRIES := Int.natCast_nonneg _
  have key : ∀ t : Int, -2 ^ 63 ≤ t → t < 2 ^ 63 →
      lseekClamp 64 (cachedSize FLIPPER_ENTRIES) t
        = (if 0 ≤ t ∧ t < cachedSize FLIPPER_ENTRIES then (t, t)
          else ((cachedSize FLIPPER_ENTRIES : Int), (cachedSize FLIPPER_ENTRIES : Int))) := by
    intro t h1 h2
    simp only [lseekClamp, toU64, le_refl, if_true, ge_iff_le, decide_eq_true_eq]
    split_ifs <;> simp only [Prod.mk.injEq] <;> omega
  have hrange : ∀ x : Int, -2 ^ 63 ≤ toLoff x ∧ toLoff x < 2 ^ 63 := by
    intro x
    unfold toLoff
    omega
  have hset : flipper_lseek 64 FLIPPER_ENTRIES f_pos offset SEEK_SET
      = (if 0 ≤ offset ∧ offset < cachedSize FLIPPER_ENTRIES then (offset, offset)
        else ((cachedSize FLIPPER_ENTRIES : Int), (cachedSize FLIPPER_ENTRIES : Int))) := by
    rw [← key offset ho.1 ho.2]
    rfl
  have key32 : ∀ (bits : Nat) (t : Int), bits < 64 →
      lseekClamp bits (cachedSize FLIPPER_ENTRIES) t
        = (max 0 (min t (cachedSize FLIPPER_ENTRIES)),
            max 0 (min t (cachedSize FLIPPER_ENTRIES))) := by
    intro bits t hb
    have hnb : ¬ 64 ≤ bits := by omega
    simp only [lseekClamp, hnb, if_false, ge_iff_le, decide_eq_true_eq]
    split_ifs <;> simp only [Prod.mk.injEq] <;> omega
  refine ⟨?_, hset, ?_, ?_, ?_, ?_⟩
  · intro hneg
    rw [hset, if_neg]
    omega
  · rw [← key (toLoff (f_pos + offset)) (hrange _).1 (hrange _).2]
    rfl
  · rw [← key (toLoff (cachedSize FLIPPER_ENTRIES + offset)) (hrange _).1 (hrange _).2]
    rfl
  · intro bits hb
    refine ⟨?_, ?_, ?_⟩
    · rw [← key32 bits offset hb]
      rfl
    · rw [← key32 bits (toLoff (f_pos + offset)) hb]
      rfl
    · rw [← key32 bits (toLoff (cachedSize FLIPPER_ENTRIES + offset)) hb]
      rfl
  · intro bits orig h1 h2 h3
    unfold flipper_lseek
    simp [h1, h2, h3]

/-- C40 at the failing input: with 64 entries the cached bit field has 8 bytes; seeking to
the position `-1` from the start sets the file position to 8 and returns 8, not 0. -/
theorem C40_flipper_lseek_witness :
    flipper_lseek 64 64 0 (-1) SEEK_SET = (8, 8) :=
  (C40_flipper_lseek 64 0 (-1) (by decide) (by decide)).1 (by decide)

/-- With a `size_t` narrower than 64 bit: from the position 1 the offset `2 ^ 63 - 1` asks
for a position beyond the end; the sum wraps around to a negative value and the file
position becomes 0. -/
theorem flipper_lseek_wraps : flipper_lseek 32 64 1 (2 ^ 63 - 1) SEEK_CUR = (0, 0) := by
  decide

/-! ## The claim about `pprintAssignments` -/

/-- C39. The code at the failing input: of the three assignments the second binds `A` to
false, the first and the third to true. The second assignment removes `A` from the common
subset; the third compares equal to the first, so the branch that copies the first
assignment puts `A` back, and `A=1` is written under the heading `I: In all assignments
the following symbols are equally set` (and left out of the differences), although `A` is
not set equally. -/
theorem C39_equally_set :
    SatChecker.pprintAssignments [[("A", true)], [("A", false)], [("A", true)]] none []
        = some ["I: Found 3 assignments", "I: Entries in missingSet: 0",
            "I: In all assignments the following symbols are equally set", "A=1",
            "I: All differences in the assignments", "I: Config 0", "I: Config 1",
            "I: Config 2"]
      ∧ equallySetLines [[("A", true)], [("A", false)], [("A", true)]] none = some ["A=1"]
      ∧ ¬ EquallySet [[("A", true)], [("A", false)], [("A", true)]] none ("A", true)
      ∧ AssignmentMap.eq [("A", true)] [("A", true)] = true
      ∧ commonFirst none [[("A", true)], [("A", false)]] = [] := by
  refine ⟨by decide, by decide, ?_, by decide, by decide⟩
  intro h
  have := h.2 [("A", false)] (by simp)
  simp at this

/-! ## Facts about the loop of `extendWithInterestingItems` -/

/-- A weaker test lets no less elements through. -/
theorem filter_length_le (U : List String) (p q : String → Bool)
    (himp : ∀ u, p u = true → q u = true) : (U.filter p).length ≤ (U.filter q).length := by
  induction U with
  | nil => exact le_refl _
  | cons u rest ih =>
    cases hp : p u with
    | true =>
      rw [List.filter_cons_of_pos hp, List.filter_cons_of_pos (himp u hp)]
      simp only [List.length_cons]
      omega
    | false =>
      rw [List.filter_cons_of_neg (by simp [hp])]
      cases hq : q u with
      | true =>
        rw [List.filter_cons_of_pos hq]
        simp only [List.length_cons]
        omega
      | false =>
        rw [List.filter_cons_of_neg (by simp [hq])]
        exact ih

/-- A weaker test lets more elements through when an element passes it alone. -/
theorem filter_length_lt (U : List String) (p q : String → Bool)
    (himp : ∀ u, p u = true → q u = true) (x : String) (hx : x ∈ U) (hq : q x = true)
    (hp : p x = false) : (U.filter p).length < (U.filter q).length := by
  induction U with
  | nil => cases hx
  | cons u rest ih =>
    have hle := filter_length_le rest p q himp
    by_cases hux : x = u
    · subst hux
      rw [List.filter_cons_of_neg (by simp [hp]), List.filter_cons_of_pos hq]
      simp only [List.length_cons]
      omega
    · have hxr : x ∈ rest := by
        rcases List.mem_cons.mp hx with h | h
        · exact absurd h hux
        · exact h
      have := ih hxr
      cases hpu : p u with
      | true =>
        rw [List.filter_cons_of_pos hpu, List.filter_cons_of_pos (himp u hpu)]
        simp only [List.length_cons]
        omega
      | false =>
        rw [List.filter_cons_of_neg (by simp [hpu])]
        cases hqu : q u with
        | true =>
          rw [List.filter_cons_of_pos hqu]
          simp only [List.length_cons]
          omega
        | false =>
          rw [List.filter_cons_of_neg (by simp [hqu])]
          exact this

/-- Inserting a name that is not in the working set, and is an item of a stored formula,
makes less names left to push. -/
theorem unseen_insert_lt (U : List String) (W : StrSet) (x : String) (hx : x ∈ U)
    (hW : x ∉ W) :
    (U.filter (fun u => !(StrSet.insert x W).contains u)).length
      < (U.filter (fun u => !W.contains u)).length := by
  apply filter_length_lt U _ _ _ x hx
  · simpa using hW
  · simp [StrSet.mem_insert]
  · intro u hu
    simp only [Bool.not_eq_true', List.contains_eq_any_beq, List.any_eq_false, beq_iff_eq,
      ] at hu ⊢
    intro y hy hyu
    exact hu y ((StrSet.mem_insert x y W).mpr (Or.inr hy)) hyu

/-- Looking at one item of a stored formula does not make more rounds left. -/
theorem extendPush_rounds (itemsOfString : String → List String) (r : RsfReader)
    (acc : List String × StrSet) (str : String) (hs : str ∈ formulaItems itemsOfString r) :
    roundsLeft itemsOfString r (extendPush acc str).1 (extendPush acc str).2
      ≤ roundsLeft itemsOfString r acc.1 acc.2 := by
  unfold extendPush roundsLeft
  by_cases hc : acc.2.contains str = true
  · rw [if_pos hc]
  · simp only [hc, Bool.false_eq_true, if_false, List.length_cons]
    have hW : str ∉ acc.2 := by simpa using hc
    have := unseen_insert_lt (formulaItems itemsOfString r) acc.2 str hs hW
    omega

/-- Looking at the items of a stored formula does not make more rounds left. -/
theorem foldl_extendPush_rounds (itemsOfString : String → List String) (r : RsfReader)
    (l : List String) (hl : ∀ s ∈ l, s ∈ formulaItems itemsOfString r) :
    ∀ acc : List String × StrSet,
      roundsLeft itemsOfString r (l.foldl extendPush acc).1 (l.foldl extendPush acc).2
        ≤ roundsLeft itemsOfString r acc.1 acc.2 := by
  induction l with
  | nil => intro acc; exact le_refl _
  | cons x rest ih =>
    intro acc
    rw [List.foldl_cons]
    exact le_trans (ih (fun s hs => hl s (List.mem_cons_of_mem _ hs)) _)
      (extendPush_rounds itemsOfString r acc x (hl x (List.mem_cons_self _ _)))

/-- The items of a stored formula are items of the stored formulas. -/
theorem mem_formulaItems (itemsOfString : String → List String) (r : RsfReader)
    (key item s : String) (hv : r.getValue key = some item)
    (hs : s ∈ StrSet.ofList (itemsOfString item)) : s ∈ formulaItems itemsOfString r := by
  unfold formulaItems
  rw [List.mem_flatten]
  refine ⟨itemsOfString item, ?_, (StrSet.mem_ofList _ _).mp hs⟩
  rw [List.mem_map]
  exact ⟨(key, item), mem_of_lookup key item r.entries hv, rfl⟩

/-- The stack only grows while the items of a formula are looked at, by names that are
among the items, and a name that comes into the working set is pushed. -/
theorem foldl_extendPush_stack (l : List String) :
    ∀ acc : List String × StrSet,
      (∀ x ∈ acc.1, x ∈ (l.foldl extendPush acc).1)
        ∧ (∀ x ∈ (l.foldl extendPush acc).1, x ∈ acc.1 ∨ x ∈ l)
        ∧ (∀ x ∈ (l.foldl extendPush acc).2, x ∈ acc.2 ∨ x ∈ (l.foldl extendPush acc).1) := by
  induction l with
  | nil => intro acc; exact ⟨fun x hx => hx, fun x hx => Or.inl hx, fun x hx => Or.inl hx⟩
  | cons a rest ih =>
    intro acc
    rw [List.foldl_cons]
    obtain ⟨h1, h2, h3⟩ := ih (extendPush acc a)
    have hstep1 : ∀ x ∈ acc.1, x ∈ (extendPush acc a).1 := by
      intro x hx
      unfold extendPush
      split
      · exact hx
      · exact List.mem_cons_of_mem _ hx
    have hstep2 : ∀ x ∈ (extendPush acc a).1, x ∈ acc.1 ∨ x = a := by
      intro x hx
      unfold extendPush at hx
      split at hx
      · exact Or.inl hx
      · rcases List.mem_cons.mp hx with h | h
        · exact Or.inr h
        · exact Or.inl h
    have hstep3 : ∀ x ∈ (extendPush acc a).2, x ∈ acc.2 ∨ x ∈ (extendPush acc a).1 := by
      intro x hx
      unfold extendPush at hx ⊢
      split at hx
      · exact Or.inl hx
      · rename_i hc
        rcases (StrSet.mem_insert a x acc.2).mp hx with h | h
        · right
          simp only [hc, if_false]
          rw [h]
          exact List.mem_cons_self _ _
        · exact Or.inl h
    refine ⟨fun x hx => h1 x (hstep1 x hx), ?_, ?_⟩
    · intro x hx
      rcases h2 x hx with h | h
      · rcases hstep2 x h with h' | h'
        · exact Or.inl h'
        · exact Or.inr (List.mem_cons.mpr (Or.inl h'))
      · exact Or.inr (List.mem_cons_of_mem _ h)
    · intro x hx
      rcases h3 x hx with h | h
      · rcases hstep3 x h with h' | h'
        · exact Or.inl h'
        · exact Or.inr (h1 x h')
      · exact Or.inr h

/-- The loop of `extendWithInterestingItems`, run with enough fuel from a state in which
every name of the working set is on the stack or has the items of its formula in the
working set, leaves a set that is closed under the implication map. -/
theorem extendLoop_closed (itemsOfString : String → List String) (r : RsfReader) :
    ∀ (fuel : Nat) (stack : List String) (ws : StrSet),
      roundsLeft itemsOfString r stack ws ≤ fuel →
      (∀ x ∈ ws, x ∈ stack ∨ ∀ item, r.getValue x = some item → item ≠ "" →
        ∀ s ∈ itemsOfString item, s ∈ ws) →
      ClosedUnder itemsOfString r (extendLoop itemsOfString r fuel stack ws) := by
  intro fuel
  induction fuel with
  | zero =>
    intro stack ws h1 hinv
    have hst : stack = [] := by
      unfold roundsLeft at h1
      exact List.length_eq_zero.mp (by omega)
    subst hst
    simp only [extendLoop]
    intro x hx
    rcases hinv x hx with h | h
    · cases h
    · exact h
  | succ n ih =>
    intro stack ws h1 hinv
    cases stack with
    | nil =>
      simp only [extendLoop]
      intro x hx
      rcases hinv x hx with h | h
      · cases h
      · exact h
    | cons top rest =>
      have hpop : roundsLeft itemsOfString r rest ws + 1
          = roundsLeft itemsOfString r (top :: rest) ws := by
        unfold roundsLeft
        simp only [List.length_cons]
        omega
      unfold extendLoop
      cases hv : r.getValue top with
      | none =>
        simp only
        apply ih rest ws (by omega)
        intro x hx
        rcases hinv x hx with h | h
        · rcases List.mem_cons.mp h with h' | h'
          · right
            intro item hitem
            rw [h', hv] at hitem
            cases hitem
          · exact Or.inl h'
        · exact Or.inr h
      | some item =>
        simp only
        by_cases he : item = ""
        · simp only [he, ne_eq, not_true_eq_false, if_false]
          apply ih rest ws (by omega)
          intro x hx
          rcases hinv x hx with h | h
          · rcases List.mem_cons.mp h with h' | h'
            · right
              intro item1 hitem hne
              rw [h', hv, he] at hitem
              simp only [Option.some.injEq] at hitem
              exact absurd hitem.symm hne
            · exact Or.inl h'
          · exact Or.inr h
        · simp only [he, ne_eq, not_false_eq_true, if_true]
          have hle := foldl_extendPush_rounds itemsOfString r
            (StrSet.ofList (itemsOfString item))
            (fun s hs => mem_formulaItems itemsOfString r top item s hv hs) (rest, ws)
          simp only at hle
          obtain ⟨hk, _, hnew⟩ :=
            foldl_extendPush_stack (StrSet.ofList (itemsOfString item)) (rest, ws)
          simp only at hk hnew
          have hmem := fun s =>
            foldl_extendPush_mem (StrSet.ofList (itemsOfString item)) s (rest, ws)
          simp only at hmem
          apply ih _ _ (by omega)
          intro x hx
          rcases hnew x hx with h | h
          · rcases hinv x h with h' | h'
            · rcases List.mem_cons.mp h' with h'' | h''
              · right
                intro item1 hitem _ s hs
                rw [h'', hv] at hitem
                simp only [Option.some.injEq] at hitem
                rw [← hitem] at hs
                exact (hmem s).mpr (Or.inl ((StrSet.mem_ofList _ _).mpr hs))
              · exact Or.inl (hk x h'')
            · right
              intro item1 hitem hne s hs
              exact (hmem s).mpr (Or.inr (h' item1 hitem hne s hs))
          · exact Or.inl h

/-- What the loop of `extendWithInterestingItems` leaves lies in every set that is closed
under the implication map and holds the working set and the stack. -/
theorem extendLoop_least (itemsOfString : String → List String) (r : RsfReader)
    (S : List String) (hS : ClosedUnder itemsOfString r S) :
    ∀ (fuel : Nat) (stack : List String) (ws : StrSet),
      (∀ x ∈ stack, x ∈ S) → (∀ x ∈ ws, x ∈ S) →
      ∀ x ∈ extendLoop itemsOfString r fuel stack ws, x ∈ S := by
  intro fuel
  induction fuel with
  | zero => intro stack ws _ hws x hx; exact hws x (by simpa [extendLoop] using hx)
  | succ n ih =>
    intro stack ws hst hws x hx
    cases stack with
    | nil => exact hws x (by simpa [extendLoop] using hx)
    | cons top rest =>
      have hrest : ∀ y ∈ rest, y ∈ S := fun y hy => hst y (List.mem_cons_of_mem _ hy)
      unfold extendLoop at hx
      cases hv : r.getValue top with
      | none =>
        simp only [hv] at hx
        exact ih rest ws hrest hws x hx
      | some item =>
        simp only [hv] at hx
        by_cases he : item = ""
        · simp only [he, ne_eq, not_true_eq_false, if_false] at hx
          exact ih rest ws hrest hws x hx
        · simp only [he, ne_eq, not_false_eq_true, if_true] at hx
          have hitems : ∀ s ∈ StrSet.ofList (itemsOfString item), s ∈ S := fun s hs =>
            hS top (hst top (List.mem_cons_self _ _)) item hv he s
              ((StrSet.mem_ofList _ _).mp hs)
          obtain ⟨_, hstk, _⟩ :=
            foldl_extendPush_stack (StrSet.ofList (itemsOfString item)) (rest, ws)
          simp only at hstk
          have hmem := fun s =>
            foldl_extendPush_mem (StrSet.ofList (itemsOfString item)) s (rest, ws)
          simp only at hmem
          refine ih _ _ ?_ ?_ x hx
          · intro y hy
            rcases hstk y hy with h | h
            · exact hrest y h
            · exact hitems y h
          · intro y hy
            rcases (hmem y).mp hy with h | h
            · exact hitems y h
            · exact hws y h

/-- The fuel `extendWithInterestingItems` is given is enough. -/
theorem extend_rounds (itemsOfString : String → List String) (m : RsfConfigurationModel)
    (workingSet : StrSet) :
    roundsLeft itemsOfString m._model workingSet.reverse workingSet
      ≤ workingSet.length
        + (m._model.entries.map (fun e => (itemsOfString e.2).length)).sum := by
  unfold roundsLeft formulaItems
  have h1 := List.length_filter_le (fun u => !workingSet.contains u)
    (m._model.entries.map (fun e => itemsOfString e.2)).flatten
  rw [List.length_flatten, List.map_map] at h1
  simp only [List.length_reverse]
  have : (List.length ∘ fun e : String × String => itemsOfString e.2)
      = fun e : String × String => (itemsOfString e.2).length := rfl
  rw [this] at h1
  omega

/-- What `extendWithInterestingItems` leaves is the least superset of the working set that
is closed under the implication map. -/
theorem extend_leastClosed (itemsOfString : String → List String)
    (m : RsfConfigurationModel) (workingSet : StrSet) :
    LeastClosed itemsOfString m._model workingSet
      (m.extendWithInterestingItems itemsOfString workingSet) := by
  unfold RsfConfigurationModel.extendWithInterestingItems
  refine ⟨fun x hx => extendLoop_subset itemsOfString m._model x _ _ _ hx, ?_, ?_⟩
  · exact extendLoop_closed itemsOfString m._model _ _ _
      (extend_rounds itemsOfString m workingSet)
      (fun x hx => Or.inl (List.mem_reverse.mpr hx))
  · intro S hW hS
    exact extendLoop_least itemsOfString m._model S hS _ _ _
      (fun x hx => hW x (List.mem_reverse.mp hx)) hW

/-- Looking at an item leaves an ascending working set ascending. -/
theorem extendPush_sorted (acc : List String × StrSet) (str : String)
    (h : acc.2.Pairwise (fun a b => a.data < b.data)) :
    (extendPush acc str).2.Pairwise (fun a b => a.data < b.data) := by
  unfold extendPush
  split
  · exact h
  · exact StrSet.insert_sorted str acc.2 h

/-- Looking at the items of a formula leaves an ascending working set ascending. -/
theorem foldl_extendPush_sorted (l : List String) :
    ∀ acc : List String × StrSet, acc.2.Pairwise (fun a b => a.data < b.data) →
      (l.foldl extendPush acc).2.Pairwise (fun a b => a.data < b.data) := by
  induction l with
  | nil => intro acc h; exact h
  | cons x rest ih =>
    intro acc h
    rw [List.foldl_cons]
    exact ih _ (extendPush_sorted acc x h)

/-- The loop of `extendWithInterestingItems` leaves an ascending working set ascending. -/
theorem extendLoop_sorted (itemsOfString : String → List String) (r : RsfReader) :
    ∀ (fuel : Nat) (stack : List String) (ws : StrSet),
      ws.Pairwise (fun a b => a.data < b.data) →
      (extendLoop itemsOfString r fuel stack ws).Pairwise (fun a b => a.data < b.data) := by
  intro fuel
  induction fuel with
  | zero => intro stack ws h; simpa [extendLoop] using h
  | succ n ih =>
    intro stack ws h
    cases stack with
    | nil => simpa [extendLoop] using h
    | cons top rest =>
      unfold extendLoop
      cases hv : r.getValue top with
      | none => exact ih _ _ h
      | some item =>
        simp only
        by_cases he : item = ""
        · simp only [he, ne_eq, not_true_eq_false, if_false]
          exact ih _ _ h
        · simp only [he, ne_eq, not_false_eq_true, if_true]
          exact ih _ _ (foldl_extendPush_sorted _ (rest, ws) h)

/-- A clause is not the empty string. -/
theorem clause_ne_empty (str item : String) : "(" ++ str ++ " -> (" ++ item ++ "))" ≠ "" := by
  intro h
  have := congrArg String.length h
  simp only [String.length_append] at this
  have h1 : "(".length = 1 := rfl
  have h0 : "".length = 0 := rfl
  omega

/-- The loop of `doIntersectPreprocess` that pushes the clauses: one clause for every
name of the item set that has a non-empty formula stored, in the order of the set. -/
theorem foldl_clauses (r : RsfReader) (items : List String) :
    ∀ sj : StringJoiner,
      items.foldl (fun (sj : StringJoiner) str =>
          match r.getValue str with
          | some item =>
            if item ≠ "" then sj.push_back ("(" ++ str ++ " -> (" ++ item ++ "))") else sj
          | none => sj) sj
        = sj ++ (items.filter (fun x => (clauseOf r x).isSome)).map
            (fun x => "(" ++ x ++ " -> (" ++ (r.getValue x).getD "" ++ "))") := by
  induction items with
  | nil => intro sj; simp
  | cons x rest ih =>
    intro sj
    rw [List.foldl_cons, ih]
    cases hv : r.getValue x with
    | none => simp [clauseOf, hv]
    | some item =>
      by_cases he : item = ""
      · simp [clauseOf, hv, he]
      · have hne := clause_ne_empty x item
        simp [clauseOf, hv, he, StringJoiner.push_back, hne]

/-- The clauses `doIntersectPreprocess` pushes are those of the item set as it is after the
`ALWAYS_ON` items were inserted, the set was extended and the exclude set erased. -/
theorem rsf_preprocess_snd (itemsOfString : String → List String)
    (m : RsfConfigurationModel) (item_set : StrSet) (exclude_set : Option StrSet) :
    (m.doIntersectPreprocess itemsOfString item_set exclude_set).2
      = ((eraseItems exclude_set
            (m.extendWithInterestingItems itemsOfString
              (insertItems (m._model.getMetaValue "ALWAYS_ON") item_set))).filter
            (fun x => (clauseOf m._model x).isSome)).map
          (fun x => "(" ++ x ++ " -> (" ++ (m._model.getValue x).getD "" ++ "))") := by
  have h := foldl_clauses m._model (eraseItems exclude_set
    (m.extendWithInterestingItems itemsOfString
      (insertItems (m._model.getMetaValue "ALWAYS_ON") item_set))) []
  rw [List.nil_append] at h
  rw [← h]
  unfold RsfConfigurationModel.doIntersectPreprocess insertItems eraseItems
  cases m._model.getMetaValue "ALWAYS_ON" <;> cases m._model.getMetaValue "ALWAYS_OFF" <;>
    cases exclude_set <;> rfl

/-- C34. For a textual model and a formula `F`, the clauses `doIntersectPreprocess` emits
are exactly the strings `(name -> (formula))` for each name in the closure of the symbols
of `F` united with `ALWAYS_ON` that is not in the exclude set and has a non-empty formula
stored, each once and in ascending name order; so no emitted clause has a name of the
exclude set as its antecedent. -/
theorem C34_emitted_clauses (itemsOfString : String → List String)
    (m : RsfConfigurationModel) (F : String) (exclude_set : Option StrSet) :
    ∃ names closure : List String,
      LeastClosed itemsOfString m._model
          (insertItems (m._model.getMetaValue "ALWAYS_ON") (StrSet.ofList (itemsOfString F)))
          closure
        ∧ (∀ x, x ∈ insertItems (m._model.getMetaValue "ALWAYS_ON")
              (StrSet.ofList (itemsOfString F))
            ↔ x ∈ itemsOfString F ∨ ∃ l, m._model.getMetaValue "ALWAYS_ON" = some l ∧ x ∈ l)
        ∧ (∀ x, x ∈ names ↔ x ∈ closure ∧ (∀ ex, exclude_set = some ex → x ∉ ex)
            ∧ ∃ item, m._model.getValue x = some item ∧ item ≠ "")
        ∧ names.Pairwise (fun a b => a.data < b.data)
        ∧ names.Nodup
        ∧ (m.doIntersectPreprocess itemsOfString (StrSet.ofList (itemsOfString F))
              exclude_set).2
            = names.map
                (fun x => "(" ++ x ++ " -> (" ++ (m._model.getValue x).getD "" ++ "))") := by
  have hbase : (insertItems (m._model.getMetaValue "ALWAYS_ON")
      (StrSet.ofList (itemsOfString F))).Pairwise (fun a b => a.data < b.data) := by
    unfold insertItems
    cases m._model.getMetaValue "ALWAYS_ON" with
    | none => exact StrSet.ofList_sorted _
    | some l => exact StrSet.foldl_insert_sorted l _ (StrSet.ofList_sorted _)
  have hclos : (m.extendWithInterestingItems itemsOfString
      (insertItems (m._model.getMetaValue "ALWAYS_ON")
        (StrSet.ofList (itemsOfString F)))).Pairwise (fun a b => a.data < b.data) := by
    unfold RsfConfigurationModel.extendWithInterestingItems
    exact extendLoop_sorted itemsOfString m._model _ _ _ hbase
  have hkept : (eraseItems exclude_set (m.extendWithInterestingItems itemsOfString
      (insertItems (m._model.getMetaValue "ALWAYS_ON")
        (StrSet.ofList (itemsOfString F))))).Pairwise (fun a b => a.data < b.data) := by
    unfold eraseItems
    cases exclude_set with
    | none => exact hclos
    | some ex => exact hclos.filter _
  have hnames := hkept.filter (fun x => (clauseOf m._model x).isSome)
  refine ⟨_, _, extend_leastClosed itemsOfString m _, ?_, ?_, hnames,
    StrSet.nodup_of_sorted _ hnames, rsf_preprocess_snd itemsOfString m _ exclude_set⟩
  · intro x
    rw [mem_insertItems, StrSet.mem_ofList]
  · intro x
    rw [List.mem_filter, mem_eraseItems]
    have hcl : (clauseOf m._model x).isSome = true
        ↔ ∃ item, m._model.getValue x = some item ∧ item ≠ "" := by
      unfold clauseOf
      cases hv : m._model.getValue x with
      | none => simp
      | some item => by_cases he : item = "" <;> simp [he]
    rw [hcl]
    exact and_assoc

set_option maxRecDepth 8000 in
/-- The model `chain` on the formula `B0 && CONFIG_A` with the exclude set `CONFIG_B`: the
closure holds `CONFIG_A` to `CONFIG_D`, and the clauses of `CONFIG_A` and `CONFIG_C` are
emitted. -/
theorem chain_clauses :
    Scenario.chain.extendWithInterestingItems Scenario.itemsOfString ["B0", "CONFIG_A"]
        = ["B0", "CONFIG_A", "CONFIG_B", "CONFIG_C", "CONFIG_D"]
      ∧ (Scenario.chain.doIntersectPreprocess Scenario.itemsOfString
            (StrSet.ofList (Scenario.itemsOfString "B0 && CONFIG_A")) (some ["CONFIG_B"])).2
          = ["(CONFIG_A -> (CONFIG_B && CONFIG_C))", "(CONFIG_C -> (CONFIG_D))"] := by
  decide

/-- C34 on the model `chain`, the formula `B0 && CONFIG_A` and the exclude set `CONFIG_B`:
the clauses emitted are those of an ascending list of names. -/
theorem C34_emitted_clauses_witness :
    ∃ names : List String, names.Pairwise (fun a b => a.data < b.data)
      ∧ (Scenario.chain.doIntersectPreprocess Scenario.itemsOfString
            (StrSet.ofList (Scenario.itemsOfString "B0 && CONFIG_A")) (some ["CONFIG_B"])).2
          = names.map (fun x =>
              "(" ++ x ++ " -> (" ++ (Scenario.chain._model.getValue x).getD "" ++ "))") := by
  obtain ⟨names, _, _, _, _, hs, _, heq⟩ :=
    C34_emitted_clauses Scenario.itemsOfString Scenario.chain "B0 && CONFIG_A"
      (some ["CONFIG_B"])
  exact ⟨names, hs, heq⟩

/-! ## Facts about the common subset of `pprintAssignments` -/

/-- The value of a key after `erase`. -/
theorem lookup_mapErase {V : Type} (k : String) (m : List (String × V)) (a : String) :
    (mapErase k m).lookup a = if a = k then none else m.lookup a := by
  induction m with
  | nil => simp [mapErase]
  | cons e rest ih =>
    obtain ⟨k1, v1⟩ := e
    unfold mapErase at ih ⊢
    by_cases h1 : k1 = k
    · rw [List.filter_cons_of_neg (by simp [h1]), ih, lookup_cons_eq]
      by_cases ha : a = k
      · simp [ha]
      · have : a ≠ k1 := fun h => ha (h.trans h1)
        simp [ha, this]
    · rw [List.filter_cons_of_pos (by simp [h1]), lookup_cons_eq, lookup_cons_eq, ih]
      by_cases ha : a = k1
      · have : a ≠ k := fun h => h1 (ha.symm.trans h)
        simp [ha, this]
        intro h
        exact absurd h h1
      · simp [ha]

/-- The keys stay distinct under `erase`. -/
theorem mapErase_nodup {V : Type} (k : String) (m : List (String × V))
    (hnd : (m.map Prod.fst).Nodup) : ((mapErase k m).map Prod.fst).Nodup := by
  unfold mapErase
  exact hnd.sublist ((List.filter_sublist m).map Prod.fst)

/-- The keys of the common subset stay distinct in the first loop. -/
theorem commonStep_nodup (model : Option ConfigurationModel) (front conf : AssignmentMap)
    (cs : List (String × Bool)) (entry : String × Bool) (hnd : (cs.map Prod.fst).Nodup) :
    ((commonStep model front conf cs entry).map Prod.fst).Nodup := by
  unfold commonStep
  split
  · exact hnd
  · split
    · exact mapAssign_nodup _ _ _ hnd
    · split
      · exact mapErase_nodup _ _ hnd
      · exact hnd

/-- The keys of the common subset stay distinct in the first loop. -/
theorem foldl_commonStep_nodup (model : Option ConfigurationModel)
    (front conf : AssignmentMap) (l : List (String × Bool)) :
    ∀ cs : List (String × Bool), (cs.map Prod.fst).Nodup →
      ((l.foldl (commonStep model front conf) cs).map Prod.fst).Nodup := by
  induction l with
  | nil => intro cs h; exact h
  | cons e rest ih =>
    intro cs h
    rw [List.foldl_cons]
    exact ih _ (commonStep_nodup model front conf cs e h)

/-- The first loop over an assignment that compares equal to the first one: its entries
inside the configuration space are copied into the common subset. -/
theorem foldl_commonStep_copy (model : Option ConfigurationModel)
    (front conf : AssignmentMap) (heq : conf.eq front = true) (l : List (String × Bool))
    (hl : (l.map Prod.fst).Nodup) :
    ∀ (cs : List (String × Bool)) (n : String),
      (l.foldl (commonStep model front conf) cs).lookup n
        = if outsideSpace model n = false ∧ (l.lookup n).isSome = true then l.lookup n
          else cs.lookup n := by
  induction l with
  | nil => intro cs n; simp
  | cons e rest ih =>
    obtain ⟨k, w⟩ := e
    simp only [List.map_cons, List.nodup_cons] at hl
    intro cs n
    rw [List.foldl_cons, ih hl.2, lookup_cons_eq]
    have hrest : n = k → rest.lookup n = none := by
      intro hnk
      rw [hnk]
      exact (lookup_eq_none_iff k rest).mpr hl.1
    have hstep : (commonStep model front conf cs (k, w)).lookup n
        = if outsideSpace model k = false ∧ n = k then some w else cs.lookup n := by
      unfold commonStep
      cases ho : outsideSpace model k with
      | true => simp
      | false =>
        simp only [Bool.false_eq_true, if_false, heq, if_true, lookup_mapAssign, true_and]
    rw [hstep]
    by_cases hnk : n = k
    · subst hnk
      rw [hrest rfl]
      cases ho : outsideSpace model n <;> simp
    · simp [hnk]

/-- The first loop over an assignment that does not compare equal to the first one: a name
stays in the common subset unless it is inside the configuration space and the
assignment binds it to another value. -/
theorem foldl_commonStep_erase (model : Option ConfigurationModel)
    (front conf : AssignmentMap) (heq : conf.eq front = false) (l : List (String × Bool))
    (hl : (l.map Prod.fst).Nodup) :
    ∀ (cs : List (String × Bool)) (n : String) (v : Bool),
      (l.foldl (commonStep model front conf) cs).lookup n = some v
        ↔ cs.lookup n = some v
          ∧ ¬(outsideSpace model n = false ∧ ∃ w, l.lookup n = some w ∧ w ≠ v) := by
  induction l with
  | nil => intro cs n v; simp
  | cons e rest ih =>
    obtain ⟨k, w⟩ := e
    simp only [List.map_cons, List.nodup_cons] at hl
    intro cs n v
    rw [List.foldl_cons, ih hl.2, lookup_cons_eq]
    have hrest : n = k → rest.lookup n = none := by
      intro hnk
      rw [hnk]
      exact (lookup_eq_none_iff k rest).mpr hl.1
    have hstep : (commonStep model front conf cs (k, w)).lookup n = some v
        ↔ cs.lookup n = some v ∧ ¬(n = k ∧ outsideSpace model k = false ∧ w ≠ v) := by
      unfold commonStep
      cases ho : outsideSpace model k with
      | true => simp
      | false =>
        simp only [Bool.false_eq_true, if_false, heq]
        cases hc : cs.lookup k with
        | none =>
          simp only [Bool.false_eq_true, if_false]
          constructor
          · intro h
            refine ⟨h, ?_⟩
            rintro ⟨hnk, _, _⟩
            rw [hnk, hc] at h
            cases h
          · exact fun h => h.1
        | some v' =>
          by_cases hvw : v' = w
          · subst hvw
            simp only [bne_self_eq_false, Bool.false_eq_true, if_false]
            constructor
            · intro h
              refine ⟨h, ?_⟩
              rintro ⟨hnk, _, hne⟩
              rw [hnk, hc] at h
              simp only [Option.some.injEq] at h
              exact hne h
            · exact fun h => h.1
          · have hb : (v' != w) = true := by simpa using hvw
            simp only [hb, if_true, lookup_mapErase]
            by_cases hnk : n = k
            · subst hnk
              simp only [if_true, true_and, ne_eq, not_not]
              constructor
              · intro h
                cases h
              · rintro ⟨h1, h2⟩
                rw [hc] at h1
                simp only [Option.some.injEq] at h1
                exact absurd (h1.trans h2.symm) hvw
            · simp [hnk]
    rw [hstep]
    by_cases hnk : n = k
    · subst hnk
      rw [hrest rfl]
      simp
    · simp [hnk]

/-- The first loop over assignments none of which compares equal to the first one. -/
theorem foldl_confs_erase (model : Option ConfigurationModel) (front : AssignmentMap)
    (confs : List AssignmentMap) (heq : ∀ conf ∈ confs, AssignmentMap.eq conf front = false)
    (hnd : ∀ conf ∈ confs, (conf.map Prod.fst).Nodup) :
    ∀ (cs : List (String × Bool)) (n : String) (v : Bool),
      (confs.foldl (fun common_subset conf =>
          conf.foldl (commonStep model front conf) common_subset) cs).lookup n = some v
        ↔ cs.lookup n = some v
          ∧ ∀ conf ∈ confs,
              ¬(outsideSpace model n = false ∧ ∃ w, conf.lookup n = some w ∧ w ≠ v) := by
  induction confs with
  | nil => intro cs n v; simp
  | cons c rest ih =>
    intro cs n v
    rw [List.foldl_cons,
      ih (fun conf hc => heq conf (List.mem_cons_of_mem _ hc))
        (fun conf hc => hnd conf (List.mem_cons_of_mem _ hc)),
      foldl_commonStep_erase model front c (heq c (List.mem_cons_self _ _)) c
        (hnd c (List.mem_cons_self _ _))]
    simp only [List.mem_cons, forall_eq_or_imp]
    exact and_assoc

/-- The keys of the common subset are distinct after the first loop. -/
theorem commonFirst_nodup (model : Option ConfigurationModel) (solutions : List AssignmentMap) :
    ((commonFirst model solutions).map Prod.fst).Nodup := by
  unfold commonFirst
  cases solutions with
  | nil => simp
  | cons front rest =>
    simp only
    generalize hg : (front :: rest) = l
    have : ∀ (l : List AssignmentMap) (cs : List (String × Bool)), (cs.map Prod.fst).Nodup →
        ((l.foldl (fun common_subset conf =>
            conf.foldl (commonStep model front conf) common_subset) cs).map Prod.fst).Nodup := by
      intro l
      induction l with
      | nil => intro cs h; exact h
      | cons c r ih =>
        intro cs h
        rw [List.foldl_cons]
        exact ih _ (foldl_commonStep_nodup model front c c cs h)
    exact this l [] (by simp)

/-- What `pprintAssignments` writes under its first heading when every assignment is a map
(no key twice), no assignment after the first compares equal to the first, and the second
loop erases nothing: the lines of exactly the symbols inside the configuration space that
every assignment binds to the same value, each with that value. -/
theorem pprintAssignments_equally_set (model : Option ConfigurationModel)
    (front : AssignmentMap) (rest : List AssignmentMap)
    (hnd : ∀ conf ∈ front :: rest, (conf.map Prod.fst).Nodup)
    (heq : ∀ conf ∈ rest, AssignmentMap.eq conf front = false)
    (common : List (String × Bool))
    (hsec : commonSecond (front :: rest) (commonFirst model (front :: rest)) = some common) :
    equallySetLines (front :: rest) model = some (common.map valueLine)
      ∧ (common.map Prod.fst).Nodup
      ∧ ∀ entry, entry ∈ common ↔ EquallySet (front :: rest) model entry := by
  have hfn : (front.map Prod.fst).Nodup := hnd front (List.mem_cons_self _ _)
  have hff : AssignmentMap.eq front front = true := by
    rw [AssignmentMap.eq_iff]
    intro e he
    exact lookup_of_mem e.1 e.2 front hfn he
  have hlook : ∀ (n : String) (v : Bool),
      (commonFirst model (front :: rest)).lookup n = some v
        ↔ outsideSpace model n = false ∧ front.lookup n = some v
          ∧ ∀ conf ∈ rest, ∀ w, conf.lookup n = some w → w = v := by
    intro n v
    unfold commonFirst
    simp only [List.foldl_cons]
    rw [foldl_confs_erase model front rest heq
        (fun conf hc => hnd conf (List.mem_cons_of_mem _ hc)),
      foldl_commonStep_copy model front front hff front hfn]
    simp only [List.lookup_nil]
    constructor
    · rintro ⟨h1, h2⟩
      by_cases ho : outsideSpace model n = false ∧ (front.lookup n).isSome = true
      · rw [if_pos ho] at h1
        refine ⟨ho.1, h1, ?_⟩
        intro conf hc w hw
        by_contra hne
        exact h2 conf hc ⟨ho.1, w, hw, hne⟩
      · rw [if_neg ho] at h1
        cases h1
    · rintro ⟨h1, h2, h3⟩
      have ho : outsideSpace model n = false ∧ (front.lookup n).isSome = true :=
        ⟨h1, by rw [h2]; rfl⟩
      rw [if_pos ho]
      refine ⟨h2, ?_⟩
      rintro conf hc ⟨_, w, hw, hne⟩
      exact hne (h3 conf hc w hw)
  unfold commonSecond at hsec
  split at hsec
  · rename_i hall
    simp only [Option.some.injEq] at hsec
    subst hsec
    rw [List.all_eq_true] at hall
    refine ⟨?_, commonFirst_nodup model _, ?_⟩
    · unfold equallySetLines commonSecond
      rw [if_pos (List.all_eq_true.mpr hall)]
      rfl
    · intro entry
      obtain ⟨n, v⟩ := entry
      constructor
      · intro hmem
        have hl := lookup_of_mem n v _ (commonFirst_nodup model _) hmem
        obtain ⟨h1, h2, h3⟩ := (hlook n v).mp hl
        refine ⟨h1, ?_⟩
        intro conf hc
        rcases List.mem_cons.mp hc with hcf | hcr
        · rw [hcf]
          exact h2
        · have hpres := hall (n, v) hmem
          rw [List.all_eq_true] at hpres
          have := hpres conf hc
          cases hcl : conf.lookup n with
          | none => simp [hcl] at this
          | some w => rw [h3 conf hcr w hcl]
      · rintro ⟨h1, h2⟩
        apply mem_of_lookup
        apply (hlook n v).mpr
        refine ⟨h1, h2 front (List.mem_cons_self _ _), ?_⟩
        intro conf hc w hw
        have := h2 conf (List.mem_cons_of_mem _ hc)
        simp only at this hw
        rw [hw] at this
        simpa using this
  · cases hsec

end Undertaker
